import Mathlib

set_option autoImplicit false

/-!
# Kanban task state machine: shallow embedding and verified properties

The development embeds the task command handlers of
`bot-features/kanban` (`tasks_handlers.go`, `tasks_util.go`, `util.go`,
`data.go`, and the task cases of the dispatch in `handlers.go`) as pure Lean
functions, and with them the creation of a project (`handleKanbanCreate` in
`handlers.go`, `createFile` and `findAvailableSlug` in `data.go`, the guards
of `ensureProjectRoles` in `roles.go`).

Modelling conventions.

* A Go `string` is a Lean `String` (a sequence of Unicode code points; byte
  sequences that are not valid UTF-8 are outside the model).
* A Go `map[string]V` is an association list `GoMap V` read by first match.
  A `nil` outer map reads like an empty map in Go and is identified with
  the empty list; the inner maps of `ForumTagIDs` keep `nil` apart from
  empty (`Option`), because `normalizeProject` treats the two differently.
  A `range` over a map visits the keys that the map held when the loop
  started, in list order, and reads the value the map holds at the moment
  of the visit (one of the schedules the Go specification allows).
* The record files of `kanban-data/` are the state `Files`: file name to
  decoded record. JSON encoding and decoding are the identity on records.
* The chat platform and the operating system are an oracle `Env` that fixes
  the outcome of every fallible external call of one handler invocation.
  Every handler returns an `Outcome`: the ephemeral response, the files
  afterwards and the log of external writes that took effect, in order.
-/

namespace Kanban

/-! ## Strings -/

/-- Go `unicode.IsSpace`: the code points with the Unicode White_Space
property, which is the set `strings.TrimSpace` removes. -/
def isSpace (c : Char) : Bool :=
  c.toNat = 0x09 || c.toNat = 0x0A || c.toNat = 0x0B || c.toNat = 0x0C ||
  c.toNat = 0x0D || c.toNat = 0x20 || c.toNat = 0x85 || c.toNat = 0xA0 ||
  c.toNat = 0x1680 || (0x2000 ≤ c.toNat && c.toNat ≤ 0x200A) ||
  c.toNat = 0x2028 || c.toNat = 0x2029 || c.toNat = 0x202F ||
  c.toNat = 0x205F || c.toNat = 0x3000

/-- Go `strings.TrimSpace` on the code points of a string. -/
def trimChars (l : List Char) : List Char :=
  (l.dropWhile isSpace).rdropWhile isSpace

/-- Go `strings.TrimSpace`: leading and trailing white space removed. -/
def trimSpace (s : String) : String :=
  String.mk (trimChars s.data)

/-- Go `unicode.ToLower` as far as its callers can observe it: ASCII capitals
and the two non-ASCII code points whose lower case is ASCII (U+0130 and the
Kelvin sign U+212A) are mapped as in Go. Every other non-ASCII code point is
mapped by Go to a non-ASCII code point and is left in place here; `slugify`
deletes all of them and `load_all_files` compares with ASCII text only. -/
def toLowerRune (c : Char) : Char :=
  if 0x41 ≤ c.toNat ∧ c.toNat ≤ 0x5A then Char.ofNat (c.toNat + 32)
  else if c.toNat = 0x130 then 'i'
  else if c.toNat = 0x212A then 'k'
  else c

/-- Go `strings.ToLower`. -/
def toLower (s : String) : String :=
  String.mk (s.data.map toLowerRune)

/-- Go `strings.HasSuffix`. -/
def hasSuffix (s suffix : String) : Bool :=
  suffix.data.isSuffixOf s.data

/-- Go `strings.TrimSuffix`. -/
def trimSuffix (s suffix : String) : String :=
  if hasSuffix s suffix then String.mk (s.data.take (s.data.length - suffix.data.length))
  else s

/-- Scan of `filepath.Ext` from the end of the path: `rev` is what is left of
the reversed path and `acc` the characters already passed. -/
def extScan : List Char → List Char → List Char
  | [], _ => []
  | c :: rev, acc =>
    if c = '/' then []
    else if c = '.' then '.' :: acc
    else extScan rev (c :: acc)

/-- Go `filepath.Ext`: the suffix starting at the last dot of the last path
element, empty when there is none. -/
def fileExt (path : String) : String :=
  String.mk (extScan path.data.reverse [])

/-- The characters `slugRe` (the complement class of `a-z0-9-`) leaves in place. -/
def slugChar (c : Char) : Bool :=
  (0x61 ≤ c.toNat && c.toNat ≤ 0x7A) || (0x30 ≤ c.toNat && c.toNat ≤ 0x39) ||
  c.toNat = 0x2D

/-- The test of `strings.Trim(s, "-")`. -/
def isDash (c : Char) : Bool := c.toNat = 0x2D

/-- Source `slugify` (data.go). -/
def slugify (s : String) : String :=
  let s1 := (toLower (trimSpace s)).data
  let s2 := s1.map (fun c => if c = ' ' then '-' else c)
  let s3 := s2.filter slugChar
  let s4 := (s3.dropWhile isDash).rdropWhile isDash
  if String.mk s4 = "" then "project" else String.mk s4

/-! ## Go maps as association lists -/

/-- A Go `map[string]V`. -/
abbrev GoMap (V : Type) := List (String × V)

/-- Map read `m[k]` with the comma-ok result. -/
def mapGet {V : Type} : GoMap V → String → Option V
  | [], _ => none
  | (k1, v) :: rest, k => if k1 = k then some v else mapGet rest k

/-- Go `delete(m, k)`. -/
def mapDelete {V : Type} (m : GoMap V) (k : String) : GoMap V :=
  m.filter (fun e => decide (e.1 ≠ k))

/-- Map write `m[k] = v`: an existing entry is replaced in place, a new key is
added at the end. -/
def mapSet {V : Type} : GoMap V → String → V → GoMap V
  | [], k, v => [(k, v)]
  | (k1, v1) :: rest, k, v =>
    if k1 = k then (k, v) :: mapDelete rest k else (k1, v1) :: mapSet rest k v

/-- The keys a `range` loop starts with. -/
def mapKeys {V : Type} (m : GoMap V) : List String := m.map Prod.fst

/-! ## Data model (data.go) -/

/-- Source constant `Leader` of type `ProjectRole`. -/
def Leader : String := "leader"

/-- Source constant `Member` of type `ProjectRole`. -/
def Member : String := "member"

/-- Source constant `TaskToDo`. -/
def TaskToDo : String := "todo"

/-- Source constant `TaskInProgress`. -/
def TaskInProgress : String := "in_progress"

/-- Source constant `TaskWaitingForApprove`. -/
def TaskWaitingForApprove : String := "waiting_for_approve"

/-- Source constant `TaskDone`. -/
def TaskDone : String := "done"

/-- Source struct `ProjectTask`; `TaskStatus` is a string type. -/
structure ProjectTask where
  ThreadID : String
  ForumID : String
  Status : String
  AssigneeUserID : String
  StatusMessageID : String
  DoneDescription : String
  ApprovedByUserID : String
  deriving DecidableEq, Repr

/-- The Go zero value `ProjectTask{}`, read for a missing map key. -/
def ProjectTask.zero : ProjectTask := ⟨"", "", "", "", "", "", ""⟩

/-- Source struct `Project`. -/
structure Project where
  GuildID : String
  Name : String
  Slug : String
  MemberRoleID : String
  LeaderRoleID : String
  Members : GoMap String
  CategoryID : String
  ForumChannelIDs : List String
  ForumTagIDs : GoMap (Option (GoMap String))
  Tasks : GoMap ProjectTask
  deriving DecidableEq, Repr

/-- The Go zero value `Project{}`. -/
def Project.zero : Project := ⟨"", "", "", "", "", [], "", [], [], []⟩

/-- One visit of the inner loop of `normalizeProject` over a tag map. -/
def cleanTagStep (m : GoMap String) (name : String) : GoMap String :=
  match mapGet m name with
  | none => m
  | some id =>
    let tn := trimSpace name
    let tid := trimSpace id
    if tn = "" ∨ tid = "" then mapDelete m name
    else if tn ≠ name then mapSet (mapDelete m name) tn tid
    else mapSet m tn tid

/-- The inner loop of `normalizeProject` over one tag map. -/
def cleanTagMap (m : GoMap String) : GoMap String :=
  (mapKeys m).foldl cleanTagStep m

/-- One visit of the loop `Clean ForumTagIDs` of `normalizeProject`. The
inner map is shared by reference in Go, so the entry stored under the
trimmed key ends up holding the cleaned map. -/
def cleanForumTagsStep (M : GoMap (Option (GoMap String))) (fid : String) :
    GoMap (Option (GoMap String)) :=
  match mapGet M fid with
  | none => M
  | some none => mapDelete M fid
  | some (some m) =>
    let tf := trimSpace fid
    if tf = "" then mapDelete M fid
    else
      let M1 := if tf ≠ fid then mapDelete (mapSet M tf (some m)) fid else M
      mapSet M1 tf (some (cleanTagMap m))

/-- The loop `Clean ForumTagIDs` of `normalizeProject`. -/
def cleanForumTags (M : GoMap (Option (GoMap String))) : GoMap (Option (GoMap String)) :=
  (mapKeys M).foldl cleanForumTagsStep M

/-- The field updates the loop `Clean Tasks` of `normalizeProject` applies to
the task found under a key whose trimmed form is `tid`. -/
def normalizeTask (tid : String) (t : ProjectTask) : ProjectTask :=
  { ThreadID := if trimSpace t.ThreadID = "" then tid else trimSpace t.ThreadID
    ForumID := trimSpace t.ForumID
    Status := if trimSpace t.Status = "" then TaskToDo else t.Status
    AssigneeUserID := trimSpace t.AssigneeUserID
    StatusMessageID := trimSpace t.StatusMessageID
    DoneDescription := trimSpace t.DoneDescription
    ApprovedByUserID := trimSpace t.ApprovedByUserID }

/-- One visit of the loop `Clean Tasks` of `normalizeProject`. -/
def cleanTasksStep (m : GoMap ProjectTask) (threadID : String) : GoMap ProjectTask :=
  match mapGet m threadID with
  | none => m
  | some t =>
    let tid := trimSpace threadID
    if tid = "" then mapDelete m threadID
    else
      let m1 := if tid ≠ threadID then mapDelete m threadID else m
      mapSet m1 tid (normalizeTask tid t)

/-- The loop `Clean Tasks` of `normalizeProject`. -/
def cleanTasks (m : GoMap ProjectTask) : GoMap ProjectTask :=
  (mapKeys m).foldl cleanTasksStep m

/-- Source `normalizeProject` (data.go). The four `nil` checks are the
identity on the model, where a `nil` container is the empty list. -/
def normalizeProject (p : Project) : Project :=
  let name := trimSpace p.Name
  { GuildID := trimSpace p.GuildID
    Name := name
    Slug := if p.Slug = "" then slugify name else slugify p.Slug
    MemberRoleID := trimSpace p.MemberRoleID
    LeaderRoleID := trimSpace p.LeaderRoleID
    Members := p.Members
    CategoryID := trimSpace p.CategoryID
    ForumChannelIDs := p.ForumChannelIDs
    ForumTagIDs := cleanForumTags p.ForumTagIDs
    Tasks := cleanTasks p.Tasks }

/-! ## Record files (data.go) -/

/-- The regular files of the directory `kanban-data`, by file name, each with
its decoded record. -/
abbrev Files := GoMap Project

/-- Source `projectPathBySlug`, as a file name inside `kanban-data`
(`filepath.Join` puts the directory in front). -/
def projectPathBySlug (slug : String) : String := slug ++ ".json"

/-! ## The platform library (discordgo) and the oracle -/

namespace discordgo

/-- Library struct `discordgo.User`, the field the handlers read. -/
structure User where
  ID : String
  deriving DecidableEq, Repr

/-- Library struct `discordgo.Member`, the fields the handlers read. -/
structure Member where
  User : Option User
  Roles : List String
  deriving DecidableEq, Repr

/-- Library struct `discordgo.ForumTag`, the fields the handlers read. -/
structure ForumTag where
  ID : String
  Name : String
  deriving DecidableEq, Repr

/-- Library struct `discordgo.Channel`, the fields the handlers read
(`ChannelType` is the field `Type`). -/
structure Channel where
  ID : String
  ChannelType : Nat
  ParentID : String
  AvailableTags : List ForumTag
  deriving DecidableEq, Repr

/-- Library constant `discordgo.ChannelTypeGuildNewsThread`. -/
def ChannelTypeGuildNewsThread : Nat := 10

/-- Library constant `discordgo.ChannelTypeGuildPublicThread`. -/
def ChannelTypeGuildPublicThread : Nat := 11

/-- Library constant `discordgo.ChannelTypeGuildPrivateThread`. -/
def ChannelTypeGuildPrivateThread : Nat := 12

/-- Library struct `discordgo.MessageEmbedField`. -/
structure MessageEmbedField where
  Name : String
  Value : String
  Inline : Bool
  deriving DecidableEq, Repr

/-- Library struct `discordgo.MessageEmbed`, the fields the panel sets. -/
structure MessageEmbed where
  Title : String
  Description : String
  Fields : List MessageEmbedField
  deriving DecidableEq, Repr

/-- Library struct `discordgo.InteractionCreate`, the fields the handlers
read. The handlers dereference the interaction, so it is never `nil`. -/
structure InteractionCreate where
  GuildID : String
  ChannelID : String
  Member : Option Member
  User : Option User
  deriving DecidableEq, Repr

end discordgo

open discordgo

/-- The outcome of every fallible external call during one handler
invocation. An error is carried as its message text. -/
structure Env where
  /-- The session cache `s.State.Channel`: the channel when the cache has it. -/
  stateChannel : String → Option Channel
  /-- The request `s.Channel`: an error, or the channel (possibly `nil`). -/
  restChannel : String → Except String (Option Channel)
  /-- An I/O or decoding failure inside `load_all_files`. -/
  loadErr : Option String
  /-- The request `ChannelMessageSendEmbed`: an error, or the message
  (possibly `nil`) given by its ID. -/
  sendEmbed : Except String (Option String)
  /-- The request `ChannelMessagePin`. -/
  pinErr : Option String
  /-- The request `ChannelMessageEditEmbed`. -/
  editEmbedErr : Option String
  /-- The request `ChannelEditComplex` that sets the applied tags. -/
  editTagsErr : Option String
  /-- The request `ChannelMessageSend`. -/
  sendErr : Option String
  /-- The call `ensureDataDir` inside `updateFile`. -/
  mkdirErr : Option String
  /-- A failure of `os.Stat` other than the file not existing. -/
  statErr : Option String
  /-- A failure of `json.MarshalIndent` or `os.WriteFile`. -/
  writeErr : Option String
  /-- A failure of `os.Rename`. -/
  renameErr : Option String
  /-- The text of `time.Now().Format(time.RFC3339)`. -/
  now : String

/-- An external write that took effect. -/
inductive Effect where
  | respond (content : String)
  | messageSendEmbed (channelID : String) (embed : MessageEmbed)
  | messagePin (channelID messageID : String)
  | messageEditEmbed (channelID messageID : String) (embed : MessageEmbed)
  | channelEditTags (channelID : String) (appliedTags : List String)
  | messageSend (channelID content : String)
  | storeWrite (path : String) (p : Project)
  deriving DecidableEq, Repr

/-- What one handler invocation leaves behind. -/
structure Outcome where
  response : String
  files : Files
  log : List Effect
  deriving DecidableEq, Repr

/-- Source `respondEphemeral` followed by the handler returning: the response
is sent (its error is ignored by the source) and the invocation ends. -/
def respondEphemeral (files : Files) (log : List Effect) (msg : String) : Outcome :=
  { response := msg, files := files, log := log ++ [Effect.respond msg] }

/-! ## Store operations (data.go) -/

/-- Source `writeProjectAtomic`: the record is written to the temporary file
and renamed over the record file. -/
def writeProjectAtomic (env : Env) (files : Files) (path : String) (p : Project) :
    Option String × Files :=
  let tmp := path ++ ".tmp"
  match env.writeErr with
  | some err => (some err, files)
  | none =>
    let files1 := mapSet files tmp p
    match env.renameErr with
    | some err => (some err, files1)
    | none => (none, mapSet (mapDelete files1 tmp) path p)

/-- Source `updateFile`: the error, if any, and the files afterwards. -/
def updateFile (env : Env) (files : Files) (p : Project) : Option String × Files :=
  match env.mkdirErr with
  | some err => (some err, files)
  | none =>
    let p := normalizeProject p
    if p.Slug = "" then (some "slug required for update", files)
    else
      let path := projectPathBySlug p.Slug
      match env.statErr with
      | some err => (some err, files)
      | none =>
        match mapGet files path with
        | none => (some ("project not found: " ++ p.Slug), files)
        | some _ => writeProjectAtomic env files path p

/-- One directory entry of the loop of `load_all_files`. -/
def loadStep (out : GoMap Project) (e : String × Project) : GoMap Project :=
  let name := e.1
  let low := toLower name
  if ¬ hasSuffix low ".json" then out
  else if hasSuffix low ".tmp" then out
  else
    let p := normalizeProject e.2
    let p := if p.Slug = "" then { p with Slug := trimSuffix name (fileExt name) } else p
    mapSet out p.Slug p

/-- Source `load_all_files`: the projects by slug, or the error. -/
def load_all_files (env : Env) (files : Files) : Except String (GoMap Project) :=
  match env.loadErr with
  | some err => Except.error err
  | none => Except.ok (files.foldl loadStep [])

/-! ## Helpers of the task commands (tasks_util.go, util.go) -/

/-- Source struct `taskContext`. -/
structure taskContext where
  ThreadID : String
  ForumID : String
  deriving DecidableEq, Repr

/-- Source `mustGuild`: the error, if any. -/
def mustGuild (i : InteractionCreate) : Option String :=
  if trimSpace i.GuildID = "" then some "guild required" else none

/-- Source `getAuthorID`. -/
def getAuthorID (i : InteractionCreate) : String :=
  match i.Member with
  | some ⟨some u, _⟩ => trimSpace u.ID
  | _ =>
    match i.User with
    | some u => trimSpace u.ID
    | none => ""

/-- Source `getChannelSafe`, with a session that is not `nil`: the cache is
asked first and the request is made when the cache has no channel. -/
def getChannelSafe (env : Env) (channelID : String) : Except String (Option Channel) :=
  let channelID := trimSpace channelID
  if channelID = "" then Except.error "channelID required"
  else
    match env.stateChannel channelID with
    | some ch => Except.ok (some ch)
    | none => env.restChannel channelID

/-- Source `mustTaskContext`. The source sends the failure response itself
and returns `false`; here the failure carries the response text and the
handler sends it. -/
def mustTaskContext (env : Env) (i : InteractionCreate) : Except String taskContext :=
  let threadID := trimSpace i.ChannelID
  if threadID = "" then Except.error "error: this command must be used inside a thread"
  else
    match getChannelSafe env threadID with
    | Except.error _ => Except.error "error: failed to read current channel"
    | Except.ok none => Except.error "error: failed to read current channel"
    | Except.ok (some ch) =>
      if ch.ChannelType ≠ ChannelTypeGuildPublicThread ∧
          ch.ChannelType ≠ ChannelTypeGuildPrivateThread ∧
          ch.ChannelType ≠ ChannelTypeGuildNewsThread then
        Except.error "error: this command must be used inside a forum post thread"
      else
        let forumID := trimSpace ch.ParentID
        if forumID = "" then Except.error "error: thread has no parent forum"
        else Except.ok { ThreadID := threadID, ForumID := forumID }

/-- The test of the loop of `findProjectByThreadContext` on one project, with
the guild and forum IDs already trimmed. -/
def projectMatches (guildID forumID : String) (p : Project) : Bool :=
  decide (trimSpace p.GuildID = guildID) &&
    p.ForumChannelIDs.any (fun fid => decide (trimSpace fid = forumID))

/-- Source `findProjectByThreadContext`: the project, the success flag and
the hint. -/
def findProjectByThreadContext (projects : GoMap Project) (guildID forumID : String) :
    Project × Bool × String :=
  let guildID := trimSpace guildID
  let forumID := trimSpace forumID
  if guildID = "" then (Project.zero, false, "guild required")
  else if forumID = "" then (Project.zero, false, "forum required")
  else
    match (projects.map Prod.snd).filter (projectMatches guildID forumID) with
    | [] =>
      (Project.zero, false,
        "thread is not under any known project forum (create forum via /kanban create-forum)")
    | [p] => (p, true, p.Slug)
    | _ => (Project.zero, false, "multiple projects match this forum (data conflict)")

/-- Source `humanStatus`. -/
def humanStatus (s : String) : String :=
  if s = TaskToDo then "🟥 ToDo"
  else if s = TaskInProgress then "🟨 InProgress"
  else if s = TaskWaitingForApprove then "🟦 WaitingForApprove"
  else if s = TaskDone then "🟩 Done"
  else s

/-- Source `buildStatusEmbed`. -/
def buildStatusEmbed (p : Project) (task : ProjectTask) : MessageEmbed :=
  let statusText := humanStatus task.Status
  let assignee :=
    if trimSpace task.AssigneeUserID ≠ "" then "<@" ++ task.AssigneeUserID ++ ">" else "—"
  let approved :=
    if trimSpace task.ApprovedByUserID ≠ "" then "<@" ++ task.ApprovedByUserID ++ ">" else "—"
  let desc := if trimSpace task.DoneDescription ≠ "" then task.DoneDescription else "—"
  { Title := "Task Status Panel"
    Description := "Read-only panel. Use /kanban task-* commands to update."
    Fields :=
      [ { Name := "Project", Value := p.Name ++ " (`" ++ p.Slug ++ "`)", Inline := false },
        { Name := "Status", Value := statusText, Inline := true },
        { Name := "Assignee", Value := assignee, Inline := true },
        { Name := "Approved By", Value := approved, Inline := true },
        { Name := "Done Description", Value := desc, Inline := false } ] }

/-- Source `ensureStatusPanel`: the message ID or the error, and the writes
that took effect. -/
def ensureStatusPanel (env : Env) (p : Project) (task : ProjectTask) :
    Except String String × List Effect :=
  if trimSpace task.StatusMessageID ≠ "" then (Except.ok task.StatusMessageID, [])
  else
    let embed := buildStatusEmbed p task
    match env.sendEmbed with
    | Except.error err => (Except.error err, [])
    | Except.ok none =>
      (Except.error "discord returned empty message",
        [Effect.messageSendEmbed task.ThreadID embed])
    | Except.ok (some id) =>
      if trimSpace id = "" then
        (Except.error "discord returned empty message",
          [Effect.messageSendEmbed task.ThreadID embed])
      else
        (Except.ok id,
          Effect.messageSendEmbed task.ThreadID embed ::
            (if env.pinErr = none then [Effect.messagePin task.ThreadID id] else []))

/-- Source `upsertStatusPanel`: the error, if any, and the writes that took
effect. The task is passed by value, so the ID of a message created here
does not reach the caller. -/
def upsertStatusPanel (env : Env) (p : Project) (task : ProjectTask) :
    Option String × List Effect :=
  let msgID := trimSpace task.StatusMessageID
  let created : Except String (String × ProjectTask) × List Effect :=
    if msgID = "" then
      match ensureStatusPanel env p task with
      | (Except.error err, log) => (Except.error err, log)
      | (Except.ok id, log) => (Except.ok (id, { task with StatusMessageID := id }), log)
    else (Except.ok (msgID, task), [])
  match created with
  | (Except.error err, log) => (some err, log)
  | (Except.ok (msgID, task), log) =>
    let embed := buildStatusEmbed p task
    match env.editEmbedErr with
    | some err => (some err, log)
    | none => (none, log ++ [Effect.messageEditEmbed task.ThreadID msgID embed])

/-- Source `memberHasRole`. -/
def memberHasRole (m : Option discordgo.Member) (roleID : String) : Bool :=
  match m with
  | none => false
  | some m => if roleID = "" then false else decide (roleID ∈ m.Roles)

/-- Source `isLeaderForProject`, for an interaction that is not `nil`. A map
read of a missing key gives the empty role, which is not `Leader`. -/
def isLeaderForProject (i : InteractionCreate) (authorID : String) (p : Project) : Bool :=
  if i.Member.isSome ∧ trimSpace p.LeaderRoleID ≠ "" ∧
      memberHasRole i.Member p.LeaderRoleID = true then true
  else if authorID ≠ "" then decide ((mapGet p.Members authorID).getD "" = Leader)
  else false

/-- Source `statusToTagName`. -/
def statusToTagName (st : String) : String :=
  if st = TaskToDo then "ToDo"
  else if st = TaskInProgress then "InProgress"
  else if st = TaskWaitingForApprove then "WaitingForApprove"
  else if st = TaskDone then "Done"
  else ""

/-- The loop of `ensureForumTagMapping` over the available tags of the forum. -/
def collectTagIDs (tags : List ForumTag) : GoMap String :=
  tags.foldl (fun m t => if t.Name ≠ "" ∧ t.ID ≠ "" then mapSet m t.Name t.ID else m) []

/-- A read `p.ForumTagIDs[forumID]`: a missing key and a `nil` map both read
as the map without entries. -/
def forumTagMap (p : Project) (forumID : String) : GoMap String :=
  ((mapGet p.ForumTagIDs forumID).getD none).getD []

/-- Source `ensureForumTagMapping`: the project, and the error if any. -/
def ensureForumTagMapping (env : Env) (p : Project) (forumID : String) :
    Project × Option String :=
  let forumID := trimSpace forumID
  if forumID = "" then (p, some "forumID required")
  else if (forumTagMap p forumID).length > 0 then (p, none)
  else
    match getChannelSafe env forumID with
    | Except.error err => (p, some err)
    | Except.ok none => (p, some "forum channel not found")
    | Except.ok (some ch) =>
      let tagIDs := collectTagIDs ch.AvailableTags
      if tagIDs.length = 0 then (p, some "forum has no tags configured")
      else ({ p with ForumTagIDs := mapSet p.ForumTagIDs forumID (some tagIDs) }, none)

/-- Source `applyStatusTagToThread`: the error, or the write that took effect. -/
def applyStatusTagToThread (env : Env) (p : Project) (forumID threadID status : String) :
    Except String (List Effect) :=
  let threadID := trimSpace threadID
  if threadID = "" then Except.error "threadID required"
  else
    let forumID := trimSpace forumID
    if forumID = "" then Except.error "forumID required"
    else
      let tagName := statusToTagName status
      if tagName = "" then Except.error ("unknown status: " ++ status)
      else
        let m := forumTagMap p forumID
        if m.length = 0 then Except.error "no tag mapping for forum"
        else
          let tagID := trimSpace ((mapGet m tagName).getD "")
          if tagID = "" then
            Except.error ("missing tag id for \"" ++ tagName ++ "\" in forum " ++ forumID)
          else
            match env.editTagsErr with
            | some err => Except.error err
            | none => Except.ok [Effect.channelEditTags threadID [tagID]]

/-! ## The task command handlers (tasks_handlers.go) -/

/-- Source `handleKanbanTaskInit`. -/
def handleKanbanTaskInit (env : Env) (files : Files) (i : InteractionCreate) : Outcome :=
  match mustGuild i with
  | some err => respondEphemeral files [] ("error: " ++ err)
  | none =>
  match mustTaskContext env i with
  | Except.error msg => respondEphemeral files [] msg
  | Except.ok ctx =>
  match load_all_files env files with
  | Except.error err => respondEphemeral files [] ("error: failed to load projects: " ++ err)
  | Except.ok projects =>
  match findProjectByThreadContext projects i.GuildID ctx.ForumID with
  | (_, false, hint) => respondEphemeral files [] ("error: " ++ hint)
  | (p, true, _) =>
  match ensureForumTagMapping env p ctx.ForumID with
  | (_, some err) => respondEphemeral files [] ("error: failed to resolve forum tags: " ++ err)
  | (p, none) =>
  let task := (mapGet p.Tasks ctx.ThreadID).getD ProjectTask.zero
  let already := decide (trimSpace task.ThreadID ≠ "")
  let task := { task with ThreadID := ctx.ThreadID, ForumID := ctx.ForumID }
  let task := if trimSpace task.Status = "" then { task with Status := TaskToDo } else task
  match ensureStatusPanel env p task with
  | (Except.error err, log0) =>
    respondEphemeral files log0 ("error: failed to create status panel: " ++ err)
  | (Except.ok msgID, log0) =>
  let task := { task with StatusMessageID := msgID }
  let task :=
    if task.Status ≠ TaskToDo then
      { task with
        Status := TaskToDo, AssigneeUserID := "", DoneDescription := "", ApprovedByUserID := "" }
    else task
  match applyStatusTagToThread env p ctx.ForumID ctx.ThreadID task.Status with
  | Except.error err => respondEphemeral files log0 ("error: failed to apply tag: " ++ err)
  | Except.ok log1 =>
  match upsertStatusPanel env p task with
  | (some err, log2) =>
    respondEphemeral files (log0 ++ log1 ++ log2)
      ("error: failed to update status panel: " ++ err)
  | (none, log2) =>
  let p := { p with Tasks := mapSet p.Tasks ctx.ThreadID task }
  match updateFile env files p with
  | (some err, files1) =>
    respondEphemeral files1 (log0 ++ log1 ++ log2)
      ("error: init done, but failed to save json: " ++ err)
  | (none, files1) =>
    let log :=
      log0 ++ log1 ++ log2 ++
        [Effect.storeWrite (projectPathBySlug (normalizeProject p).Slug) (normalizeProject p)]
    if already = true then respondEphemeral files1 log "task already initialized ✅ (panel refreshed)"
    else respondEphemeral files1 log "task initialized ✅ (status panel pinned, tag set to ToDo)"

/-- Source `handleKanbanTaskTake`. -/
def handleKanbanTaskTake (env : Env) (files : Files) (i : InteractionCreate) : Outcome :=
  match mustGuild i with
  | some err => respondEphemeral files [] ("error: " ++ err)
  | none =>
  let authorID := getAuthorID i
  if authorID = "" then respondEphemeral files [] "error: cannot detect author"
  else
  match mustTaskContext env i with
  | Except.error msg => respondEphemeral files [] msg
  | Except.ok ctx =>
  match load_all_files env files with
  | Except.error err => respondEphemeral files [] ("error: failed to load projects: " ++ err)
  | Except.ok projects =>
  match findProjectByThreadContext projects i.GuildID ctx.ForumID with
  | (_, false, hint) => respondEphemeral files [] ("error: " ++ hint)
  | (p, true, _) =>
  match ensureForumTagMapping env p ctx.ForumID with
  | (_, some err) => respondEphemeral files [] ("error: failed to resolve forum tags: " ++ err)
  | (p, none) =>
  match mapGet p.Tasks ctx.ThreadID with
  | none =>
    respondEphemeral files [] "error: task not initialized. Run /kanban task-init in this thread."
  | some task =>
  if trimSpace task.ThreadID = "" then
    respondEphemeral files [] "error: task not initialized. Run /kanban task-init in this thread."
  else
  if task.Status ≠ TaskToDo then respondEphemeral files [] "not allowed: task status is not ToDo"
  else if trimSpace task.AssigneeUserID ≠ "" then
    respondEphemeral files [] "not allowed: task already taken"
  else
  let task :=
    { task with
      Status := TaskInProgress, AssigneeUserID := authorID, DoneDescription := "",
      ApprovedByUserID := "" }
  match applyStatusTagToThread env p ctx.ForumID ctx.ThreadID task.Status with
  | Except.error err => respondEphemeral files [] ("error: failed to apply tag: " ++ err)
  | Except.ok log1 =>
  match upsertStatusPanel env p task with
  | (some err, log2) =>
    respondEphemeral files (log1 ++ log2) ("error: failed to update status panel: " ++ err)
  | (none, log2) =>
  let log3 : List Effect := []
  let p := { p with Tasks := mapSet p.Tasks ctx.ThreadID task }
  match updateFile env files p with
  | (some err, files1) =>
    respondEphemeral files1 (log1 ++ log2 ++ log3)
      ("error: updated task, but failed to save json: " ++ err)
  | (none, files1) =>
    respondEphemeral files1
      (log1 ++ log2 ++ log3 ++ [Effect.storeWrite (projectPathBySlug (normalizeProject p).Slug)
        (normalizeProject p)])
      "taken ✅ (status set to InProgress)"

/-- Source `handleKanbanTaskDone`. -/
def handleKanbanTaskDone (env : Env) (files : Files) (i : InteractionCreate)
    (description : String) : Outcome :=
  match mustGuild i with
  | some err => respondEphemeral files [] ("error: " ++ err)
  | none =>
  let description := trimSpace description
  if description = "" then respondEphemeral files [] "error: description is required"
  else
  let authorID := getAuthorID i
  if authorID = "" then respondEphemeral files [] "error: cannot detect author"
  else
  match mustTaskContext env i with
  | Except.error msg => respondEphemeral files [] msg
  | Except.ok ctx =>
  match load_all_files env files with
  | Except.error err => respondEphemeral files [] ("error: failed to load projects: " ++ err)
  | Except.ok projects =>
  match findProjectByThreadContext projects i.GuildID ctx.ForumID with
  | (_, false, hint) => respondEphemeral files [] ("error: " ++ hint)
  | (p, true, _) =>
  match ensureForumTagMapping env p ctx.ForumID with
  | (_, some err) => respondEphemeral files [] ("error: failed to resolve forum tags: " ++ err)
  | (p, none) =>
  match mapGet p.Tasks ctx.ThreadID with
  | none =>
    respondEphemeral files [] "error: task not initialized. Run /kanban task-init in this thread."
  | some task =>
  if trimSpace task.ThreadID = "" then
    respondEphemeral files [] "error: task not initialized. Run /kanban task-init in this thread."
  else
  if task.Status ≠ TaskInProgress then
    respondEphemeral files [] "not allowed: task status is not InProgress"
  else if isLeaderForProject i authorID p = false ∧ trimSpace task.AssigneeUserID ≠ authorID then
    respondEphemeral files [] "not allowed: only assignee or leader can do this"
  else
  let task :=
    { task with
      Status := TaskWaitingForApprove, DoneDescription := description, ApprovedByUserID := "" }
  match applyStatusTagToThread env p ctx.ForumID ctx.ThreadID task.Status with
  | Except.error err => respondEphemeral files [] ("error: failed to apply tag: " ++ err)
  | Except.ok log1 =>
  match upsertStatusPanel env p task with
  | (some err, log2) =>
    respondEphemeral files (log1 ++ log2) ("error: failed to update status panel: " ++ err)
  | (none, log2) =>
  let log3 : List Effect :=
    if env.sendErr = none then
      [Effect.messageSend ctx.ThreadID
        ("🟦 Submitted for approval by <@" ++ authorID ++ ">\n\n" ++ description)]
    else []
  let p := { p with Tasks := mapSet p.Tasks ctx.ThreadID task }
  match updateFile env files p with
  | (some err, files1) =>
    respondEphemeral files1 (log1 ++ log2 ++ log3)
      ("error: updated task, but failed to save json: " ++ err)
  | (none, files1) =>
    respondEphemeral files1
      (log1 ++ log2 ++ log3 ++ [Effect.storeWrite (projectPathBySlug (normalizeProject p).Slug)
        (normalizeProject p)])
      "submitted ✅ (status set to WaitingForApprove)"

/-- Source `handleKanbanTaskApprove`. -/
def handleKanbanTaskApprove (env : Env) (files : Files) (i : InteractionCreate) : Outcome :=
  match mustGuild i with
  | some err => respondEphemeral files [] ("error: " ++ err)
  | none =>
  let authorID := getAuthorID i
  if authorID = "" then respondEphemeral files [] "error: cannot detect author"
  else
  match mustTaskContext env i with
  | Except.error msg => respondEphemeral files [] msg
  | Except.ok ctx =>
  match load_all_files env files with
  | Except.error err => respondEphemeral files [] ("error: failed to load projects: " ++ err)
  | Except.ok projects =>
  match findProjectByThreadContext projects i.GuildID ctx.ForumID with
  | (_, false, hint) => respondEphemeral files [] ("error: " ++ hint)
  | (p, true, _) =>
  if isLeaderForProject i authorID p = false then
    respondEphemeral files [] "not allowed: only project leader can approve"
  else
  match ensureForumTagMapping env p ctx.ForumID with
  | (_, some err) => respondEphemeral files [] ("error: failed to resolve forum tags: " ++ err)
  | (p, none) =>
  match mapGet p.Tasks ctx.ThreadID with
  | none =>
    respondEphemeral files [] "error: task not initialized. Run /kanban task-init in this thread."
  | some task =>
  if trimSpace task.ThreadID = "" then
    respondEphemeral files [] "error: task not initialized. Run /kanban task-init in this thread."
  else
  if task.Status ≠ TaskWaitingForApprove then
    respondEphemeral files [] "not allowed: task status is not WaitingForApprove"
  else
  let task := { task with Status := TaskDone, ApprovedByUserID := authorID }
  match applyStatusTagToThread env p ctx.ForumID ctx.ThreadID task.Status with
  | Except.error err => respondEphemeral files [] ("error: failed to apply tag: " ++ err)
  | Except.ok log1 =>
  match upsertStatusPanel env p task with
  | (some err, log2) =>
    respondEphemeral files (log1 ++ log2) ("error: failed to update status panel: " ++ err)
  | (none, log2) =>
  let log3 : List Effect :=
    if env.sendErr = none then
      [Effect.messageSend ctx.ThreadID ("✅ Approved by <@" ++ authorID ++ "> at " ++ env.now)]
    else []
  let p := { p with Tasks := mapSet p.Tasks ctx.ThreadID task }
  match updateFile env files p with
  | (some err, files1) =>
    respondEphemeral files1 (log1 ++ log2 ++ log3)
      ("error: updated task, but failed to save json: " ++ err)
  | (none, files1) =>
    respondEphemeral files1
      (log1 ++ log2 ++ log3 ++ [Effect.storeWrite (projectPathBySlug (normalizeProject p).Slug)
        (normalizeProject p)])
      "approved ✅ (status set to Done)"

/-- Source `handleKanbanTaskRevoke`. -/
def handleKanbanTaskRevoke (env : Env) (files : Files) (i : InteractionCreate) : Outcome :=
  match mustGuild i with
  | some err => respondEphemeral files [] ("error: " ++ err)
  | none =>
  let authorID := getAuthorID i
  if authorID = "" then respondEphemeral files [] "error: cannot detect author"
  else
  match mustTaskContext env i with
  | Except.error msg => respondEphemeral files [] msg
  | Except.ok ctx =>
  match load_all_files env files with
  | Except.error err => respondEphemeral files [] ("error: failed to load projects: " ++ err)
  | Except.ok projects =>
  match findProjectByThreadContext projects i.GuildID ctx.ForumID with
  | (_, false, hint) => respondEphemeral files [] ("error: " ++ hint)
  | (p, true, _) =>
  if isLeaderForProject i authorID p = false then
    respondEphemeral files [] "not allowed: only project leader can revoke"
  else
  match ensureForumTagMapping env p ctx.ForumID with
  | (_, some err) => respondEphemeral files [] ("error: failed to resolve forum tags: " ++ err)
  | (p, none) =>
  match mapGet p.Tasks ctx.ThreadID with
  | none =>
    respondEphemeral files [] "error: task not initialized. Run /kanban task-init in this thread."
  | some task =>
  if trimSpace task.ThreadID = "" then
    respondEphemeral files [] "error: task not initialized. Run /kanban task-init in this thread."
  else
  if task.Status ≠ TaskWaitingForApprove then
    respondEphemeral files [] "not allowed: task status is not WaitingForApprove"
  else
  let task :=
    { task with Status := TaskInProgress, ApprovedByUserID := "", DoneDescription := "" }
  match applyStatusTagToThread env p ctx.ForumID ctx.ThreadID task.Status with
  | Except.error err => respondEphemeral files [] ("error: failed to apply tag: " ++ err)
  | Except.ok log1 =>
  match upsertStatusPanel env p task with
  | (some err, log2) =>
    respondEphemeral files (log1 ++ log2) ("error: failed to update status panel: " ++ err)
  | (none, log2) =>
  let log3 : List Effect := []
  let p := { p with Tasks := mapSet p.Tasks ctx.ThreadID task }
  match updateFile env files p with
  | (some err, files1) =>
    respondEphemeral files1 (log1 ++ log2 ++ log3)
      ("error: updated task, but failed to save json: " ++ err)
  | (none, files1) =>
    respondEphemeral files1
      (log1 ++ log2 ++ log3 ++ [Effect.storeWrite (projectPathBySlug (normalizeProject p).Slug)
        (normalizeProject p)])
      "revoked ✅ (back to InProgress)"

/-- Source `handleKanbanTaskSurrender`. -/
def handleKanbanTaskSurrender (env : Env) (files : Files) (i : InteractionCreate) : Outcome :=
  match mustGuild i with
  | some err => respondEphemeral files [] ("error: " ++ err)
  | none =>
  let authorID := getAuthorID i
  if authorID = "" then respondEphemeral files [] "error: cannot detect author"
  else
  match mustTaskContext env i with
  | Except.error msg => respondEphemeral files [] msg
  | Except.ok ctx =>
  match load_all_files env files with
  | Except.error err => respondEphemeral files [] ("error: failed to load projects: " ++ err)
  | Except.ok projects =>
  match findProjectByThreadContext projects i.GuildID ctx.ForumID with
  | (_, false, hint) => respondEphemeral files [] ("error: " ++ hint)
  | (p, true, _) =>
  match ensureForumTagMapping env p ctx.ForumID with
  | (_, some err) => respondEphemeral files [] ("error: failed to resolve forum tags: " ++ err)
  | (p, none) =>
  match mapGet p.Tasks ctx.ThreadID with
  | none =>
    respondEphemeral files [] "error: task not initialized. Run /kanban task-init in this thread."
  | some task =>
  if trimSpace task.ThreadID = "" then
    respondEphemeral files [] "error: task not initialized. Run /kanban task-init in this thread."
  else
  if task.Status ≠ TaskInProgress then
    respondEphemeral files [] "not allowed: task status is not InProgress"
  else if isLeaderForProject i authorID p = false ∧ trimSpace task.AssigneeUserID ≠ authorID then
    respondEphemeral files [] "not allowed: only assignee or leader can surrender"
  else
  let task :=
    { task with
      Status := TaskToDo, AssigneeUserID := "", DoneDescription := "", ApprovedByUserID := "" }
  match applyStatusTagToThread env p ctx.ForumID ctx.ThreadID task.Status with
  | Except.error err => respondEphemeral files [] ("error: failed to apply tag: " ++ err)
  | Except.ok log1 =>
  match upsertStatusPanel env p task with
  | (some err, log2) =>
    respondEphemeral files (log1 ++ log2) ("error: failed to update status panel: " ++ err)
  | (none, log2) =>
  let log3 : List Effect := []
  let p := { p with Tasks := mapSet p.Tasks ctx.ThreadID task }
  match updateFile env files p with
  | (some err, files1) =>
    respondEphemeral files1 (log1 ++ log2 ++ log3)
      ("error: updated task, but failed to save json: " ++ err)
  | (none, files1) =>
    respondEphemeral files1
      (log1 ++ log2 ++ log3 ++ [Effect.storeWrite (projectPathBySlug (normalizeProject p).Slug)
        (normalizeProject p)])
      "surrendered ✅ (back to ToDo)"

/-! ## Vocabulary of the contracts -/

/-- The text `slugify` computes before it falls back to `project`. -/
def slugCore (s : String) : List Char :=
  ((((toLower (trimSpace s)).data.map (fun c => if c = ' ' then '-' else c)).filter
    slugChar).dropWhile isDash).rdropWhile isDash

/-- A map key that `normalizeProject` keeps in place: trimmed and not empty. -/
def GoodKey (k : String) : Prop := trimSpace k = k ∧ k ≠ ""

/-- A task as `normalizeProject` leaves it: every field but the status is
trimmed, the thread ID is not empty and the status is not blank. -/
def TaskNormal (t : ProjectTask) : Prop :=
  trimSpace t.ThreadID = t.ThreadID ∧ t.ThreadID ≠ "" ∧
  trimSpace t.ForumID = t.ForumID ∧ trimSpace t.Status ≠ "" ∧
  trimSpace t.AssigneeUserID = t.AssigneeUserID ∧
  trimSpace t.StatusMessageID = t.StatusMessageID ∧
  trimSpace t.DoneDescription = t.DoneDescription ∧
  trimSpace t.ApprovedByUserID = t.ApprovedByUserID

/-- A project as `load_all_files` hands it out: a normalized record. -/
def Loaded (p : Project) : Prop := ∃ r, p = normalizeProject r

/-- The steps every task command runs first succeed: the invocation has a
guild, the channel is a post thread `ctx.ThreadID` under the forum
`ctx.ForumID`, the record files load, and exactly one project `p` owns the
forum in that guild. -/
def Resolved (env : Env) (files : Files) (i : InteractionCreate) (ctx : taskContext)
    (p : Project) : Prop :=
  mustGuild i = none ∧ mustTaskContext env i = Except.ok ctx ∧
  ∃ projects hint, load_all_files env files = Except.ok projects ∧
    findProjectByThreadContext projects i.GuildID ctx.ForumID = (p, true, hint)

/-- The tag mapping of the forum resolves (from the record, or fetched from
the platform) and `p1` is the project that carries it. -/
def TagsResolved (env : Env) (ctx : taskContext) (p p1 : Project) : Prop :=
  ensureForumTagMapping env p ctx.ForumID = (p1, none)

/-- The tag mapping of the forum holds a tag ID for the status. -/
def HasStatusTag (p1 : Project) (forumID status : String) : Prop :=
  trimSpace ((mapGet (forumTagMap p1 (trimSpace forumID)) (statusToTagName status)).getD "") ≠ ""

instance instDecidableHasStatusTag (p1 : Project) (forumID status : String) :
    Decidable (HasStatusTag p1 forumID status) :=
  inferInstanceAs (Decidable (trimSpace
    ((mapGet (forumTagMap p1 (trimSpace forumID)) (statusToTagName status)).getD "") ≠ ""))

/-- The four statuses of the state machine. -/
def allStatuses : List String := [TaskToDo, TaskInProgress, TaskWaitingForApprove, TaskDone]

/-- Every external call a task command can make succeeds: the tag mapping
resolves and holds the four status tags, the platform accepts the tag edit,
the panel post and the panel edit, and the store accepts the write of the
record of `p`, which exists. -/
def ExternalOk (env : Env) (files : Files) (ctx : taskContext) (p : Project) : Prop :=
  (ensureForumTagMapping env p ctx.ForumID).2 = none ∧
  (∀ st ∈ allStatuses,
    HasStatusTag (ensureForumTagMapping env p ctx.ForumID).1 ctx.ForumID st) ∧
  env.editTagsErr = none ∧ env.editEmbedErr = none ∧
  (∃ id, env.sendEmbed = Except.ok (some id) ∧ trimSpace id ≠ "") ∧
  env.mkdirErr = none ∧ env.statErr = none ∧ env.writeErr = none ∧ env.renameErr = none ∧
  (mapGet files (projectPathBySlug p.Slug)).isSome = true

/-- The task stored for a thread in the record file of the project with the
given slug. -/
def persistedTask (files : Files) (slug threadID : String) : Option ProjectTask :=
  match mapGet files (projectPathBySlug slug) with
  | none => none
  | some r => mapGet r.Tasks threadID

/-- The record file named after the slug is the only record file whose
record carries that slug. -/
def SlugOwnsFile (files : Files) (slug : String) : Prop :=
  ∀ e ∈ files, hasSuffix (toLower e.1) ".json" = true →
    (normalizeProject e.2).Slug = slug → e.1 = projectPathBySlug slug

/-- The closing steps the five transition handlers share, with the new task
already computed: apply the status tag, upsert the panel, write the record.
`log3` is the thread post made in between by `task-done` and `task-approve`
and `okmsg` the response on success. -/
def commitTask (env : Env) (files : Files) (p : Project) (ctx : taskContext)
    (task : ProjectTask) (log3 : List Effect) (okmsg : String) : Outcome :=
  match applyStatusTagToThread env p ctx.ForumID ctx.ThreadID task.Status with
  | Except.error err => respondEphemeral files [] ("error: failed to apply tag: " ++ err)
  | Except.ok log1 =>
  match upsertStatusPanel env p task with
  | (some err, log2) =>
    respondEphemeral files (log1 ++ log2) ("error: failed to update status panel: " ++ err)
  | (none, log2) =>
  match updateFile env files { p with Tasks := mapSet p.Tasks ctx.ThreadID task } with
  | (some err, files1) =>
    respondEphemeral files1 (log1 ++ log2 ++ log3)
      ("error: updated task, but failed to save json: " ++ err)
  | (none, files1) =>
    respondEphemeral files1
      (log1 ++ log2 ++ log3 ++
        [Effect.storeWrite
          (projectPathBySlug
            (normalizeProject { p with Tasks := mapSet p.Tasks ctx.ThreadID task }).Slug)
          (normalizeProject { p with Tasks := mapSet p.Tasks ctx.ThreadID task })])
      okmsg

/-- The task `handleKanbanTaskInit` hands to `ensureStatusPanel`: what the
project holds for the thread (`prior`, the zero task when it holds nothing)
with the thread and forum of the context and a blank status set to ToDo. -/
def initTaskFirst (ctx : taskContext) (prior : ProjectTask) : ProjectTask :=
  if trimSpace prior.Status = "" then
    { prior with ThreadID := ctx.ThreadID, ForumID := ctx.ForumID, Status := TaskToDo }
  else { prior with ThreadID := ctx.ThreadID, ForumID := ctx.ForumID }

/-- The task `handleKanbanTaskInit` tags, shows and writes: the first task
with the panel message ID, reset to ToDo when its status is another one. -/
def initTask (ctx : taskContext) (prior : ProjectTask) (msgID : String) : ProjectTask :=
  if (initTaskFirst ctx prior).Status ≠ TaskToDo then
    { initTaskFirst ctx prior with
      StatusMessageID := msgID, Status := TaskToDo, AssigneeUserID := "",
      DoneDescription := "", ApprovedByUserID := "" }
  else { initTaskFirst ctx prior with StatusMessageID := msgID }

/-- The steps of `handleKanbanTaskInit` that follow the tag mapping. -/
def initCore (env : Env) (files : Files) (p : Project) (ctx : taskContext) : Outcome :=
  match ensureStatusPanel env p
      (initTaskFirst ctx ((mapGet p.Tasks ctx.ThreadID).getD ProjectTask.zero)) with
  | (Except.error err, log0) =>
    respondEphemeral files log0 ("error: failed to create status panel: " ++ err)
  | (Except.ok msgID, log0) =>
  match applyStatusTagToThread env p ctx.ForumID ctx.ThreadID
      (initTask ctx ((mapGet p.Tasks ctx.ThreadID).getD ProjectTask.zero) msgID).Status with
  | Except.error err => respondEphemeral files log0 ("error: failed to apply tag: " ++ err)
  | Except.ok log1 =>
  match upsertStatusPanel env p
      (initTask ctx ((mapGet p.Tasks ctx.ThreadID).getD ProjectTask.zero) msgID) with
  | (some err, log2) =>
    respondEphemeral files (log0 ++ log1 ++ log2)
      ("error: failed to update status panel: " ++ err)
  | (none, log2) =>
  match updateFile env files
      { p with
        Tasks := mapSet p.Tasks ctx.ThreadID
          (initTask ctx ((mapGet p.Tasks ctx.ThreadID).getD ProjectTask.zero) msgID) } with
  | (some err, files1) =>
    respondEphemeral files1 (log0 ++ log1 ++ log2)
      ("error: init done, but failed to save json: " ++ err)
  | (none, files1) =>
    let log :=
      log0 ++ log1 ++ log2 ++
        [Effect.storeWrite
          (projectPathBySlug (normalizeProject
            { p with
              Tasks := mapSet p.Tasks ctx.ThreadID
                (initTask ctx ((mapGet p.Tasks ctx.ThreadID).getD ProjectTask.zero)
                  msgID) }).Slug)
          (normalizeProject
            { p with
              Tasks := mapSet p.Tasks ctx.ThreadID
                (initTask ctx ((mapGet p.Tasks ctx.ThreadID).getD ProjectTask.zero)
                  msgID) })]
    if decide (trimSpace ((mapGet p.Tasks ctx.ThreadID).getD ProjectTask.zero).ThreadID ≠ "") =
        true then
      respondEphemeral files1 log "task already initialized ✅ (panel refreshed)"
    else respondEphemeral files1 log "task initialized ✅ (status panel pinned, tag set to ToDo)"

/-! ## A concrete project for the scenarios -/

/-- The post thread of the scenarios. -/
def exThread : Channel :=
  { ID := "T", ChannelType := ChannelTypeGuildPublicThread, ParentID := "F",
    AvailableTags := [] }

/-- The forum of the scenarios, with the four status tags. -/
def exForum : Channel :=
  { ID := "F", ChannelType := 15, ParentID := "C",
    AvailableTags :=
      [⟨"1", "ToDo"⟩, ⟨"2", "InProgress"⟩, ⟨"3", "WaitingForApprove"⟩, ⟨"4", "Done"⟩] }

/-- A platform and a store on which every call succeeds. -/
def exEnv : Env :=
  { stateChannel := fun id =>
      if id = "T" then some exThread else if id = "F" then some exForum else none
    restChannel := fun _ => Except.error "unknown channel"
    loadErr := none
    sendEmbed := Except.ok (some "M2")
    pinErr := none
    editEmbedErr := none
    editTagsErr := none
    sendErr := none
    mkdirErr := none
    statErr := none
    writeErr := none
    renameErr := none
    now := "2024-05-01T10:00:00Z" }

/-- The project of the scenarios with the given tasks: leader `L` (role
`RL`), member `M`, forum `F` with its tag mapping. -/
def exProject (tasks : GoMap ProjectTask) : Project :=
  { GuildID := "G", Name := "Alpha", Slug := "alpha", MemberRoleID := "RM",
    LeaderRoleID := "RL", Members := [("L", Leader), ("M", Member)], CategoryID := "C",
    ForumChannelIDs := ["F"],
    ForumTagIDs :=
      [("F", some [("ToDo", "1"), ("InProgress", "2"), ("WaitingForApprove", "3"),
        ("Done", "4")])],
    Tasks := tasks }

/-- The task of thread `T` with the given status, assignee, done-description
and approver, and the panel message `M1`. -/
def exTask (status assignee description approver : String) : ProjectTask :=
  { ThreadID := "T", ForumID := "F", Status := status, AssigneeUserID := assignee,
    StatusMessageID := "M1", DoneDescription := description, ApprovedByUserID := approver }

/-- The store of the scenarios: the one record file of the project. -/
def exFiles (tasks : GoMap ProjectTask) : Files := [("alpha.json", exProject tasks)]

/-- An invocation in thread `T` by the user with the given ID and roles. -/
def exCall (userID : String) (roles : List String) : InteractionCreate :=
  { GuildID := "G", ChannelID := "T", Member := some ⟨some ⟨userID⟩, roles⟩, User := none }

/-- The thread context of the scenarios. -/
def exCtx : taskContext := { ThreadID := "T", ForumID := "F" }

/-! ## The command surface and what can be observed of one invocation -/

/-- The six task subcommands of `/kanban`; `taskDone` carries the text of its
option `description`. -/
inductive TaskCommand where
  | taskInit
  | taskTake
  | taskDone (description : String)
  | taskApprove
  | taskRevoke
  | taskSurrender
  deriving DecidableEq, Repr

/-- The task cases of the switch of `handleInteraction` (handlers.go). -/
def handleTaskCommand (c : TaskCommand) (env : Env) (files : Files) (i : InteractionCreate) :
    Outcome :=
  match c with
  | TaskCommand.taskInit => handleKanbanTaskInit env files i
  | TaskCommand.taskTake => handleKanbanTaskTake env files i
  | TaskCommand.taskDone description => handleKanbanTaskDone env files i (trimSpace description)
  | TaskCommand.taskApprove => handleKanbanTaskApprove env files i
  | TaskCommand.taskRevoke => handleKanbanTaskRevoke env files i
  | TaskCommand.taskSurrender => handleKanbanTaskSurrender env files i

/-- The command answered with its success text (task-init has two). -/
def Succeeded (c : TaskCommand) (out : Outcome) : Prop :=
  match c with
  | TaskCommand.taskInit =>
    out.response = "task initialized ✅ (status panel pinned, tag set to ToDo)" ∨
      out.response = "task already initialized ✅ (panel refreshed)"
  | TaskCommand.taskTake => out.response = "taken ✅ (status set to InProgress)"
  | TaskCommand.taskDone _ => out.response = "submitted ✅ (status set to WaitingForApprove)"
  | TaskCommand.taskApprove => out.response = "approved ✅ (status set to Done)"
  | TaskCommand.taskRevoke => out.response = "revoked ✅ (back to InProgress)"
  | TaskCommand.taskSurrender => out.response = "surrendered ✅ (back to ToDo)"

instance instDecidableSucceeded (c : TaskCommand) (out : Outcome) :
    Decidable (Succeeded c out) :=
  match c with
  | TaskCommand.taskInit =>
    inferInstanceAs (Decidable
      (out.response = "task initialized ✅ (status panel pinned, tag set to ToDo)" ∨
        out.response = "task already initialized ✅ (panel refreshed)"))
  | TaskCommand.taskTake =>
    inferInstanceAs (Decidable (out.response = "taken ✅ (status set to InProgress)"))
  | TaskCommand.taskDone _ =>
    inferInstanceAs
      (Decidable (out.response = "submitted ✅ (status set to WaitingForApprove)"))
  | TaskCommand.taskApprove =>
    inferInstanceAs (Decidable (out.response = "approved ✅ (status set to Done)"))
  | TaskCommand.taskRevoke =>
    inferInstanceAs (Decidable (out.response = "revoked ✅ (back to InProgress)"))
  | TaskCommand.taskSurrender =>
    inferInstanceAs (Decidable (out.response = "surrendered ✅ (back to ToDo)"))

/-- The success text of a transition command. -/
def okText (c : TaskCommand) : String :=
  match c with
  | TaskCommand.taskInit => "task initialized ✅ (status panel pinned, tag set to ToDo)"
  | TaskCommand.taskTake => "taken ✅ (status set to InProgress)"
  | TaskCommand.taskDone _ => "submitted ✅ (status set to WaitingForApprove)"
  | TaskCommand.taskApprove => "approved ✅ (status set to Done)"
  | TaskCommand.taskRevoke => "revoked ✅ (back to InProgress)"
  | TaskCommand.taskSurrender => "surrendered ✅ (back to ToDo)"

/-- The task a transition command computes from the loaded task; `caller` is
the caller ID. (task-init does not go this way; see `initTask`.) -/
def transitionTask (c : TaskCommand) (caller : String) (task : ProjectTask) : ProjectTask :=
  match c with
  | TaskCommand.taskInit => task
  | TaskCommand.taskTake =>
    { task with
      Status := TaskInProgress, AssigneeUserID := caller, DoneDescription := "",
      ApprovedByUserID := "" }
  | TaskCommand.taskDone description =>
    { task with
      Status := TaskWaitingForApprove, DoneDescription := trimSpace description,
      ApprovedByUserID := "" }
  | TaskCommand.taskApprove => { task with Status := TaskDone, ApprovedByUserID := caller }
  | TaskCommand.taskRevoke =>
    { task with Status := TaskInProgress, ApprovedByUserID := "", DoneDescription := "" }
  | TaskCommand.taskSurrender =>
    { task with
      Status := TaskToDo, AssigneeUserID := "", DoneDescription := "", ApprovedByUserID := "" }

/-- The guards a transition command passes before its closing steps: the
state it starts from and the permitted actor. -/
def TransitionAllowed (c : TaskCommand) (i : InteractionCreate) (p : Project)
    (task : ProjectTask) : Prop :=
  match c with
  | TaskCommand.taskInit => False
  | TaskCommand.taskTake => task.Status = TaskToDo ∧ task.AssigneeUserID = ""
  | TaskCommand.taskDone description =>
    trimSpace description ≠ "" ∧ task.Status = TaskInProgress ∧
      (task.AssigneeUserID = getAuthorID i ∨ isLeaderForProject i (getAuthorID i) p = true)
  | TaskCommand.taskApprove =>
    isLeaderForProject i (getAuthorID i) p = true ∧ task.Status = TaskWaitingForApprove
  | TaskCommand.taskRevoke =>
    isLeaderForProject i (getAuthorID i) p = true ∧ task.Status = TaskWaitingForApprove
  | TaskCommand.taskSurrender =>
    task.Status = TaskInProgress ∧
      (task.AssigneeUserID = getAuthorID i ∨ isLeaderForProject i (getAuthorID i) p = true)

/-- The post task-done and task-approve make in the thread between the panel
write and the store write, when the platform accepts it. -/
def transitionPost (c : TaskCommand) (env : Env) (ctx : taskContext) (caller : String) :
    List Effect :=
  match c with
  | TaskCommand.taskDone description =>
    if env.sendErr = none then
      [Effect.messageSend ctx.ThreadID
        ("🟦 Submitted for approval by <@" ++ caller ++ ">\n\n" ++ trimSpace description)]
    else []
  | TaskCommand.taskApprove =>
    if env.sendErr = none then
      [Effect.messageSend ctx.ThreadID ("✅ Approved by <@" ++ caller ++ "> at " ++ env.now)]
    else []
  | _ => []

/-- A response that reports a failure: its text begins with `error:` or with
`not allowed:`. -/
def isErrorText (s : String) : Bool :=
  "error:".data.isPrefixOf s.data || "not allowed:".data.isPrefixOf s.data

/-- The test of `findProjectByThreadContext` in the words of the data model:
the project has the guild ID and lists the forum ID, strings compared
trimmed. -/
def OwnsForum (guildID forumID : String) (p : Project) : Prop :=
  trimSpace p.GuildID = trimSpace guildID ∧
    ∃ fid ∈ p.ForumChannelIDs, trimSpace fid = trimSpace forumID

instance instDecidableOwnsForum (guildID forumID : String) (p : Project) :
    Decidable (OwnsForum guildID forumID p) :=
  inferInstanceAs (Decidable (trimSpace p.GuildID = trimSpace guildID ∧
    ∃ fid ∈ p.ForumChannelIDs, trimSpace fid = trimSpace forumID))

/-- How many projects of the map own the forum. -/
def ownerCount (projects : GoMap Project) (guildID forumID : String) : Nat :=
  (projects.filter (fun e => decide (OwnsForum guildID forumID e.2))).length

/-- A write of the applied tags of a thread. -/
def isTagWrite : Effect → Bool
  | Effect.channelEditTags _ _ => true
  | _ => false

/-- A write to the status panel: the post of the panel message, its pin, or
an edit of it. -/
def isPanelWrite : Effect → Bool
  | Effect.messageSendEmbed _ _ => true
  | Effect.messagePin _ _ => true
  | Effect.messageEditEmbed _ _ _ => true
  | _ => false

/-- An edit of the panel message. -/
def isPanelEdit : Effect → Bool
  | Effect.messageEditEmbed _ _ _ => true
  | _ => false

/-- A write of a record file. -/
def isStoreWrite : Effect → Bool
  | Effect.storeWrite _ _ => true
  | _ => false

/-- In the log every write of the kind `later` comes after some write of the
kind `first`. -/
def ComesAfter (first later : Effect → Bool) (log : List Effect) : Prop :=
  ∀ l1 e l2, log = l1 ++ e :: l2 → later e = true → ∃ x ∈ l1, first x = true

/-- One step of the scan for the last tag write to a thread. -/
def tagWriteStep (threadID : String) (acc : Option (List String)) :
    Effect → Option (List String)
  | Effect.channelEditTags t tags => if t = threadID then some tags else acc
  | _ => acc

/-- The applied-tag array the log writes last to the thread. -/
def lastTagWrite (log : List Effect) (threadID : String) : Option (List String) :=
  log.foldl (tagWriteStep threadID) none

/-- The messages the log posts in the thread with `ChannelMessageSend`. -/
def threadPosts (log : List Effect) (threadID : String) : List String :=
  log.filterMap
    (fun e =>
      match e with
      | Effect.messageSend t content => if t = threadID then some content else none
      | _ => none)

/-! ## Vocabulary of the invariants -/

/-- Status-field coherence of a task: what each of the four statuses says
about assignee, done-description and approver. -/
def Coherent (t : ProjectTask) : Prop :=
  (t.Status = TaskToDo →
    t.AssigneeUserID = "" ∧ t.DoneDescription = "" ∧ t.ApprovedByUserID = "") ∧
  (t.Status = TaskInProgress → t.AssigneeUserID ≠ "" ∧ t.ApprovedByUserID = "") ∧
  (t.Status = TaskWaitingForApprove → t.AssigneeUserID ≠ "" ∧ t.DoneDescription ≠ "") ∧
  (t.Status = TaskDone → t.ApprovedByUserID ≠ "")

instance instDecidableCoherent (t : ProjectTask) : Decidable (Coherent t) :=
  inferInstanceAs (Decidable
    ((t.Status = TaskToDo →
      t.AssigneeUserID = "" ∧ t.DoneDescription = "" ∧ t.ApprovedByUserID = "") ∧
    (t.Status = TaskInProgress → t.AssigneeUserID ≠ "" ∧ t.ApprovedByUserID = "") ∧
    (t.Status = TaskWaitingForApprove → t.AssigneeUserID ≠ "" ∧ t.DoneDescription ≠ "") ∧
    (t.Status = TaskDone → t.ApprovedByUserID ≠ "")))

/-- The task a command tags, shows and writes once its guards are passed:
`p` is the resolved project and `p1` the project with the resolved tag
mapping. -/
def CommandTask (c : TaskCommand) (env : Env) (i : InteractionCreate) (ctx : taskContext)
    (p p1 : Project) (newtask : ProjectTask) : Prop :=
  match c with
  | TaskCommand.taskInit =>
    ∃ msgID log0,
      ensureStatusPanel env p1
        (initTaskFirst ctx ((mapGet p1.Tasks ctx.ThreadID).getD ProjectTask.zero)) =
          (Except.ok msgID, log0) ∧
      newtask = initTask ctx ((mapGet p1.Tasks ctx.ThreadID).getD ProjectTask.zero) msgID
  | _ =>
    ∃ task, mapGet p.Tasks ctx.ThreadID = some task ∧ getAuthorID i ≠ "" ∧
      TransitionAllowed c i p task ∧ newtask = transitionTask c (getAuthorID i) task

/-- One invocation of a session: the command, the behaviour of the platform
and the store during it, and the interaction. -/
abbrev Call := TaskCommand × Env × InteractionCreate

/-- The files after a sequence of invocations, each run on the files the one
before it left. -/
def runCalls (files : Files) : List Call → Files
  | [] => files
  | call :: rest => runCalls (handleTaskCommand call.1 call.2.1 files call.2.2).files rest

/-- The invocation wrote the tag and edited the panel and then did not
succeed: its store write failed. -/
def StoreFailed (c : TaskCommand) (out : Outcome) : Prop :=
  (∃ e ∈ out.log, isTagWrite e = true) ∧ (∃ e ∈ out.log, isPanelEdit e = true) ∧
    ¬ Succeeded c out

instance instDecidableStoreFailed (c : TaskCommand) (out : Outcome) :
    Decidable (StoreFailed c out) :=
  inferInstanceAs (Decidable
    ((∃ e ∈ out.log, isTagWrite e = true) ∧ (∃ e ∈ out.log, isPanelEdit e = true) ∧
      ¬ Succeeded c out))

/-! ## More scenarios -/

/-- The forum of the scenarios with the tag `ToDo` alone. -/
def exForumTodoOnly : Channel := { exForum with AvailableTags := [⟨"1", "ToDo"⟩] }

/-- The platform of the scenarios with that forum. -/
def exEnvTodoOnly : Env :=
  { exEnv with
    stateChannel := fun id =>
      if id = "T" then some exThread else if id = "F" then some exForumTodoOnly else none }

/-- The store of the scenarios with a record that holds no tag mapping and
no task. -/
def exFilesNoTags : Files := [("alpha.json", { exProject [] with ForumTagIDs := [] })]

/-- The store fails at the write of the temporary file. -/
def exEnvDiskFull : Env := { exEnv with writeErr := some "disk full" }

/-- The store fails at the rename of the temporary file. -/
def exEnvRenameFails : Env := { exEnv with renameErr := some "busy" }

/-- The post of a panel message. -/
def isPanelPost : Effect → Bool
  | Effect.messageSendEmbed _ _ => true
  | _ => false

/-! ## Project creation and the slug of a record (data.go, handlers.go) -/

/-- The characters `slugify` has kept once the pattern `slugRe` is applied,
before the dashes at the two ends are trimmed. -/
def slugKept (s : String) : List Char :=
  ((toLower (trimSpace s)).data.map (fun c => if c = ' ' then '-' else c)).filter slugChar

/-- Source `fileNotExists`: whether no file has the path, or the error of
`os.Stat`. -/
def fileNotExists (env : Env) (files : Files) (path : String) : Except String Bool :=
  match env.statErr with
  | some err => Except.error err
  | none =>
    match mapGet files path with
    | some _ => Except.ok false
    | none => Except.ok true

/-- The loop `for n := 2; n < 10_000; n++` of `findAvailableSlug`, at the
counter `n` with `left` iterations to go, and the error that follows the
loop. `strconv.Itoa` is the decimal text of the counter. -/
def slugLoop (env : Env) (files : Files) (base : String) : Nat → Nat → Except String String
  | 0, _ => Except.error ("too many projects with slug base: " ++ base)
  | left + 1, n =>
    match fileNotExists env files (projectPathBySlug (base ++ "-" ++ toString n)) with
    | Except.error err => Except.error err
    | Except.ok true => Except.ok (base ++ "-" ++ toString n)
    | Except.ok false => slugLoop env files base left (n + 1)

/-- Source `findAvailableSlug`: the counter runs from 2 to 9999, which is
9998 iterations. -/
def findAvailableSlug (env : Env) (files : Files) (base : String) : Except String String :=
  match fileNotExists env files (projectPathBySlug base) with
  | Except.error err => Except.error err
  | Except.ok true => Except.ok base
  | Except.ok false => slugLoop env files base 9998 2

/-- Source `createFile`: the error, if any, and the files afterwards. -/
def createFile (env : Env) (files : Files) (p : Project) : Option String × Files :=
  match env.mkdirErr with
  | some err => (some err, files)
  | none =>
    let p := normalizeProject p
    match findAvailableSlug env files p.Slug with
    | Except.error err => (some err, files)
    | Except.ok uniqueSlug =>
      let p := { p with Slug := uniqueSlug }
      writeProjectAtomic env files (projectPathBySlug p.Slug) p

/-- The outcome of the fallible external calls of one invocation of
`/kanban create`. -/
structure CreateEnv where
  /-- The file system during the invocation. -/
  os : Env
  /-- The requests of `ensureProjectRoles` (`GuildRoles`, and `GuildRoleCreate`
  for a role that is missing) for a guild and a slug: the error, or the
  member and leader role IDs. -/
  roles : String → String → Except String (String × String)
  /-- The request `GuildChannelCreateComplex` of `createProjectCategory` for a
  guild and a category name: the error, or the ID of the category. -/
  category : String → String → Except String String

/-- Source `ensureProjectRoles` (roles.go), with a session that is not `nil`. -/
def ensureProjectRoles (cenv : CreateEnv) (guildID projectSlug : String) :
    Except String (String × String) :=
  let guildID := trimSpace guildID
  if guildID = "" then Except.error "guildID required"
  else
    let slug := trimSpace projectSlug
    if slug = "" then Except.error "projectSlug required"
    else cenv.roles guildID slug

/-- Source `createProjectCategory` (util.go) for a private category, with a
session that is not `nil`; `buildPrivateCategoryOverwrites` fails when no
role ID is left after trimming. -/
def createProjectCategory (cenv : CreateEnv) (guildID projectName : String)
    (allowViewRoleIDs : List String) : Except String String :=
  let guildID := trimSpace guildID
  if guildID = "" then Except.error "guild required"
  else
    let name := trimSpace projectName
    if name = "" then Except.error "project name required"
    else if (allowViewRoleIDs.map trimSpace).filter (fun id => decide (id ≠ "")) = [] then
      Except.error "private category requires at least one allowed role id"
    else cenv.category guildID name

/-- Source `handleKanbanCreate` (handlers.go), with the text of the option
`project`: the response and the files afterwards. The role given to the
author (`GuildMemberRoleAdd`) is not fatal and leaves no trace in the store. -/
def handleKanbanCreate (cenv : CreateEnv) (files : Files) (i : InteractionCreate)
    (project : String) : String × Files :=
  let projectName := trimSpace project
  if projectName = "" then ("project name is required", files)
  else
    let authorID :=
      match i.Member with
      | some ⟨some u, _⟩ => trimSpace u.ID
      | _ => ""
    let baseSlug := slugify projectName
    match findAvailableSlug cenv.os files baseSlug with
    | Except.error err => ("error: " ++ err, files)
    | Except.ok uniqueSlug =>
    match ensureProjectRoles cenv i.GuildID uniqueSlug with
    | Except.error err => ("error: failed to create roles: " ++ err, files)
    | Except.ok (memberRoleID, leaderRoleID) =>
    match createProjectCategory cenv i.GuildID projectName [memberRoleID, leaderRoleID] with
    | Except.error err => ("error: " ++ err, files)
    | Except.ok categoryID =>
    let members : GoMap String := if authorID ≠ "" then [(authorID, Leader)] else []
    let p : Project :=
      { GuildID := i.GuildID, Name := projectName, Slug := uniqueSlug, Members := members,
        ForumChannelIDs := [], MemberRoleID := memberRoleID, LeaderRoleID := leaderRoleID,
        CategoryID := categoryID, ForumTagIDs := [], Tasks := [] }
    match createFile cenv.os files p with
    | (some _, files1) => ("created roles/category, but failed to save project json", files1)
    | (none, files1) =>
      ("created roles **" ++ uniqueSlug ++ "-member**/**" ++ uniqueSlug ++
        "-leader**, private category **" ++ projectName ++ "**", files1)

/-- The name `findAvailableSlug` tries at position `n` of its sequence: the
base itself first, then the base with the counter. -/
def slugCandidate (base : String) (n : Nat) : String :=
  if n ≤ 1 then base else base ++ "-" ++ toString n

/-- The store has a record file for the slug. -/
def HasRecord (files : Files) (slug : String) : Prop :=
  (mapGet files (projectPathBySlug slug)).isSome = true

instance instDecidableHasRecord (files : Files) (slug : String) :
    Decidable (HasRecord files slug) :=
  inferInstanceAs (Decidable ((mapGet files (projectPathBySlug slug)).isSome = true))

/-- The external calls of one invocation of `/kanban create` succeed for the
slug and the name: the roles are created or found with the IDs `mr` and
`lr`, the category is created with the ID `c`, and the file system accepts
every call. -/
def CreateSucceeds (cenv : CreateEnv) (i : InteractionCreate) (slug name mr lr c : String) :
    Prop :=
  cenv.os.mkdirErr = none ∧ cenv.os.statErr = none ∧ cenv.os.writeErr = none ∧
  cenv.os.renameErr = none ∧
  ensureProjectRoles cenv i.GuildID slug = Except.ok (mr, lr) ∧
  createProjectCategory cenv i.GuildID name [mr, lr] = Except.ok c

/-- The record is the one an invocation of `/kanban create` writes for the
name and the slug, with the roles and the category created for it. -/
def CreatedBy (p : Project) (i : InteractionCreate) (slug name mr lr c : String) : Prop :=
  p.Slug = slug ∧ p.Name = name ∧ p.GuildID = trimSpace i.GuildID ∧
  p.MemberRoleID = trimSpace mr ∧ p.LeaderRoleID = trimSpace lr ∧ p.CategoryID = trimSpace c ∧
  p.ForumChannelIDs = [] ∧ p.ForumTagIDs = [] ∧ p.Tasks = []

/-- The files after a sequence of invocations of `/kanban create`, each
given by the behaviour of the platform and the store during it, the
interaction and the text of the option `project`, and each run on the files
the one before it left. -/
def createAll (files : Files) : List (CreateEnv × InteractionCreate × String) → Files
  | [] => files
  | call :: rest => createAll (handleKanbanCreate call.1 files call.2.1 call.2.2).2 rest

/-- A platform on which the roles and the category of a project are created,
with IDs made from the slug and the name. -/
def exCreateEnv : CreateEnv :=
  { os := exEnv
    roles := fun _ slug => Except.ok ("RM-" ++ slug, "RL-" ++ slug)
    category := fun _ name => Except.ok ("C-" ++ name) }

/-- What the loop `Clean ForumTagIDs` leaves under a key that is trimmed and
not empty: the cleaned tag map, and nothing for a `nil` one. -/
def cleanForumEntry : Option (Option (GoMap String)) → Option (Option (GoMap String))
  | some (some m) => some (some (cleanTagMap m))
  | _ => none

/-- The record without the content of its members map. -/
def eraseMembers (p : Project) : Project := { p with Members := [] }

/-- The records by name, each without the content of its members map. -/
def eraseMembersAll (files : GoMap Project) : GoMap Project :=
  files.map (fun e => (e.1, eraseMembers e.2))

/-- The interaction without the live role list of the caller. -/
def eraseRoles (i : InteractionCreate) : InteractionCreate :=
  { i with Member := i.Member.map (fun m => { m with Roles := [] }) }

/-- The writes of a log that go to the platform: all but the writes of
record files. -/
def externalWrites (log : List Effect) : List Effect :=
  log.filter (fun e => !isStoreWrite e)

/-- What an invocation shows apart from the members maps: its response, its
writes to the platform, and the files afterwards without the content of the
members maps. -/
def observe (out : Outcome) : String × List Effect × Files :=
  (out.response, externalWrites out.log, eraseMembersAll out.files)

/-- How many entries of the association list carry the key (a Go map holds at
most one). -/
def keyCount {V : Type} (m : GoMap V) (k : String) : Nat := (mapKeys m).count k

/-- A task of thread `T` whose record holds no panel message ID (the JSON
field `status_message_id` is optional). -/
def exTaskNoPanel : ProjectTask := { exTask TaskToDo "" "" "" with StatusMessageID := "" }

/-- The platform of the scenarios at a later invocation: the next message it
creates has the ID `M3`. -/
def exEnvNext : Env := { exEnv with sendEmbed := Except.ok (some "M3") }

/-- A store with one record file, `beta.json`, whose record has the name
`Alpha` and no slug. -/
def exFilesNoSlug : Files := [("beta.json", { exProject [] with Slug := "" })]

/-- A record with white space around a forum ID, a member ID and a status,
and with a task whose thread ID is not its key. -/
def exUntrimmed : Project :=
  { exProject [("T", { exTask " done " "" "" "" with ThreadID := "X" })] with
    ForumChannelIDs := [" F "], Members := [(" U ", Member)] }

/-! ## Scenarios for the store and the tags of a forum -/

/-- The forum of the scenarios with two tags whose names differ by leading
white space only: `ToDo` with the ID `1` and ` ToDo` with the ID `9`. -/
def exForumTwoToDo : Channel :=
  { exForum with AvailableTags := [⟨"1", "ToDo"⟩, ⟨"9", " ToDo"⟩] }

/-- The platform of the scenarios with that forum. -/
def exEnvTwoToDo : Env :=
  { exEnv with
    stateChannel := fun id =>
      if id = "T" then some exThread else if id = "F" then some exForumTwoToDo else none }

/-- A store in which two record files carry the slug `alpha`: the record file
of the project and a copy of it under another name. -/
def exFilesTwins : Files := [("alpha.json", exProject []), ("beta.json", exProject [])]

/-- The platform of the scenarios at a later invocation: the next panel
message it creates has the ID `M9`. -/
def exEnvLater : Env := { exEnv with sendEmbed := Except.ok (some "M9") }

/-! ## Lemmas on strings -/

theorem trimBoth_head (q : Char → Bool) (l : List Char) (c : Char)
    (h : ((l.dropWhile q).rdropWhile q).head? = some c) : q c = false := by
  have hp : (l.dropWhile q).rdropWhile q <+: l.dropWhile q := List.rdropWhile_prefix q _
  obtain ⟨t, ht⟩ := hp
  have hx : (l.dropWhile q).head? = some c := by
    rw [← ht]
    cases hr : (l.dropWhile q).rdropWhile q with
    | nil => rw [hr] at h; simp at h
    | cons a r => rw [hr] at h; simpa using h
  have := List.head?_dropWhile_not q l
  rw [hx] at this
  simpa using this

theorem trimBoth_last (q : Char → Bool) (l : List Char) (c : Char)
    (h : ((l.dropWhile q).rdropWhile q).getLast? = some c) : q c = false := by
  have hne : (l.dropWhile q).rdropWhile q ≠ [] := by
    intro h0; rw [h0] at h; simp at h
  have := List.rdropWhile_last_not q (l.dropWhile q) hne
  rw [List.getLast?_eq_getLast _ hne] at h
  simp only [Option.some.injEq] at h
  rw [h] at this
  simpa using this

theorem trimBoth_fix (q : Char → Bool) (l : List Char)
    (h1 : ∀ c, l.head? = some c → q c = false)
    (h2 : ∀ c, l.getLast? = some c → q c = false) :
    (l.dropWhile q).rdropWhile q = l := by
  have e1 : l.dropWhile q = l := by
    cases l with
    | nil => rfl
    | cons a r =>
      have := h1 a (by simp)
      simp [List.dropWhile, this]
  rw [e1]
  rw [List.rdropWhile_eq_self_iff]
  intro hl
  have := h2 (l.getLast hl) (List.getLast?_eq_getLast _ hl)
  simp [this]

theorem trimBoth_mem (q : Char → Bool) (l : List Char) (c : Char)
    (h : c ∈ (l.dropWhile q).rdropWhile q) : c ∈ l :=
  (List.dropWhile_suffix q).subset ((List.rdropWhile_prefix q _).subset h)

theorem trimChars_idem (l : List Char) : trimChars (trimChars l) = trimChars l :=
  trimBoth_fix isSpace _ (trimBoth_head isSpace l) (trimBoth_last isSpace l)

theorem trimSpace_idem (s : String) : trimSpace (trimSpace s) = trimSpace s := by
  simp [trimSpace, trimChars_idem]

theorem trimSpace_empty : trimSpace "" = "" := by decide

theorem slugChar_not_space (c : Char) (h : slugChar c = true) : isSpace c = false := by
  simp only [slugChar, isSpace, Bool.or_eq_true, Bool.and_eq_true, decide_eq_true_eq] at h
  simp only [isSpace, Bool.or_eq_false_iff, Bool.and_eq_false_imp, decide_eq_false_iff_not,
    decide_eq_true_eq]
  omega

theorem slugChar_lower (c : Char) (h : slugChar c = true) : toLowerRune c = c := by
  simp only [slugChar, Bool.or_eq_true, Bool.and_eq_true, decide_eq_true_eq] at h
  unfold toLowerRune
  rw [if_neg (by omega), if_neg (by omega), if_neg (by omega)]

theorem slugChar_ne_blank (c : Char) (h : slugChar c = true) : c ≠ ' ' := by
  intro hc
  rw [hc] at h
  exact absurd h (by decide)

/-- A text made of slug characters that neither starts nor ends with a dash
and is not empty is left as it is by `slugify`. -/
theorem slugify_fix (l : List Char) (hall : ∀ c ∈ l, slugChar c = true)
    (hh : ∀ c, l.head? = some c → isDash c = false)
    (hl : ∀ c, l.getLast? = some c → isDash c = false) (hne : l ≠ []) :
    slugify (String.mk l) = String.mk l := by
  have e1 : trimSpace (String.mk l) = String.mk l := by
    simp only [trimSpace, trimChars]
    rw [trimBoth_fix isSpace l]
    · intro c hc
      exact slugChar_not_space c (hall c (List.mem_of_mem_head? hc))
    · intro c hc
      exact slugChar_not_space c (hall c (List.mem_of_mem_getLast? hc))
  have e2 : l.map toLowerRune = l := by
    conv_rhs => rw [← List.map_id l]
    apply List.map_congr_left
    intro c hc
    simpa using slugChar_lower c (hall c hc)
  have e3 : l.map (fun c => if c = ' ' then '-' else c) = l := by
    conv_rhs => rw [← List.map_id l]
    apply List.map_congr_left
    intro c hc
    simp [slugChar_ne_blank c (hall c hc)]
  have e4 : l.filter slugChar = l := List.filter_eq_self.mpr hall
  have e5 : (l.dropWhile isDash).rdropWhile isDash = l := trimBoth_fix isDash l hh hl
  have e6 : String.mk l ≠ "" := by
    intro h
    apply hne
    have := congrArg String.data h
    simpa using this
  simp only [slugify, e1, toLower, e2, e3, e4, e5, if_neg e6]

theorem slugify_eq (s : String) :
    slugify s = if String.mk (slugCore s) = "" then "project" else String.mk (slugCore s) := rfl

theorem slugify_ne_empty (s : String) : slugify s ≠ "" := by
  rw [slugify_eq]
  split
  · decide
  · assumption

theorem slugify_project : slugify "project" = "project" := by decide

theorem slugify_idem (s : String) : slugify (slugify s) = slugify s := by
  rw [slugify_eq s]
  split
  · exact slugify_project
  · rename_i hne
    apply slugify_fix
    · intro c hc
      have := trimBoth_mem isDash _ c hc
      exact (List.mem_filter.mp this).2
    · exact trimBoth_head isDash _
    · exact trimBoth_last isDash _
    · intro h0
      apply hne
      rw [h0]

/-! ## Lemmas on maps -/

section MapLemmas

variable {V : Type}

theorem mapGet_eq_none_iff (m : GoMap V) (k : String) :
    mapGet m k = none ↔ k ∉ mapKeys m := by
  induction m with
  | nil => simp [mapGet, mapKeys]
  | cons e rest ih =>
    obtain ⟨k1, v⟩ := e
    by_cases h : k1 = k
    · simp [mapGet, mapKeys, h]
    · have h2 : ¬ k = k1 := fun h3 => h h3.symm
      simp only [mapKeys] at ih
      simp [mapGet, mapKeys, h, h2, ih]

theorem mem_mapKeys_of_mapGet (m : GoMap V) (k : String) (v : V) (h : mapGet m k = some v) :
    k ∈ mapKeys m := by
  by_contra hk
  rw [(mapGet_eq_none_iff m k).mpr hk] at h
  cases h

theorem mem_mapKeys_mapDelete (m : GoMap V) (k k2 : String) :
    k2 ∈ mapKeys (mapDelete m k) ↔ k2 ∈ mapKeys m ∧ k2 ≠ k := by
  simp only [mapKeys, mapDelete, List.mem_map, List.mem_filter, decide_eq_true_eq]
  constructor
  · rintro ⟨e, ⟨he, hne⟩, rfl⟩
    exact ⟨⟨e, he, rfl⟩, hne⟩
  · rintro ⟨⟨e, he, rfl⟩, hne⟩
    exact ⟨e, ⟨he, hne⟩, rfl⟩

theorem mapDelete_cons (e : String × V) (rest : GoMap V) (k : String) :
    mapDelete (e :: rest) k = if e.1 = k then mapDelete rest k else e :: mapDelete rest k := by
  by_cases h : e.1 = k
  · simp [mapDelete, List.filter_cons, h]
  · simp [mapDelete, List.filter_cons, h]

theorem mapGet_mapDelete (m : GoMap V) (k k2 : String) :
    mapGet (mapDelete m k) k2 = if k2 = k then none else mapGet m k2 := by
  induction m with
  | nil => simp [mapGet, mapDelete]
  | cons e rest ih =>
    obtain ⟨k1, v⟩ := e
    rw [mapDelete_cons]
    by_cases h1 : k1 = k
    · subst h1
      by_cases h2 : k2 = k1
      · subst h2
        simpa using ih
      · have h3 : ¬ k1 = k2 := fun h => h2 h.symm
        simp [ih, h2, mapGet, h3]
    · by_cases h2 : k2 = k
      · subst h2
        simp [h1, mapGet, ih]
      · by_cases h3 : k1 = k2
        · simp [h1, mapGet, h3, h2]
        · simp [h1, mapGet, h3, ih, h2]

theorem mapGet_mapSet (m : GoMap V) (k k2 : String) (v : V) :
    mapGet (mapSet m k v) k2 = if k2 = k then some v else mapGet m k2 := by
  induction m with
  | nil =>
    by_cases h : k2 = k
    · simp [mapGet, mapSet, h]
    · have h3 : ¬ k = k2 := fun h4 => h h4.symm
      simp [mapGet, mapSet, h, h3]
  | cons e rest ih =>
    obtain ⟨k1, v1⟩ := e
    by_cases h1 : k1 = k
    · subst h1
      by_cases h2 : k2 = k1
      · simp [mapSet, mapGet, h2]
      · have h3 : ¬ k1 = k2 := fun h => h2 h.symm
        simp [mapSet, mapGet, h2, h3, mapGet_mapDelete]
    · by_cases h2 : k1 = k2
      · subst h2
        have h3 : ¬ k1 = k := h1
        simp [mapSet, mapGet, h1]
      · simp [mapSet, mapGet, h1, h2, ih]

theorem mem_mapKeys_mapSet (m : GoMap V) (k k2 : String) (v : V) :
    k2 ∈ mapKeys (mapSet m k v) ↔ k2 = k ∨ k2 ∈ mapKeys m := by
  constructor
  · intro h
    by_cases hk : k2 = k
    · exact Or.inl hk
    · right
      by_contra hn
      have h1 := (mapGet_eq_none_iff m k2).mpr hn
      have h2 : mapGet (mapSet m k v) k2 = none := by rw [mapGet_mapSet, if_neg hk, h1]
      exact (mapGet_eq_none_iff _ _).mp h2 h
  · intro h
    by_contra hn
    have h1 := (mapGet_eq_none_iff _ _).mpr hn
    rw [mapGet_mapSet] at h1
    split at h1
    · cases h1
    · rename_i hk
      rcases h with h | h
      · exact hk h
      · exact (mapGet_eq_none_iff _ _).mp h1 h

theorem mem_mapSet (m : GoMap V) (k : String) (v : V) (e : String × V)
    (h : e ∈ mapSet m k v) : e = (k, v) ∨ e ∈ m := by
  induction m with
  | nil => simpa [mapSet] using h
  | cons e1 rest ih =>
    obtain ⟨k1, v1⟩ := e1
    by_cases h1 : k1 = k
    · simp only [mapSet, h1, if_true, List.mem_cons] at h
      rcases h with h | h
      · exact Or.inl h
      · right
        simp only [mapDelete, List.mem_filter] at h
        exact List.mem_cons_of_mem _ h.1
    · simp only [mapSet, h1, if_false, List.mem_cons] at h
      rcases h with h | h
      · right; rw [h]; exact List.mem_cons_self _ _
      · rcases ih h with h2 | h2
        · exact Or.inl h2
        · exact Or.inr (List.mem_cons_of_mem _ h2)

end MapLemmas

/-! ## Lemmas on `normalizeProject` -/

theorem goodKey_trim (k : String) (h : trimSpace k ≠ "") : GoodKey (trimSpace k) :=
  ⟨trimSpace_idem k, h⟩

theorem trimSpace_todo : trimSpace TaskToDo = TaskToDo := by decide

theorem normalizeTask_normal (tid : String) (h : GoodKey tid) (t : ProjectTask) :
    TaskNormal (normalizeTask tid t) := by
  unfold TaskNormal normalizeTask
  refine ⟨?_, ?_, trimSpace_idem _, ?_, trimSpace_idem _, trimSpace_idem _, trimSpace_idem _,
    trimSpace_idem _⟩
  · simp only
    split
    · exact h.1
    · exact trimSpace_idem _
  · simp only
    split
    · exact h.2
    · assumption
  · simp only
    split
    · decide
    · assumption

theorem normalizeTask_fix (tid : String) (t : ProjectTask) (h : TaskNormal t) :
    normalizeTask tid t = t := by
  obtain ⟨h1, h2, h3, h4, h5, h6, h7, h8⟩ := h
  have h1b : ¬ trimSpace t.ThreadID = "" := by rw [h1]; exact h2
  cases t
  simp only [normalizeTask] at *
  simp only [h1, h3, h5, h6, h7, h8, if_neg h2, if_neg h4]

theorem cleanTasksStep_keys (m : GoMap ProjectTask) (k k2 : String)
    (h : k2 ∈ mapKeys (cleanTasksStep m k)) :
    GoodKey k2 ∨ (k2 ∈ mapKeys m ∧ k2 ≠ k) := by
  unfold cleanTasksStep at h
  cases hget : mapGet m k with
  | none =>
    rw [hget] at h
    simp only at h
    right
    refine ⟨h, ?_⟩
    intro hk
    rw [hk] at h
    exact (mapGet_eq_none_iff m k).mp hget h
  | some t =>
    rw [hget] at h
    simp only at h
    by_cases hb : trimSpace k = ""
    · rw [if_pos hb] at h
      exact Or.inr ((mem_mapKeys_mapDelete m k k2).mp h)
    · rw [if_neg hb] at h
      rcases (mem_mapKeys_mapSet _ _ _ _).mp h with h1 | h1
      · left; rw [h1]; exact goodKey_trim k hb
      · by_cases ht : trimSpace k = k
        · rw [if_neg (by simpa using ht)] at h1
          by_cases hk : k2 = k
          · left; rw [hk]; exact ⟨ht, by rw [← ht]; exact hb⟩
          · exact Or.inr ⟨h1, hk⟩
        · rw [if_pos (by simpa using ht)] at h1
          exact Or.inr ((mem_mapKeys_mapDelete m k k2).mp h1)

theorem cleanTasks_fold_keys (ks : List String) (m : GoMap ProjectTask)
    (h : ∀ k ∈ mapKeys m, GoodKey k ∨ k ∈ ks) :
    ∀ k ∈ mapKeys (ks.foldl cleanTasksStep m), GoodKey k := by
  induction ks generalizing m with
  | nil =>
    intro k hk
    rcases h k hk with h1 | h1
    · exact h1
    · cases h1
  | cons k0 ks ih =>
    rw [List.foldl_cons]
    apply ih
    intro k2 hk2
    rcases cleanTasksStep_keys m k0 k2 hk2 with h1 | ⟨h1, h2⟩
    · exact Or.inl h1
    · rcases h k2 h1 with h3 | h3
      · exact Or.inl h3
      · right
        rcases List.mem_cons.mp h3 with h4 | h4
        · exact absurd h4 h2
        · exact h4

/-- After `normalizeProject` every task key is trimmed and not empty. -/
theorem cleanTasks_keys (m : GoMap ProjectTask) :
    ∀ k ∈ mapKeys (cleanTasks m), GoodKey k :=
  cleanTasks_fold_keys (mapKeys m) m (fun _ hk => Or.inr hk)

theorem cleanTasksStep_values (m : GoMap ProjectTask) (k k2 : String) (t2 : ProjectTask)
    (h : mapGet (cleanTasksStep m k) k2 = some t2) :
    TaskNormal t2 ∨ (mapGet m k2 = some t2 ∧ k2 ≠ k) := by
  unfold cleanTasksStep at h
  cases hget : mapGet m k with
  | none =>
    rw [hget] at h
    simp only at h
    right
    refine ⟨h, ?_⟩
    intro hk
    rw [hk, hget] at h
    cases h
  | some t =>
    rw [hget] at h
    simp only at h
    by_cases hb : trimSpace k = ""
    · rw [if_pos hb, mapGet_mapDelete] at h
      by_cases hk : k2 = k
      · rw [if_pos hk] at h; cases h
      · rw [if_neg hk] at h; exact Or.inr ⟨h, hk⟩
    · rw [if_neg hb, mapGet_mapSet] at h
      by_cases h2 : k2 = trimSpace k
      · rw [if_pos h2] at h
        left
        cases h
        exact normalizeTask_normal _ (goodKey_trim k hb) t
      · rw [if_neg h2] at h
        by_cases ht : trimSpace k = k
        · rw [if_neg (by simpa using ht)] at h
          exact Or.inr ⟨h, by rw [← ht]; exact h2⟩
        · rw [if_pos (by simpa using ht), mapGet_mapDelete] at h
          by_cases hk : k2 = k
          · rw [if_pos hk] at h; cases h
          · rw [if_neg hk] at h; exact Or.inr ⟨h, hk⟩

theorem cleanTasks_fold_values (ks : List String) (m : GoMap ProjectTask)
    (h : ∀ k t, mapGet m k = some t → TaskNormal t ∨ k ∈ ks) :
    ∀ k t, mapGet (ks.foldl cleanTasksStep m) k = some t → TaskNormal t := by
  induction ks generalizing m with
  | nil =>
    intro k t hk
    rcases h k t hk with h1 | h1
    · exact h1
    · cases h1
  | cons k0 ks ih =>
    rw [List.foldl_cons]
    apply ih
    intro k2 t2 hk2
    rcases cleanTasksStep_values m k0 k2 t2 hk2 with h1 | ⟨h1, h2⟩
    · exact Or.inl h1
    · rcases h k2 t2 h1 with h3 | h3
      · exact Or.inl h3
      · right
        rcases List.mem_cons.mp h3 with h4 | h4
        · exact absurd h4 h2
        · exact h4

/-- After `normalizeProject` every task is in normal form. -/
theorem cleanTasks_values (m : GoMap ProjectTask) :
    ∀ k t, mapGet (cleanTasks m) k = some t → TaskNormal t :=
  cleanTasks_fold_values (mapKeys m) m
    (fun k t hk => Or.inr (mem_mapKeys_of_mapGet m k t hk))

theorem cleanTasksStep_good (m : GoMap ProjectTask) (k k2 : String) (hk : GoodKey k) :
    mapGet (cleanTasksStep m k) k2 =
      if k2 = k then (mapGet m k).map (normalizeTask k) else mapGet m k2 := by
  unfold cleanTasksStep
  cases hget : mapGet m k with
  | none =>
    simp only [Option.map_none']
    by_cases h : k2 = k
    · rw [if_pos h, h, hget]
    · rw [if_neg h]
  | some t =>
    simp only [Option.map_some']
    rw [if_neg (by rw [hk.1]; exact hk.2), if_neg (by simpa using hk.1), mapGet_mapSet, hk.1]

theorem cleanTasksStep_good_keys (m : GoMap ProjectTask) (k k2 : String) (hk : GoodKey k)
    (h : k2 ∈ mapKeys (cleanTasksStep m k)) : k2 ∈ mapKeys m := by
  by_contra hn
  have h1 := (mapGet_eq_none_iff m k2).mpr hn
  have h2 : mapGet (cleanTasksStep m k) k2 = none := by
    rw [cleanTasksStep_good m k k2 hk]
    by_cases h3 : k2 = k
    · rw [if_pos h3, ← h3, h1]; rfl
    · rw [if_neg h3, h1]
  exact (mapGet_eq_none_iff _ _).mp h2 h

theorem normalizeTask_idem (k : String) (hk : GoodKey k) (t : ProjectTask) :
    normalizeTask k (normalizeTask k t) = normalizeTask k t :=
  normalizeTask_fix k _ (normalizeTask_normal k hk t)

theorem cleanTasks_fold_good (ks : List String) (m : GoMap ProjectTask)
    (hks : ∀ k ∈ ks, GoodKey k) (k : String) :
    mapGet (ks.foldl cleanTasksStep m) k =
      if k ∈ ks then (mapGet m k).map (normalizeTask k) else mapGet m k := by
  induction ks generalizing m with
  | nil => simp
  | cons k0 ks ih =>
    have hk0 : GoodKey k0 := hks k0 (List.mem_cons_self _ _)
    rw [List.foldl_cons, ih _ (fun k hk => hks k (List.mem_cons_of_mem _ hk)),
      cleanTasksStep_good m k0 k hk0]
    by_cases h1 : k = k0
    · subst h1
      simp only [if_true, List.mem_cons, true_or]
      split
      · cases hg : mapGet m k with
        | none => rfl
        | some t => simp [normalizeTask_idem k hk0]
      · rfl
    · simp [h1]

/-- On a map whose keys are all trimmed and not empty the loop `Clean Tasks`
normalizes every task in place. -/
theorem cleanTasks_good (m : GoMap ProjectTask) (hm : ∀ k ∈ mapKeys m, GoodKey k)
    (k : String) : mapGet (cleanTasks m) k = (mapGet m k).map (normalizeTask k) := by
  unfold cleanTasks
  rw [cleanTasks_fold_good (mapKeys m) m hm k]
  split
  · rfl
  · rename_i h
    rw [(mapGet_eq_none_iff m k).mpr h]
    rfl

/-! ## Lemmas on the steps of a task command -/

theorem loaded_slug (p : Project) (h : Loaded p) : slugify p.Slug = p.Slug ∧ p.Slug ≠ "" := by
  obtain ⟨r, rfl⟩ := h
  simp only [normalizeProject]
  split
  · exact ⟨slugify_idem _, slugify_ne_empty _⟩
  · exact ⟨slugify_idem _, slugify_ne_empty _⟩

theorem loaded_keys (p : Project) (h : Loaded p) : ∀ k ∈ mapKeys p.Tasks, GoodKey k := by
  obtain ⟨r, rfl⟩ := h
  exact cleanTasks_keys r.Tasks

theorem loaded_values (p : Project) (h : Loaded p) :
    ∀ k t, mapGet p.Tasks k = some t → TaskNormal t := by
  obtain ⟨r, rfl⟩ := h
  exact cleanTasks_values r.Tasks

theorem loadStep_loaded (out : GoMap Project) (e : String × Project)
    (h : ∀ x ∈ out, Loaded x.2) : ∀ x ∈ loadStep out e, Loaded x.2 := by
  intro x hx
  unfold loadStep at hx
  simp only at hx
  split at hx
  · exact h x hx
  · split at hx
    · exact h x hx
    · have hs : ¬ (normalizeProject e.2).Slug = "" := (loaded_slug _ ⟨e.2, rfl⟩).2
      rw [if_neg hs] at hx
      rcases mem_mapSet _ _ _ _ hx with h1 | h1
      · rw [h1]; exact ⟨e.2, rfl⟩
      · exact h x h1

theorem load_fold_loaded (files : Files) (out : GoMap Project) (h : ∀ x ∈ out, Loaded x.2) :
    ∀ x ∈ files.foldl loadStep out, Loaded x.2 := by
  induction files generalizing out with
  | nil => exact h
  | cons e rest ih =>
    rw [List.foldl_cons]
    exact ih _ (loadStep_loaded out e h)

theorem load_all_files_loaded (env : Env) (files : Files) (projects : GoMap Project)
    (h : load_all_files env files = Except.ok projects) : ∀ x ∈ projects, Loaded x.2 := by
  unfold load_all_files at h
  split at h
  · cases h
  · cases h
    exact load_fold_loaded files [] (fun x hx => by cases hx)

theorem findProject_mem (projects : GoMap Project) (g f hint : String) (p : Project)
    (h : findProjectByThreadContext projects g f = (p, true, hint)) :
    p ∈ projects.map Prod.snd := by
  unfold findProjectByThreadContext at h
  simp only at h
  split at h
  · cases h
  · split at h
    · cases h
    · split at h
      · cases h
      · rename_i q hq
        have hp : q = p := by injection h
        have : q ∈ List.filter (projectMatches (trimSpace g) (trimSpace f))
            (projects.map Prod.snd) := by rw [hq]; exact List.mem_singleton_self q
        rw [← hp]
        exact (List.mem_filter.mp this).1
      · cases h

theorem resolved_loaded (env : Env) (files : Files) (i : InteractionCreate)
    (ctx : taskContext) (p : Project) (h : Resolved env files i ctx p) : Loaded p := by
  obtain ⟨_, _, projects, hint, hl, hf⟩ := h
  have hm := findProject_mem projects _ _ hint p hf
  obtain ⟨x, hx, rfl⟩ := List.mem_map.mp hm
  exact load_all_files_loaded env files projects hl x hx

theorem mustTaskContext_good (env : Env) (i : InteractionCreate) (ctx : taskContext)
    (h : mustTaskContext env i = Except.ok ctx) : GoodKey ctx.ThreadID ∧ GoodKey ctx.ForumID := by
  unfold mustTaskContext at h
  simp only at h
  split at h
  · cases h
  · rename_i h1
    split at h
    · cases h
    · cases h
    · split at h
      · cases h
      · split at h
        · cases h
        · rename_i h2
          cases h
          exact ⟨goodKey_trim _ h1, goodKey_trim _ h2⟩

theorem ensureForumTagMapping_frame (env : Env) (p p1 : Project) (f : String)
    (h : ensureForumTagMapping env p f = (p1, none)) :
    p1 = { p with ForumTagIDs := p1.ForumTagIDs } := by
  unfold ensureForumTagMapping at h
  simp only at h
  split at h
  · cases h
  · split at h
    · cases h; rfl
    · split at h
      · cases h
      · cases h
      · split at h
        · cases h
        · cases h; rfl

theorem isLeaderForProject_frame (i : InteractionCreate) (a : String) (p p1 : Project)
    (h : p1 = { p with ForumTagIDs := p1.ForumTagIDs }) :
    isLeaderForProject i a p1 = isLeaderForProject i a p := by
  rw [h]
  rfl

theorem applyStatusTagToThread_ok (env : Env) (p1 : Project) (f t st : String)
    (hf : GoodKey f) (ht : GoodKey t) (hst : st ∈ allStatuses) (htag : HasStatusTag p1 f st)
    (henv : env.editTagsErr = none) :
    ∃ log, applyStatusTagToThread env p1 f t st = Except.ok log := by
  unfold HasStatusTag at htag
  have hname : statusToTagName st ≠ "" := by
    simp only [allStatuses, List.mem_cons, List.mem_singleton, List.not_mem_nil, or_false] at hst
    rcases hst with h | h | h | h <;> (rw [h]; decide)
  have hlen : ¬ (forumTagMap p1 (trimSpace f)).length = 0 := by
    intro h0
    have : forumTagMap p1 (trimSpace f) = [] := List.length_eq_zero.mp h0
    rw [this] at htag
    exact htag trimSpace_empty
  unfold applyStatusTagToThread
  simp only
  rw [if_neg (by rw [ht.1]; exact ht.2), if_neg (by rw [hf.1]; exact hf.2), if_neg hname,
    if_neg hlen, if_neg htag, henv]
  exact ⟨_, rfl⟩

theorem upsertStatusPanel_ok (env : Env) (p1 : Project) (task : ProjectTask)
    (hsend : ∃ id, env.sendEmbed = Except.ok (some id) ∧ trimSpace id ≠ "")
    (hedit : env.editEmbedErr = none) :
    ∃ log, upsertStatusPanel env p1 task = (none, log) := by
  obtain ⟨id, hs, hid⟩ := hsend
  unfold upsertStatusPanel
  simp only
  by_cases hm : trimSpace task.StatusMessageID = ""
  · have he : ensureStatusPanel env p1 task = (Except.ok id,
        Effect.messageSendEmbed task.ThreadID (buildStatusEmbed p1 task) ::
          (if env.pinErr = none then [Effect.messagePin task.ThreadID id] else [])) := by
      unfold ensureStatusPanel
      rw [if_neg (by simpa using hm)]
      simp only [hs, if_neg hid]
    rw [if_pos hm, he]
    simp only [hedit]
    exact ⟨_, rfl⟩
  · rw [if_neg hm]
    simp only [hedit]
    exact ⟨_, rfl⟩

theorem ensureStatusPanel_ok (env : Env) (p1 : Project) (task : ProjectTask)
    (hsend : ∃ id, env.sendEmbed = Except.ok (some id) ∧ trimSpace id ≠ "") :
    ∃ id log, ensureStatusPanel env p1 task = (Except.ok id, log) ∧ trimSpace id ≠ "" ∧
      (trimSpace task.StatusMessageID ≠ "" → id = task.StatusMessageID) := by
  obtain ⟨id, hs, hid⟩ := hsend
  unfold ensureStatusPanel
  by_cases hm : trimSpace task.StatusMessageID = ""
  · rw [if_neg (by simpa using hm)]
    simp only [hs, if_neg hid]
    exact ⟨id, _, rfl, hid, fun h => absurd hm h⟩
  · rw [if_pos hm]
    exact ⟨_, _, rfl, hm, fun _ => rfl⟩

/-- A successful `updateFile` of a loaded project with one task replaced
leaves the normalized task in the record file of the project. -/
theorem updateFile_task (env : Env) (files : Files) (p p1 : Project) (T : String)
    (task : ProjectTask) (hp : Loaded p) (hp1 : p1 = { p with ForumTagIDs := p1.ForumTagIDs })
    (hT : GoodKey T)
    (h1 : env.mkdirErr = none) (h2 : env.statErr = none) (h3 : env.writeErr = none)
    (h4 : env.renameErr = none) (h5 : (mapGet files (projectPathBySlug p.Slug)).isSome = true) :
    ∃ files1, updateFile env files { p1 with Tasks := mapSet p1.Tasks T task } = (none, files1) ∧
      persistedTask files1 p.Slug T = some (normalizeTask T task) := by
  have hslug := loaded_slug p hp
  have hs1 : p1.Slug = p.Slug := by rw [hp1]
  have ht1 : p1.Tasks = p.Tasks := by rw [hp1]
  have hn : (normalizeProject { p1 with Tasks := mapSet p1.Tasks T task }).Slug = p.Slug := by
    simp only [normalizeProject, hs1, if_neg hslug.2, hslug.1]
  obtain ⟨r, hr⟩ := Option.isSome_iff_exists.mp h5
  have hu : updateFile env files { p1 with Tasks := mapSet p1.Tasks T task } =
      (none, mapSet (mapDelete (mapSet files (projectPathBySlug p.Slug ++ ".tmp")
        (normalizeProject { p1 with Tasks := mapSet p1.Tasks T task }))
        (projectPathBySlug p.Slug ++ ".tmp")) (projectPathBySlug p.Slug)
        (normalizeProject { p1 with Tasks := mapSet p1.Tasks T task })) := by
    unfold updateFile
    simp only [h1, h2, hn, if_neg hslug.2, hr, writeProjectAtomic, h3, h4]
  refine ⟨_, hu, ?_⟩
  unfold persistedTask
  rw [mapGet_mapSet, if_pos rfl]
  simp only [normalizeProject]
  have hk : ∀ k ∈ mapKeys (mapSet p1.Tasks T task), GoodKey k := by
    intro k hk
    rcases (mem_mapKeys_mapSet _ _ _ _).mp hk with h | h
    · rw [h]; exact hT
    · rw [ht1] at h; exact loaded_keys p hp k h
  rw [cleanTasks_good _ hk, mapGet_mapSet, if_pos rfl]
  rfl

/-- With every external call succeeding the closing steps answer with the
success text, write the record with `updateFile` and leave the normalized new
task in the record file. -/
theorem commitTask_ok (env : Env) (files : Files) (p p1 : Project) (ctx : taskContext)
    (task : ProjectTask) (log3 : List Effect) (okmsg : String)
    (hp : Loaded p) (hext : ExternalOk env files ctx p)
    (hens : ensureForumTagMapping env p ctx.ForumID = (p1, none))
    (hgood : GoodKey ctx.ThreadID ∧ GoodKey ctx.ForumID) (hst : task.Status ∈ allStatuses) :
    (commitTask env files p1 ctx task log3 okmsg).response = okmsg ∧
    persistedTask (commitTask env files p1 ctx task log3 okmsg).files p.Slug ctx.ThreadID =
      some (normalizeTask ctx.ThreadID task) ∧
    updateFile env files { p1 with Tasks := mapSet p1.Tasks ctx.ThreadID task } =
      (none, (commitTask env files p1 ctx task log3 okmsg).files) := by
  obtain ⟨_, htags, hE1, hE2, hE3, hE4, hE5, hE6, hE7, hE8⟩ := hext
  rw [hens] at htags
  have hframe := ensureForumTagMapping_frame env p p1 _ hens
  obtain ⟨log1, h1⟩ := applyStatusTagToThread_ok env p1 ctx.ForumID ctx.ThreadID task.Status
    hgood.2 hgood.1 hst (htags _ hst) hE1
  obtain ⟨log2, h2⟩ := upsertStatusPanel_ok env p1 task hE3 hE2
  obtain ⟨files1, h3, h4⟩ := updateFile_task env files p p1 ctx.ThreadID task hp hframe hgood.1
    hE4 hE5 hE6 hE7 hE8
  have hc : commitTask env files p1 ctx task log3 okmsg =
      respondEphemeral files1
        (log1 ++ log2 ++ log3 ++
          [Effect.storeWrite
            (projectPathBySlug
              (normalizeProject { p1 with Tasks := mapSet p1.Tasks ctx.ThreadID task }).Slug)
            (normalizeProject { p1 with Tasks := mapSet p1.Tasks ctx.ThreadID task })])
        okmsg := by
    unfold commitTask
    simp only [h1, h2, h3]
  rw [hc]
  exact ⟨rfl, h4, h3⟩

/-! ## The handlers after the shared opening steps -/

theorem resolved_task (env : Env) (files : Files) (i : InteractionCreate) (ctx : taskContext)
    (p p1 : Project) (task : ProjectTask) (hres : Resolved env files i ctx p)
    (hens : TagsResolved env ctx p p1) (htask : mapGet p.Tasks ctx.ThreadID = some task) :
    mapGet p1.Tasks ctx.ThreadID = some task ∧ TaskNormal task ∧
      ¬ trimSpace task.ThreadID = "" := by
  have hl := resolved_loaded env files i ctx p hres
  have hframe := ensureForumTagMapping_frame env p p1 _ hens
  have hnorm : TaskNormal task := loaded_values p hl _ _ htask
  refine ⟨by rw [hframe]; exact htask, hnorm, ?_⟩
  rw [hnorm.1]
  exact hnorm.2.1

theorem take_eq (env : Env) (files : Files) (i : InteractionCreate) (ctx : taskContext)
    (p p1 : Project) (task : ProjectTask) (hres : Resolved env files i ctx p)
    (hens : TagsResolved env ctx p p1) (hcaller : getAuthorID i ≠ "")
    (htask : mapGet p.Tasks ctx.ThreadID = some task) :
    handleKanbanTaskTake env files i =
      if task.Status ≠ TaskToDo then
        respondEphemeral files [] "not allowed: task status is not ToDo"
      else if trimSpace task.AssigneeUserID ≠ "" then
        respondEphemeral files [] "not allowed: task already taken"
      else
        commitTask env files p1 ctx
          { task with
            Status := TaskInProgress, AssigneeUserID := getAuthorID i, DoneDescription := "",
            ApprovedByUserID := "" } [] "taken ✅ (status set to InProgress)" := by
  obtain ⟨htask1, _, hthread⟩ := resolved_task env files i ctx p p1 task hres hens htask
  obtain ⟨hg, hctx, projects, hint, hload, hfind⟩ := hres
  unfold TagsResolved at hens
  unfold handleKanbanTaskTake
  simp only [hg, hcaller, hctx, hload, hfind, hens, htask1, hthread, ↓reduceIte]
  rfl

theorem done_eq (env : Env) (files : Files) (i : InteractionCreate) (description : String)
    (ctx : taskContext) (p p1 : Project) (task : ProjectTask)
    (hres : Resolved env files i ctx p) (hens : TagsResolved env ctx p p1)
    (hcaller : getAuthorID i ≠ "") (hdesc : trimSpace description ≠ "")
    (htask : mapGet p.Tasks ctx.ThreadID = some task) :
    handleKanbanTaskDone env files i description =
      if task.Status ≠ TaskInProgress then
        respondEphemeral files [] "not allowed: task status is not InProgress"
      else if isLeaderForProject i (getAuthorID i) p = false ∧
          trimSpace task.AssigneeUserID ≠ getAuthorID i then
        respondEphemeral files [] "not allowed: only assignee or leader can do this"
      else
        commitTask env files p1 ctx
          { task with
            Status := TaskWaitingForApprove, DoneDescription := trimSpace description,
            ApprovedByUserID := "" }
          (if env.sendErr = none then
            [Effect.messageSend ctx.ThreadID
              ("🟦 Submitted for approval by <@" ++ getAuthorID i ++ ">\n\n" ++
                trimSpace description)]
          else [])
          "submitted ✅ (status set to WaitingForApprove)" := by
  obtain ⟨htask1, _, hthread⟩ := resolved_task env files i ctx p p1 task hres hens htask
  obtain ⟨hg, hctx, projects, hint, hload, hfind⟩ := hres
  unfold TagsResolved at hens
  have hlead := isLeaderForProject_frame i (getAuthorID i) p p1
    (ensureForumTagMapping_frame env p p1 _ hens)
  unfold handleKanbanTaskDone
  simp only [hg, hcaller, hdesc, hctx, hload, hfind, hens, htask1, hthread, hlead, ↓reduceIte]
  rfl

theorem surrender_eq (env : Env) (files : Files) (i : InteractionCreate) (ctx : taskContext)
    (p p1 : Project) (task : ProjectTask) (hres : Resolved env files i ctx p)
    (hens : TagsResolved env ctx p p1) (hcaller : getAuthorID i ≠ "")
    (htask : mapGet p.Tasks ctx.ThreadID = some task) :
    handleKanbanTaskSurrender env files i =
      if task.Status ≠ TaskInProgress then
        respondEphemeral files [] "not allowed: task status is not InProgress"
      else if isLeaderForProject i (getAuthorID i) p = false ∧
          trimSpace task.AssigneeUserID ≠ getAuthorID i then
        respondEphemeral files [] "not allowed: only assignee or leader can surrender"
      else
        commitTask env files p1 ctx
          { task with
            Status := TaskToDo, AssigneeUserID := "", DoneDescription := "",
            ApprovedByUserID := "" } [] "surrendered ✅ (back to ToDo)" := by
  obtain ⟨htask1, _, hthread⟩ := resolved_task env files i ctx p p1 task hres hens htask
  obtain ⟨hg, hctx, projects, hint, hload, hfind⟩ := hres
  unfold TagsResolved at hens
  have hlead := isLeaderForProject_frame i (getAuthorID i) p p1
    (ensureForumTagMapping_frame env p p1 _ hens)
  unfold handleKanbanTaskSurrender
  simp only [hg, hcaller, hctx, hload, hfind, hens, htask1, hthread, hlead, ↓reduceIte]
  rfl

theorem approve_not_leader (env : Env) (files : Files) (i : InteractionCreate)
    (ctx : taskContext) (p : Project) (hres : Resolved env files i ctx p)
    (hcaller : getAuthorID i ≠ "") (hlead : isLeaderForProject i (getAuthorID i) p = false) :
    handleKanbanTaskApprove env files i =
      respondEphemeral files [] "not allowed: only project leader can approve" := by
  obtain ⟨hg, hctx, projects, hint, hload, hfind⟩ := hres
  unfold handleKanbanTaskApprove
  simp only [hg, hcaller, hctx, hload, hfind, hlead, ↓reduceIte]

theorem revoke_not_leader (env : Env) (files : Files) (i : InteractionCreate)
    (ctx : taskContext) (p : Project) (hres : Resolved env files i ctx p)
    (hcaller : getAuthorID i ≠ "") (hlead : isLeaderForProject i (getAuthorID i) p = false) :
    handleKanbanTaskRevoke env files i =
      respondEphemeral files [] "not allowed: only project leader can revoke" := by
  obtain ⟨hg, hctx, projects, hint, hload, hfind⟩ := hres
  unfold handleKanbanTaskRevoke
  simp only [hg, hcaller, hctx, hload, hfind, hlead, ↓reduceIte]

theorem approve_eq (env : Env) (files : Files) (i : InteractionCreate) (ctx : taskContext)
    (p p1 : Project) (task : ProjectTask) (hres : Resolved env files i ctx p)
    (hens : TagsResolved env ctx p p1) (hcaller : getAuthorID i ≠ "")
    (hlead : isLeaderForProject i (getAuthorID i) p = true)
    (htask : mapGet p.Tasks ctx.ThreadID = some task) :
    handleKanbanTaskApprove env files i =
      if task.Status ≠ TaskWaitingForApprove then
        respondEphemeral files [] "not allowed: task status is not WaitingForApprove"
      else
        commitTask env files p1 ctx
          { task with Status := TaskDone, ApprovedByUserID := getAuthorID i }
          (if env.sendErr = none then
            [Effect.messageSend ctx.ThreadID
              ("✅ Approved by <@" ++ getAuthorID i ++ "> at " ++ env.now)]
          else [])
          "approved ✅ (status set to Done)" := by
  obtain ⟨htask1, _, hthread⟩ := resolved_task env files i ctx p p1 task hres hens htask
  obtain ⟨hg, hctx, projects, hint, hload, hfind⟩ := hres
  unfold TagsResolved at hens
  unfold handleKanbanTaskApprove
  simp only [hg, hcaller, hctx, hload, hfind, hens, htask1, hthread, hlead, ↓reduceIte]
  rfl

theorem revoke_eq (env : Env) (files : Files) (i : InteractionCreate) (ctx : taskContext)
    (p p1 : Project) (task : ProjectTask) (hres : Resolved env files i ctx p)
    (hens : TagsResolved env ctx p p1) (hcaller : getAuthorID i ≠ "")
    (hlead : isLeaderForProject i (getAuthorID i) p = true)
    (htask : mapGet p.Tasks ctx.ThreadID = some task) :
    handleKanbanTaskRevoke env files i =
      if task.Status ≠ TaskWaitingForApprove then
        respondEphemeral files [] "not allowed: task status is not WaitingForApprove"
      else
        commitTask env files p1 ctx
          { task with Status := TaskInProgress, ApprovedByUserID := "", DoneDescription := "" }
          [] "revoked ✅ (back to InProgress)" := by
  obtain ⟨htask1, _, hthread⟩ := resolved_task env files i ctx p p1 task hres hens htask
  obtain ⟨hg, hctx, projects, hint, hload, hfind⟩ := hres
  unfold TagsResolved at hens
  unfold handleKanbanTaskRevoke
  simp only [hg, hcaller, hctx, hload, hfind, hens, htask1, hthread, hlead, ↓reduceIte]
  rfl

theorem getAuthorID_trim (i : InteractionCreate) : trimSpace (getAuthorID i) = getAuthorID i := by
  unfold getAuthorID
  split
  · exact trimSpace_idem _
  · split
    · exact trimSpace_idem _
    · exact trimSpace_empty

theorem externalOk_tags (env : Env) (files : Files) (ctx : taskContext) (p : Project)
    (h : ExternalOk env files ctx p) :
    TagsResolved env ctx p (ensureForumTagMapping env p ctx.ForumID).1 :=
  Prod.ext rfl h.1

theorem respond_ne (files : Files) (log : List Effect) (a b : String) (h : a ≠ b) :
    (respondEphemeral files log a).response ≠ b := h

theorem inProgress_not_blank : trimSpace TaskInProgress ≠ "" := by decide

theorem waiting_not_blank : trimSpace TaskWaitingForApprove ≠ "" := by decide

theorem done_not_blank : trimSpace TaskDone ≠ "" := by decide

theorem todo_not_blank : trimSpace TaskToDo ≠ "" := by decide

theorem mem_allStatuses_todo : TaskToDo ∈ allStatuses := by decide

theorem mem_allStatuses_inProgress : TaskInProgress ∈ allStatuses := by decide

theorem mem_allStatuses_waiting : TaskWaitingForApprove ∈ allStatuses := by decide

theorem mem_allStatuses_done : TaskDone ∈ allStatuses := by decide

/-- With every external call succeeding, task-take on a loaded task with
status ToDo and no assignee answers with its success text and leaves the
taken task in the record file. -/
theorem take_accept (env : Env) (files : Files) (i : InteractionCreate)
    (ctx : taskContext) (p : Project) (task : ProjectTask)
    (hres : Resolved env files i ctx p) (hext : ExternalOk env files ctx p)
    (hcaller : getAuthorID i ≠ "") (htask : mapGet p.Tasks ctx.ThreadID = some task)
    (hs : task.Status = TaskToDo) (ha : task.AssigneeUserID = "") :
    (handleKanbanTaskTake env files i).response = "taken ✅ (status set to InProgress)" ∧
    persistedTask (handleKanbanTaskTake env files i).files p.Slug ctx.ThreadID =
      some { task with
        Status := TaskInProgress, AssigneeUserID := getAuthorID i, DoneDescription := "",
        ApprovedByUserID := "" } := by
  have hl := resolved_loaded env files i ctx p hres
  have hens := externalOk_tags env files ctx p hext
  have hgood := mustTaskContext_good env i ctx hres.2.1
  obtain ⟨_, hn, _⟩ := resolved_task env files i ctx p _ task hres hens htask
  obtain ⟨n1, n2, n3, n4, n5, n6, n7, n8⟩ := hn
  rw [take_eq env files i ctx p _ task hres hens hcaller htask]
  have hc := commitTask_ok env files p _ ctx
    { task with
      Status := TaskInProgress, AssigneeUserID := getAuthorID i, DoneDescription := "",
      ApprovedByUserID := "" } [] "taken ✅ (status set to InProgress)" hl hext hens hgood
    mem_allStatuses_inProgress
  have hfix : TaskNormal { task with
      Status := TaskInProgress, AssigneeUserID := getAuthorID i, DoneDescription := "",
      ApprovedByUserID := "" } :=
    ⟨n1, n2, n3, inProgress_not_blank, getAuthorID_trim i, n6, trimSpace_empty, trimSpace_empty⟩
  rw [normalizeTask_fix _ _ hfix] at hc
  have ha2 : ¬ trimSpace task.AssigneeUserID ≠ "" := by rw [n5]; simpa using ha
  rw [if_neg (by simpa using hs), if_neg ha2]
  exact ⟨hc.1, hc.2.1⟩

/-- C1 (task-take). With the project resolved, every external call
succeeding and a caller ID that is not empty, task-take on an initialised
thread answers with its success text exactly when the loaded task has status
ToDo and no assignee; the record file then holds the task with status
InProgress, the caller as assignee, no done-description and no approver, and
with its thread ID, forum ID and panel message ID as they were. -/
theorem task_take_contract (env : Env) (files : Files) (i : InteractionCreate)
    (ctx : taskContext) (p : Project) (task : ProjectTask)
    (hres : Resolved env files i ctx p) (hext : ExternalOk env files ctx p)
    (hcaller : getAuthorID i ≠ "") (htask : mapGet p.Tasks ctx.ThreadID = some task) :
    ((handleKanbanTaskTake env files i).response = "taken ✅ (status set to InProgress)" ↔
      task.Status = TaskToDo ∧ task.AssigneeUserID = "") ∧
    (task.Status = TaskToDo ∧ task.AssigneeUserID = "" →
      persistedTask (handleKanbanTaskTake env files i).files p.Slug ctx.ThreadID =
        some { task with
          Status := TaskInProgress, AssigneeUserID := getAuthorID i, DoneDescription := "",
          ApprovedByUserID := "" }) := by
  have hens := externalOk_tags env files ctx p hext
  obtain ⟨_, hn, _⟩ := resolved_task env files i ctx p _ task hres hens htask
  refine ⟨⟨?_, fun h => (take_accept env files i ctx p task hres hext hcaller htask h.1 h.2).1⟩,
    fun h => (take_accept env files i ctx p task hres hext hcaller htask h.1 h.2).2⟩
  rw [take_eq env files i ctx p _ task hres hens hcaller htask]
  intro h
  by_cases hs : task.Status = TaskToDo
  · by_cases ha : task.AssigneeUserID = ""
    · exact ⟨hs, ha⟩
    · have ha2 : trimSpace task.AssigneeUserID ≠ "" := by rw [hn.2.2.2.2.1]; exact ha
      rw [if_neg (by simpa using hs), if_pos ha2] at h
      exact absurd h (respond_ne _ _ _ _ (by decide))
  · rw [if_pos hs] at h
    exact absurd h (respond_ne _ _ _ _ (by decide))

theorem done_blank (env : Env) (files : Files) (i : InteractionCreate) (description : String)
    (hg : mustGuild i = none) (hd : trimSpace description = "") :
    handleKanbanTaskDone env files i description =
      respondEphemeral files [] "error: description is required" := by
  unfold handleKanbanTaskDone
  simp only [hg, hd, ↓reduceIte]

/-- C2 (task-done). With the project resolved, every external call
succeeding and a caller ID that is not empty, task-done on an initialised
thread answers with its success text exactly when the trimmed description is
not empty, the loaded task has status InProgress, and the caller is the
assignee or a leader of the project; the record file then holds the task
with status WaitingForApprove, the trimmed description, no approver and the
assignee (and every other field) as it was. -/
theorem task_done_contract (env : Env) (files : Files) (i : InteractionCreate)
    (description : String) (ctx : taskContext) (p : Project) (task : ProjectTask)
    (hres : Resolved env files i ctx p) (hext : ExternalOk env files ctx p)
    (hcaller : getAuthorID i ≠ "") (htask : mapGet p.Tasks ctx.ThreadID = some task) :
    ((handleKanbanTaskDone env files i description).response =
        "submitted ✅ (status set to WaitingForApprove)" ↔
      trimSpace description ≠ "" ∧ task.Status = TaskInProgress ∧
        (task.AssigneeUserID = getAuthorID i ∨
          isLeaderForProject i (getAuthorID i) p = true)) ∧
    (trimSpace description ≠ "" ∧ task.Status = TaskInProgress ∧
        (task.AssigneeUserID = getAuthorID i ∨
          isLeaderForProject i (getAuthorID i) p = true) →
      persistedTask (handleKanbanTaskDone env files i description).files p.Slug ctx.ThreadID =
        some { task with
          Status := TaskWaitingForApprove, DoneDescription := trimSpace description,
          ApprovedByUserID := "" }) := by
  have hl := resolved_loaded env files i ctx p hres
  have hens := externalOk_tags env files ctx p hext
  have hgood := mustTaskContext_good env i ctx hres.2.1
  obtain ⟨_, hn, _⟩ := resolved_task env files i ctx p _ task hres hens htask
  obtain ⟨n1, n2, n3, n4, n5, n6, n7, n8⟩ := hn
  by_cases hd : trimSpace description = ""
  · rw [done_blank env files i description hres.1 hd]
    exact ⟨⟨fun h => absurd h (respond_ne _ _ _ _ (by decide)), fun h => absurd hd h.1⟩,
      fun h => absurd hd h.1⟩
  rw [done_eq env files i description ctx p _ task hres hens hcaller hd htask]
  have hc := commitTask_ok env files p _ ctx
    { task with
      Status := TaskWaitingForApprove, DoneDescription := trimSpace description,
      ApprovedByUserID := "" }
    (if env.sendErr = none then
      [Effect.messageSend ctx.ThreadID
        ("🟦 Submitted for approval by <@" ++ getAuthorID i ++ ">\n\n" ++
          trimSpace description)]
    else [])
    "submitted ✅ (status set to WaitingForApprove)" hl hext hens hgood
    mem_allStatuses_waiting
  have hfix : TaskNormal { task with
      Status := TaskWaitingForApprove, DoneDescription := trimSpace description,
      ApprovedByUserID := "" } :=
    ⟨n1, n2, n3, waiting_not_blank, n5, n6, trimSpace_idem _, trimSpace_empty⟩
  rw [normalizeTask_fix _ _ hfix] at hc
  by_cases hs : task.Status = TaskInProgress
  · by_cases ha : task.AssigneeUserID = getAuthorID i ∨
        isLeaderForProject i (getAuthorID i) p = true
    · have ha2 : ¬ (isLeaderForProject i (getAuthorID i) p = false ∧
          trimSpace task.AssigneeUserID ≠ getAuthorID i) := by
        rw [n5]
        rintro ⟨h1, h2⟩
        rcases ha with h | h
        · exact h2 h
        · rw [h1] at h; cases h
      rw [if_neg (by simpa using hs), if_neg ha2]
      exact ⟨⟨fun _ => ⟨hd, hs, ha⟩, fun _ => hc.1⟩, fun _ => hc.2.1⟩
    · have ha2 : isLeaderForProject i (getAuthorID i) p = false ∧
          trimSpace task.AssigneeUserID ≠ getAuthorID i := by
        rw [n5]
        constructor
        · cases hb : isLeaderForProject i (getAuthorID i) p
          · rfl
          · exact absurd (Or.inr hb) ha
        · exact fun h => ha (Or.inl h)
      rw [if_neg (by simpa using hs), if_pos ha2]
      exact ⟨⟨fun h => absurd h (respond_ne _ _ _ _ (by decide)), fun h => absurd h.2.2 ha⟩,
        fun h => absurd h.2.2 ha⟩
  · rw [if_pos hs]
    exact ⟨⟨fun h => absurd h (respond_ne _ _ _ _ (by decide)), fun h => absurd h.2.1 hs⟩,
      fun h => absurd h.2.1 hs⟩

/-- C3 (task-approve). With the project resolved, every external call
succeeding and a caller ID that is not empty, task-approve on an initialised
thread answers with its success text exactly when the caller is a leader of
the project and the loaded task has status WaitingForApprove; the record
file then holds the task with status Done and the caller as approver, and
with assignee, done-description and panel message ID as they were. -/
theorem task_approve_contract (env : Env) (files : Files) (i : InteractionCreate)
    (ctx : taskContext) (p : Project) (task : ProjectTask)
    (hres : Resolved env files i ctx p) (hext : ExternalOk env files ctx p)
    (hcaller : getAuthorID i ≠ "") (htask : mapGet p.Tasks ctx.ThreadID = some task) :
    ((handleKanbanTaskApprove env files i).response = "approved ✅ (status set to Done)" ↔
      isLeaderForProject i (getAuthorID i) p = true ∧ task.Status = TaskWaitingForApprove) ∧
    (isLeaderForProject i (getAuthorID i) p = true ∧ task.Status = TaskWaitingForApprove →
      persistedTask (handleKanbanTaskApprove env files i).files p.Slug ctx.ThreadID =
        some { task with Status := TaskDone, ApprovedByUserID := getAuthorID i }) := by
  have hl := resolved_loaded env files i ctx p hres
  have hens := externalOk_tags env files ctx p hext
  have hgood := mustTaskContext_good env i ctx hres.2.1
  obtain ⟨_, hn, _⟩ := resolved_task env files i ctx p _ task hres hens htask
  obtain ⟨n1, n2, n3, n4, n5, n6, n7, n8⟩ := hn
  cases hlead : isLeaderForProject i (getAuthorID i) p
  · rw [approve_not_leader env files i ctx p hres hcaller hlead]
    exact ⟨⟨fun h => absurd h (respond_ne _ _ _ _ (by decide)), fun h => by cases h.1⟩,
      fun h => by cases h.1⟩
  rw [approve_eq env files i ctx p _ task hres hens hcaller hlead htask]
  have hc := commitTask_ok env files p _ ctx
    { task with Status := TaskDone, ApprovedByUserID := getAuthorID i }
    (if env.sendErr = none then
      [Effect.messageSend ctx.ThreadID
        ("✅ Approved by <@" ++ getAuthorID i ++ "> at " ++ env.now)]
    else [])
    "approved ✅ (status set to Done)" hl hext hens hgood mem_allStatuses_done
  have hfix : TaskNormal { task with Status := TaskDone, ApprovedByUserID := getAuthorID i } :=
    ⟨n1, n2, n3, done_not_blank, n5, n6, n7, getAuthorID_trim i⟩
  rw [normalizeTask_fix _ _ hfix] at hc
  by_cases hs : task.Status = TaskWaitingForApprove
  · rw [if_neg (by simpa using hs)]
    exact ⟨⟨fun _ => ⟨rfl, hs⟩, fun _ => hc.1⟩, fun _ => hc.2.1⟩
  · rw [if_pos hs]
    exact ⟨⟨fun h => absurd h (respond_ne _ _ _ _ (by decide)), fun h => absurd h.2 hs⟩,
      fun h => absurd h.2 hs⟩

/-- C4 (task-revoke). With the project resolved, every external call
succeeding and a caller ID that is not empty, task-revoke on an initialised
thread answers with its success text exactly when the caller is a leader of
the project and the loaded task has status WaitingForApprove; the record
file then holds the task with status InProgress, no done-description and no
approver, and with the assignee as it was. -/
theorem task_revoke_contract (env : Env) (files : Files) (i : InteractionCreate)
    (ctx : taskContext) (p : Project) (task : ProjectTask)
    (hres : Resolved env files i ctx p) (hext : ExternalOk env files ctx p)
    (hcaller : getAuthorID i ≠ "") (htask : mapGet p.Tasks ctx.ThreadID = some task) :
    ((handleKanbanTaskRevoke env files i).response = "revoked ✅ (back to InProgress)" ↔
      isLeaderForProject i (getAuthorID i) p = true ∧ task.Status = TaskWaitingForApprove) ∧
    (isLeaderForProject i (getAuthorID i) p = true ∧ task.Status = TaskWaitingForApprove →
      persistedTask (handleKanbanTaskRevoke env files i).files p.Slug ctx.ThreadID =
        some { task with
          Status := TaskInProgress, ApprovedByUserID := "", DoneDescription := "" }) := by
  have hl := resolved_loaded env files i ctx p hres
  have hens := externalOk_tags env files ctx p hext
  have hgood := mustTaskContext_good env i ctx hres.2.1
  obtain ⟨_, hn, _⟩ := resolved_task env files i ctx p _ task hres hens htask
  obtain ⟨n1, n2, n3, n4, n5, n6, n7, n8⟩ := hn
  cases hlead : isLeaderForProject i (getAuthorID i) p
  · rw [revoke_not_leader env files i ctx p hres hcaller hlead]
    exact ⟨⟨fun h => absurd h (respond_ne _ _ _ _ (by decide)), fun h => by cases h.1⟩,
      fun h => by cases h.1⟩
  rw [revoke_eq env files i ctx p _ task hres hens hcaller hlead htask]
  have hc := commitTask_ok env files p _ ctx
    { task with Status := TaskInProgress, ApprovedByUserID := "", DoneDescription := "" }
    [] "revoked ✅ (back to InProgress)" hl hext hens hgood mem_allStatuses_inProgress
  have hfix : TaskNormal { task with
      Status := TaskInProgress, ApprovedByUserID := "", DoneDescription := "" } :=
    ⟨n1, n2, n3, inProgress_not_blank, n5, n6, trimSpace_empty, trimSpace_empty⟩
  rw [normalizeTask_fix _ _ hfix] at hc
  by_cases hs : task.Status = TaskWaitingForApprove
  · rw [if_neg (by simpa using hs)]
    exact ⟨⟨fun _ => ⟨rfl, hs⟩, fun _ => hc.1⟩, fun _ => hc.2.1⟩
  · rw [if_pos hs]
    exact ⟨⟨fun h => absurd h (respond_ne _ _ _ _ (by decide)), fun h => absurd h.2 hs⟩,
      fun h => absurd h.2 hs⟩

/-! ## The store between two invocations -/

theorem mem_mapSet_key {V : Type} (m : GoMap V) (k : String) (v : V) (e : String × V)
    (h : e ∈ mapSet m k v) (hk : e.1 = k) : e = (k, v) := by
  induction m with
  | nil => simpa [mapSet] using h
  | cons e1 rest ih =>
    obtain ⟨k1, v1⟩ := e1
    by_cases h1 : k1 = k
    · simp only [mapSet, h1, if_true, List.mem_cons] at h
      rcases h with h | h
      · exact h
      · simp only [mapDelete, List.mem_filter, decide_eq_true_eq] at h
        exact absurd hk h.2
    · simp only [mapSet, h1, if_false, List.mem_cons] at h
      rcases h with h | h
      · rw [h] at hk
        exact absurd hk h1
      · exact ih h

theorem mem_mapDelete {V : Type} (m : GoMap V) (k : String) (e : String × V)
    (h : e ∈ mapDelete m k) : e ∈ m ∧ e.1 ≠ k := by
  simpa [mapDelete] using h

/-- The files after a successful `updateFile`: the record file of the project
holds the normalized project and every other file is one that was there
before. -/
theorem updateFile_mem (env : Env) (files files1 : Files) (q : Project)
    (h : updateFile env files q = (none, files1)) (e : String × Project) (he : e ∈ files1) :
    e = (projectPathBySlug (normalizeProject q).Slug, normalizeProject q) ∨
      (e ∈ files ∧ e.1 ≠ projectPathBySlug (normalizeProject q).Slug) := by
  unfold updateFile at h
  split at h
  · cases h
  · simp only at h
    split at h
    · cases h
    · split at h
      · cases h
      · split at h
        · cases h
        · unfold writeProjectAtomic at h
          simp only at h
          split at h
          · cases h
          · split at h
            · cases h
            · injection h with _ h2
              rw [← h2] at he
              by_cases hk : e.1 = projectPathBySlug (normalizeProject q).Slug
              · exact Or.inl (mem_mapSet_key _ _ _ e he hk)
              · right
                rcases mem_mapSet _ _ _ e he with h3 | h3
                · rw [h3] at hk
                  exact absurd rfl hk
                · obtain ⟨h4, h5⟩ := mem_mapDelete _ _ e h3
                  rcases mem_mapSet _ _ _ e h4 with h6 | h6
                  · rw [h6] at h5
                    exact absurd rfl h5
                  · exact ⟨h6, hk⟩

theorem loadStep_mem (out : GoMap Project) (e : String × Project) (x : String × Project)
    (hx : x ∈ loadStep out e) :
    x ∈ out ∨ (hasSuffix (toLower e.1) ".json" = true ∧ x.2 = normalizeProject e.2) := by
  unfold loadStep at hx
  simp only at hx
  split at hx
  · exact Or.inl hx
  · rename_i hj
    split at hx
    · exact Or.inl hx
    · have hs : ¬ (normalizeProject e.2).Slug = "" := (loaded_slug _ ⟨e.2, rfl⟩).2
      rw [if_neg hs] at hx
      rcases mem_mapSet _ _ _ _ hx with h1 | h1
      · right
        refine ⟨by simpa using hj, ?_⟩
        rw [h1]
      · exact Or.inl h1

theorem load_fold_mem (files : Files) (out : GoMap Project) (x : String × Project)
    (hx : x ∈ files.foldl loadStep out) :
    x ∈ out ∨ ∃ e ∈ files, hasSuffix (toLower e.1) ".json" = true ∧
      x.2 = normalizeProject e.2 := by
  induction files generalizing out with
  | nil => exact Or.inl hx
  | cons e rest ih =>
    rw [List.foldl_cons] at hx
    rcases ih _ hx with h | ⟨e2, he2, h⟩
    · rcases loadStep_mem out e x h with h1 | h1
      · exact Or.inl h1
      · exact Or.inr ⟨e, List.mem_cons_self _ _, h1⟩
    · exact Or.inr ⟨e2, List.mem_cons_of_mem _ he2, h⟩

/-- Every project a resolution hands out is the normalized record of a
record file. -/
theorem resolved_file (env : Env) (files : Files) (i : InteractionCreate)
    (ctx : taskContext) (p : Project) (h : Resolved env files i ctx p) :
    ∃ e ∈ files, hasSuffix (toLower e.1) ".json" = true ∧ p = normalizeProject e.2 := by
  obtain ⟨_, _, projects, hint, hl, hf⟩ := h
  have hm := findProject_mem projects _ _ hint p hf
  obtain ⟨x, hx, rfl⟩ := List.mem_map.mp hm
  unfold load_all_files at hl
  split at hl
  · cases hl
  · cases hl
    rcases load_fold_mem files [] x hx with h1 | h1
    · cases h1
    · exact h1

theorem commit_slug (p p1 : Project) (T : String) (task : ProjectTask) (hp : Loaded p)
    (hp1 : p1 = { p with ForumTagIDs := p1.ForumTagIDs }) :
    (normalizeProject { p1 with Tasks := mapSet p1.Tasks T task }).Slug = p.Slug := by
  have hslug := loaded_slug p hp
  have hs1 : p1.Slug = p.Slug := by rw [hp1]
  simp only [normalizeProject, hs1, if_neg hslug.2, hslug.1]

theorem append_ne_of_head (a x b : String) (h : a.data.head? ≠ b.data.head?)
    (ha : a.data ≠ []) : a ++ x ≠ b := by
  intro e
  have h1 := congrArg String.data e
  rw [String.data_append] at h1
  cases hd : a.data with
  | nil => exact ha hd
  | cons c t =>
    rw [hd] at h1 h
    rw [← h1] at h
    exact h rfl

theorem respond_error_ne (files : Files) (log : List Effect) (a x b : String)
    (h : a.data.head? ≠ b.data.head?) (ha : a.data ≠ []) :
    (respondEphemeral files log (a ++ x)).response ≠ b :=
  append_ne_of_head a x b h ha

theorem updateFile_get (env : Env) (files files1 : Files) (q : Project)
    (h : updateFile env files q = (none, files1)) :
    mapGet files1 (projectPathBySlug (normalizeProject q).Slug) = some (normalizeProject q) := by
  unfold updateFile at h
  split at h
  · cases h
  · simp only at h
    split at h
    · cases h
    · split at h
      · cases h
      · split at h
        · cases h
        · unfold writeProjectAtomic at h
          simp only at h
          split at h
          · cases h
          · split at h
            · cases h
            · injection h with _ h2
              rw [← h2, mapGet_mapSet, if_pos rfl]

theorem init_tags_failed (env : Env) (files : Files) (i : InteractionCreate)
    (ctx : taskContext) (p p1 : Project) (err : String) (hres : Resolved env files i ctx p)
    (hens : ensureForumTagMapping env p ctx.ForumID = (p1, some err)) :
    handleKanbanTaskInit env files i =
      respondEphemeral files [] ("error: failed to resolve forum tags: " ++ err) := by
  obtain ⟨hg, hctx, projects, hint, hload, hfind⟩ := hres
  unfold handleKanbanTaskInit
  simp only [hg, hctx, hload, hfind, hens]

theorem init_eq (env : Env) (files : Files) (i : InteractionCreate) (ctx : taskContext)
    (p p1 : Project) (hres : Resolved env files i ctx p) (hens : TagsResolved env ctx p p1) :
    handleKanbanTaskInit env files i = initCore env files p1 ctx := by
  obtain ⟨hg, hctx, projects, hint, hload, hfind⟩ := hres
  unfold TagsResolved at hens
  unfold handleKanbanTaskInit
  simp only [hg, hctx, hload, hfind, hens]
  unfold initCore initTask initTaskFirst
  generalize (mapGet p1.Tasks ctx.ThreadID).getD ProjectTask.zero = prior
  by_cases h1 : trimSpace prior.Status = ""
  · simp only [h1, ↓reduceIte, ne_eq, not_true_eq_false]
  · by_cases h2 : prior.Status = TaskToDo
    · simp only [h1, h2, ↓reduceIte, ne_eq, not_true_eq_false]
    · simp only [h1, h2, ↓reduceIte, ne_eq, not_false_eq_true]

theorem init_ok_absurd (files : Files) (log : List Effect) (a x : String)
    (h1 : a.data.head? ≠ some 't') (ha : a.data ≠ [])
    (hok : (respondEphemeral files log (a ++ x)).response =
        "task initialized ✅ (status panel pinned, tag set to ToDo)" ∨
      (respondEphemeral files log (a ++ x)).response =
        "task already initialized ✅ (panel refreshed)") : False := by
  rcases hok with h | h
  · exact respond_error_ne files log a x
      "task initialized ✅ (status panel pinned, tag set to ToDo)" h1 ha h
  · exact respond_error_ne files log a x "task already initialized ✅ (panel refreshed)" h1 ha h

/-- A successful run of the steps of task-init after the tag mapping ends in
a successful `updateFile` of the project with the task of `initTask`. -/
theorem initCore_ok (env : Env) (files : Files) (p1 : Project) (ctx : taskContext)
    (hok : (initCore env files p1 ctx).response =
        "task initialized ✅ (status panel pinned, tag set to ToDo)" ∨
      (initCore env files p1 ctx).response =
        "task already initialized ✅ (panel refreshed)") :
    ∃ msgID, updateFile env files
      { p1 with
        Tasks := mapSet p1.Tasks ctx.ThreadID
          (initTask ctx ((mapGet p1.Tasks ctx.ThreadID).getD ProjectTask.zero) msgID) } =
        (none, (initCore env files p1 ctx).files) := by
  unfold initCore at hok ⊢
  cases hpan : ensureStatusPanel env p1
      (initTaskFirst ctx ((mapGet p1.Tasks ctx.ThreadID).getD ProjectTask.zero)) with
  | mk r log0 =>
  rw [hpan] at hok
  cases r with
  | error err => exact absurd hok (fun h => init_ok_absurd _ _ _ _ (by decide) (by decide) h)
  | ok msgID =>
    simp only at hok ⊢
    cases happ : applyStatusTagToThread env p1 ctx.ForumID ctx.ThreadID
        (initTask ctx ((mapGet p1.Tasks ctx.ThreadID).getD ProjectTask.zero) msgID).Status with
    | error err =>
      rw [happ] at hok
      exact absurd hok (fun h => init_ok_absurd _ _ _ _ (by decide) (by decide) h)
    | ok log1 =>
      rw [happ] at hok
      simp only at hok ⊢
      cases hups : upsertStatusPanel env p1
          (initTask ctx ((mapGet p1.Tasks ctx.ThreadID).getD ProjectTask.zero) msgID) with
      | mk e2 log2 =>
      rw [hups] at hok
      cases e2 with
      | some err =>
        exact absurd hok (fun h => init_ok_absurd _ _ _ _ (by decide) (by decide) h)
      | none =>
        simp only at hok ⊢
        cases hupd : updateFile env files
            { p1 with
              Tasks := mapSet p1.Tasks ctx.ThreadID
                (initTask ctx ((mapGet p1.Tasks ctx.ThreadID).getD ProjectTask.zero) msgID) } with
        | mk e3 files1 =>
        rw [hupd] at hok
        cases e3 with
        | some err =>
          exact absurd hok (fun h => init_ok_absurd _ _ _ _ (by decide) (by decide) h)
        | none =>
          refine ⟨msgID, ?_⟩
          rw [hupd]
          simp only
          split <;> rfl

theorem persisted_of_update (env : Env) (files files1 : Files) (p p1 : Project) (T : String)
    (task : ProjectTask) (hp : Loaded p) (hp1 : p1 = { p with ForumTagIDs := p1.ForumTagIDs })
    (hT : GoodKey T)
    (hupd : updateFile env files { p1 with Tasks := mapSet p1.Tasks T task } = (none, files1)) :
    persistedTask files1 p.Slug T = some (normalizeTask T task) := by
  have hget := updateFile_get env files files1 _ hupd
  rw [commit_slug p p1 T task hp hp1] at hget
  have ht1 : p1.Tasks = p.Tasks := by rw [hp1]
  have hk : ∀ k ∈ mapKeys (mapSet p1.Tasks T task), GoodKey k := by
    intro k hk
    rcases (mem_mapKeys_mapSet _ _ _ _).mp hk with h | h
    · rw [h]; exact hT
    · rw [ht1] at h; exact loaded_keys p hp k h
  unfold persistedTask
  rw [hget]
  simp only [normalizeProject]
  rw [cleanTasks_good _ hk, mapGet_mapSet, if_pos rfl]
  rfl

theorem initTask_thread (ctx : taskContext) (prior : ProjectTask) (msgID : String) :
    (initTask ctx prior msgID).ThreadID = ctx.ThreadID ∧
      (initTask ctx prior msgID).ForumID = ctx.ForumID ∧
      (initTask ctx prior msgID).Status = TaskToDo := by
  unfold initTask
  split
  · unfold initTaskFirst
    split <;> exact ⟨rfl, rfl, rfl⟩
  · rename_i h
    have h2 : (initTaskFirst ctx prior).Status = TaskToDo := by simpa using h
    refine ⟨?_, ?_, h2⟩
    · unfold initTaskFirst
      split <;> rfl
    · unfold initTaskFirst
      split <;> rfl

theorem initTask_keep (ctx : taskContext) (prior : ProjectTask) (msgID : String)
    (h : prior.Status = TaskToDo) :
    (initTask ctx prior msgID).AssigneeUserID = prior.AssigneeUserID ∧
      (initTask ctx prior msgID).DoneDescription = prior.DoneDescription ∧
      (initTask ctx prior msgID).ApprovedByUserID = prior.ApprovedByUserID := by
  have h1 : ¬ trimSpace prior.Status = "" := by rw [h]; exact todo_not_blank
  unfold initTask initTaskFirst
  simp only [if_neg h1, h, ne_eq, not_true_eq_false, if_false]
  exact ⟨rfl, rfl, rfl⟩

theorem initTask_zero (ctx : taskContext) (msgID : String) :
    (initTask ctx ProjectTask.zero msgID).AssigneeUserID = "" ∧
      (initTask ctx ProjectTask.zero msgID).DoneDescription = "" ∧
      (initTask ctx ProjectTask.zero msgID).ApprovedByUserID = "" := by
  unfold initTask
  split <;> (unfold initTaskFirst; split <;> exact ⟨rfl, rfl, rfl⟩)

theorem initTask_reset (ctx : taskContext) (prior : ProjectTask) (msgID : String)
    (h1 : trimSpace prior.Status ≠ "") (h : prior.Status ≠ TaskToDo) :
    (initTask ctx prior msgID).AssigneeUserID = "" ∧
      (initTask ctx prior msgID).DoneDescription = "" ∧
      (initTask ctx prior msgID).ApprovedByUserID = "" := by
  have h2 : (initTaskFirst ctx prior).Status ≠ TaskToDo := by
    unfold initTaskFirst
    rw [if_neg h1]
    exact h
  unfold initTask
  rw [if_pos h2]
  exact ⟨rfl, rfl, rfl⟩

/-- C6 (task-init), amended. Whatever the project holds for the thread, a
task-init that answers with one of its two success texts leaves in the
record file, under the thread, a task with the thread ID and forum ID of the
thread and status ToDo. Its assignee, done-description and approver are
empty when the project held no task for the thread or one with a status
other than ToDo; a task that already had status ToDo keeps the three. -/
theorem task_init_contract (env : Env) (files : Files) (i : InteractionCreate)
    (ctx : taskContext) (p : Project) (hres : Resolved env files i ctx p)
    (hok : (handleKanbanTaskInit env files i).response =
        "task initialized ✅ (status panel pinned, tag set to ToDo)" ∨
      (handleKanbanTaskInit env files i).response =
        "task already initialized ✅ (panel refreshed)") :
    ∃ t, persistedTask (handleKanbanTaskInit env files i).files p.Slug ctx.ThreadID = some t ∧
      t.ThreadID = ctx.ThreadID ∧ t.ForumID = ctx.ForumID ∧ t.Status = TaskToDo ∧
      (∀ prior, mapGet p.Tasks ctx.ThreadID = some prior → prior.Status = TaskToDo →
        t.AssigneeUserID = prior.AssigneeUserID ∧ t.DoneDescription = prior.DoneDescription ∧
          t.ApprovedByUserID = prior.ApprovedByUserID) ∧
      ((mapGet p.Tasks ctx.ThreadID = none ∨
          ∃ prior, mapGet p.Tasks ctx.ThreadID = some prior ∧ prior.Status ≠ TaskToDo) →
        t.AssigneeUserID = "" ∧ t.DoneDescription = "" ∧ t.ApprovedByUserID = "") := by
  have hl := resolved_loaded env files i ctx p hres
  have hgood := mustTaskContext_good env i ctx hres.2.1
  cases hens : ensureForumTagMapping env p ctx.ForumID with
  | mk p1 err =>
  cases err with
  | some e =>
    rw [init_tags_failed env files i ctx p p1 e hres hens] at hok
    exact absurd hok (fun h => init_ok_absurd _ _ _ _ (by decide) (by decide) h)
  | none =>
    have hframe := ensureForumTagMapping_frame env p p1 _ hens
    have ht1 : p1.Tasks = p.Tasks := by rw [hframe]
    rw [init_eq env files i ctx p p1 hres hens] at hok ⊢
    obtain ⟨msgID, hupd⟩ := initCore_ok env files p1 ctx hok
    have hper := persisted_of_update env files _ p p1 ctx.ThreadID _ hl hframe hgood.1 hupd
    rw [ht1] at hper
    obtain ⟨a1, a2, a3⟩ :=
      initTask_thread ctx ((mapGet p.Tasks ctx.ThreadID).getD ProjectTask.zero) msgID
    refine ⟨_, hper, ?_, ?_, ?_, ?_, ?_⟩
    · simp only [normalizeTask, a1, hgood.1.1, if_neg hgood.1.2]
    · simp only [normalizeTask, a2, hgood.2.1]
    · simp only [normalizeTask, a3, if_neg todo_not_blank]
    · intro prior hprior hst
      obtain ⟨n1, n2, n3, n4, n5, n6, n7, n8⟩ := loaded_values p hl _ _ hprior
      obtain ⟨b1, b2, b3⟩ := initTask_keep ctx prior msgID hst
      simp only [normalizeTask, hprior, Option.getD_some, b1, b2, b3, n5, n7, n8, and_self]
    · rintro (hnone | ⟨prior, hprior, hst⟩)
      · obtain ⟨b1, b2, b3⟩ := initTask_zero ctx msgID
        simp only [normalizeTask, hnone, Option.getD_none, b1, b2, b3, trimSpace_empty, and_self]
      · obtain ⟨n1, n2, n3, n4, n5, n6, n7, n8⟩ := loaded_values p hl _ _ hprior
        obtain ⟨b1, b2, b3⟩ := initTask_reset ctx prior msgID n4 hst
        simp only [normalizeTask, hprior, Option.getD_some, b1, b2, b3, trimSpace_empty,
          and_self]

/-! ## Rejections -/

theorem take_tags_failed (env : Env) (files : Files) (i : InteractionCreate)
    (ctx : taskContext) (p p1 : Project) (err : String) (hres : Resolved env files i ctx p)
    (hcaller : getAuthorID i ≠ "")
    (hens : ensureForumTagMapping env p ctx.ForumID = (p1, some err)) :
    handleKanbanTaskTake env files i =
      respondEphemeral files [] ("error: failed to resolve forum tags: " ++ err) := by
  obtain ⟨hg, hctx, projects, hint, hload, hfind⟩ := hres
  unfold handleKanbanTaskTake
  simp only [hg, hcaller, hctx, hload, hfind, hens, ↓reduceIte]

theorem done_tags_failed (env : Env) (files : Files) (i : InteractionCreate)
    (description : String) (ctx : taskContext) (p p1 : Project) (err : String)
    (hres : Resolved env files i ctx p) (hcaller : getAuthorID i ≠ "")
    (hdesc : trimSpace description ≠ "")
    (hens : ensureForumTagMapping env p ctx.ForumID = (p1, some err)) :
    handleKanbanTaskDone env files i description =
      respondEphemeral files [] ("error: failed to resolve forum tags: " ++ err) := by
  obtain ⟨hg, hctx, projects, hint, hload, hfind⟩ := hres
  unfold handleKanbanTaskDone
  simp only [hg, hcaller, hdesc, hctx, hload, hfind, hens, ↓reduceIte]

theorem surrender_tags_failed (env : Env) (files : Files) (i : InteractionCreate)
    (ctx : taskContext) (p p1 : Project) (err : String) (hres : Resolved env files i ctx p)
    (hcaller : getAuthorID i ≠ "")
    (hens : ensureForumTagMapping env p ctx.ForumID = (p1, some err)) :
    handleKanbanTaskSurrender env files i =
      respondEphemeral files [] ("error: failed to resolve forum tags: " ++ err) := by
  obtain ⟨hg, hctx, projects, hint, hload, hfind⟩ := hres
  unfold handleKanbanTaskSurrender
  simp only [hg, hcaller, hctx, hload, hfind, hens, ↓reduceIte]

theorem approve_tags_failed (env : Env) (files : Files) (i : InteractionCreate)
    (ctx : taskContext) (p p1 : Project) (err : String) (hres : Resolved env files i ctx p)
    (hcaller : getAuthorID i ≠ "") (hlead : isLeaderForProject i (getAuthorID i) p = true)
    (hens : ensureForumTagMapping env p ctx.ForumID = (p1, some err)) :
    handleKanbanTaskApprove env files i =
      respondEphemeral files [] ("error: failed to resolve forum tags: " ++ err) := by
  obtain ⟨hg, hctx, projects, hint, hload, hfind⟩ := hres
  unfold handleKanbanTaskApprove
  simp only [hg, hcaller, hctx, hload, hfind, hens, hlead, ↓reduceIte]
  rfl

theorem revoke_tags_failed (env : Env) (files : Files) (i : InteractionCreate)
    (ctx : taskContext) (p p1 : Project) (err : String) (hres : Resolved env files i ctx p)
    (hcaller : getAuthorID i ≠ "") (hlead : isLeaderForProject i (getAuthorID i) p = true)
    (hens : ensureForumTagMapping env p ctx.ForumID = (p1, some err)) :
    handleKanbanTaskRevoke env files i =
      respondEphemeral files [] ("error: failed to resolve forum tags: " ++ err) := by
  obtain ⟨hg, hctx, projects, hint, hload, hfind⟩ := hres
  unfold handleKanbanTaskRevoke
  simp only [hg, hcaller, hctx, hload, hfind, hens, hlead, ↓reduceIte]
  rfl

theorem take_no_author (env : Env) (files : Files) (i : InteractionCreate)
    (hg : mustGuild i = none) (hcaller : getAuthorID i = "") :
    handleKanbanTaskTake env files i =
      respondEphemeral files [] "error: cannot detect author" := by
  unfold handleKanbanTaskTake
  simp only [hg, hcaller, ↓reduceIte]

theorem done_no_author (env : Env) (files : Files) (i : InteractionCreate)
    (description : String) (hg : mustGuild i = none) (hdesc : trimSpace description ≠ "")
    (hcaller : getAuthorID i = "") :
    handleKanbanTaskDone env files i description =
      respondEphemeral files [] "error: cannot detect author" := by
  unfold handleKanbanTaskDone
  simp only [hg, hcaller, hdesc, ↓reduceIte]

theorem approve_no_author (env : Env) (files : Files) (i : InteractionCreate)
    (hg : mustGuild i = none) (hcaller : getAuthorID i = "") :
    handleKanbanTaskApprove env files i =
      respondEphemeral files [] "error: cannot detect author" := by
  unfold handleKanbanTaskApprove
  simp only [hg, hcaller, ↓reduceIte]

theorem revoke_no_author (env : Env) (files : Files) (i : InteractionCreate)
    (hg : mustGuild i = none) (hcaller : getAuthorID i = "") :
    handleKanbanTaskRevoke env files i =
      respondEphemeral files [] "error: cannot detect author" := by
  unfold handleKanbanTaskRevoke
  simp only [hg, hcaller, ↓reduceIte]

theorem surrender_no_author (env : Env) (files : Files) (i : InteractionCreate)
    (hg : mustGuild i = none) (hcaller : getAuthorID i = "") :
    handleKanbanTaskSurrender env files i =
      respondEphemeral files [] "error: cannot detect author" := by
  unfold handleKanbanTaskSurrender
  simp only [hg, hcaller, ↓reduceIte]

theorem done_ne_todo : TaskDone ≠ TaskToDo := by decide

theorem done_ne_inProgress : TaskDone ≠ TaskInProgress := by decide

theorem done_ne_waiting : TaskDone ≠ TaskWaitingForApprove := by decide

/-- C7 (out-of-state rejection), amended. With the project and the tag
mapping resolved and a caller ID that is not empty, on an initialised thread
whose loaded task is not in the state the command starts from: task-take,
task-done with a description that is not blank, and task-surrender, by any
caller, and task-approve and task-revoke by a leader of the project, answer
with the BadState text, leave the files as they are and make no external
write. -/
theorem out_of_state_rejected (env : Env) (files : Files) (i : InteractionCreate)
    (description : String) (ctx : taskContext) (p p1 : Project) (task : ProjectTask)
    (hres : Resolved env files i ctx p) (hens : TagsResolved env ctx p p1)
    (hcaller : getAuthorID i ≠ "") (htask : mapGet p.Tasks ctx.ThreadID = some task) :
    (task.Status ≠ TaskToDo →
      handleKanbanTaskTake env files i =
        { response := "not allowed: task status is not ToDo", files := files,
          log := [Effect.respond "not allowed: task status is not ToDo"] }) ∧
    (trimSpace description ≠ "" → task.Status ≠ TaskInProgress →
      handleKanbanTaskDone env files i description =
        { response := "not allowed: task status is not InProgress", files := files,
          log := [Effect.respond "not allowed: task status is not InProgress"] }) ∧
    (task.Status ≠ TaskInProgress →
      handleKanbanTaskSurrender env files i =
        { response := "not allowed: task status is not InProgress", files := files,
          log := [Effect.respond "not allowed: task status is not InProgress"] }) ∧
    (isLeaderForProject i (getAuthorID i) p = true → task.Status ≠ TaskWaitingForApprove →
      handleKanbanTaskApprove env files i =
        { response := "not allowed: task status is not WaitingForApprove", files := files,
          log := [Effect.respond "not allowed: task status is not WaitingForApprove"] }) ∧
    (isLeaderForProject i (getAuthorID i) p = true → task.Status ≠ TaskWaitingForApprove →
      handleKanbanTaskRevoke env files i =
        { response := "not allowed: task status is not WaitingForApprove", files := files,
          log := [Effect.respond "not allowed: task status is not WaitingForApprove"] }) := by
  refine ⟨?_, ?_, ?_, ?_, ?_⟩
  · intro hs
    rw [take_eq env files i ctx p p1 task hres hens hcaller htask, if_pos hs]
    rfl
  · intro hd hs
    rw [done_eq env files i description ctx p p1 task hres hens hcaller hd htask, if_pos hs]
    rfl
  · intro hs
    rw [surrender_eq env files i ctx p p1 task hres hens hcaller htask, if_pos hs]
    rfl
  · intro hlead hs
    rw [approve_eq env files i ctx p p1 task hres hens hcaller hlead htask, if_pos hs]
    rfl
  · intro hlead hs
    rw [revoke_eq env files i ctx p p1 task hres hens hcaller hlead htask, if_pos hs]
    rfl

/-- C8 (Done is terminal), amended. For the five commands other than
task-init, whoever calls and whatever the input and the outcome of the
external calls: when the command resolves the project and the task loaded
for the thread has status Done, the files are left exactly as they were, so
the task stays Done. (task-init is the exception: it resets the task to
ToDo.) -/
theorem done_is_terminal (env : Env) (files : Files) (i : InteractionCreate)
    (description : String) (ctx : taskContext) (p : Project) (task : ProjectTask)
    (hres : Resolved env files i ctx p) (htask : mapGet p.Tasks ctx.ThreadID = some task)
    (hdone : task.Status = TaskDone) :
    (handleKanbanTaskTake env files i).files = files ∧
    (handleKanbanTaskDone env files i description).files = files ∧
    (handleKanbanTaskApprove env files i).files = files ∧
    (handleKanbanTaskRevoke env files i).files = files ∧
    (handleKanbanTaskSurrender env files i).files = files := by
  have h1 : task.Status ≠ TaskToDo := by rw [hdone]; exact done_ne_todo
  have h2 : task.Status ≠ TaskInProgress := by rw [hdone]; exact done_ne_inProgress
  have h3 : task.Status ≠ TaskWaitingForApprove := by rw [hdone]; exact done_ne_waiting
  by_cases hcaller : getAuthorID i = ""
  · refine ⟨?_, ?_, ?_, ?_, ?_⟩
    · rw [take_no_author env files i hres.1 hcaller]; rfl
    · by_cases hd : trimSpace description = ""
      · rw [done_blank env files i description hres.1 hd]; rfl
      · rw [done_no_author env files i description hres.1 hd hcaller]; rfl
    · rw [approve_no_author env files i hres.1 hcaller]; rfl
    · rw [revoke_no_author env files i hres.1 hcaller]; rfl
    · rw [surrender_no_author env files i hres.1 hcaller]; rfl
  cases hens : ensureForumTagMapping env p ctx.ForumID with
  | mk p1 err =>
  cases err with
  | some e =>
    refine ⟨?_, ?_, ?_, ?_, ?_⟩
    · rw [take_tags_failed env files i ctx p p1 e hres hcaller hens]; rfl
    · by_cases hd : trimSpace description = ""
      · rw [done_blank env files i description hres.1 hd]; rfl
      · rw [done_tags_failed env files i description ctx p p1 e hres hcaller hd hens]; rfl
    · cases hlead : isLeaderForProject i (getAuthorID i) p
      · rw [approve_not_leader env files i ctx p hres hcaller hlead]; rfl
      · rw [approve_tags_failed env files i ctx p p1 e hres hcaller hlead hens]; rfl
    · cases hlead : isLeaderForProject i (getAuthorID i) p
      · rw [revoke_not_leader env files i ctx p hres hcaller hlead]; rfl
      · rw [revoke_tags_failed env files i ctx p p1 e hres hcaller hlead hens]; rfl
    · rw [surrender_tags_failed env files i ctx p p1 e hres hcaller hens]; rfl
  | none =>
    refine ⟨?_, ?_, ?_, ?_, ?_⟩
    · rw [take_eq env files i ctx p p1 task hres hens hcaller htask, if_pos h1]; rfl
    · by_cases hd : trimSpace description = ""
      · rw [done_blank env files i description hres.1 hd]; rfl
      · rw [done_eq env files i description ctx p p1 task hres hens hcaller hd htask,
          if_pos h2]
        rfl
    · cases hlead : isLeaderForProject i (getAuthorID i) p
      · rw [approve_not_leader env files i ctx p hres hcaller hlead]; rfl
      · rw [approve_eq env files i ctx p p1 task hres hens hcaller hlead htask, if_pos h3]
        rfl
    · cases hlead : isLeaderForProject i (getAuthorID i) p
      · rw [revoke_not_leader env files i ctx p hres hcaller hlead]; rfl
      · rw [revoke_eq env files i ctx p p1 task hres hens hcaller hlead htask, if_pos h3]
        rfl
    · rw [surrender_eq env files i ctx p p1 task hres hens hcaller htask, if_pos h2]; rfl

/-- C9 (assignee or leader), amended. With the project and the tag mapping
resolved, for a caller with an ID who is neither a leader of the project nor
the assignee, on an initialised thread whose loaded task has status
InProgress: task-done with a description that is not blank and
task-surrender answer with the text that only the assignee or a leader may
do this, leave the files as they are and make no external write. -/
theorem not_assignee_rejected (env : Env) (files : Files) (i : InteractionCreate)
    (description : String) (ctx : taskContext) (p p1 : Project) (task : ProjectTask)
    (hres : Resolved env files i ctx p) (hens : TagsResolved env ctx p p1)
    (hcaller : getAuthorID i ≠ "") (htask : mapGet p.Tasks ctx.ThreadID = some task)
    (hstatus : task.Status = TaskInProgress)
    (hlead : isLeaderForProject i (getAuthorID i) p = false)
    (hassignee : task.AssigneeUserID ≠ getAuthorID i) :
    (trimSpace description ≠ "" →
      handleKanbanTaskDone env files i description =
        { response := "not allowed: only assignee or leader can do this", files := files,
          log := [Effect.respond "not allowed: only assignee or leader can do this"] }) ∧
    handleKanbanTaskSurrender env files i =
      { response := "not allowed: only assignee or leader can surrender", files := files,
        log := [Effect.respond "not allowed: only assignee or leader can surrender"] } := by
  obtain ⟨_, hn, _⟩ := resolved_task env files i ctx p p1 task hres hens htask
  have hs : ¬ task.Status ≠ TaskInProgress := by simpa using hstatus
  have ha : isLeaderForProject i (getAuthorID i) p = false ∧
      trimSpace task.AssigneeUserID ≠ getAuthorID i := by
    rw [hn.2.2.2.2.1]
    exact ⟨hlead, hassignee⟩
  constructor
  · intro hd
    rw [done_eq env files i description ctx p p1 task hres hens hcaller hd htask, if_neg hs,
      if_pos ha]
    rfl
  · rw [surrender_eq env files i ctx p p1 task hres hens hcaller htask, if_neg hs, if_pos ha]
    rfl

/-- C10 (leader only). With the project resolved, for a caller with an ID
who is not a leader of the project, task-approve and task-revoke answer with
the text that only the project leader may do this, leave the files as they
are and make no external write, whatever the project holds for the thread
(a task in any state, or none). -/
theorem not_leader_rejected (env : Env) (files : Files) (i : InteractionCreate)
    (ctx : taskContext) (p : Project) (hres : Resolved env files i ctx p)
    (hcaller : getAuthorID i ≠ "") (hlead : isLeaderForProject i (getAuthorID i) p = false) :
    handleKanbanTaskApprove env files i =
      { response := "not allowed: only project leader can approve", files := files,
        log := [Effect.respond "not allowed: only project leader can approve"] } ∧
    handleKanbanTaskRevoke env files i =
      { response := "not allowed: only project leader can revoke", files := files,
        log := [Effect.respond "not allowed: only project leader can revoke"] } := by
  constructor
  · rw [approve_not_leader env files i ctx p hres hcaller hlead]
    rfl
  · rw [revoke_not_leader env files i ctx p hres hcaller hlead]
    rfl

/-! ## Scenarios -/

/-- Witness of C1: member `M` takes the ToDo task of thread `T`; the command
succeeds and the record holds the task InProgress with assignee `M`. -/
theorem task_take_contract_witness :
    Resolved exEnv (exFiles [("T", exTask TaskToDo "" "" "")]) (exCall "M" ["RM"]) exCtx
      (exProject [("T", exTask TaskToDo "" "" "")]) ∧
    ExternalOk exEnv (exFiles [("T", exTask TaskToDo "" "" "")]) exCtx
      (exProject [("T", exTask TaskToDo "" "" "")]) ∧
    (handleKanbanTaskTake exEnv (exFiles [("T", exTask TaskToDo "" "" "")])
      (exCall "M" ["RM"])).response = "taken ✅ (status set to InProgress)" ∧
    persistedTask
      (handleKanbanTaskTake exEnv (exFiles [("T", exTask TaskToDo "" "" "")])
        (exCall "M" ["RM"])).files "alpha" "T" = some (exTask TaskInProgress "M" "" "") :=
  have hres : Resolved exEnv (exFiles [("T", exTask TaskToDo "" "" "")]) (exCall "M" ["RM"])
      exCtx (exProject [("T", exTask TaskToDo "" "" "")]) :=
    ⟨rfl, rfl, [("alpha", exProject [("T", exTask TaskToDo "" "" "")])], "alpha", rfl, rfl⟩
  have hext : ExternalOk exEnv (exFiles [("T", exTask TaskToDo "" "" "")]) exCtx
      (exProject [("T", exTask TaskToDo "" "" "")]) :=
    ⟨rfl, by decide, rfl, rfl, ⟨"M2", rfl, by decide⟩, rfl, rfl, rfl, rfl, rfl⟩
  have h := task_take_contract exEnv (exFiles [("T", exTask TaskToDo "" "" "")])
    (exCall "M" ["RM"]) exCtx (exProject [("T", exTask TaskToDo "" "" "")])
    (exTask TaskToDo "" "" "") hres hext (by decide) rfl
  ⟨hres, hext, h.1.mpr ⟨rfl, rfl⟩, h.2 ⟨rfl, rfl⟩⟩

/-- Witness of C2: assignee `M` submits the InProgress task with the
description ` fixed X `; the record holds the trimmed description. -/
theorem task_done_contract_witness :
    Resolved exEnv (exFiles [("T", exTask TaskInProgress "M" "" "")]) (exCall "M" ["RM"])
      exCtx (exProject [("T", exTask TaskInProgress "M" "" "")]) ∧
    ExternalOk exEnv (exFiles [("T", exTask TaskInProgress "M" "" "")]) exCtx
      (exProject [("T", exTask TaskInProgress "M" "" "")]) ∧
    (handleKanbanTaskDone exEnv (exFiles [("T", exTask TaskInProgress "M" "" "")])
      (exCall "M" ["RM"]) " fixed X ").response =
        "submitted ✅ (status set to WaitingForApprove)" ∧
    persistedTask
      (handleKanbanTaskDone exEnv (exFiles [("T", exTask TaskInProgress "M" "" "")])
        (exCall "M" ["RM"]) " fixed X ").files "alpha" "T" =
      some (exTask TaskWaitingForApprove "M" "fixed X" "") :=
  have hres : Resolved exEnv (exFiles [("T", exTask TaskInProgress "M" "" "")])
      (exCall "M" ["RM"]) exCtx (exProject [("T", exTask TaskInProgress "M" "" "")]) :=
    ⟨rfl, rfl, [("alpha", exProject [("T", exTask TaskInProgress "M" "" "")])], "alpha", rfl,
      rfl⟩
  have hext : ExternalOk exEnv (exFiles [("T", exTask TaskInProgress "M" "" "")]) exCtx
      (exProject [("T", exTask TaskInProgress "M" "" "")]) :=
    ⟨rfl, by decide, rfl, rfl, ⟨"M2", rfl, by decide⟩, rfl, rfl, rfl, rfl, rfl⟩
  have h := task_done_contract exEnv (exFiles [("T", exTask TaskInProgress "M" "" "")])
    (exCall "M" ["RM"]) " fixed X " exCtx (exProject [("T", exTask TaskInProgress "M" "" "")])
    (exTask TaskInProgress "M" "" "") hres hext (by decide) rfl
  ⟨hres, hext, h.1.mpr ⟨by decide, rfl, Or.inl rfl⟩, h.2 ⟨by decide, rfl, Or.inl rfl⟩⟩

/-- Witness of C3: leader `L` approves the task that waits for approval. -/
theorem task_approve_contract_witness :
    Resolved exEnv (exFiles [("T", exTask TaskWaitingForApprove "M" "fixed X" "")])
      (exCall "L" ["RM", "RL"]) exCtx
      (exProject [("T", exTask TaskWaitingForApprove "M" "fixed X" "")]) ∧
    ExternalOk exEnv (exFiles [("T", exTask TaskWaitingForApprove "M" "fixed X" "")]) exCtx
      (exProject [("T", exTask TaskWaitingForApprove "M" "fixed X" "")]) ∧
    (handleKanbanTaskApprove exEnv
      (exFiles [("T", exTask TaskWaitingForApprove "M" "fixed X" "")])
      (exCall "L" ["RM", "RL"])).response = "approved ✅ (status set to Done)" ∧
    persistedTask
      (handleKanbanTaskApprove exEnv
        (exFiles [("T", exTask TaskWaitingForApprove "M" "fixed X" "")])
        (exCall "L" ["RM", "RL"])).files "alpha" "T" =
      some (exTask TaskDone "M" "fixed X" "L") :=
  have hres : Resolved exEnv (exFiles [("T", exTask TaskWaitingForApprove "M" "fixed X" "")])
      (exCall "L" ["RM", "RL"]) exCtx
      (exProject [("T", exTask TaskWaitingForApprove "M" "fixed X" "")]) :=
    ⟨rfl, rfl, [("alpha", exProject [("T", exTask TaskWaitingForApprove "M" "fixed X" "")])],
      "alpha", rfl, rfl⟩
  have hext : ExternalOk exEnv
      (exFiles [("T", exTask TaskWaitingForApprove "M" "fixed X" "")]) exCtx
      (exProject [("T", exTask TaskWaitingForApprove "M" "fixed X" "")]) :=
    ⟨rfl, by decide, rfl, rfl, ⟨"M2", rfl, by decide⟩, rfl, rfl, rfl, rfl, rfl⟩
  have h := task_approve_contract exEnv
    (exFiles [("T", exTask TaskWaitingForApprove "M" "fixed X" "")]) (exCall "L" ["RM", "RL"])
    exCtx (exProject [("T", exTask TaskWaitingForApprove "M" "fixed X" "")])
    (exTask TaskWaitingForApprove "M" "fixed X" "") hres hext (by decide) rfl
  ⟨hres, hext, h.1.mpr ⟨rfl, rfl⟩, h.2 ⟨rfl, rfl⟩⟩

/-- Witness of C4: leader `L` revokes the task that waits for approval. -/
theorem task_revoke_contract_witness :
    Resolved exEnv (exFiles [("T", exTask TaskWaitingForApprove "M" "fixed X" "")])
      (exCall "L" ["RM", "RL"]) exCtx
      (exProject [("T", exTask TaskWaitingForApprove "M" "fixed X" "")]) ∧
    ExternalOk exEnv (exFiles [("T", exTask TaskWaitingForApprove "M" "fixed X" "")]) exCtx
      (exProject [("T", exTask TaskWaitingForApprove "M" "fixed X" "")]) ∧
    (handleKanbanTaskRevoke exEnv
      (exFiles [("T", exTask TaskWaitingForApprove "M" "fixed X" "")])
      (exCall "L" ["RM", "RL"])).response = "revoked ✅ (back to InProgress)" ∧
    persistedTask
      (handleKanbanTaskRevoke exEnv
        (exFiles [("T", exTask TaskWaitingForApprove "M" "fixed X" "")])
        (exCall "L" ["RM", "RL"])).files "alpha" "T" =
      some (exTask TaskInProgress "M" "" "") :=
  have hres : Resolved exEnv (exFiles [("T", exTask TaskWaitingForApprove "M" "fixed X" "")])
      (exCall "L" ["RM", "RL"]) exCtx
      (exProject [("T", exTask TaskWaitingForApprove "M" "fixed X" "")]) :=
    ⟨rfl, rfl, [("alpha", exProject [("T", exTask TaskWaitingForApprove "M" "fixed X" "")])],
      "alpha", rfl, rfl⟩
  have hext : ExternalOk exEnv
      (exFiles [("T", exTask TaskWaitingForApprove "M" "fixed X" "")]) exCtx
      (exProject [("T", exTask TaskWaitingForApprove "M" "fixed X" "")]) :=
    ⟨rfl, by decide, rfl, rfl, ⟨"M2", rfl, by decide⟩, rfl, rfl, rfl, rfl, rfl⟩
  have h := task_revoke_contract exEnv
    (exFiles [("T", exTask TaskWaitingForApprove "M" "fixed X" "")]) (exCall "L" ["RM", "RL"])
    exCtx (exProject [("T", exTask TaskWaitingForApprove "M" "fixed X" "")])
    (exTask TaskWaitingForApprove "M" "fixed X" "") hres hext (by decide) rfl
  ⟨hres, hext, h.1.mpr ⟨rfl, rfl⟩, h.2 ⟨rfl, rfl⟩⟩

/-- Counterexample to C6 as stated: the record holds for thread `T` a task
with status ToDo and assignee `U7`; task-init succeeds and the record still
holds the assignee `U7`, not an empty one. -/
theorem task_init_keeps_assignee :
    mapGet (exProject [("T", exTask TaskToDo "U7" "" "")]).Tasks "T" =
      some (exTask TaskToDo "U7" "" "") ∧
    (handleKanbanTaskInit exEnv (exFiles [("T", exTask TaskToDo "U7" "" "")])
      (exCall "M" ["RM"])).response = "task already initialized ✅ (panel refreshed)" ∧
    persistedTask
      (handleKanbanTaskInit exEnv (exFiles [("T", exTask TaskToDo "U7" "" "")])
        (exCall "M" ["RM"])).files "alpha" "T" =
      some
        { ThreadID := "T", ForumID := "F", Status := "todo", AssigneeUserID := "U7",
          StatusMessageID := "M1", DoneDescription := "", ApprovedByUserID := "" } := by
  decide

/-- Witness of C6 as amended: task-init in the thread of a Done task answers
with a success text, and the record then holds a ToDo task without assignee,
done-description and approver. -/
theorem task_init_contract_witness :
    Resolved exEnv (exFiles [("T", exTask TaskDone "M" "fixed X" "L")]) (exCall "M" ["RM"])
      exCtx (exProject [("T", exTask TaskDone "M" "fixed X" "L")]) ∧
    ∃ t, persistedTask
        (handleKanbanTaskInit exEnv (exFiles [("T", exTask TaskDone "M" "fixed X" "L")])
          (exCall "M" ["RM"])).files "alpha" "T" = some t ∧
      t.ThreadID = "T" ∧ t.ForumID = "F" ∧ t.Status = TaskToDo ∧
      t.AssigneeUserID = "" ∧ t.DoneDescription = "" ∧ t.ApprovedByUserID = "" :=
  have hres : Resolved exEnv (exFiles [("T", exTask TaskDone "M" "fixed X" "L")])
      (exCall "M" ["RM"]) exCtx (exProject [("T", exTask TaskDone "M" "fixed X" "L")]) :=
    ⟨rfl, rfl, [("alpha", exProject [("T", exTask TaskDone "M" "fixed X" "L")])], "alpha", rfl,
      rfl⟩
  match task_init_contract exEnv (exFiles [("T", exTask TaskDone "M" "fixed X" "L")])
    (exCall "M" ["RM"]) exCtx (exProject [("T", exTask TaskDone "M" "fixed X" "L")]) hres
    (Or.inr rfl) with
  | ⟨t, h0, h1, h2, h3, _, h5⟩ =>
    ⟨hres, t, h0, h1, h2, h3,
      h5 (Or.inr ⟨exTask TaskDone "M" "fixed X" "L", rfl, by decide⟩)⟩

/-- Counterexample to C7 as stated: the task of thread `T` has status ToDo,
which is not the state task-approve starts from, and the caller `M` is not a
leader; task-approve answers that only the project leader may approve, not
with the BadState text. -/
theorem approve_by_member_not_bad_state :
    mapGet (exProject [("T", exTask TaskToDo "" "" "")]).Tasks "T" =
      some (exTask TaskToDo "" "" "") ∧
    (exTask TaskToDo "" "" "").Status ≠ TaskWaitingForApprove ∧
    isLeaderForProject (exCall "M" ["RM"]) (getAuthorID (exCall "M" ["RM"]))
      (exProject [("T", exTask TaskToDo "" "" "")]) = false ∧
    (handleKanbanTaskApprove exEnv (exFiles [("T", exTask TaskToDo "" "" "")])
      (exCall "M" ["RM"])).response = "not allowed: only project leader can approve" ∧
    (handleKanbanTaskApprove exEnv (exFiles [("T", exTask TaskToDo "" "" "")])
      (exCall "M" ["RM"])).response ≠ "not allowed: task status is not WaitingForApprove" := by
  decide

/-- Witness of C7 as amended: on the InProgress task of thread `T`, leader
`L` gets the BadState text from task-take, task-approve and task-revoke, and
the files stay as they are. -/
theorem out_of_state_rejected_witness :
    Resolved exEnv (exFiles [("T", exTask TaskInProgress "M" "" "")])
      (exCall "L" ["RM", "RL"]) exCtx (exProject [("T", exTask TaskInProgress "M" "" "")]) ∧
    TagsResolved exEnv exCtx (exProject [("T", exTask TaskInProgress "M" "" "")])
      (exProject [("T", exTask TaskInProgress "M" "" "")]) ∧
    handleKanbanTaskTake exEnv (exFiles [("T", exTask TaskInProgress "M" "" "")])
        (exCall "L" ["RM", "RL"]) =
      { response := "not allowed: task status is not ToDo",
        files := exFiles [("T", exTask TaskInProgress "M" "" "")],
        log := [Effect.respond "not allowed: task status is not ToDo"] } ∧
    handleKanbanTaskApprove exEnv (exFiles [("T", exTask TaskInProgress "M" "" "")])
        (exCall "L" ["RM", "RL"]) =
      { response := "not allowed: task status is not WaitingForApprove",
        files := exFiles [("T", exTask TaskInProgress "M" "" "")],
        log := [Effect.respond "not allowed: task status is not WaitingForApprove"] } ∧
    handleKanbanTaskRevoke exEnv (exFiles [("T", exTask TaskInProgress "M" "" "")])
        (exCall "L" ["RM", "RL"]) =
      { response := "not allowed: task status is not WaitingForApprove",
        files := exFiles [("T", exTask TaskInProgress "M" "" "")],
        log := [Effect.respond "not allowed: task status is not WaitingForApprove"] } :=
  have hres : Resolved exEnv (exFiles [("T", exTask TaskInProgress "M" "" "")])
      (exCall "L" ["RM", "RL"]) exCtx (exProject [("T", exTask TaskInProgress "M" "" "")]) :=
    ⟨rfl, rfl, [("alpha", exProject [("T", exTask TaskInProgress "M" "" "")])], "alpha", rfl,
      rfl⟩
  have hens : TagsResolved exEnv exCtx (exProject [("T", exTask TaskInProgress "M" "" "")])
      (exProject [("T", exTask TaskInProgress "M" "" "")]) := rfl
  have h := out_of_state_rejected exEnv (exFiles [("T", exTask TaskInProgress "M" "" "")])
    (exCall "L" ["RM", "RL"]) "fixed X" exCtx (exProject [("T", exTask TaskInProgress "M" "" "")])
    (exProject [("T", exTask TaskInProgress "M" "" "")]) (exTask TaskInProgress "M" "" "")
    hres hens (by decide) rfl
  ⟨hres, hens, h.1 (by decide), h.2.2.2.1 rfl (by decide), h.2.2.2.2 rfl (by decide)⟩

/-- Counterexample to C8 as stated: the record holds for thread `T` a task
with status Done; task-init succeeds and the record then holds the task with
status ToDo. -/
theorem task_init_leaves_done :
    persistedTask (exFiles [("T", exTask TaskDone "M" "fixed X" "L")]) "alpha" "T" =
      some (exTask TaskDone "M" "fixed X" "L") ∧
    (handleKanbanTaskInit exEnv (exFiles [("T", exTask TaskDone "M" "fixed X" "L")])
      (exCall "M" ["RM"])).response = "task already initialized ✅ (panel refreshed)" ∧
    persistedTask
      (handleKanbanTaskInit exEnv (exFiles [("T", exTask TaskDone "M" "fixed X" "L")])
        (exCall "M" ["RM"])).files "alpha" "T" =
      some
        { ThreadID := "T", ForumID := "F", Status := "todo", AssigneeUserID := "",
          StatusMessageID := "M1", DoneDescription := "", ApprovedByUserID := "" } := by
  decide

/-- Witness of C8 as amended: with the Done task of thread `T`, none of the
five transition commands, called by leader `L`, changes the files. -/
theorem done_is_terminal_witness :
    Resolved exEnv (exFiles [("T", exTask TaskDone "M" "fixed X" "L")])
      (exCall "L" ["RM", "RL"]) exCtx (exProject [("T", exTask TaskDone "M" "fixed X" "L")]) ∧
    (exTask TaskDone "M" "fixed X" "L").Status = TaskDone ∧
    (handleKanbanTaskTake exEnv (exFiles [("T", exTask TaskDone "M" "fixed X" "L")])
      (exCall "L" ["RM", "RL"])).files = exFiles [("T", exTask TaskDone "M" "fixed X" "L")] ∧
    (handleKanbanTaskDone exEnv (exFiles [("T", exTask TaskDone "M" "fixed X" "L")])
      (exCall "L" ["RM", "RL"]) "again").files =
        exFiles [("T", exTask TaskDone "M" "fixed X" "L")] ∧
    (handleKanbanTaskApprove exEnv (exFiles [("T", exTask TaskDone "M" "fixed X" "L")])
      (exCall "L" ["RM", "RL"])).files = exFiles [("T", exTask TaskDone "M" "fixed X" "L")] ∧
    (handleKanbanTaskRevoke exEnv (exFiles [("T", exTask TaskDone "M" "fixed X" "L")])
      (exCall "L" ["RM", "RL"])).files = exFiles [("T", exTask TaskDone "M" "fixed X" "L")] ∧
    (handleKanbanTaskSurrender exEnv (exFiles [("T", exTask TaskDone "M" "fixed X" "L")])
      (exCall "L" ["RM", "RL"])).files = exFiles [("T", exTask TaskDone "M" "fixed X" "L")] :=
  have hres : Resolved exEnv (exFiles [("T", exTask TaskDone "M" "fixed X" "L")])
      (exCall "L" ["RM", "RL"]) exCtx (exProject [("T", exTask TaskDone "M" "fixed X" "L")]) :=
    ⟨rfl, rfl, [("alpha", exProject [("T", exTask TaskDone "M" "fixed X" "L")])], "alpha", rfl,
      rfl⟩
  ⟨hres, rfl,
    done_is_terminal exEnv (exFiles [("T", exTask TaskDone "M" "fixed X" "L")])
      (exCall "L" ["RM", "RL"]) "again" exCtx
      (exProject [("T", exTask TaskDone "M" "fixed X" "L")])
      (exTask TaskDone "M" "fixed X" "L") hres rfl rfl⟩

/-- Counterexample to C9 as stated: the task of thread `T` is initialised
with status ToDo and the caller `X` is neither a leader nor the assignee;
task-surrender answers with the BadState text, not with the text that only
the assignee or a leader may surrender. -/
theorem surrender_by_stranger_bad_state :
    mapGet (exProject [("T", exTask TaskToDo "" "" "")]).Tasks "T" =
      some (exTask TaskToDo "" "" "") ∧
    isLeaderForProject (exCall "X" ["RM"]) (getAuthorID (exCall "X" ["RM"]))
      (exProject [("T", exTask TaskToDo "" "" "")]) = false ∧
    (exTask TaskToDo "" "" "").AssigneeUserID ≠ getAuthorID (exCall "X" ["RM"]) ∧
    (handleKanbanTaskSurrender exEnv (exFiles [("T", exTask TaskToDo "" "" "")])
      (exCall "X" ["RM"])).response = "not allowed: task status is not InProgress" ∧
    (handleKanbanTaskSurrender exEnv (exFiles [("T", exTask TaskToDo "" "" "")])
      (exCall "X" ["RM"])).response ≠ "not allowed: only assignee or leader can surrender" := by
  decide

/-- Witness of C9 as amended: user `X`, neither leader nor assignee, is
refused by task-done and task-surrender on the InProgress task of `M`. -/
theorem not_assignee_rejected_witness :
    Resolved exEnv (exFiles [("T", exTask TaskInProgress "M" "" "")]) (exCall "X" ["RM"])
      exCtx (exProject [("T", exTask TaskInProgress "M" "" "")]) ∧
    TagsResolved exEnv exCtx (exProject [("T", exTask TaskInProgress "M" "" "")])
      (exProject [("T", exTask TaskInProgress "M" "" "")]) ∧
    handleKanbanTaskDone exEnv (exFiles [("T", exTask TaskInProgress "M" "" "")])
        (exCall "X" ["RM"]) "fixed X" =
      { response := "not allowed: only assignee or leader can do this",
        files := exFiles [("T", exTask TaskInProgress "M" "" "")],
        log := [Effect.respond "not allowed: only assignee or leader can do this"] } ∧
    handleKanbanTaskSurrender exEnv (exFiles [("T", exTask TaskInProgress "M" "" "")])
        (exCall "X" ["RM"]) =
      { response := "not allowed: only assignee or leader can surrender",
        files := exFiles [("T", exTask TaskInProgress "M" "" "")],
        log := [Effect.respond "not allowed: only assignee or leader can surrender"] } :=
  have hres : Resolved exEnv (exFiles [("T", exTask TaskInProgress "M" "" "")])
      (exCall "X" ["RM"]) exCtx (exProject [("T", exTask TaskInProgress "M" "" "")]) :=
    ⟨rfl, rfl, [("alpha", exProject [("T", exTask TaskInProgress "M" "" "")])], "alpha", rfl,
      rfl⟩
  have hens : TagsResolved exEnv exCtx (exProject [("T", exTask TaskInProgress "M" "" "")])
      (exProject [("T", exTask TaskInProgress "M" "" "")]) := rfl
  have h := not_assignee_rejected exEnv (exFiles [("T", exTask TaskInProgress "M" "" "")])
    (exCall "X" ["RM"]) "fixed X" exCtx (exProject [("T", exTask TaskInProgress "M" "" "")])
    (exProject [("T", exTask TaskInProgress "M" "" "")]) (exTask TaskInProgress "M" "" "")
    hres hens (by decide) rfl rfl rfl (by decide)
  ⟨hres, hens, h.1 (by decide), h.2⟩

/-- Witness of C10: member `M`, not a leader, is refused by task-approve and
task-revoke in a thread for which the project holds no task. -/
theorem not_leader_rejected_witness :
    Resolved exEnv (exFiles []) (exCall "M" ["RM"]) exCtx (exProject []) ∧
    isLeaderForProject (exCall "M" ["RM"]) (getAuthorID (exCall "M" ["RM"])) (exProject []) =
      false ∧
    handleKanbanTaskApprove exEnv (exFiles []) (exCall "M" ["RM"]) =
      { response := "not allowed: only project leader can approve", files := exFiles [],
        log := [Effect.respond "not allowed: only project leader can approve"] } ∧
    handleKanbanTaskRevoke exEnv (exFiles []) (exCall "M" ["RM"]) =
      { response := "not allowed: only project leader can revoke", files := exFiles [],
        log := [Effect.respond "not allowed: only project leader can revoke"] } :=
  have hres : Resolved exEnv (exFiles []) (exCall "M" ["RM"]) exCtx (exProject []) :=
    ⟨rfl, rfl, [("alpha", exProject [])], "alpha", rfl, rfl⟩
  ⟨hres, rfl,
    not_leader_rejected exEnv (exFiles []) (exCall "M" ["RM"]) exCtx (exProject []) hres
      (by decide) rfl⟩

/-! ## Leadership and project resolution -/

theorem leader_ne_empty : Leader ≠ "" := by decide

/-- C12 (leadership test), amended. `isLeaderForProject` answers true
exactly when the interaction has a member whose role list contains the
leader role ID of the project and that ID is not blank, or the caller ID is
not empty and the stored membership of the caller is Leader. -/
theorem isLeaderForProject_iff (i : InteractionCreate) (callerID : String) (p : Project) :
    isLeaderForProject i callerID p = true ↔
      ((∃ m, i.Member = some m ∧ p.LeaderRoleID ∈ m.Roles) ∧ trimSpace p.LeaderRoleID ≠ "") ∨
      (callerID ≠ "" ∧ mapGet p.Members callerID = some Leader) := by
  have hget : (mapGet p.Members callerID).getD "" = Leader ↔
      mapGet p.Members callerID = some Leader := by
    cases h : mapGet p.Members callerID with
    | none => simp [leader_ne_empty.symm]
    | some v => simp
  have hrole : memberHasRole i.Member p.LeaderRoleID = true →
      ∃ m, i.Member = some m ∧ p.LeaderRoleID ∈ m.Roles := by
    intro h
    unfold memberHasRole at h
    cases hm : i.Member with
    | none => rw [hm] at h; cases h
    | some m =>
      rw [hm] at h
      simp only at h
      split at h
      · cases h
      · exact ⟨m, rfl, by simpa using h⟩
  unfold isLeaderForProject
  constructor
  · intro h
    split at h
    · rename_i hc
      exact Or.inl ⟨hrole hc.2.2, hc.2.1⟩
    · split at h
      · rename_i hne
        exact Or.inr ⟨hne, hget.mp (by simpa using h)⟩
      · cases h
  · rintro (⟨⟨m, hm, hin⟩, hb⟩ | ⟨hne, hl⟩)
    · have hne : p.LeaderRoleID ≠ "" := by
        intro h0
        rw [h0] at hb
        exact hb trimSpace_empty
      have hc : i.Member.isSome = true ∧ trimSpace p.LeaderRoleID ≠ "" ∧
          memberHasRole i.Member p.LeaderRoleID = true := by
        refine ⟨by rw [hm]; rfl, hb, ?_⟩
        rw [hm]
        simp only [memberHasRole, if_neg hne]
        simpa using hin
      rw [if_pos hc]
    · split
      · rfl
      · simpa using hget.mpr hl

theorem projectMatches_eq (g f : String) (p : Project) :
    projectMatches (trimSpace g) (trimSpace f) p = decide (OwnsForum g f p) := by
  unfold projectMatches OwnsForum
  rw [Bool.decide_and]
  congr 1
  rw [Bool.eq_iff_iff]
  simp [List.any_eq_true]

theorem findProject_hits (projects : GoMap Project) (g f : String) :
    (projects.map Prod.snd).filter (projectMatches (trimSpace g) (trimSpace f)) =
      (projects.filter (fun e => decide (OwnsForum g f e.2))).map Prod.snd := by
  induction projects with
  | nil => rfl
  | cons e rest ih =>
    simp only [List.map_cons, List.filter_cons, projectMatches_eq, ih]
    split <;> rfl

/-- C13 (project resolution). For a guild ID and a forum ID that are not
blank, `findProjectByThreadContext` succeeds exactly when one project of the
map owns the forum in the guild (IDs compared trimmed), and then it returns
that project with its slug as hint; with no owner it fails with the
NotAProjectForum text and with two or more with the DataConflict text. -/
theorem findProject_contract (projects : GoMap Project) (g f : String)
    (hg : trimSpace g ≠ "") (hf : trimSpace f ≠ "") :
    ((findProjectByThreadContext projects g f).2.1 = true ↔ ownerCount projects g f = 1) ∧
    (ownerCount projects g f = 1 →
      ∃ e ∈ projects, OwnsForum g f e.2 ∧
        findProjectByThreadContext projects g f = (e.2, true, e.2.Slug)) ∧
    (ownerCount projects g f = 0 →
      findProjectByThreadContext projects g f =
        (Project.zero, false,
          "thread is not under any known project forum (create forum via /kanban create-forum)")) ∧
    (2 ≤ ownerCount projects g f →
      findProjectByThreadContext projects g f =
        (Project.zero, false, "multiple projects match this forum (data conflict)")) := by
  unfold ownerCount
  cases hh : projects.filter (fun e => decide (OwnsForum g f e.2)) with
  | nil =>
    have hfind : findProjectByThreadContext projects g f =
        (Project.zero, false,
          "thread is not under any known project forum (create forum via /kanban create-forum)") := by
      unfold findProjectByThreadContext
      simp only [if_neg hg, if_neg hf, findProject_hits, hh, List.map_nil]
    rw [hfind]
    simp
  | cons e rest =>
    have he : e ∈ projects.filter (fun e => decide (OwnsForum g f e.2)) := by
      rw [hh]; exact List.mem_cons_self _ _
    have he2 := List.mem_filter.mp he
    cases rest with
    | nil =>
      have hfind : findProjectByThreadContext projects g f = (e.2, true, e.2.Slug) := by
        unfold findProjectByThreadContext
        simp only [if_neg hg, if_neg hf, findProject_hits, hh, List.map_cons, List.map_nil]
      rw [hfind]
      simp only [List.length_singleton, true_iff, forall_const, one_ne_zero, false_implies,
        Nat.not_ofNat_le_one, and_true]
      exact ⟨trivial, e, he2.1, by simpa using he2.2, rfl⟩
    | cons e2 rest2 =>
      have hfind : findProjectByThreadContext projects g f =
          (Project.zero, false, "multiple projects match this forum (data conflict)") := by
        unfold findProjectByThreadContext
        simp only [if_neg hg, if_neg hf, findProject_hits, hh, List.map_cons]
      rw [hfind]
      simp

/-! ## The shape of every invocation -/

theorem isErrorText_append (a x : String) (h : isErrorText a = true) :
    isErrorText (a ++ x) = true := by
  unfold isErrorText at h ⊢
  rw [Bool.or_eq_true] at h ⊢
  rw [String.data_append]
  rcases h with h | h
  · left
    rw [List.isPrefixOf_iff_prefix] at h ⊢
    exact h.trans (List.prefix_append _ _)
  · right
    rw [List.isPrefixOf_iff_prefix] at h ⊢
    exact h.trans (List.prefix_append _ _)

theorem mustTaskContext_error (env : Env) (i : InteractionCreate) (msg : String)
    (h : mustTaskContext env i = Except.error msg) : isErrorText msg = true := by
  unfold mustTaskContext at h
  simp only at h
  split at h
  · cases h; decide
  · split at h
    · cases h; decide
    · cases h; decide
    · split at h
      · cases h; decide
      · split at h
        · cases h; decide
        · cases h

/-- Every run of `handleKanbanTaskTake` either answers with an error text
before any write, or has passed every guard and runs the closing steps. -/
theorem take_shape (env : Env) (files : Files) (i : InteractionCreate) :
    (∃ msg, handleKanbanTaskTake env files i = respondEphemeral files [] msg ∧
        isErrorText msg = true) ∨
    (∃ ctx p p1 task, Resolved env files i ctx p ∧ TagsResolved env ctx p p1 ∧
        getAuthorID i ≠ "" ∧ mapGet p.Tasks ctx.ThreadID = some task ∧
        task.Status = TaskToDo ∧ task.AssigneeUserID = "" ∧
        handleKanbanTaskTake env files i =
          commitTask env files p1 ctx
            { task with
              Status := TaskInProgress, AssigneeUserID := getAuthorID i, DoneDescription := "",
              ApprovedByUserID := "" } [] "taken ✅ (status set to InProgress)") := by
  cases hg : mustGuild i with
  | some err =>
    left
    refine ⟨"error: " ++ err, ?_, isErrorText_append _ _ (by decide)⟩
    unfold handleKanbanTaskTake
    simp only [hg]
  | none =>
  by_cases hc : getAuthorID i = ""
  · exact Or.inl ⟨_, take_no_author env files i hg hc, by decide⟩
  cases hctx : mustTaskContext env i with
  | error msg =>
    left
    refine ⟨msg, ?_, mustTaskContext_error env i msg hctx⟩
    unfold handleKanbanTaskTake
    simp only [hg, hc, hctx, ↓reduceIte]
  | ok ctx =>
  cases hload : load_all_files env files with
  | error err =>
    left
    refine ⟨"error: failed to load projects: " ++ err, ?_, isErrorText_append _ _ (by decide)⟩
    unfold handleKanbanTaskTake
    simp only [hg, hc, hctx, hload, ↓reduceIte]
  | ok projects =>
  rcases hfind : findProjectByThreadContext projects i.GuildID ctx.ForumID with ⟨p, b, hint⟩
  cases b with
  | false =>
    left
    refine ⟨"error: " ++ hint, ?_, isErrorText_append _ _ (by decide)⟩
    unfold handleKanbanTaskTake
    simp only [hg, hc, hctx, hload, hfind, ↓reduceIte]
  | true =>
  have hres : Resolved env files i ctx p := ⟨hg, hctx, projects, hint, hload, hfind⟩
  rcases hens : ensureForumTagMapping env p ctx.ForumID with ⟨p1, err⟩
  cases err with
  | some e =>
    exact Or.inl ⟨_, take_tags_failed env files i ctx p p1 e hres hc hens,
      isErrorText_append _ _ (by decide)⟩
  | none =>
  have hframe := ensureForumTagMapping_frame env p p1 _ hens
  cases htask : mapGet p.Tasks ctx.ThreadID with
  | none =>
    left
    refine ⟨"error: task not initialized. Run /kanban task-init in this thread.", ?_,
      by decide⟩
    have htask1 : mapGet p1.Tasks ctx.ThreadID = none := by rw [hframe]; exact htask
    unfold handleKanbanTaskTake
    simp only [hg, hc, hctx, hload, hfind, hens, htask1, ↓reduceIte]
  | some task =>
  obtain ⟨_, hn, _⟩ := resolved_task env files i ctx p p1 task hres hens htask
  rw [take_eq env files i ctx p p1 task hres hens hc htask]
  by_cases hs : task.Status = TaskToDo
  · by_cases ha : task.AssigneeUserID = ""
    · right
      have ha2 : ¬ trimSpace task.AssigneeUserID ≠ "" := by rw [hn.2.2.2.2.1]; simpa using ha
      rw [if_neg (by simpa using hs), if_neg ha2]
      exact ⟨ctx, p, p1, task, hres, hens, hc, htask, hs, ha, rfl⟩
    · left
      have ha2 : trimSpace task.AssigneeUserID ≠ "" := by rw [hn.2.2.2.2.1]; exact ha
      rw [if_neg (by simpa using hs), if_pos ha2]
      exact ⟨_, rfl, by decide⟩
  · left
    rw [if_pos hs]
    exact ⟨_, rfl, by decide⟩

theorem surrender_shape (env : Env) (files : Files) (i : InteractionCreate) :
    (∃ msg, handleKanbanTaskSurrender env files i = respondEphemeral files [] msg ∧
        isErrorText msg = true) ∨
    (∃ ctx p p1 task, Resolved env files i ctx p ∧ TagsResolved env ctx p p1 ∧
        getAuthorID i ≠ "" ∧ mapGet p.Tasks ctx.ThreadID = some task ∧
        (task.Status = TaskInProgress ∧
          (task.AssigneeUserID = getAuthorID i ∨
            isLeaderForProject i (getAuthorID i) p = true)) ∧
        handleKanbanTaskSurrender env files i =
          commitTask env files p1 ctx
            { task with
              Status := TaskToDo, AssigneeUserID := "", DoneDescription := "",
              ApprovedByUserID := "" } [] "surrendered ✅ (back to ToDo)") := by
  cases hg : mustGuild i with
  | some err =>
    left
    refine ⟨"error: " ++ err, ?_, isErrorText_append _ _ (by decide)⟩
    unfold handleKanbanTaskSurrender
    simp only [hg]
  | none =>
  by_cases hc : getAuthorID i = ""
  · exact Or.inl ⟨_, surrender_no_author env files i hg hc, by decide⟩
  cases hctx : mustTaskContext env i with
  | error msg =>
    left
    refine ⟨msg, ?_, mustTaskContext_error env i msg hctx⟩
    unfold handleKanbanTaskSurrender
    simp only [hg, hc, hctx, ↓reduceIte]
  | ok ctx =>
  cases hload : load_all_files env files with
  | error err =>
    left
    refine ⟨"error: failed to load projects: " ++ err, ?_, isErrorText_append _ _ (by decide)⟩
    unfold handleKanbanTaskSurrender
    simp only [hg, hc, hctx, hload, ↓reduceIte]
  | ok projects =>
  rcases hfind : findProjectByThreadContext projects i.GuildID ctx.ForumID with ⟨p, b, hint⟩
  cases b with
  | false =>
    left
    refine ⟨"error: " ++ hint, ?_, isErrorText_append _ _ (by decide)⟩
    unfold handleKanbanTaskSurrender
    simp only [hg, hc, hctx, hload, hfind, ↓reduceIte]
  | true =>
  have hres : Resolved env files i ctx p := ⟨hg, hctx, projects, hint, hload, hfind⟩
  rcases hens : ensureForumTagMapping env p ctx.ForumID with ⟨p1, err⟩
  cases err with
  | some e =>
    exact Or.inl ⟨_, surrender_tags_failed env files i ctx p p1 e hres hc hens,
      isErrorText_append _ _ (by decide)⟩
  | none =>
  have hframe := ensureForumTagMapping_frame env p p1 _ hens
  cases htask : mapGet p.Tasks ctx.ThreadID with
  | none =>
    left
    refine ⟨"error: task not initialized. Run /kanban task-init in this thread.", ?_,
      by decide⟩
    have htask1 : mapGet p1.Tasks ctx.ThreadID = none := by rw [hframe]; exact htask
    unfold handleKanbanTaskSurrender
    simp only [hg, hc, hctx, hload, hfind, hens, htask1, ↓reduceIte]
  | some task =>
  obtain ⟨_, hn, _⟩ := resolved_task env files i ctx p p1 task hres hens htask
  rw [surrender_eq env files i ctx p p1 task hres hens hc htask]
  by_cases hs : task.Status = TaskInProgress
  · by_cases ha : task.AssigneeUserID = getAuthorID i ∨
        isLeaderForProject i (getAuthorID i) p = true
    · right
      have ha2 : ¬ (isLeaderForProject i (getAuthorID i) p = false ∧
          trimSpace task.AssigneeUserID ≠ getAuthorID i) := by
        rw [hn.2.2.2.2.1]
        rintro ⟨h1, h2⟩
        rcases ha with h | h
        · exact h2 h
        · rw [h1] at h; cases h
      rw [if_neg (by simpa using hs), if_neg ha2]
      exact ⟨ctx, p, p1, task, hres, hens, hc, htask, ⟨hs, ha⟩, rfl⟩
    · left
      have ha2 : isLeaderForProject i (getAuthorID i) p = false ∧
          trimSpace task.AssigneeUserID ≠ getAuthorID i := by
        rw [hn.2.2.2.2.1]
        constructor
        · cases hb : isLeaderForProject i (getAuthorID i) p
          · rfl
          · exact absurd (Or.inr hb) ha
        · exact fun h => ha (Or.inl h)
      rw [if_neg (by simpa using hs), if_pos ha2]
      exact ⟨_, rfl, by decide⟩
  · left
    rw [if_pos hs]
    exact ⟨_, rfl, by decide⟩

theorem done_shape (env : Env) (files : Files) (i : InteractionCreate) (description : String) :
    (∃ msg, handleKanbanTaskDone env files i description = respondEphemeral files [] msg ∧
        isErrorText msg = true) ∨
    (∃ ctx p p1 task, Resolved env files i ctx p ∧ TagsResolved env ctx p p1 ∧
        getAuthorID i ≠ "" ∧ mapGet p.Tasks ctx.ThreadID = some task ∧
        (trimSpace description ≠ "" ∧ task.Status = TaskInProgress ∧
          (task.AssigneeUserID = getAuthorID i ∨
            isLeaderForProject i (getAuthorID i) p = true)) ∧
        handleKanbanTaskDone env files i description =
          commitTask env files p1 ctx
            { task with
              Status := TaskWaitingForApprove, DoneDescription := trimSpace description,
              ApprovedByUserID := "" }
            (if env.sendErr = none then
              [Effect.messageSend ctx.ThreadID
                ("🟦 Submitted for approval by <@" ++ getAuthorID i ++ ">\n\n" ++
                  trimSpace description)]
            else [])
            "submitted ✅ (status set to WaitingForApprove)") := by
  cases hg : mustGuild i with
  | some err =>
    left
    refine ⟨"error: " ++ err, ?_, isErrorText_append _ _ (by decide)⟩
    unfold handleKanbanTaskDone
    simp only [hg]
  | none =>
  by_cases hd : trimSpace description = ""
  · exact Or.inl ⟨_, done_blank env files i description hg hd, by decide⟩
  by_cases hc : getAuthorID i = ""
  · exact Or.inl ⟨_, done_no_author env files i description hg hd hc, by decide⟩
  cases hctx : mustTaskContext env i with
  | error msg =>
    left
    refine ⟨msg, ?_, mustTaskContext_error env i msg hctx⟩
    unfold handleKanbanTaskDone
    simp only [hg, hd, hc, hctx, ↓reduceIte]
  | ok ctx =>
  cases hload : load_all_files env files with
  | error err =>
    left
    refine ⟨"error: failed to load projects: " ++ err, ?_, isErrorText_append _ _ (by decide)⟩
    unfold handleKanbanTaskDone
    simp only [hg, hd, hc, hctx, hload, ↓reduceIte]
  | ok projects =>
  rcases hfind : findProjectByThreadContext projects i.GuildID ctx.ForumID with ⟨p, b, hint⟩
  cases b with
  | false =>
    left
    refine ⟨"error: " ++ hint, ?_, isErrorText_append _ _ (by decide)⟩
    unfold handleKanbanTaskDone
    simp only [hg, hd, hc, hctx, hload, hfind, ↓reduceIte]
  | true =>
  have hres : Resolved env files i ctx p := ⟨hg, hctx, projects, hint, hload, hfind⟩
  rcases hens : ensureForumTagMapping env p ctx.ForumID with ⟨p1, err⟩
  cases err with
  | some e =>
    exact Or.inl ⟨_, done_tags_failed env files i description ctx p p1 e hres hc hd hens,
      isErrorText_append _ _ (by decide)⟩
  | none =>
  have hframe := ensureForumTagMapping_frame env p p1 _ hens
  cases htask : mapGet p.Tasks ctx.ThreadID with
  | none =>
    left
    refine ⟨"error: task not initialized. Run /kanban task-init in this thread.", ?_,
      by decide⟩
    have htask1 : mapGet p1.Tasks ctx.ThreadID = none := by rw [hframe]; exact htask
    unfold handleKanbanTaskDone
    simp only [hg, hd, hc, hctx, hload, hfind, hens, htask1, ↓reduceIte]
  | some task =>
  obtain ⟨_, hn, _⟩ := resolved_task env files i ctx p p1 task hres hens htask
  rw [done_eq env files i description ctx p p1 task hres hens hc hd htask]
  by_cases hs : task.Status = TaskInProgress
  · by_cases ha : task.AssigneeUserID = getAuthorID i ∨
        isLeaderForProject i (getAuthorID i) p = true
    · right
      have ha2 : ¬ (isLeaderForProject i (getAuthorID i) p = false ∧
          trimSpace task.AssigneeUserID ≠ getAuthorID i) := by
        rw [hn.2.2.2.2.1]
        rintro ⟨h1, h2⟩
        rcases ha with h | h
        · exact h2 h
        · rw [h1] at h; cases h
      rw [if_neg (by simpa using hs), if_neg ha2]
      exact ⟨ctx, p, p1, task, hres, hens, hc, htask, ⟨hd, hs, ha⟩, rfl⟩
    · left
      have ha2 : isLeaderForProject i (getAuthorID i) p = false ∧
          trimSpace task.AssigneeUserID ≠ getAuthorID i := by
        rw [hn.2.2.2.2.1]
        constructor
        · cases hb : isLeaderForProject i (getAuthorID i) p
          · rfl
          · exact absurd (Or.inr hb) ha
        · exact fun h => ha (Or.inl h)
      rw [if_neg (by simpa using hs), if_pos ha2]
      exact ⟨_, rfl, by decide⟩
  · left
    rw [if_pos hs]
    exact ⟨_, rfl, by decide⟩

theorem approve_shape (env : Env) (files : Files) (i : InteractionCreate) :
    (∃ msg, handleKanbanTaskApprove env files i = respondEphemeral files [] msg ∧
        isErrorText msg = true) ∨
    (∃ ctx p p1 task, Resolved env files i ctx p ∧ TagsResolved env ctx p p1 ∧
        getAuthorID i ≠ "" ∧ mapGet p.Tasks ctx.ThreadID = some task ∧
        (isLeaderForProject i (getAuthorID i) p = true ∧
          task.Status = TaskWaitingForApprove) ∧
        handleKanbanTaskApprove env files i =
          commitTask env files p1 ctx
            { task with Status := TaskDone, ApprovedByUserID := getAuthorID i }
            (if env.sendErr = none then
              [Effect.messageSend ctx.ThreadID
                ("✅ Approved by <@" ++ getAuthorID i ++ "> at " ++ env.now)]
            else [])
            "approved ✅ (status set to Done)") := by
  cases hg : mustGuild i with
  | some err =>
    left
    refine ⟨"error: " ++ err, ?_, isErrorText_append _ _ (by decide)⟩
    unfold handleKanbanTaskApprove
    simp only [hg]
  | none =>
  by_cases hc : getAuthorID i = ""
  · exact Or.inl ⟨_, approve_no_author env files i hg hc, by decide⟩
  cases hctx : mustTaskContext env i with
  | error msg =>
    left
    refine ⟨msg, ?_, mustTaskContext_error env i msg hctx⟩
    unfold handleKanbanTaskApprove
    simp only [hg, hc, hctx, ↓reduceIte]
  | ok ctx =>
  cases hload : load_all_files env files with
  | error err =>
    left
    refine ⟨"error: failed to load projects: " ++ err, ?_, isErrorText_append _ _ (by decide)⟩
    unfold handleKanbanTaskApprove
    simp only [hg, hc, hctx, hload, ↓reduceIte]
  | ok projects =>
  rcases hfind : findProjectByThreadContext projects i.GuildID ctx.ForumID with ⟨p, b, hint⟩
  cases b with
  | false =>
    left
    refine ⟨"error: " ++ hint, ?_, isErrorText_append _ _ (by decide)⟩
    unfold handleKanbanTaskApprove
    simp only [hg, hc, hctx, hload, hfind, ↓reduceIte]
  | true =>
  have hres : Resolved env files i ctx p := ⟨hg, hctx, projects, hint, hload, hfind⟩
  cases hlead : isLeaderForProject i (getAuthorID i) p with
  | false => exact Or.inl ⟨_, approve_not_leader env files i ctx p hres hc hlead, by decide⟩
  | true =>
  rcases hens : ensureForumTagMapping env p ctx.ForumID with ⟨p1, err⟩
  cases err with
  | some e =>
    exact Or.inl ⟨_, approve_tags_failed env files i ctx p p1 e hres hc hlead hens,
      isErrorText_append _ _ (by decide)⟩
  | none =>
  have hframe := ensureForumTagMapping_frame env p p1 _ hens
  cases htask : mapGet p.Tasks ctx.ThreadID with
  | none =>
    left
    refine ⟨"error: task not initialized. Run /kanban task-init in this thread.", ?_,
      by decide⟩
    have htask1 : mapGet p1.Tasks ctx.ThreadID = none := by rw [hframe]; exact htask
    unfold handleKanbanTaskApprove
    simp only [hg, hc, hctx, hload, hfind, hens, htask1, hlead, ↓reduceIte]
    rfl
  | some task =>
  rw [approve_eq env files i ctx p p1 task hres hens hc hlead htask]
  by_cases hs : task.Status = TaskWaitingForApprove
  · right
    rw [if_neg (by simpa using hs)]
    exact ⟨ctx, p, p1, task, hres, hens, hc, htask, ⟨hlead, hs⟩, rfl⟩
  · left
    rw [if_pos hs]
    exact ⟨_, rfl, by decide⟩

theorem revoke_shape (env : Env) (files : Files) (i : InteractionCreate) :
    (∃ msg, handleKanbanTaskRevoke env files i = respondEphemeral files [] msg ∧
        isErrorText msg = true) ∨
    (∃ ctx p p1 task, Resolved env files i ctx p ∧ TagsResolved env ctx p p1 ∧
        getAuthorID i ≠ "" ∧ mapGet p.Tasks ctx.ThreadID = some task ∧
        (isLeaderForProject i (getAuthorID i) p = true ∧
          task.Status = TaskWaitingForApprove) ∧
        handleKanbanTaskRevoke env files i =
          commitTask env files p1 ctx
            { task with Status := TaskInProgress, ApprovedByUserID := "", DoneDescription := "" }
            [] "revoked ✅ (back to InProgress)") := by
  cases hg : mustGuild i with
  | some err =>
    left
    refine ⟨"error: " ++ err, ?_, isErrorText_append _ _ (by decide)⟩
    unfold handleKanbanTaskRevoke
    simp only [hg]
  | none =>
  by_cases hc : getAuthorID i = ""
  · exact Or.inl ⟨_, revoke_no_author env files i hg hc, by decide⟩
  cases hctx : mustTaskContext env i with
  | error msg =>
    left
    refine ⟨msg, ?_, mustTaskContext_error env i msg hctx⟩
    unfold handleKanbanTaskRevoke
    simp only [hg, hc, hctx, ↓reduceIte]
  | ok ctx =>
  cases hload : load_all_files env files with
  | error err =>
    left
    refine ⟨"error: failed to load projects: " ++ err, ?_, isErrorText_append _ _ (by decide)⟩
    unfold handleKanbanTaskRevoke
    simp only [hg, hc, hctx, hload, ↓reduceIte]
  | ok projects =>
  rcases hfind : findProjectByThreadContext projects i.GuildID ctx.ForumID with ⟨p, b, hint⟩
  cases b with
  | false =>
    left
    refine ⟨"error: " ++ hint, ?_, isErrorText_append _ _ (by decide)⟩
    unfold handleKanbanTaskRevoke
    simp only [hg, hc, hctx, hload, hfind, ↓reduceIte]
  | true =>
  have hres : Resolved env files i ctx p := ⟨hg, hctx, projects, hint, hload, hfind⟩
  cases hlead : isLeaderForProject i (getAuthorID i) p with
  | false => exact Or.inl ⟨_, revoke_not_leader env files i ctx p hres hc hlead, by decide⟩
  | true =>
  rcases hens : ensureForumTagMapping env p ctx.ForumID with ⟨p1, err⟩
  cases err with
  | some e =>
    exact Or.inl ⟨_, revoke_tags_failed env files i ctx p p1 e hres hc hlead hens,
      isErrorText_append _ _ (by decide)⟩
  | none =>
  have hframe := ensureForumTagMapping_frame env p p1 _ hens
  cases htask : mapGet p.Tasks ctx.ThreadID with
  | none =>
    left
    refine ⟨"error: task not initialized. Run /kanban task-init in this thread.", ?_,
      by decide⟩
    have htask1 : mapGet p1.Tasks ctx.ThreadID = none := by rw [hframe]; exact htask
    unfold handleKanbanTaskRevoke
    simp only [hg, hc, hctx, hload, hfind, hens, htask1, hlead, ↓reduceIte]
    rfl
  | some task =>
  rw [revoke_eq env files i ctx p p1 task hres hens hc hlead htask]
  by_cases hs : task.Status = TaskWaitingForApprove
  · right
    rw [if_neg (by simpa using hs)]
    exact ⟨ctx, p, p1, task, hres, hens, hc, htask, ⟨hlead, hs⟩, rfl⟩
  · left
    rw [if_pos hs]
    exact ⟨_, rfl, by decide⟩

/-- Every run of a transition command either answers with an error text
before any write and leaves the files alone, or has passed every guard and
runs the closing steps on the task of `transitionTask`. -/
theorem transition_shape (c : TaskCommand) (hc : c ≠ TaskCommand.taskInit) (env : Env)
    (files : Files) (i : InteractionCreate) :
    (∃ msg, handleTaskCommand c env files i = respondEphemeral files [] msg ∧
        isErrorText msg = true) ∨
    (∃ ctx p p1 task, Resolved env files i ctx p ∧ TagsResolved env ctx p p1 ∧
        getAuthorID i ≠ "" ∧ mapGet p.Tasks ctx.ThreadID = some task ∧
        TransitionAllowed c i p task ∧
        handleTaskCommand c env files i =
          commitTask env files p1 ctx (transitionTask c (getAuthorID i) task)
            (transitionPost c env ctx (getAuthorID i)) (okText c)) := by
  cases c with
  | taskInit => exact absurd rfl hc
  | taskTake =>
    rcases take_shape env files i with h | ⟨ctx, p, p1, task, h1, h2, h3, h4, h5, h6, h7⟩
    · exact Or.inl h
    · exact Or.inr ⟨ctx, p, p1, task, h1, h2, h3, h4, ⟨h5, h6⟩, h7⟩
  | taskDone d =>
    rcases done_shape env files i (trimSpace d) with h | ⟨ctx, p, p1, task, h1, h2, h3, h4, h5, h6⟩
    · exact Or.inl h
    · rw [trimSpace_idem] at h5 h6
      exact Or.inr ⟨ctx, p, p1, task, h1, h2, h3, h4, h5, h6⟩
  | taskApprove => exact approve_shape env files i
  | taskRevoke => exact revoke_shape env files i
  | taskSurrender => exact surrender_shape env files i

/-- Every run of task-init either answers with an error text before any
write and leaves the files alone, or runs the steps of `initCore`. -/
theorem init_shape (env : Env) (files : Files) (i : InteractionCreate) :
    (∃ msg, handleKanbanTaskInit env files i = respondEphemeral files [] msg ∧
        isErrorText msg = true) ∨
    (∃ ctx p p1, Resolved env files i ctx p ∧ TagsResolved env ctx p p1 ∧
        handleKanbanTaskInit env files i = initCore env files p1 ctx) := by
  cases hg : mustGuild i with
  | some err =>
    left
    refine ⟨"error: " ++ err, ?_, isErrorText_append _ _ (by decide)⟩
    unfold handleKanbanTaskInit
    simp only [hg]
  | none =>
  cases hctx : mustTaskContext env i with
  | error msg =>
    left
    refine ⟨msg, ?_, mustTaskContext_error env i msg hctx⟩
    unfold handleKanbanTaskInit
    simp only [hg, hctx]
  | ok ctx =>
  cases hload : load_all_files env files with
  | error err =>
    left
    refine ⟨"error: failed to load projects: " ++ err, ?_, isErrorText_append _ _ (by decide)⟩
    unfold handleKanbanTaskInit
    simp only [hg, hctx, hload]
  | ok projects =>
  rcases hfind : findProjectByThreadContext projects i.GuildID ctx.ForumID with ⟨p, b, hint⟩
  cases b with
  | false =>
    left
    refine ⟨"error: " ++ hint, ?_, isErrorText_append _ _ (by decide)⟩
    unfold handleKanbanTaskInit
    simp only [hg, hctx, hload, hfind]
  | true =>
  have hres : Resolved env files i ctx p := ⟨hg, hctx, projects, hint, hload, hfind⟩
  rcases hens : ensureForumTagMapping env p ctx.ForumID with ⟨p1, err⟩
  cases err with
  | some e =>
    exact Or.inl ⟨_, init_tags_failed env files i ctx p p1 e hres hens,
      isErrorText_append _ _ (by decide)⟩
  | none => exact Or.inr ⟨ctx, p, p1, hres, hens, init_eq env files i ctx p p1 hres hens⟩

theorem resolved_unique (env : Env) (files : Files) (i : InteractionCreate)
    (ctx ctx2 : taskContext) (p p2 : Project) (h : Resolved env files i ctx p)
    (h2 : Resolved env files i ctx2 p2) : ctx2 = ctx ∧ p2 = p := by
  obtain ⟨_, hctx, projects, hint, hload, hfind⟩ := h
  obtain ⟨_, hctx2, projects2, hint2, hload2, hfind2⟩ := h2
  rw [hctx] at hctx2
  cases hctx2
  rw [hload] at hload2
  cases hload2
  rw [hfind] at hfind2
  cases hfind2
  exact ⟨rfl, rfl⟩

theorem tagsResolved_unique (env : Env) (ctx : taskContext) (p p1 p2 : Project)
    (h : TagsResolved env ctx p p1) (h2 : TagsResolved env ctx p p2) : p2 = p1 := by
  unfold TagsResolved at h h2
  rw [h] at h2
  cases h2
  rfl

/-! ## What the closing steps write -/

theorem applyStatusTag_log (env : Env) (p : Project) (f t st : String) (log : List Effect)
    (h : applyStatusTagToThread env p f t st = Except.ok log) :
    env.editTagsErr = none ∧ statusToTagName st ≠ "" ∧
      trimSpace ((mapGet (forumTagMap p (trimSpace f)) (statusToTagName st)).getD "") ≠ "" ∧
      log = [Effect.channelEditTags (trimSpace t)
        [trimSpace ((mapGet (forumTagMap p (trimSpace f)) (statusToTagName st)).getD "")]] := by
  unfold applyStatusTagToThread at h
  simp only at h
  split at h
  · cases h
  · split at h
    · cases h
    · split at h
      · cases h
      · rename_i hname
        split at h
        · cases h
        · split at h
          · cases h
          · rename_i hid
            split at h
            · cases h
            · rename_i herr
              cases h
              exact ⟨herr, hname, hid, rfl⟩

theorem applyStatusTag_err (env : Env) (p : Project) (f t st : String)
    (h : env.editTagsErr ≠ none) :
    ∃ err, applyStatusTagToThread env p f t st = Except.error err := by
  cases happ : applyStatusTagToThread env p f t st with
  | error err => exact ⟨err, rfl⟩
  | ok log => exact absurd (applyStatusTag_log env p f t st log happ).1 h

theorem ensureStatusPanel_kept (env : Env) (p : Project) (task : ProjectTask)
    (h : trimSpace task.StatusMessageID ≠ "") :
    ensureStatusPanel env p task = (Except.ok task.StatusMessageID, []) := by
  unfold ensureStatusPanel
  rw [if_pos h]

theorem ensureStatusPanel_log (env : Env) (p : Project) (task : ProjectTask)
    (r : Except String String) (log : List Effect)
    (h : ensureStatusPanel env p task = (r, log)) :
    (∀ x ∈ log, x = Effect.messageSendEmbed task.ThreadID (buildStatusEmbed p task) ∨
      ∃ id, x = Effect.messagePin task.ThreadID id) ∧
    (∀ id, r = Except.ok id → trimSpace id ≠ "") := by
  unfold ensureStatusPanel at h
  split at h
  · rename_i hm
    cases h
    exact ⟨fun x hx => (by cases hx), fun id hid => by cases hid; exact hm⟩
  · simp only at h
    split at h
    · cases h
      exact ⟨fun x hx => (by cases hx), fun id hid => by cases hid⟩
    · cases h
      refine ⟨fun x hx => ?_, fun id hid => by cases hid⟩
      rw [List.mem_singleton] at hx
      exact Or.inl hx
    · split at h
      · cases h
        refine ⟨fun x hx => ?_, fun id hid => by cases hid⟩
        rw [List.mem_singleton] at hx
        exact Or.inl hx
      · rename_i hid0
        cases h
        refine ⟨fun x hx => ?_, fun id hid => by cases hid; exact hid0⟩
        rcases List.mem_cons.mp hx with h1 | h1
        · exact Or.inl h1
        · split at h1
          · rw [List.mem_singleton] at h1
            exact Or.inr ⟨_, h1⟩
          · cases h1

theorem ensureStatusPanel_kinds (env : Env) (p : Project) (task : ProjectTask)
    (r : Except String String) (log : List Effect)
    (h : ensureStatusPanel env p task = (r, log)) :
    ∀ x ∈ log, isPanelWrite x = true ∧ isPanelEdit x = false ∧ isTagWrite x = false ∧
      isStoreWrite x = false := by
  intro x hx
  rcases (ensureStatusPanel_log env p task r log h).1 x hx with h1 | ⟨id, h1⟩
  · rw [h1]; exact ⟨rfl, rfl, rfl, rfl⟩
  · rw [h1]; exact ⟨rfl, rfl, rfl, rfl⟩

/-- With a panel message ID in the task `upsertStatusPanel` is one edit of
that message. -/
theorem upsertStatusPanel_kept (env : Env) (p : Project) (task : ProjectTask)
    (h : trimSpace task.StatusMessageID ≠ "") :
    upsertStatusPanel env p task =
      match env.editEmbedErr with
      | some err => (some err, [])
      | none =>
        (none, [Effect.messageEditEmbed task.ThreadID (trimSpace task.StatusMessageID)
          (buildStatusEmbed p task)]) := by
  unfold upsertStatusPanel
  simp only [if_neg h]
  cases env.editEmbedErr <;> rfl

theorem upsertStatusPanel_log (env : Env) (p : Project) (task : ProjectTask)
    (r : Option String) (log : List Effect) (h : upsertStatusPanel env p task = (r, log)) :
    (r = none → env.editEmbedErr = none ∧
      ∃ l0 m e, log = l0 ++ [Effect.messageEditEmbed task.ThreadID m e] ∧
        ∀ x ∈ l0, isPanelWrite x = true ∧ isPanelEdit x = false ∧ isTagWrite x = false ∧
          isStoreWrite x = false) ∧
    (r ≠ none → ∀ x ∈ log, isPanelWrite x = true ∧ isPanelEdit x = false ∧
      isTagWrite x = false ∧ isStoreWrite x = false) := by
  by_cases hm : trimSpace task.StatusMessageID = ""
  · unfold upsertStatusPanel at h
    simp only [if_pos hm] at h
    rcases hens : ensureStatusPanel env p task with ⟨r0, log0⟩
    have hk := ensureStatusPanel_kinds env p task r0 log0 hens
    rw [hens] at h
    cases r0 with
    | error err =>
      simp only at h
      cases h
      exact ⟨fun h0 => (by cases h0), fun _ => hk⟩
    | ok id =>
      simp only at h
      cases hedit : env.editEmbedErr with
      | some err =>
        rw [hedit] at h
        simp only at h
        cases h
        exact ⟨fun h0 => (by cases h0), fun _ => hk⟩
      | none =>
        rw [hedit] at h
        simp only at h
        cases h
        exact ⟨fun _ => ⟨rfl, log0, _, _, rfl, hk⟩, fun h0 => absurd rfl h0⟩
  · rw [upsertStatusPanel_kept env p task hm] at h
    cases hedit : env.editEmbedErr with
    | some err =>
      rw [hedit] at h
      simp only at h
      cases h
      exact ⟨fun h0 => (by cases h0), fun _ x hx => by cases hx⟩
    | none =>
      rw [hedit] at h
      simp only at h
      cases h
      exact ⟨fun _ => ⟨rfl, [], _, _, rfl, fun x hx => (by cases hx)⟩, fun h0 => absurd rfl h0⟩

theorem upsertStatusPanel_kinds (env : Env) (p : Project) (task : ProjectTask)
    (r : Option String) (log : List Effect) (h : upsertStatusPanel env p task = (r, log)) :
    ∀ x ∈ log, isPanelWrite x = true ∧ isTagWrite x = false ∧ isStoreWrite x = false := by
  intro x hx
  obtain ⟨h1, h2⟩ := upsertStatusPanel_log env p task r log h
  cases r with
  | some err =>
    obtain ⟨a, _, b, c⟩ := h2 (by simp) x hx
    exact ⟨a, b, c⟩
  | none =>
    obtain ⟨_, l0, m, e, hl, hk⟩ := h1 rfl
    rw [hl] at hx
    rcases List.mem_append.mp hx with h3 | h3
    · obtain ⟨a, _, b, c⟩ := hk x h3
      exact ⟨a, b, c⟩
    · rw [List.mem_singleton] at h3
      rw [h3]
      exact ⟨rfl, rfl, rfl⟩

theorem upsertStatusPanel_err (env : Env) (p : Project) (task : ProjectTask)
    (h : env.editEmbedErr ≠ none) :
    ∃ err log, upsertStatusPanel env p task = (some err, log) := by
  rcases hu : upsertStatusPanel env p task with ⟨r, log⟩
  cases r with
  | some err => exact ⟨err, log, rfl⟩
  | none => exact absurd ((upsertStatusPanel_log env p task none log hu).1 rfl).1 h

/-- A failed `updateFile` leaves the files as they were, or with the
temporary file of the record in addition. -/
theorem updateFile_fail (env : Env) (files files1 : Files) (q : Project) (err : String)
    (h : updateFile env files q = (some err, files1)) :
    files1 = files ∨
      files1 = mapSet files (projectPathBySlug (normalizeProject q).Slug ++ ".tmp")
        (normalizeProject q) := by
  unfold updateFile at h
  split at h
  · cases h; exact Or.inl rfl
  · simp only at h
    split at h
    · cases h; exact Or.inl rfl
    · split at h
      · cases h; exact Or.inl rfl
      · split at h
        · cases h; exact Or.inl rfl
        · unfold writeProjectAtomic at h
          simp only at h
          split at h
          · cases h; exact Or.inl rfl
          · split at h
            · cases h; exact Or.inr rfl
            · cases h

/-- The four ways the closing steps of a transition command end. -/
theorem commitTask_cases (env : Env) (files : Files) (p : Project) (ctx : taskContext)
    (task : ProjectTask) (log3 : List Effect) (okmsg : String) :
    (∃ err, applyStatusTagToThread env p ctx.ForumID ctx.ThreadID task.Status =
          Except.error err ∧
        commitTask env files p ctx task log3 okmsg =
          respondEphemeral files [] ("error: failed to apply tag: " ++ err)) ∨
    (∃ log1 log2 err,
        applyStatusTagToThread env p ctx.ForumID ctx.ThreadID task.Status = Except.ok log1 ∧
        upsertStatusPanel env p task = (some err, log2) ∧
        commitTask env files p ctx task log3 okmsg =
          respondEphemeral files (log1 ++ log2)
            ("error: failed to update status panel: " ++ err)) ∨
    (∃ log1 log2 err files1,
        applyStatusTagToThread env p ctx.ForumID ctx.ThreadID task.Status = Except.ok log1 ∧
        upsertStatusPanel env p task = (none, log2) ∧
        updateFile env files { p with Tasks := mapSet p.Tasks ctx.ThreadID task } =
          (some err, files1) ∧
        commitTask env files p ctx task log3 okmsg =
          respondEphemeral files1 (log1 ++ log2 ++ log3)
            ("error: updated task, but failed to save json: " ++ err)) ∨
    (∃ log1 log2 files1,
        applyStatusTagToThread env p ctx.ForumID ctx.ThreadID task.Status = Except.ok log1 ∧
        upsertStatusPanel env p task = (none, log2) ∧
        updateFile env files { p with Tasks := mapSet p.Tasks ctx.ThreadID task } =
          (none, files1) ∧
        commitTask env files p ctx task log3 okmsg =
          respondEphemeral files1
            (log1 ++ log2 ++ log3 ++
              [Effect.storeWrite
                (projectPathBySlug
                  (normalizeProject { p with Tasks := mapSet p.Tasks ctx.ThreadID task }).Slug)
                (normalizeProject { p with Tasks := mapSet p.Tasks ctx.ThreadID task })])
            okmsg) := by
  unfold commitTask
  cases happ : applyStatusTagToThread env p ctx.ForumID ctx.ThreadID task.Status with
  | error err => exact Or.inl ⟨err, rfl, rfl⟩
  | ok log1 =>
    right
    rcases hups : upsertStatusPanel env p task with ⟨r, log2⟩
    cases r with
    | some err => exact Or.inl ⟨log1, log2, err, rfl, rfl, rfl⟩
    | none =>
      right
      rcases hupd : updateFile env files { p with Tasks := mapSet p.Tasks ctx.ThreadID task }
        with ⟨r2, files1⟩
      cases r2 with
      | some err => exact Or.inl ⟨log1, log2, err, files1, rfl, rfl, rfl, rfl⟩
      | none => exact Or.inr ⟨log1, log2, files1, rfl, rfl, rfl, rfl⟩

/-- The five ways the steps of task-init after the tag mapping end. -/
theorem initCore_cases (env : Env) (files : Files) (p : Project) (ctx : taskContext) :
    (∃ err log0,
        ensureStatusPanel env p
          (initTaskFirst ctx ((mapGet p.Tasks ctx.ThreadID).getD ProjectTask.zero)) =
            (Except.error err, log0) ∧
        initCore env files p ctx =
          respondEphemeral files log0 ("error: failed to create status panel: " ++ err)) ∨
    (∃ msgID log0,
        ensureStatusPanel env p
          (initTaskFirst ctx ((mapGet p.Tasks ctx.ThreadID).getD ProjectTask.zero)) =
            (Except.ok msgID, log0) ∧
        ((∃ err,
            applyStatusTagToThread env p ctx.ForumID ctx.ThreadID
              (initTask ctx ((mapGet p.Tasks ctx.ThreadID).getD ProjectTask.zero)
                msgID).Status = Except.error err ∧
            initCore env files p ctx =
              respondEphemeral files log0 ("error: failed to apply tag: " ++ err)) ∨
        (∃ log1 log2,
            applyStatusTagToThread env p ctx.ForumID ctx.ThreadID
              (initTask ctx ((mapGet p.Tasks ctx.ThreadID).getD ProjectTask.zero)
                msgID).Status = Except.ok log1 ∧
            ((∃ err,
                upsertStatusPanel env p
                  (initTask ctx ((mapGet p.Tasks ctx.ThreadID).getD ProjectTask.zero)
                    msgID) = (some err, log2) ∧
                initCore env files p ctx =
                  respondEphemeral files (log0 ++ log1 ++ log2)
                    ("error: failed to update status panel: " ++ err)) ∨
            (upsertStatusPanel env p
                (initTask ctx ((mapGet p.Tasks ctx.ThreadID).getD ProjectTask.zero)
                  msgID) = (none, log2) ∧
              ((∃ err files1,
                  updateFile env files
                    { p with
                      Tasks := mapSet p.Tasks ctx.ThreadID
                        (initTask ctx ((mapGet p.Tasks ctx.ThreadID).getD ProjectTask.zero)
                          msgID) } = (some err, files1) ∧
                  initCore env files p ctx =
                    respondEphemeral files1 (log0 ++ log1 ++ log2)
                      ("error: init done, but failed to save json: " ++ err)) ∨
              (∃ files1 okmsg,
                  updateFile env files
                    { p with
                      Tasks := mapSet p.Tasks ctx.ThreadID
                        (initTask ctx ((mapGet p.Tasks ctx.ThreadID).getD ProjectTask.zero)
                          msgID) } = (none, files1) ∧
                  (okmsg = "task already initialized ✅ (panel refreshed)" ∨
                    okmsg = "task initialized ✅ (status panel pinned, tag set to ToDo)") ∧
                  initCore env files p ctx =
                    respondEphemeral files1
                      (log0 ++ log1 ++ log2 ++
                        [Effect.storeWrite
                          (projectPathBySlug (normalizeProject
                            { p with
                              Tasks := mapSet p.Tasks ctx.ThreadID
                                (initTask ctx
                                  ((mapGet p.Tasks ctx.ThreadID).getD ProjectTask.zero)
                                  msgID) }).Slug)
                          (normalizeProject
                            { p with
                              Tasks := mapSet p.Tasks ctx.ThreadID
                                (initTask ctx
                                  ((mapGet p.Tasks ctx.ThreadID).getD ProjectTask.zero)
                                  msgID) })])
                      okmsg))))))) := by
  unfold initCore
  rcases hens : ensureStatusPanel env p
      (initTaskFirst ctx ((mapGet p.Tasks ctx.ThreadID).getD ProjectTask.zero)) with ⟨r0, log0⟩
  cases r0 with
  | error err => exact Or.inl ⟨err, log0, rfl, rfl⟩
  | ok msgID =>
    refine Or.inr ⟨msgID, log0, rfl, ?_⟩
    simp only
    cases happ : applyStatusTagToThread env p ctx.ForumID ctx.ThreadID
        (initTask ctx ((mapGet p.Tasks ctx.ThreadID).getD ProjectTask.zero) msgID).Status with
    | error err => exact Or.inl ⟨err, rfl, rfl⟩
    | ok log1 =>
      rcases hups : upsertStatusPanel env p
          (initTask ctx ((mapGet p.Tasks ctx.ThreadID).getD ProjectTask.zero) msgID)
        with ⟨r2, log2⟩
      refine Or.inr ⟨log1, log2, rfl, ?_⟩
      cases r2 with
      | some err => exact Or.inl ⟨err, rfl, rfl⟩
      | none =>
        refine Or.inr ⟨rfl, ?_⟩
        simp only
        rcases hupd : updateFile env files
            { p with
              Tasks := mapSet p.Tasks ctx.ThreadID
                (initTask ctx ((mapGet p.Tasks ctx.ThreadID).getD ProjectTask.zero) msgID) }
          with ⟨r3, files1⟩
        cases r3 with
        | some err => exact Or.inl ⟨err, files1, rfl, rfl⟩
        | none =>
          right
          simp only
          split
          · exact ⟨files1, _, rfl, Or.inl rfl, rfl⟩
          · exact ⟨files1, _, rfl, Or.inr rfl, rfl⟩

/-! ## The order of the writes -/

theorem comesAfter_of_none (first later : Effect → Bool) (log : List Effect)
    (h : ∀ x ∈ log, later x = false) : ComesAfter first later log := by
  intro l1 e l2 hl he
  have : e ∈ log := by rw [hl]; simp
  rw [h e this] at he
  cases he

theorem comesAfter_append (first later : Effect → Bool) (A B : List Effect)
    (hA : ∀ x ∈ A, later x = false) (hf : ∃ x ∈ A, first x = true) :
    ComesAfter first later (A ++ B) := by
  intro l1 e l2 hl he
  obtain ⟨x, hx, hfx⟩ := hf
  rcases List.append_eq_append_iff.mp hl with ⟨a, h1, _⟩ | ⟨c, h1, h2⟩
  · exact ⟨x, by rw [h1]; exact List.mem_append_left _ hx, hfx⟩
  · cases c with
    | nil =>
      rw [List.append_nil] at h1
      exact ⟨x, h1 ▸ hx, hfx⟩
    | cons c0 c =>
      rw [List.cons_append] at h2
      injection h2 with h3 _
      have hpos : e ∈ A := by
        rw [h1, h3]
        exact List.mem_append_right _ (List.mem_cons_self _ _)
      rw [hA e hpos] at he
      cases he

theorem comesAfter_mono (first later later2 : Effect → Bool) (log : List Effect)
    (h : ComesAfter first later log) (hl : ∀ x, later2 x = true → later x = true) :
    ComesAfter first later2 log :=
  fun l1 e l2 h1 h2 => h l1 e l2 h1 (hl e h2)

theorem panelEdit_write (x : Effect) (h : isPanelEdit x = true) : isPanelWrite x = true := by
  cases x <;> first | rfl | cases h

theorem transitionPost_kinds (c : TaskCommand) (env : Env) (ctx : taskContext) (caller : String) :
    ∀ x ∈ transitionPost c env ctx caller,
      isTagWrite x = false ∧ isPanelWrite x = false ∧ isStoreWrite x = false ∧
        isPanelEdit x = false := by
  intro x hx
  cases c <;> simp only [transitionPost] at hx
  all_goals first
    | cases hx
    | (split at hx
       · rw [List.mem_singleton] at hx
         rw [hx]
         exact ⟨rfl, rfl, rfl, rfl⟩
       · cases hx)

theorem comesAfter_respond (first later : Effect → Bool) (files : Files) (msg : String)
    (hl : ∀ c, later (Effect.respond c) = false) :
    ComesAfter first later (respondEphemeral files [] msg).log := by
  apply comesAfter_of_none
  intro x hx
  simp only [respondEphemeral, List.nil_append, List.mem_singleton] at hx
  rw [hx]
  exact hl _

/-- The closing steps of a transition command write the tag first, then the
panel, then the record. -/
theorem commitTask_order (env : Env) (files : Files) (p : Project) (ctx : taskContext)
    (task : ProjectTask) (log3 : List Effect) (okmsg : String)
    (h3 : ∀ x ∈ log3, isTagWrite x = false ∧ isPanelWrite x = false ∧
      isStoreWrite x = false ∧ isPanelEdit x = false) :
    ComesAfter isTagWrite isPanelWrite (commitTask env files p ctx task log3 okmsg).log ∧
    ComesAfter isTagWrite isStoreWrite (commitTask env files p ctx task log3 okmsg).log ∧
    ComesAfter isPanelEdit isStoreWrite (commitTask env files p ctx task log3 okmsg).log := by
  rcases commitTask_cases env files p ctx task log3 okmsg with
    ⟨err, _, hc⟩ | ⟨log1, log2, err, happ, hups, hc⟩ |
    ⟨log1, log2, err, files1, happ, hups, _, hc⟩ | ⟨log1, log2, files1, happ, hups, _, hc⟩
  · rw [hc]
    exact ⟨comesAfter_respond _ _ _ _ (fun _ => rfl), comesAfter_respond _ _ _ _ (fun _ => rfl),
      comesAfter_respond _ _ _ _ (fun _ => rfl)⟩
  · obtain ⟨_, _, _, hl1⟩ := applyStatusTag_log env p _ _ _ log1 happ
    have hk := upsertStatusPanel_kinds env p task _ log2 hups
    rw [hc, hl1]
    refine ⟨?_, ?_, ?_⟩
    · exact comesAfter_append _ _ [_] _ (fun x hx => by rw [List.mem_singleton.mp hx]; rfl)
        ⟨_, List.mem_singleton_self _, rfl⟩
    · exact comesAfter_append _ _ [_] _ (fun x hx => by rw [List.mem_singleton.mp hx]; rfl)
        ⟨_, List.mem_singleton_self _, rfl⟩
    · apply comesAfter_of_none
      intro x hx
      simp only [respondEphemeral, List.mem_append, List.mem_singleton] at hx
      rcases hx with (hx | hx) | hx
      · rw [hx]; rfl
      · exact (hk x hx).2.2
      · rw [hx]; rfl
  · obtain ⟨_, _, _, hl1⟩ := applyStatusTag_log env p _ _ _ log1 happ
    have hk := upsertStatusPanel_kinds env p task _ log2 hups
    rw [hc, hl1]
    refine ⟨?_, ?_, ?_⟩
    · simp only [respondEphemeral, List.append_assoc]
      exact comesAfter_append _ _ [_] _ (fun x hx => by rw [List.mem_singleton.mp hx]; rfl)
        ⟨_, List.mem_singleton_self _, rfl⟩
    · simp only [respondEphemeral, List.append_assoc]
      exact comesAfter_append _ _ [_] _ (fun x hx => by rw [List.mem_singleton.mp hx]; rfl)
        ⟨_, List.mem_singleton_self _, rfl⟩
    · apply comesAfter_of_none
      intro x hx
      simp only [respondEphemeral, List.mem_append, List.mem_singleton] at hx
      rcases hx with ((hx | hx) | hx) | hx
      · rw [hx]; rfl
      · exact (hk x hx).2.2
      · exact (h3 x hx).2.2.1
      · rw [hx]; rfl
  · obtain ⟨_, _, _, hl1⟩ := applyStatusTag_log env p _ _ _ log1 happ
    have hk := upsertStatusPanel_kinds env p task _ log2 hups
    obtain ⟨_, l0, m, e, hl2, _⟩ := (upsertStatusPanel_log env p task _ log2 hups).1 rfl
    rw [hc, hl1]
    refine ⟨?_, ?_, ?_⟩
    · simp only [respondEphemeral, List.append_assoc]
      exact comesAfter_append _ _ [_] _ (fun x hx => by rw [List.mem_singleton.mp hx]; rfl)
        ⟨_, List.mem_singleton_self _, rfl⟩
    · simp only [respondEphemeral, List.append_assoc]
      exact comesAfter_append _ _ [_] _ (fun x hx => by rw [List.mem_singleton.mp hx]; rfl)
        ⟨_, List.mem_singleton_self _, rfl⟩
    · simp only [respondEphemeral]
      rw [List.append_assoc]
      refine comesAfter_append _ _ _ _ ?_ ?_
      · intro x hx
        simp only [List.mem_append, List.mem_singleton] at hx
        rcases hx with (hx | hx) | hx
        · rw [hx]; rfl
        · exact (hk x hx).2.2
        · exact (h3 x hx).2.2.1
      · refine ⟨Effect.messageEditEmbed task.ThreadID m e, ?_, rfl⟩
        rw [hl2]
        simp

/-- The steps of task-init write the tag before they edit the panel and
before they write the record, and the record after the panel. -/
theorem initCore_order (env : Env) (files : Files) (p : Project) (ctx : taskContext) :
    ComesAfter isTagWrite isPanelEdit (initCore env files p ctx).log ∧
    ComesAfter isTagWrite isStoreWrite (initCore env files p ctx).log ∧
    ComesAfter isPanelEdit isStoreWrite (initCore env files p ctx).log := by
  rcases initCore_cases env files p ctx with
    ⟨err, log0, hens, hc⟩ | ⟨msgID, log0, hens, ⟨err, happ, hc⟩ |
      ⟨log1, log2, happ, ⟨err, hups, hc⟩ | ⟨hups, ⟨err, files1, _, hc⟩ |
        ⟨files1, okmsg, _, _, hc⟩⟩⟩⟩
  · have hk0 := ensureStatusPanel_kinds env p _ _ log0 hens
    have hnone : ∀ x ∈ (respondEphemeral files log0
        ("error: failed to create status panel: " ++ err)).log,
        isPanelEdit x = false ∧ isStoreWrite x = false := by
      intro x hx
      simp only [respondEphemeral, List.mem_append, List.mem_singleton] at hx
      rcases hx with hx | hx
      · exact ⟨(hk0 x hx).2.1, (hk0 x hx).2.2.2⟩
      · rw [hx]; exact ⟨rfl, rfl⟩
    rw [hc]
    exact ⟨comesAfter_of_none _ _ _ (fun x hx => (hnone x hx).1),
      comesAfter_of_none _ _ _ (fun x hx => (hnone x hx).2),
      comesAfter_of_none _ _ _ (fun x hx => (hnone x hx).2)⟩
  · have hk0 := ensureStatusPanel_kinds env p _ _ log0 hens
    have hnone : ∀ x ∈ (respondEphemeral files log0
        ("error: failed to apply tag: " ++ err)).log,
        isPanelEdit x = false ∧ isStoreWrite x = false := by
      intro x hx
      simp only [respondEphemeral, List.mem_append, List.mem_singleton] at hx
      rcases hx with hx | hx
      · exact ⟨(hk0 x hx).2.1, (hk0 x hx).2.2.2⟩
      · rw [hx]; exact ⟨rfl, rfl⟩
    rw [hc]
    exact ⟨comesAfter_of_none _ _ _ (fun x hx => (hnone x hx).1),
      comesAfter_of_none _ _ _ (fun x hx => (hnone x hx).2),
      comesAfter_of_none _ _ _ (fun x hx => (hnone x hx).2)⟩
  · have hk0 := ensureStatusPanel_kinds env p _ _ log0 hens
    obtain ⟨_, _, _, hl1⟩ := applyStatusTag_log env p _ _ _ log1 happ
    have hk := upsertStatusPanel_kinds env p _ _ log2 hups
    have hA : ∀ x ∈ log0 ++ log1, isPanelEdit x = false ∧ isStoreWrite x = false := by
      intro x hx
      rw [hl1] at hx
      simp only [List.mem_append, List.mem_singleton] at hx
      rcases hx with hx | hx
      · exact ⟨(hk0 x hx).2.1, (hk0 x hx).2.2.2⟩
      · rw [hx]; exact ⟨rfl, rfl⟩
    have hf : ∃ x ∈ log0 ++ log1, isTagWrite x = true := by
      rw [hl1]
      exact ⟨_, List.mem_append_right _ (List.mem_singleton_self _), rfl⟩
    rw [hc]
    simp only [respondEphemeral]
    rw [List.append_assoc (log0 ++ log1)]
    refine ⟨comesAfter_append _ _ _ _ (fun x hx => (hA x hx).1) hf,
      comesAfter_append _ _ _ _ (fun x hx => (hA x hx).2) hf, ?_⟩
    apply comesAfter_of_none
    intro x hx
    simp only [List.mem_append, List.mem_singleton] at hx
    rcases hx with hx | hx | hx
    · exact (hA x (List.mem_append.mpr hx)).2
    · exact (hk x hx).2.2
    · rw [hx]; rfl
  · have hk0 := ensureStatusPanel_kinds env p _ _ log0 hens
    obtain ⟨_, _, _, hl1⟩ := applyStatusTag_log env p _ _ _ log1 happ
    have hk := upsertStatusPanel_kinds env p _ _ log2 hups
    have hA : ∀ x ∈ log0 ++ log1, isPanelEdit x = false ∧ isStoreWrite x = false := by
      intro x hx
      rw [hl1] at hx
      simp only [List.mem_append, List.mem_singleton] at hx
      rcases hx with hx | hx
      · exact ⟨(hk0 x hx).2.1, (hk0 x hx).2.2.2⟩
      · rw [hx]; exact ⟨rfl, rfl⟩
    have hf : ∃ x ∈ log0 ++ log1, isTagWrite x = true := by
      rw [hl1]
      exact ⟨_, List.mem_append_right _ (List.mem_singleton_self _), rfl⟩
    rw [hc]
    simp only [respondEphemeral]
    rw [List.append_assoc (log0 ++ log1)]
    refine ⟨comesAfter_append _ _ _ _ (fun x hx => (hA x hx).1) hf,
      comesAfter_append _ _ _ _ (fun x hx => (hA x hx).2) hf, ?_⟩
    apply comesAfter_of_none
    intro x hx
    simp only [List.mem_append, List.mem_singleton] at hx
    rcases hx with hx | hx | hx
    · exact (hA x (List.mem_append.mpr hx)).2
    · exact (hk x hx).2.2
    · rw [hx]; rfl
  · have hk0 := ensureStatusPanel_kinds env p _ _ log0 hens
    obtain ⟨_, _, _, hl1⟩ := applyStatusTag_log env p _ _ _ log1 happ
    have hk := upsertStatusPanel_kinds env p _ _ log2 hups
    obtain ⟨_, l0, m, e, hl2, _⟩ := (upsertStatusPanel_log env p _ _ log2 hups).1 rfl
    have hA : ∀ x ∈ log0 ++ log1, isPanelEdit x = false ∧ isStoreWrite x = false := by
      intro x hx
      rw [hl1] at hx
      simp only [List.mem_append, List.mem_singleton] at hx
      rcases hx with hx | hx
      · exact ⟨(hk0 x hx).2.1, (hk0 x hx).2.2.2⟩
      · rw [hx]; exact ⟨rfl, rfl⟩
    have hf : ∃ x ∈ log0 ++ log1, isTagWrite x = true := by
      rw [hl1]
      exact ⟨_, List.mem_append_right _ (List.mem_singleton_self _), rfl⟩
    rw [hc]
    simp only [respondEphemeral]
    refine ⟨?_, ?_, ?_⟩
    · rw [List.append_assoc (log0 ++ log1 ++ log2), List.append_assoc (log0 ++ log1)]
      exact comesAfter_append _ _ _ _ (fun x hx => (hA x hx).1) hf
    · rw [List.append_assoc (log0 ++ log1 ++ log2), List.append_assoc (log0 ++ log1)]
      exact comesAfter_append _ _ _ _ (fun x hx => (hA x hx).2) hf
    · rw [List.append_assoc (log0 ++ log1 ++ log2)]
      refine comesAfter_append _ _ _ _ ?_ ?_
      · intro x hx
        rcases List.mem_append.mp hx with hx | hx
        · exact (hA x hx).2
        · exact (hk x hx).2.2
      · refine ⟨Effect.messageEditEmbed
          (initTask ctx ((mapGet p.Tasks ctx.ThreadID).getD ProjectTask.zero) msgID).ThreadID
          m e, ?_, rfl⟩
        rw [hl2]
        simp

/-! ## A failed tag or panel write -/

theorem commitTask_guarded (env : Env) (files : Files) (p : Project) (ctx : taskContext)
    (task : ProjectTask) (log3 : List Effect) (okmsg : String)
    (h : env.editTagsErr ≠ none ∨ env.editEmbedErr ≠ none ∨
      (∀ e ∈ (commitTask env files p ctx task log3 okmsg).log, isTagWrite e = false) ∨
      (∀ e ∈ (commitTask env files p ctx task log3 okmsg).log, isPanelEdit e = false)) :
    (commitTask env files p ctx task log3 okmsg).files = files ∧
      isErrorText (commitTask env files p ctx task log3 okmsg).response = true := by
  rcases commitTask_cases env files p ctx task log3 okmsg with
    ⟨err, _, hc⟩ | ⟨log1, log2, err, happ, hups, hc⟩ |
    ⟨log1, log2, err, files1, happ, hups, _, hc⟩ | ⟨log1, log2, files1, happ, hups, _, hc⟩
  · rw [hc]
    exact ⟨rfl, isErrorText_append _ _ (by decide)⟩
  · rw [hc]
    exact ⟨rfl, isErrorText_append _ _ (by decide)⟩
  · exfalso
    obtain ⟨ht, _, _, hl1⟩ := applyStatusTag_log env p _ _ _ log1 happ
    obtain ⟨he, l0, m, e, hl2, _⟩ := (upsertStatusPanel_log env p task _ log2 hups).1 rfl
    obtain ⟨x, hx, hxt⟩ : ∃ x ∈ log1, isTagWrite x = true := by
      rw [hl1]; exact ⟨_, List.mem_singleton_self _, rfl⟩
    obtain ⟨y, hy, hye⟩ : ∃ y ∈ log2, isPanelEdit y = true := by
      rw [hl2]; exact ⟨_, List.mem_append_right _ (List.mem_singleton_self _), rfl⟩
    rw [hc] at h
    rcases h with h | h | h | h
    · exact h ht
    · exact h he
    · have := h x (by simp [respondEphemeral, hx])
      rw [hxt] at this
      cases this
    · have := h y (by simp [respondEphemeral, hy])
      rw [hye] at this
      cases this
  · exfalso
    obtain ⟨ht, _, _, hl1⟩ := applyStatusTag_log env p _ _ _ log1 happ
    obtain ⟨he, l0, m, e, hl2, _⟩ := (upsertStatusPanel_log env p task _ log2 hups).1 rfl
    obtain ⟨x, hx, hxt⟩ : ∃ x ∈ log1, isTagWrite x = true := by
      rw [hl1]; exact ⟨_, List.mem_singleton_self _, rfl⟩
    obtain ⟨y, hy, hye⟩ : ∃ y ∈ log2, isPanelEdit y = true := by
      rw [hl2]; exact ⟨_, List.mem_append_right _ (List.mem_singleton_self _), rfl⟩
    rw [hc] at h
    rcases h with h | h | h | h
    · exact h ht
    · exact h he
    · have := h x (by simp [respondEphemeral, hx])
      rw [hxt] at this
      cases this
    · have := h y (by simp [respondEphemeral, hy])
      rw [hye] at this
      cases this

theorem initCore_guarded (env : Env) (files : Files) (p : Project) (ctx : taskContext)
    (h : env.editTagsErr ≠ none ∨ env.editEmbedErr ≠ none ∨
      (∀ e ∈ (initCore env files p ctx).log, isTagWrite e = false) ∨
      (∀ e ∈ (initCore env files p ctx).log, isPanelEdit e = false)) :
    (initCore env files p ctx).files = files ∧
      isErrorText (initCore env files p ctx).response = true := by
  rcases initCore_cases env files p ctx with
    ⟨err, log0, hens, hc⟩ | ⟨msgID, log0, hens, ⟨err, happ, hc⟩ |
      ⟨log1, log2, happ, ⟨err, hups, hc⟩ | ⟨hups, ⟨err, files1, _, hc⟩ |
        ⟨files1, okmsg, _, _, hc⟩⟩⟩⟩
  · rw [hc]
    exact ⟨rfl, isErrorText_append _ _ (by decide)⟩
  · rw [hc]
    exact ⟨rfl, isErrorText_append _ _ (by decide)⟩
  · rw [hc]
    exact ⟨rfl, isErrorText_append _ _ (by decide)⟩
  · exfalso
    obtain ⟨ht, _, _, hl1⟩ := applyStatusTag_log env p _ _ _ log1 happ
    obtain ⟨he, l0, m, e, hl2, _⟩ := (upsertStatusPanel_log env p _ _ log2 hups).1 rfl
    obtain ⟨x, hx, hxt⟩ : ∃ x ∈ log1, isTagWrite x = true := by
      rw [hl1]; exact ⟨_, List.mem_singleton_self _, rfl⟩
    obtain ⟨y, hy, hye⟩ : ∃ y ∈ log2, isPanelEdit y = true := by
      rw [hl2]; exact ⟨_, List.mem_append_right _ (List.mem_singleton_self _), rfl⟩
    rw [hc] at h
    rcases h with h | h | h | h
    · exact h ht
    · exact h he
    · have := h x (by simp [respondEphemeral, hx])
      rw [hxt] at this
      cases this
    · have := h y (by simp [respondEphemeral, hy])
      rw [hye] at this
      cases this
  · exfalso
    obtain ⟨ht, _, _, hl1⟩ := applyStatusTag_log env p _ _ _ log1 happ
    obtain ⟨he, l0, m, e, hl2, _⟩ := (upsertStatusPanel_log env p _ _ log2 hups).1 rfl
    obtain ⟨x, hx, hxt⟩ : ∃ x ∈ log1, isTagWrite x = true := by
      rw [hl1]; exact ⟨_, List.mem_singleton_self _, rfl⟩
    obtain ⟨y, hy, hye⟩ : ∃ y ∈ log2, isPanelEdit y = true := by
      rw [hl2]; exact ⟨_, List.mem_append_right _ (List.mem_singleton_self _), rfl⟩
    rw [hc] at h
    rcases h with h | h | h | h
    · exact h ht
    · exact h he
    · have := h x (by simp [respondEphemeral, hx])
      rw [hxt] at this
      cases this
    · have := h y (by simp [respondEphemeral, hy])
      rw [hye] at this
      cases this

/-! ## A thread without a task -/

theorem transition_uninit (c : TaskCommand) (env : Env) (files : Files)
    (i : InteractionCreate) (ctx : taskContext) (p p1 : Project)
    (hres : Resolved env files i ctx p) (hens : TagsResolved env ctx p p1)
    (hcaller : getAuthorID i ≠ "") (htask : mapGet p.Tasks ctx.ThreadID = none)
    (hc : c ≠ TaskCommand.taskInit)
    (hdesc : ∀ d, c = TaskCommand.taskDone d → trimSpace d ≠ "")
    (hlead : c = TaskCommand.taskApprove ∨ c = TaskCommand.taskRevoke →
      isLeaderForProject i (getAuthorID i) p = true) :
    handleTaskCommand c env files i =
      respondEphemeral files []
        "error: task not initialized. Run /kanban task-init in this thread." := by
  have hframe := ensureForumTagMapping_frame env p p1 _ hens
  have htask1 : mapGet p1.Tasks ctx.ThreadID = none := by rw [hframe]; exact htask
  obtain ⟨hg, hctx, projects, hint, hload, hfind⟩ := hres
  unfold TagsResolved at hens
  cases c with
  | taskInit => exact absurd rfl hc
  | taskTake =>
    unfold handleTaskCommand handleKanbanTaskTake
    simp only [hg, hcaller, hctx, hload, hfind, hens, htask1, ↓reduceIte]
  | taskDone d =>
    have hd : trimSpace (trimSpace d) ≠ "" := by rw [trimSpace_idem]; exact hdesc d rfl
    unfold handleTaskCommand handleKanbanTaskDone
    simp only [hg, hcaller, hd, hctx, hload, hfind, hens, htask1, ↓reduceIte]
  | taskApprove =>
    have hl := hlead (Or.inl rfl)
    unfold handleTaskCommand handleKanbanTaskApprove
    simp only [hg, hcaller, hctx, hload, hfind, hens, htask1, hl, ↓reduceIte]
    rfl
  | taskRevoke =>
    have hl := hlead (Or.inr rfl)
    unfold handleTaskCommand handleKanbanTaskRevoke
    simp only [hg, hcaller, hctx, hload, hfind, hens, htask1, hl, ↓reduceIte]
    rfl
  | taskSurrender =>
    unfold handleTaskCommand handleKanbanTaskSurrender
    simp only [hg, hcaller, hctx, hload, hfind, hens, htask1, ↓reduceIte]

/-! ## A successful invocation -/

theorem okText_not_error (c : TaskCommand) : isErrorText (okText c) = false := by
  cases c <;> first | decide | (simp only [okText]; decide)

theorem succeeded_okText (c : TaskCommand) (hc : c ≠ TaskCommand.taskInit) (out : Outcome) :
    Succeeded c out ↔ out.response = okText c := by
  cases c <;> first | exact absurd rfl hc | exact Iff.rfl

theorem succeeded_not_error (c : TaskCommand) (out : Outcome) (h : Succeeded c out) :
    isErrorText out.response = false := by
  cases c with
  | taskInit =>
    rcases h with h | h <;> (rw [h]; decide)
  | taskTake => rw [show out.response = _ from h]; decide
  | taskDone d => rw [show out.response = _ from h]; decide
  | taskApprove => rw [show out.response = _ from h]; decide
  | taskRevoke => rw [show out.response = _ from h]; decide
  | taskSurrender => rw [show out.response = _ from h]; decide

/-- With the project and the tag mapping resolved and the guards of the
command passed, a transition command is the run of its closing steps. -/
theorem transition_run (c : TaskCommand) (env : Env) (files : Files) (i : InteractionCreate)
    (ctx : taskContext) (p p1 : Project) (task : ProjectTask)
    (hres : Resolved env files i ctx p) (hens : TagsResolved env ctx p p1)
    (hcaller : getAuthorID i ≠ "") (htask : mapGet p.Tasks ctx.ThreadID = some task)
    (hall : TransitionAllowed c i p task) :
    handleTaskCommand c env files i =
      commitTask env files p1 ctx (transitionTask c (getAuthorID i) task)
        (transitionPost c env ctx (getAuthorID i)) (okText c) := by
  obtain ⟨_, hn, _⟩ := resolved_task env files i ctx p p1 task hres hens htask
  have hperm : ∀ (_ : task.AssigneeUserID = getAuthorID i ∨
      isLeaderForProject i (getAuthorID i) p = true),
      ¬ (isLeaderForProject i (getAuthorID i) p = false ∧
        trimSpace task.AssigneeUserID ≠ getAuthorID i) := by
    intro ha
    rw [hn.2.2.2.2.1]
    rintro ⟨h1, h2⟩
    rcases ha with h | h
    · exact h2 h
    · rw [h1] at h; cases h
  cases c with
  | taskInit => exact absurd hall id
  | taskTake =>
    obtain ⟨hs, ha⟩ := hall
    have ha2 : ¬ trimSpace task.AssigneeUserID ≠ "" := by rw [hn.2.2.2.2.1]; simpa using ha
    simp only [handleTaskCommand]
    rw [take_eq env files i ctx p p1 task hres hens hcaller htask,
      if_neg (by simpa using hs), if_neg ha2]
    rfl
  | taskDone d =>
    obtain ⟨hd, hs, ha⟩ := hall
    have hd2 : trimSpace (trimSpace d) ≠ "" := by rw [trimSpace_idem]; exact hd
    simp only [handleTaskCommand]
    rw [done_eq env files i (trimSpace d) ctx p p1 task hres hens hcaller hd2 htask,
      if_neg (by simpa using hs), if_neg (hperm ha), trimSpace_idem]
    rfl
  | taskApprove =>
    obtain ⟨hl, hs⟩ := hall
    simp only [handleTaskCommand]
    rw [approve_eq env files i ctx p p1 task hres hens hcaller hl htask,
      if_neg (by simpa using hs)]
    rfl
  | taskRevoke =>
    obtain ⟨hl, hs⟩ := hall
    simp only [handleTaskCommand]
    rw [revoke_eq env files i ctx p p1 task hres hens hcaller hl htask,
      if_neg (by simpa using hs)]
    rfl
  | taskSurrender =>
    obtain ⟨hs, ha⟩ := hall
    simp only [handleTaskCommand]
    rw [surrender_eq env files i ctx p p1 task hres hens hcaller htask,
      if_neg (by simpa using hs), if_neg (hperm ha)]
    rfl

theorem respond_error_absurd (c : TaskCommand) (files : Files) (log : List Effect)
    (msg : String) (hmsg : isErrorText msg = true)
    (h : Succeeded c (respondEphemeral files log msg)) : False := by
  have := succeeded_not_error c _ h
  rw [show (respondEphemeral files log msg).response = msg from rfl, hmsg] at this
  cases this

/-- What a successful invocation went through: the project and the tag
mapping resolved, the guards passed, the tag written for the status of the
new task, the panel edited, and the record of the project with the new task
written by `updateFile`. -/
theorem succeeded_inv (c : TaskCommand) (env : Env) (files : Files) (i : InteractionCreate)
    (hok : Succeeded c (handleTaskCommand c env files i)) :
    ∃ ctx p p1 newtask log0 log1 log2 log3,
      Resolved env files i ctx p ∧ TagsResolved env ctx p p1 ∧
      CommandTask c env i ctx p p1 newtask ∧
      applyStatusTagToThread env p1 ctx.ForumID ctx.ThreadID newtask.Status = Except.ok log1 ∧
      upsertStatusPanel env p1 newtask = (none, log2) ∧
      updateFile env files { p1 with Tasks := mapSet p1.Tasks ctx.ThreadID newtask } =
        (none, (handleTaskCommand c env files i).files) ∧
      (handleTaskCommand c env files i).log =
        log0 ++ log1 ++ log2 ++ log3 ++
          [Effect.storeWrite
            (projectPathBySlug
              (normalizeProject
                { p1 with Tasks := mapSet p1.Tasks ctx.ThreadID newtask }).Slug)
            (normalizeProject { p1 with Tasks := mapSet p1.Tasks ctx.ThreadID newtask }),
            Effect.respond (handleTaskCommand c env files i).response] ∧
      (∀ x ∈ log0, isTagWrite x = false) ∧ (∀ x ∈ log2, isTagWrite x = false) ∧
      (∀ x ∈ log3, isTagWrite x = false) := by
  by_cases hc : c = TaskCommand.taskInit
  · subst hc
    simp only [handleTaskCommand] at hok ⊢
    rcases init_shape env files i with ⟨msg, h1, h2⟩ | ⟨ctx, p, p1, hres, hens, h1⟩
    · rw [h1] at hok
      exact absurd hok (respond_error_absurd _ _ _ _ h2)
    · rw [h1] at hok ⊢
      rcases initCore_cases env files p1 ctx with
        ⟨err, log0, hpan, hc⟩ | ⟨msgID, log0, hpan, ⟨err, happ, hc⟩ |
          ⟨log1, log2, happ, ⟨err, hups, hc⟩ | ⟨hups, ⟨err, files1, _, hc⟩ |
            ⟨files1, okmsg, hupd, _, hc⟩⟩⟩⟩
      · rw [hc] at hok
        exact absurd hok (respond_error_absurd _ _ _ _ (isErrorText_append _ _ (by decide)))
      · rw [hc] at hok
        exact absurd hok (respond_error_absurd _ _ _ _ (isErrorText_append _ _ (by decide)))
      · rw [hc] at hok
        exact absurd hok (respond_error_absurd _ _ _ _ (isErrorText_append _ _ (by decide)))
      · rw [hc] at hok
        exact absurd hok (respond_error_absurd _ _ _ _ (isErrorText_append _ _ (by decide)))
      · rw [hc]
        refine ⟨ctx, p, p1, _, log0, log1, log2, [], hres, hens, ⟨msgID, log0, hpan, rfl⟩,
          happ, hups, hupd, ?_, ?_, ?_, ?_⟩
        · simp [respondEphemeral]
        · exact fun x hx => (ensureStatusPanel_kinds env p1 _ _ log0 hpan x hx).2.2.1
        · exact fun x hx => (upsertStatusPanel_kinds env p1 _ _ log2 hups x hx).2.1
        · exact fun x hx => by cases hx
  · rcases transition_shape c hc env files i with
      ⟨msg, h1, h2⟩ | ⟨ctx, p, p1, task, hres, hens, hcaller, htask, hall, h1⟩
    · rw [h1] at hok
      exact absurd hok (respond_error_absurd _ _ _ _ h2)
    · rw [h1] at hok ⊢
      rcases commitTask_cases env files p1 ctx (transitionTask c (getAuthorID i) task)
          (transitionPost c env ctx (getAuthorID i)) (okText c) with
        ⟨err, _, hc2⟩ | ⟨log1, log2, err, happ, hups, hc2⟩ |
        ⟨log1, log2, err, files1, happ, hups, _, hc2⟩ |
        ⟨log1, log2, files1, happ, hups, hupd, hc2⟩
      · rw [hc2] at hok
        exact absurd hok (respond_error_absurd _ _ _ _ (isErrorText_append _ _ (by decide)))
      · rw [hc2] at hok
        exact absurd hok (respond_error_absurd _ _ _ _ (isErrorText_append _ _ (by decide)))
      · rw [hc2] at hok
        exact absurd hok (respond_error_absurd _ _ _ _ (isErrorText_append _ _ (by decide)))
      · rw [hc2]
        have hct : CommandTask c env i ctx p p1 (transitionTask c (getAuthorID i) task) := by
          cases c with
          | taskInit => exact absurd rfl hc
          | _ => exact ⟨task, htask, hcaller, hall, rfl⟩
        refine ⟨ctx, p, p1, _, [], log1, log2, transitionPost c env ctx (getAuthorID i), hres,
          hens, hct, happ, hups, hupd, ?_, ?_, ?_, ?_⟩
        · simp [respondEphemeral]
        · exact fun x hx => by cases hx
        · exact fun x hx => (upsertStatusPanel_kinds env p1 _ _ log2 hups x hx).2.1
        · exact fun x hx => (transitionPost_kinds c env ctx (getAuthorID i) x hx).1

/-! ## The new task of a command -/

theorem status_distinct :
    TaskToDo ≠ TaskInProgress ∧ TaskToDo ≠ TaskWaitingForApprove ∧ TaskToDo ≠ TaskDone ∧
      TaskInProgress ≠ TaskWaitingForApprove ∧ TaskInProgress ≠ TaskDone ∧
      TaskWaitingForApprove ≠ TaskDone := by
  decide

theorem coherent_todo (t : ProjectTask) (hs : t.Status = TaskToDo) (h1 : t.AssigneeUserID = "")
    (h2 : t.DoneDescription = "") (h3 : t.ApprovedByUserID = "") : Coherent t := by
  obtain ⟨a, b, c, _, _, _⟩ := status_distinct
  refine ⟨fun _ => ⟨h1, h2, h3⟩, fun h => ?_, fun h => ?_, fun h => ?_⟩
  · rw [hs] at h; exact absurd h a
  · rw [hs] at h; exact absurd h b
  · rw [hs] at h; exact absurd h c

theorem coherent_inProgress (t : ProjectTask) (hs : t.Status = TaskInProgress)
    (h1 : t.AssigneeUserID ≠ "") (h3 : t.ApprovedByUserID = "") : Coherent t := by
  obtain ⟨a, _, _, d, e, _⟩ := status_distinct
  refine ⟨fun h => ?_, fun _ => ⟨h1, h3⟩, fun h => ?_, fun h => ?_⟩
  · rw [hs] at h; exact absurd h.symm a
  · rw [hs] at h; exact absurd h d
  · rw [hs] at h; exact absurd h e

theorem coherent_waiting (t : ProjectTask) (hs : t.Status = TaskWaitingForApprove)
    (h1 : t.AssigneeUserID ≠ "") (h2 : t.DoneDescription ≠ "") : Coherent t := by
  obtain ⟨_, b, _, d, _, f⟩ := status_distinct
  refine ⟨fun h => ?_, fun h => ?_, fun _ => ⟨h1, h2⟩, fun h => ?_⟩
  · rw [hs] at h; exact absurd h.symm b
  · rw [hs] at h; exact absurd h.symm d
  · rw [hs] at h; exact absurd h f

theorem coherent_done (t : ProjectTask) (hs : t.Status = TaskDone)
    (h3 : t.ApprovedByUserID ≠ "") : Coherent t := by
  obtain ⟨_, _, c, _, e, f⟩ := status_distinct
  refine ⟨fun h => ?_, fun h => ?_, fun h => ?_, fun _ => h3⟩
  · rw [hs] at h; exact absurd h.symm c
  · rw [hs] at h; exact absurd h.symm e
  · rw [hs] at h; exact absurd h.symm f

/-- The loop `Clean Tasks` keeps the coherence of a task whose three fields
are trimmed and whose status is not blank. -/
theorem coherent_normalize (T : String) (t : ProjectTask) (hs : trimSpace t.Status ≠ "")
    (h1 : trimSpace t.AssigneeUserID = t.AssigneeUserID)
    (h2 : trimSpace t.DoneDescription = t.DoneDescription)
    (h3 : trimSpace t.ApprovedByUserID = t.ApprovedByUserID) (h : Coherent t) :
    Coherent (normalizeTask T t) := by
  unfold Coherent normalizeTask
  simp only [if_neg hs, h1, h2, h3]
  exact h

theorem transitionTask_status (c : TaskCommand) (hc : c ≠ TaskCommand.taskInit)
    (caller : String) (task : ProjectTask) :
    (transitionTask c caller task).Status ∈ allStatuses := by
  cases c with
  | taskInit => exact absurd rfl hc
  | taskTake => exact mem_allStatuses_inProgress
  | taskDone d => exact mem_allStatuses_waiting
  | taskApprove => exact mem_allStatuses_done
  | taskRevoke => exact mem_allStatuses_inProgress
  | taskSurrender => exact mem_allStatuses_todo

theorem allStatuses_not_blank (st : String) (h : st ∈ allStatuses) : trimSpace st ≠ "" := by
  simp only [allStatuses, List.mem_cons, List.mem_singleton, List.not_mem_nil, or_false] at h
  rcases h with h | h | h | h <;> (rw [h]; decide)

/-- The new task of a command: its status is one of the four, its assignee,
done-description and approver are trimmed, its panel message ID is the one
of the loaded task when that has one and is not blank after task-init, and
it is coherent when the tasks of the loaded project are. -/
theorem commandTask_facts (c : TaskCommand) (env : Env) (i : InteractionCreate)
    (ctx : taskContext) (p p1 : Project) (newtask : ProjectTask) (hl : Loaded p)
    (hframe : p1 = { p with ForumTagIDs := p1.ForumTagIDs })
    (h : CommandTask c env i ctx p p1 newtask) :
    newtask.Status ∈ allStatuses ∧
    (trimSpace newtask.AssigneeUserID = newtask.AssigneeUserID ∧
      trimSpace newtask.DoneDescription = newtask.DoneDescription ∧
      trimSpace newtask.ApprovedByUserID = newtask.ApprovedByUserID) ∧
    ((∀ tid t, mapGet p.Tasks tid = some t → Coherent t) → Coherent newtask) ∧
    (∀ prior, mapGet p.Tasks ctx.ThreadID = some prior → prior.StatusMessageID ≠ "" →
      newtask.StatusMessageID = prior.StatusMessageID) ∧
    (c = TaskCommand.taskInit → trimSpace newtask.StatusMessageID ≠ "") := by
  have ht1 : p1.Tasks = p.Tasks := by rw [hframe]
  by_cases hc : c = TaskCommand.taskInit
  · subst hc
    obtain ⟨msgID, log0, hpan, hnew⟩ := h
    rw [ht1] at hpan hnew
    obtain ⟨_, _, hst⟩ := initTask_thread ctx ((mapGet p.Tasks ctx.ThreadID).getD ProjectTask.zero)
      msgID
    have hid : newtask.StatusMessageID = msgID := by
      rw [hnew]
      unfold initTask
      split <;> rfl
    have hfirst : ∀ prior : ProjectTask,
        (initTaskFirst ctx prior).StatusMessageID = prior.StatusMessageID := by
      intro prior
      unfold initTaskFirst
      split <;> rfl
    cases hprior : mapGet p.Tasks ctx.ThreadID with
    | none =>
      rw [hprior] at hpan hnew hst
      simp only [Option.getD_none] at hpan hnew hst
      obtain ⟨a, b, c⟩ := initTask_zero ctx msgID
      rw [← hnew] at a b c hst
      refine ⟨by rw [hst]; exact mem_allStatuses_todo, ?_, fun _ => coherent_todo _ hst a b c,
        fun prior hp => (by cases hp), fun _ => ?_⟩
      · rw [a, b, c]; exact ⟨trimSpace_empty, trimSpace_empty, trimSpace_empty⟩
      · rw [hid]
        exact (ensureStatusPanel_log env p1 _ _ log0 hpan).2 msgID rfl
    | some prior =>
      rw [hprior] at hpan hnew hst
      simp only [Option.getD_some] at hpan hnew hst
      obtain ⟨n1, n2, n3, n4, n5, n6, n7, n8⟩ := loaded_values p hl _ _ hprior
      rw [← hnew] at hst
      have hfields : (newtask.AssigneeUserID = "" ∧ newtask.DoneDescription = "" ∧
          newtask.ApprovedByUserID = "") ∨
          (prior.Status = TaskToDo ∧ newtask.AssigneeUserID = prior.AssigneeUserID ∧
            newtask.DoneDescription = prior.DoneDescription ∧
            newtask.ApprovedByUserID = prior.ApprovedByUserID) := by
        by_cases hs : prior.Status = TaskToDo
        · right
          rw [hnew]
          exact ⟨hs, initTask_keep ctx prior msgID hs⟩
        · left
          rw [hnew]
          exact initTask_reset ctx prior msgID n4 hs
      refine ⟨by rw [hst]; exact mem_allStatuses_todo, ?_, ?_, ?_, fun _ => ?_⟩
      · rcases hfields with ⟨a, b, c⟩ | ⟨_, a, b, c⟩
        · rw [a, b, c]; exact ⟨trimSpace_empty, trimSpace_empty, trimSpace_empty⟩
        · rw [a, b, c]; exact ⟨n5, n7, n8⟩
      · intro hcoh
        rcases hfields with ⟨a, b, c⟩ | ⟨hs, a, b, c⟩
        · exact coherent_todo _ hst a b c
        · obtain ⟨x, y, z⟩ := (hcoh _ _ hprior).1 hs
          exact coherent_todo _ hst (by rw [a, x]) (by rw [b, y]) (by rw [c, z])
      · intro prior2 hp2 hne
        cases hp2
        rw [hid]
        have hkeep := ensureStatusPanel_kept env p1 (initTaskFirst ctx prior)
          (by rw [hfirst, n6]; exact hne)
        rw [hkeep] at hpan
        injection hpan with h1 _
        injection h1 with h1
        rw [← h1, hfirst]
      · rw [hid]
        exact (ensureStatusPanel_log env p1 _ _ log0 hpan).2 msgID rfl
  · have h2 : ∃ task, mapGet p.Tasks ctx.ThreadID = some task ∧ getAuthorID i ≠ "" ∧
        TransitionAllowed c i p task ∧ newtask = transitionTask c (getAuthorID i) task := by
      cases c with
      | taskInit => exact absurd rfl hc
      | _ => exact h
    obtain ⟨task, htask, hcaller, hall, hnew⟩ := h2
    obtain ⟨n1, n2, n3, n4, n5, n6, n7, n8⟩ := loaded_values p hl _ _ htask
    have htrim := getAuthorID_trim i
    refine ⟨by rw [hnew]; exact transitionTask_status c hc _ _, ?_, ?_, ?_,
      fun h0 => absurd h0 hc⟩
    · rw [hnew]
      cases c with
      | taskInit => exact absurd rfl hc
      | taskTake => exact ⟨htrim, trimSpace_empty, trimSpace_empty⟩
      | taskDone d => exact ⟨n5, trimSpace_idem d, trimSpace_empty⟩
      | taskApprove => exact ⟨n5, n7, htrim⟩
      | taskRevoke => exact ⟨n5, trimSpace_empty, trimSpace_empty⟩
      | taskSurrender => exact ⟨trimSpace_empty, trimSpace_empty, trimSpace_empty⟩
    · intro hcoh
      have hct := hcoh _ _ htask
      rw [hnew]
      cases c with
      | taskInit => exact absurd rfl hc
      | taskTake => exact coherent_inProgress _ rfl hcaller rfl
      | taskDone d =>
        obtain ⟨hd, hs, _⟩ := hall
        exact coherent_waiting _ rfl (hct.2.1 hs).1 hd
      | taskApprove => exact coherent_done _ rfl hcaller
      | taskRevoke =>
        obtain ⟨_, hs⟩ := hall
        exact coherent_inProgress _ rfl (hct.2.2.1 hs).1 rfl
      | taskSurrender => exact coherent_todo _ rfl rfl rfl rfl
    · intro prior hp _
      rw [htask] at hp
      cases hp
      rw [hnew]
      cases c <;> rfl

/-! ## The record after a successful invocation -/

/-- The tasks of the record a successful `updateFile` of a task command
leaves: the normalized new task under the thread, and the loaded task under
every other key. -/
theorem persisted_tasks (env : Env) (files files1 : Files) (p p1 : Project) (T : String)
    (task : ProjectTask) (hp : Loaded p) (hp1 : p1 = { p with ForumTagIDs := p1.ForumTagIDs })
    (hT : GoodKey T)
    (hupd : updateFile env files { p1 with Tasks := mapSet p1.Tasks T task } = (none, files1))
    (tid : String) :
    persistedTask files1 p.Slug tid =
      if tid = T then some (normalizeTask T task) else mapGet p.Tasks tid := by
  have ht1 : p1.Tasks = p.Tasks := by rw [hp1]
  have hget := updateFile_get env files files1 _ hupd
  rw [commit_slug p p1 T task hp hp1] at hget
  unfold persistedTask
  rw [hget]
  simp only [normalizeProject]
  have hk : ∀ k ∈ mapKeys (mapSet p1.Tasks T task), GoodKey k := by
    intro k hk
    rcases (mem_mapKeys_mapSet _ _ _ _).mp hk with h | h
    · rw [h]; exact hT
    · rw [ht1] at h; exact loaded_keys p hp k h
  rw [cleanTasks_good _ hk, mapGet_mapSet, ht1]
  by_cases h : tid = T
  · rw [if_pos h, if_pos h, h]
    rfl
  · rw [if_neg h, if_neg h]
    cases hg : mapGet p.Tasks tid with
    | none => rfl
    | some t => simp only [Option.map_some', normalizeTask_fix _ _ (loaded_values p hp _ _ hg)]

theorem mem_of_mapGet {V : Type} (m : GoMap V) (k : String) (v : V)
    (h : mapGet m k = some v) : (k, v) ∈ m := by
  induction m with
  | nil => cases h
  | cons e rest ih =>
    obtain ⟨k1, v1⟩ := e
    by_cases h1 : k1 = k
    · simp only [mapGet, h1, if_true] at h
      cases h
      rw [h1]
      exact List.mem_cons_self _ _
    · simp only [mapGet, h1, if_false] at h
      exact List.mem_cons_of_mem _ (ih h)

theorem coherent_of_entries (m : GoMap ProjectTask) (h : ∀ e ∈ m, Coherent e.2) :
    ∀ tid t, mapGet m tid = some t → Coherent t :=
  fun tid t ht => h (tid, t) (mem_of_mapGet m tid t ht)

/-! ## From one invocation to the next -/

/-- After a successful `updateFile` of a record whose slug owns its file, the
slug still owns its file, and every later resolution of that slug hands out
the written record, normalized again. -/
theorem update_reload (env : Env) (files files1 : Files) (q : Project) (slug : String)
    (hupd : updateFile env files q = (none, files1))
    (hslug : (normalizeProject q).Slug = slug) (hown : SlugOwnsFile files slug) :
    SlugOwnsFile files1 slug ∧
    ∀ env2 i2 ctx2 p2, Resolved env2 files1 i2 ctx2 p2 → p2.Slug = slug →
      p2 = normalizeProject (normalizeProject q) := by
  constructor
  · intro e he hjson hs
    rcases updateFile_mem env files files1 q hupd e he with h1 | ⟨h1, _⟩
    · rw [h1, hslug]
    · exact hown e h1 hjson hs
  · intro env2 i2 ctx2 p2 hres2 hs2
    obtain ⟨e, he, hjson, hp2⟩ := resolved_file env2 files1 i2 ctx2 p2 hres2
    rcases updateFile_mem env files files1 q hupd e he with h1 | ⟨h1, h2⟩
    · rw [hp2, h1]
    · rw [hslug] at h2
      exact absurd (hown e h1 hjson (by rw [← hp2]; exact hs2)) h2

theorem normalizeTask_panel (T : String) (t : ProjectTask) :
    (normalizeTask T t).StatusMessageID = trimSpace t.StatusMessageID := rfl

/-- A successful invocation in a store where the slug of the project owns
its file: the record file holds the normalized new task under the thread,
the slug still owns its file, and the next resolution of the project loads
that task. -/
theorem success_link (c : TaskCommand) (env : Env) (files : Files) (i : InteractionCreate)
    (ctx : taskContext) (p : Project) (hres : Resolved env files i ctx p)
    (hown : SlugOwnsFile files p.Slug)
    (hok : Succeeded c (handleTaskCommand c env files i)) :
    ∃ p1 newtask, TagsResolved env ctx p p1 ∧ CommandTask c env i ctx p p1 newtask ∧
      SlugOwnsFile (handleTaskCommand c env files i).files p.Slug ∧
      persistedTask (handleTaskCommand c env files i).files p.Slug ctx.ThreadID =
        some (normalizeTask ctx.ThreadID newtask) ∧
      ∀ env2 i2 p2, Resolved env2 (handleTaskCommand c env files i).files i2 ctx p2 →
        p2.Slug = p.Slug →
        mapGet p2.Tasks ctx.ThreadID = some (normalizeTask ctx.ThreadID newtask) := by
  obtain ⟨ctx2, p2, p1, newtask, log0, log1, log2, log3, hres2, hens, hct, _, _, hupd, _⟩ :=
    succeeded_inv c env files i hok
  obtain ⟨h1, h2⟩ := resolved_unique env files i ctx ctx2 p p2 hres hres2
  subst h1
  subst h2
  have hl := resolved_loaded env files i ctx2 p2 hres
  have hframe := ensureForumTagMapping_frame env p2 p1 _ hens
  have hgood := mustTaskContext_good env i ctx2 hres.2.1
  have hcs := commit_slug p2 p1 ctx2.ThreadID newtask hl hframe
  obtain ⟨hown1, hre⟩ := update_reload env files _ _ p2.Slug hupd hcs hown
  have hpers := persisted_tasks env files _ p2 p1 ctx2.ThreadID newtask hl hframe hgood.1 hupd
    ctx2.ThreadID
  rw [if_pos rfl] at hpers
  refine ⟨p1, newtask, hens, hct, hown1, hpers, ?_⟩
  intro env2 i2 p3 hres3 hs3
  rw [hre env2 i2 ctx2 p3 hres3 hs3]
  have ht1 : p1.Tasks = p2.Tasks := by rw [hframe]
  have hk : ∀ k ∈ mapKeys (mapSet p1.Tasks ctx2.ThreadID newtask), GoodKey k := by
    intro k hk
    rcases (mem_mapKeys_mapSet _ _ _ _).mp hk with h | h
    · rw [h]; exact hgood.1
    · rw [ht1] at h; exact loaded_keys p2 hl k h
  simp only [normalizeProject]
  rw [cleanTasks_good _ (cleanTasks_keys _), cleanTasks_good _ hk, mapGet_mapSet, if_pos rfl]
  simp only [Option.map_some', normalizeTask_idem _ hgood.1]

/-! ## Lemmas on the tag mappings of `normalizeProject` -/

/-- One visit of the inner tag loop keeps an entry with a non-blank ID under
a trimmed, non-empty name. -/
theorem cleanTagStep_entry (m : GoMap String) (name n : String) (hn : GoodKey n)
    (h : ∃ v, mapGet m n = some v ∧ trimSpace v ≠ "") :
    ∃ v, mapGet (cleanTagStep m name) n = some v ∧ trimSpace v ≠ "" := by
  obtain ⟨v, hv, hvne⟩ := h
  unfold cleanTagStep
  cases hget : mapGet m name with
  | none => exact ⟨v, hv, hvne⟩
  | some id =>
    simp only
    have hname : name = n → id = v := by
      intro h0
      rw [h0, hv] at hget
      cases hget
      rfl
    by_cases hc : trimSpace name = "" ∨ trimSpace id = ""
    · rw [if_pos hc]
      have hne : n ≠ name := by
        intro h0
        rcases hc with hc | hc
        · rw [← h0, hn.1] at hc; exact hn.2 hc
        · rw [hname h0.symm] at hc; exact hvne hc
      rw [mapGet_mapDelete, if_neg hne]
      exact ⟨v, hv, hvne⟩
    · rw [if_neg hc]
      have hid : trimSpace id ≠ "" := fun h0 => hc (Or.inr h0)
      by_cases ht : trimSpace name = name
      · rw [if_neg (by simpa using ht), mapGet_mapSet]
        by_cases h1 : n = trimSpace name
        · rw [if_pos h1]
          exact ⟨_, rfl, by rw [trimSpace_idem]; exact hid⟩
        · rw [if_neg h1]
          exact ⟨v, hv, hvne⟩
      · rw [if_pos (by simpa using ht), mapGet_mapSet]
        by_cases h1 : n = trimSpace name
        · rw [if_pos h1]
          exact ⟨_, rfl, by rw [trimSpace_idem]; exact hid⟩
        · rw [if_neg h1]
          have hne : n ≠ name := by
            intro h0
            rw [← h0, hn.1] at ht
            exact ht rfl
          rw [mapGet_mapDelete, if_neg hne]
          exact ⟨v, hv, hvne⟩

theorem cleanTag_fold_entry (ks : List String) (m : GoMap String) (n : String)
    (hn : GoodKey n) (h : ∃ v, mapGet m n = some v ∧ trimSpace v ≠ "") :
    ∃ v, mapGet (ks.foldl cleanTagStep m) n = some v ∧ trimSpace v ≠ "" := by
  induction ks generalizing m with
  | nil => exact h
  | cons k ks ih =>
    rw [List.foldl_cons]
    exact ih _ (cleanTagStep_entry m k n hn h)

/-- The inner tag loop keeps an entry with a non-blank ID under a trimmed,
non-empty name. -/
theorem cleanTagMap_entry (m : GoMap String) (n : String) (hn : GoodKey n)
    (h : ∃ v, mapGet m n = some v ∧ trimSpace v ≠ "") :
    ∃ v, mapGet (cleanTagMap m) n = some v ∧ trimSpace v ≠ "" :=
  cleanTag_fold_entry (mapKeys m) m n hn h

theorem cleanForumTagsStep_keys (M : GoMap (Option (GoMap String))) (k k2 : String)
    (h : k2 ∈ mapKeys (cleanForumTagsStep M k)) :
    GoodKey k2 ∨ (k2 ∈ mapKeys M ∧ k2 ≠ k) := by
  unfold cleanForumTagsStep at h
  cases hget : mapGet M k with
  | none =>
    rw [hget] at h
    simp only at h
    right
    refine ⟨h, ?_⟩
    intro hk
    rw [hk] at h
    exact (mapGet_eq_none_iff M k).mp hget h
  | some o =>
    rw [hget] at h
    cases o with
    | none =>
      simp only at h
      exact Or.inr ((mem_mapKeys_mapDelete M k k2).mp h)
    | some m =>
      simp only at h
      by_cases hb : trimSpace k = ""
      · rw [if_pos hb] at h
        exact Or.inr ((mem_mapKeys_mapDelete M k k2).mp h)
      · rw [if_neg hb] at h
        rcases (mem_mapKeys_mapSet _ _ _ _).mp h with h1 | h1
        · left; rw [h1]; exact goodKey_trim k hb
        · by_cases ht : trimSpace k = k
          · rw [if_neg (by simpa using ht)] at h1
            by_cases hk : k2 = k
            · left; rw [hk]; exact ⟨ht, by rw [← ht]; exact hb⟩
            · exact Or.inr ⟨h1, hk⟩
          · rw [if_pos (by simpa using ht)] at h1
            obtain ⟨h2, h3⟩ := (mem_mapKeys_mapDelete _ k k2).mp h1
            rcases (mem_mapKeys_mapSet _ _ _ _).mp h2 with h4 | h4
            · left; rw [h4]; exact goodKey_trim k hb
            · exact Or.inr ⟨h4, h3⟩

theorem cleanForumTags_fold_keys (ks : List String) (M : GoMap (Option (GoMap String)))
    (h : ∀ k ∈ mapKeys M, GoodKey k ∨ k ∈ ks) :
    ∀ k ∈ mapKeys (ks.foldl cleanForumTagsStep M), GoodKey k := by
  induction ks generalizing M with
  | nil =>
    intro k hk
    rcases h k hk with h1 | h1
    · exact h1
    · cases h1
  | cons k0 ks ih =>
    rw [List.foldl_cons]
    apply ih
    intro k2 hk2
    rcases cleanForumTagsStep_keys M k0 k2 hk2 with h1 | ⟨h1, h2⟩
    · exact Or.inl h1
    · rcases h k2 h1 with h3 | h3
      · exact Or.inl h3
      · right
        rcases List.mem_cons.mp h3 with h4 | h4
        · exact absurd h4 h2
        · exact h4

/-- After `normalizeProject` every forum key of the tag mappings is trimmed
and not empty. -/
theorem cleanForumTags_keys (M : GoMap (Option (GoMap String))) :
    ∀ k ∈ mapKeys (cleanForumTags M), GoodKey k :=
  cleanForumTags_fold_keys (mapKeys M) M (fun _ hk => Or.inr hk)

/-- One visit of the loop `Clean ForumTagIDs` under a trimmed key keeps, in
the mapping of the forum `F`, an entry with a non-blank ID under the name. -/
theorem cleanForumTagsStep_entry (M : GoMap (Option (GoMap String))) (fid F n : String)
    (hfid : GoodKey fid) (hn : GoodKey n)
    (h : ∃ m, mapGet M F = some (some m) ∧ ∃ v, mapGet m n = some v ∧ trimSpace v ≠ "") :
    ∃ m, mapGet (cleanForumTagsStep M fid) F = some (some m) ∧
      ∃ v, mapGet m n = some v ∧ trimSpace v ≠ "" := by
  obtain ⟨m, hm, hv⟩ := h
  unfold cleanForumTagsStep
  cases hget : mapGet M fid with
  | none => exact ⟨m, hm, hv⟩
  | some o =>
    have hF : fid = F → o = some m := by
      intro h0
      rw [h0, hm] at hget
      cases hget
      rfl
    cases o with
    | none =>
      simp only
      have hne : F ≠ fid := fun h0 => by cases hF h0.symm
      rw [mapGet_mapDelete, if_neg hne]
      exact ⟨m, hm, hv⟩
    | some m2 =>
      simp only
      rw [if_neg (by rw [hfid.1]; exact hfid.2), if_neg (by simpa using hfid.1), hfid.1,
        mapGet_mapSet]
      by_cases h1 : F = fid
      · rw [if_pos h1]
        have : m2 = m := by
          have := hF h1.symm
          cases this
          rfl
        rw [this]
        exact ⟨_, rfl, cleanTagMap_entry m n hn hv⟩
      · rw [if_neg h1]
        exact ⟨m, hm, hv⟩

theorem cleanForumTags_fold_entry (ks : List String) (M : GoMap (Option (GoMap String)))
    (F n : String) (hks : ∀ k ∈ ks, GoodKey k) (hn : GoodKey n)
    (h : ∃ m, mapGet M F = some (some m) ∧ ∃ v, mapGet m n = some v ∧ trimSpace v ≠ "") :
    ∃ m, mapGet (ks.foldl cleanForumTagsStep M) F = some (some m) ∧
      ∃ v, mapGet m n = some v ∧ trimSpace v ≠ "" := by
  induction ks generalizing M with
  | nil => exact h
  | cons k ks ih =>
    rw [List.foldl_cons]
    exact ih _ (fun k2 hk2 => hks k2 (List.mem_cons_of_mem _ hk2))
      (cleanForumTagsStep_entry M k F n (hks k (List.mem_cons_self _ _)) hn h)

/-- On tag mappings whose forum keys are all trimmed and not empty,
`normalizeProject` keeps, in the mapping of a forum, an entry with a
non-blank ID under a trimmed, non-empty name. -/
theorem cleanForumTags_entry (M : GoMap (Option (GoMap String))) (F n : String)
    (hM : ∀ k ∈ mapKeys M, GoodKey k) (hn : GoodKey n)
    (h : ∃ m, mapGet M F = some (some m) ∧ ∃ v, mapGet m n = some v ∧ trimSpace v ≠ "") :
    ∃ m, mapGet (cleanForumTags M) F = some (some m) ∧
      ∃ v, mapGet m n = some v ∧ trimSpace v ≠ "" :=
  cleanForumTags_fold_entry (mapKeys M) M F n hM hn h

theorem cleanTagStep_trimmed (m : GoMap String) (name : String)
    (hK : ∀ k ∈ mapKeys m, trimSpace k = k) :
    ∀ k ∈ mapKeys (cleanTagStep m name), trimSpace k = k := by
  intro k hk
  unfold cleanTagStep at hk
  cases hget : mapGet m name with
  | none =>
    rw [hget] at hk
    exact hK k hk
  | some id =>
    rw [hget] at hk
    simp only at hk
    split at hk
    · exact hK k ((mem_mapKeys_mapDelete m name k).mp hk).1
    · split at hk
      · rcases (mem_mapKeys_mapSet _ _ _ _).mp hk with h1 | h1
        · rw [h1]; exact trimSpace_idem _
        · exact hK k ((mem_mapKeys_mapDelete m name k).mp h1).1
      · rcases (mem_mapKeys_mapSet _ _ _ _).mp hk with h1 | h1
        · rw [h1]; exact trimSpace_idem _
        · exact hK k h1

theorem cleanTag_fold_trimmed (ks : List String) (m : GoMap String)
    (hK : ∀ k ∈ mapKeys m, trimSpace k = k) :
    ∀ k ∈ mapKeys (ks.foldl cleanTagStep m), trimSpace k = k := by
  induction ks generalizing m with
  | nil => exact hK
  | cons k0 ks ih =>
    rw [List.foldl_cons]
    exact ih _ (cleanTagStep_trimmed m k0 hK)

/-- One visit of the inner tag loop on a map with trimmed names: the entry
under `n` keeps its trimmed ID, and has exactly the trimmed ID once `n`
itself has been visited. -/
theorem cleanTagStep_value (m : GoMap String) (name n tv : String)
    (hK : ∀ k ∈ mapKeys m, trimSpace k = k) (hn : GoodKey n) (htv : trimSpace tv = tv)
    (hne : tv ≠ "") (h : ∃ v, mapGet m n = some v ∧ trimSpace v = tv) :
    (∃ v, mapGet (cleanTagStep m name) n = some v ∧ trimSpace v = tv) ∧
    (name = n → mapGet (cleanTagStep m name) n = some tv) ∧
    (mapGet m n = some tv → mapGet (cleanTagStep m name) n = some tv) := by
  obtain ⟨v, hv, hvt⟩ := h
  unfold cleanTagStep
  cases hget : mapGet m name with
  | none =>
    refine ⟨⟨v, hv, hvt⟩, ?_, fun h0 => h0⟩
    intro h0
    rw [h0, hv] at hget
    cases hget
  | some id =>
    simp only
    have hname : trimSpace name = name := hK name (mem_mapKeys_of_mapGet m name id hget)
    have hid : name = n → id = v := by
      intro h0
      rw [h0, hv] at hget
      cases hget
      rfl
    by_cases hc : trimSpace name = "" ∨ trimSpace id = ""
    · have hnn : n ≠ name := by
        intro h0
        rcases hc with hc | hc
        · rw [← h0, hn.1] at hc; exact hn.2 hc
        · rw [hid h0.symm, hvt] at hc; exact hne hc
      rw [if_pos hc, mapGet_mapDelete, if_neg hnn]
      exact ⟨⟨v, hv, hvt⟩, fun h0 => absurd h0.symm hnn, fun h0 => h0⟩
    · rw [if_neg hc, if_neg (by simpa using hname), hname, mapGet_mapSet]
      by_cases h1 : n = name
      · rw [if_pos h1, hid h1.symm, hvt]
        exact ⟨⟨tv, rfl, htv⟩, fun _ => rfl, fun _ => rfl⟩
      · rw [if_neg h1]
        exact ⟨⟨v, hv, hvt⟩, fun h0 => absurd h0.symm h1, fun h0 => h0⟩

theorem cleanTag_fold_value (ks : List String) (m : GoMap String) (n tv : String)
    (hK : ∀ k ∈ mapKeys m, trimSpace k = k) (hn : GoodKey n) (htv : trimSpace tv = tv)
    (hne : tv ≠ "") (h : ∃ v, mapGet m n = some v ∧ trimSpace v = tv)
    (hvis : n ∈ ks ∨ mapGet m n = some tv) :
    mapGet (ks.foldl cleanTagStep m) n = some tv := by
  induction ks generalizing m with
  | nil =>
    rcases hvis with h1 | h1
    · cases h1
    · exact h1
  | cons k ks ih =>
    rw [List.foldl_cons]
    obtain ⟨a, b, c⟩ := cleanTagStep_value m k n tv hK hn htv hne h
    refine ih _ (cleanTagStep_trimmed m k hK) a ?_
    rcases hvis with h1 | h1
    · rcases List.mem_cons.mp h1 with h2 | h2
      · exact Or.inr (b h2.symm)
      · exact Or.inl h2
    · exact Or.inr (c h1)

/-- On a tag map with trimmed names the inner tag loop leaves under a name
the trimmed form of its ID, when that is not empty. -/
theorem cleanTagMap_value (m : GoMap String) (n v : String)
    (hK : ∀ k ∈ mapKeys m, trimSpace k = k) (hn : GoodKey n) (hv : mapGet m n = some v)
    (hne : trimSpace v ≠ "") : mapGet (cleanTagMap m) n = some (trimSpace v) :=
  cleanTag_fold_value (mapKeys m) m n (trimSpace v) hK hn (trimSpace_idem v) hne ⟨v, hv, rfl⟩
    (Or.inl (mem_mapKeys_of_mapGet m n v hv))

theorem cleanForumTagsStep_value (M : GoMap (Option (GoMap String))) (fid F n tv : String)
    (hfid : GoodKey fid) (hn : GoodKey n) (htv : trimSpace tv = tv) (hne : tv ≠ "")
    (h : ∃ m, mapGet M F = some (some m) ∧ (∀ k ∈ mapKeys m, trimSpace k = k) ∧
      ∃ v, mapGet m n = some v ∧ trimSpace v = tv) :
    (∃ m, mapGet (cleanForumTagsStep M fid) F = some (some m) ∧
      (∀ k ∈ mapKeys m, trimSpace k = k) ∧ ∃ v, mapGet m n = some v ∧ trimSpace v = tv) ∧
    (fid = F → ∃ m, mapGet (cleanForumTagsStep M fid) F = some (some m) ∧
      (∀ k ∈ mapKeys m, trimSpace k = k) ∧ mapGet m n = some tv) ∧
    ((∃ m, mapGet M F = some (some m) ∧ (∀ k ∈ mapKeys m, trimSpace k = k) ∧
        mapGet m n = some tv) →
      ∃ m, mapGet (cleanForumTagsStep M fid) F = some (some m) ∧
        (∀ k ∈ mapKeys m, trimSpace k = k) ∧ mapGet m n = some tv) := by
  obtain ⟨m, hm, hK, hv⟩ := h
  unfold cleanForumTagsStep
  cases hget : mapGet M fid with
  | none =>
    refine ⟨⟨m, hm, hK, hv⟩, ?_, fun h0 => h0⟩
    intro h0
    rw [h0, hm] at hget
    cases hget
  | some o =>
    have hF : fid = F → o = some m := by
      intro h0
      rw [h0, hm] at hget
      cases hget
      rfl
    cases o with
    | none =>
      simp only
      have hnn : F ≠ fid := fun h0 => by cases hF h0.symm
      rw [mapGet_mapDelete, if_neg hnn]
      exact ⟨⟨m, hm, hK, hv⟩, fun h0 => absurd h0.symm hnn, fun h0 => h0⟩
    | some m2 =>
      simp only
      rw [if_neg (by rw [hfid.1]; exact hfid.2), if_neg (by simpa using hfid.1), hfid.1,
        mapGet_mapSet]
      by_cases h1 : F = fid
      · rw [if_pos h1]
        have hm2 : m2 = m := by
          have := hF h1.symm
          cases this
          rfl
        rw [hm2]
        have hK2 := cleanTag_fold_trimmed (mapKeys m) m hK
        obtain ⟨v, hv1, hv2⟩ := hv
        have hval : mapGet (cleanTagMap m) n = some tv := by
          have := cleanTagMap_value m n v hK hn hv1 (by rw [hv2]; exact hne)
          rw [hv2] at this
          exact this
        exact ⟨⟨_, rfl, hK2, tv, hval, htv⟩, fun _ => ⟨_, rfl, hK2, hval⟩,
          fun _ => ⟨_, rfl, hK2, hval⟩⟩
      · rw [if_neg h1]
        exact ⟨⟨m, hm, hK, hv⟩, fun h0 => absurd h0.symm h1, fun h0 => h0⟩

theorem cleanForumTags_fold_value (ks : List String) (M : GoMap (Option (GoMap String)))
    (F n tv : String) (hks : ∀ k ∈ ks, GoodKey k) (hn : GoodKey n) (htv : trimSpace tv = tv)
    (hne : tv ≠ "")
    (h : ∃ m, mapGet M F = some (some m) ∧ (∀ k ∈ mapKeys m, trimSpace k = k) ∧
      ∃ v, mapGet m n = some v ∧ trimSpace v = tv)
    (hvis : F ∈ ks ∨ ∃ m, mapGet M F = some (some m) ∧ (∀ k ∈ mapKeys m, trimSpace k = k) ∧
      mapGet m n = some tv) :
    ∃ m, mapGet (ks.foldl cleanForumTagsStep M) F = some (some m) ∧
      (∀ k ∈ mapKeys m, trimSpace k = k) ∧ mapGet m n = some tv := by
  induction ks generalizing M with
  | nil =>
    rcases hvis with h1 | h1
    · cases h1
    · exact h1
  | cons k ks ih =>
    rw [List.foldl_cons]
    obtain ⟨a, b, c⟩ := cleanForumTagsStep_value M k F n tv (hks k (List.mem_cons_self _ _)) hn
      htv hne h
    refine ih _ (fun k2 hk2 => hks k2 (List.mem_cons_of_mem _ hk2)) a ?_
    rcases hvis with h1 | h1
    · rcases List.mem_cons.mp h1 with h2 | h2
      · exact Or.inr (b h2.symm)
      · exact Or.inl h2
    · exact Or.inr (c h1)

/-- On tag mappings whose forum keys are trimmed and not empty, and for a
forum whose tag names are trimmed, `normalizeProject` leaves under a name the
trimmed form of its ID, when that is not empty. -/
theorem cleanForumTags_value (M : GoMap (Option (GoMap String))) (F n v : String)
    (m : GoMap String) (hM : ∀ k ∈ mapKeys M, GoodKey k) (hn : GoodKey n)
    (hm : mapGet M F = some (some m)) (hK : ∀ k ∈ mapKeys m, trimSpace k = k)
    (hv : mapGet m n = some v) (hne : trimSpace v ≠ "") :
    ∃ m2, mapGet (cleanForumTags M) F = some (some m2) ∧ mapGet m2 n = some (trimSpace v) := by
  obtain ⟨m2, h1, _, h2⟩ := cleanForumTags_fold_value (mapKeys M) M F n (trimSpace v) hM hn
    (trimSpace_idem v) hne ⟨m, hm, hK, v, hv, rfl⟩
    (Or.inl (mem_mapKeys_of_mapGet M F _ hm))
  exact ⟨m2, h1, h2⟩

theorem cleanTagStep_keys (m : GoMap String) (name k2 : String)
    (h : k2 ∈ mapKeys (cleanTagStep m name)) :
    GoodKey k2 ∨ (k2 ∈ mapKeys m ∧ k2 ≠ name) := by
  unfold cleanTagStep at h
  cases hget : mapGet m name with
  | none =>
    rw [hget] at h
    simp only at h
    right
    refine ⟨h, ?_⟩
    intro hk
    rw [hk] at h
    exact (mapGet_eq_none_iff m name).mp hget h
  | some id =>
    rw [hget] at h
    simp only at h
    by_cases hc : trimSpace name = "" ∨ trimSpace id = ""
    · rw [if_pos hc] at h
      exact Or.inr ((mem_mapKeys_mapDelete m name k2).mp h)
    · rw [if_neg hc] at h
      have hb : trimSpace name ≠ "" := fun h0 => hc (Or.inl h0)
      by_cases ht : trimSpace name = name
      · rw [if_neg (by simpa using ht)] at h
        rcases (mem_mapKeys_mapSet _ _ _ _).mp h with h1 | h1
        · left; rw [h1]; exact goodKey_trim name hb
        · by_cases hk : k2 = name
          · left; rw [hk]; exact ⟨ht, by rw [← ht]; exact hb⟩
          · exact Or.inr ⟨h1, hk⟩
      · rw [if_pos (by simpa using ht)] at h
        rcases (mem_mapKeys_mapSet _ _ _ _).mp h with h1 | h1
        · left; rw [h1]; exact goodKey_trim name hb
        · exact Or.inr ((mem_mapKeys_mapDelete m name k2).mp h1)

theorem cleanTag_fold_keys (ks : List String) (m : GoMap String)
    (h : ∀ k ∈ mapKeys m, GoodKey k ∨ k ∈ ks) :
    ∀ k ∈ mapKeys (ks.foldl cleanTagStep m), GoodKey k := by
  induction ks generalizing m with
  | nil =>
    intro k hk
    rcases h k hk with h1 | h1
    · exact h1
    · cases h1
  | cons k0 ks ih =>
    rw [List.foldl_cons]
    apply ih
    intro k2 hk2
    rcases cleanTagStep_keys m k0 k2 hk2 with h1 | ⟨h1, h2⟩
    · exact Or.inl h1
    · rcases h k2 h1 with h3 | h3
      · exact Or.inl h3
      · right
        rcases List.mem_cons.mp h3 with h4 | h4
        · exact absurd h4 h2
        · exact h4

/-- After the inner tag loop every tag name is trimmed and not empty. -/
theorem cleanTagMap_keys (m : GoMap String) : ∀ k ∈ mapKeys (cleanTagMap m), GoodKey k :=
  cleanTag_fold_keys (mapKeys m) m (fun _ hk => Or.inr hk)

theorem cleanForumTagsStep_values (M : GoMap (Option (GoMap String))) (k F : String)
    (o : Option (GoMap String)) (h : mapGet (cleanForumTagsStep M k) F = some o) :
    (∃ m0, o = some (cleanTagMap m0)) ∨ (mapGet M F = some o ∧ F ≠ k) := by
  unfold cleanForumTagsStep at h
  cases hget : mapGet M k with
  | none =>
    rw [hget] at h
    simp only at h
    right
    refine ⟨h, ?_⟩
    intro hk
    rw [hk, hget] at h
    cases h
  | some o2 =>
    rw [hget] at h
    cases o2 with
    | none =>
      simp only at h
      rw [mapGet_mapDelete] at h
      by_cases hk : F = k
      · rw [if_pos hk] at h; cases h
      · rw [if_neg hk] at h; exact Or.inr ⟨h, hk⟩
    | some m =>
      simp only at h
      by_cases hb : trimSpace k = ""
      · rw [if_pos hb, mapGet_mapDelete] at h
        by_cases hk : F = k
        · rw [if_pos hk] at h; cases h
        · rw [if_neg hk] at h; exact Or.inr ⟨h, hk⟩
      · rw [if_neg hb, mapGet_mapSet] at h
        by_cases h2 : F = trimSpace k
        · rw [if_pos h2] at h
          cases h
          exact Or.inl ⟨m, rfl⟩
        · rw [if_neg h2] at h
          by_cases ht : trimSpace k = k
          · rw [if_neg (by simpa using ht)] at h
            exact Or.inr ⟨h, by rw [← ht]; exact h2⟩
          · rw [if_pos (by simpa using ht), mapGet_mapDelete] at h
            by_cases hk : F = k
            · rw [if_pos hk] at h; cases h
            · rw [if_neg hk, mapGet_mapSet, if_neg h2] at h
              exact Or.inr ⟨h, hk⟩

theorem cleanForumTags_fold_values (ks : List String) (M : GoMap (Option (GoMap String)))
    (h : ∀ F o, mapGet M F = some o → (∃ m0, o = some (cleanTagMap m0)) ∨ F ∈ ks) :
    ∀ F o, mapGet (ks.foldl cleanForumTagsStep M) F = some o →
      ∃ m0, o = some (cleanTagMap m0) := by
  induction ks generalizing M with
  | nil =>
    intro F o hF
    rcases h F o hF with h1 | h1
    · exact h1
    · cases h1
  | cons k0 ks ih =>
    rw [List.foldl_cons]
    apply ih
    intro F o hF
    rcases cleanForumTagsStep_values M k0 F o hF with h1 | ⟨h1, h2⟩
    · exact Or.inl h1
    · rcases h F o h1 with h3 | h3
      · exact Or.inl h3
      · right
        rcases List.mem_cons.mp h3 with h4 | h4
        · exact absurd h4 h2
        · exact h4

/-- After `normalizeProject` every tag mapping of a forum is a cleaned map. -/
theorem cleanForumTags_values (M : GoMap (Option (GoMap String))) :
    ∀ F o, mapGet (cleanForumTags M) F = some o → ∃ m0, o = some (cleanTagMap m0) :=
  cleanForumTags_fold_values (mapKeys M) M
    (fun F o hF => Or.inr (mem_mapKeys_of_mapGet M F o hF))

/-- The tag names of a mapping a loaded project holds are trimmed. -/
theorem loaded_tag_names (p : Project) (hl : Loaded p) (F : String) :
    ∀ k ∈ mapKeys (forumTagMap p F), trimSpace k = k := by
  obtain ⟨r, rfl⟩ := hl
  intro k hk
  unfold forumTagMap at hk
  simp only [normalizeProject] at hk
  cases hget : mapGet (cleanForumTags r.ForumTagIDs) F with
  | none =>
    rw [hget] at hk
    cases hk
  | some o =>
    rw [hget] at hk
    obtain ⟨m0, hm0⟩ := cleanForumTags_values r.ForumTagIDs F o hget
    rw [hm0] at hk
    exact (cleanTagMap_keys m0 k hk).1

theorem collectTagIDs_fold_keys (tags : List ForumTag) (m : GoMap String) (k : String)
    (h : k ∈ mapKeys (tags.foldl
      (fun m t => if t.Name ≠ "" ∧ t.ID ≠ "" then mapSet m t.Name t.ID else m) m)) :
    k ∈ mapKeys m ∨ ∃ t ∈ tags, t.Name = k := by
  induction tags generalizing m with
  | nil => exact Or.inl h
  | cons t rest ih =>
    rw [List.foldl_cons] at h
    rcases ih _ h with h1 | ⟨t2, ht2, h2⟩
    · split at h1
      · rcases (mem_mapKeys_mapSet _ _ _ _).mp h1 with h3 | h3
        · exact Or.inr ⟨t, List.mem_cons_self _ _, h3.symm⟩
        · exact Or.inl h3
      · exact Or.inl h1
    · exact Or.inr ⟨t2, List.mem_cons_of_mem _ ht2, h2⟩

theorem collectTagIDs_keys (tags : List ForumTag) (k : String)
    (h : k ∈ mapKeys (collectTagIDs tags)) : ∃ t ∈ tags, t.Name = k := by
  rcases collectTagIDs_fold_keys tags [] k h with h1 | h1
  · cases h1
  · exact h1

theorem tagName_good (st : String) (h : statusToTagName st ≠ "") :
    GoodKey (statusToTagName st) := by
  unfold statusToTagName at h ⊢
  split
  · exact ⟨by decide, by decide⟩
  · split
    · exact ⟨by decide, by decide⟩
    · split
      · exact ⟨by decide, by decide⟩
      · split
        · exact ⟨by decide, by decide⟩
        · rename_i h1 h2 h3 h4
          simp only [if_neg h1, if_neg h2, if_neg h3, if_neg h4] at h
          exact absurd rfl h

/-! ## The tag mapping a command resolves and persists -/

/-- A resolved tag mapping is the one of the loaded project, or the one
collected from the available tags of the forum and stored under its ID. -/
theorem tagsResolved_cases (env : Env) (ctx : taskContext) (p p1 : Project)
    (hF : GoodKey ctx.ForumID) (h : TagsResolved env ctx p p1) :
    p1 = p ∨
    ∃ ch, getChannelSafe env ctx.ForumID = Except.ok (some ch) ∧
      p1 = { p with
        ForumTagIDs := mapSet p.ForumTagIDs ctx.ForumID (some (collectTagIDs ch.AvailableTags)) }
      := by
  unfold TagsResolved ensureForumTagMapping at h
  simp only [hF.1] at h
  split at h
  · cases h
  · split at h
    · cases h
      exact Or.inl rfl
    · split at h
      · cases h
      · cases h
      · rename_i ch hch
        split at h
        · cases h
        · cases h
          exact Or.inr ⟨ch, hch, rfl⟩

theorem tagsResolved_keys (env : Env) (ctx : taskContext) (p p1 : Project) (hl : Loaded p)
    (hF : GoodKey ctx.ForumID) (h : TagsResolved env ctx p p1) :
    ∀ k ∈ mapKeys p1.ForumTagIDs, GoodKey k := by
  have hp : ∀ k ∈ mapKeys p.ForumTagIDs, GoodKey k := by
    obtain ⟨r, rfl⟩ := hl
    exact cleanForumTags_keys r.ForumTagIDs
  rcases tagsResolved_cases env ctx p p1 hF h with h1 | ⟨ch, _, h1⟩
  · rw [h1]
    exact hp
  · rw [h1]
    intro k hk
    rcases (mem_mapKeys_mapSet _ _ _ _).mp hk with h2 | h2
    · rw [h2]; exact hF
    · exact hp k h2

theorem tagsResolved_names (env : Env) (ctx : taskContext) (p p1 : Project) (hl : Loaded p)
    (hF : GoodKey ctx.ForumID) (h : TagsResolved env ctx p p1)
    (hplat : ∀ ch, getChannelSafe env ctx.ForumID = Except.ok (some ch) →
      ∀ tag ∈ ch.AvailableTags, trimSpace tag.Name = tag.Name) :
    ∀ k ∈ mapKeys (forumTagMap p1 ctx.ForumID), trimSpace k = k := by
  rcases tagsResolved_cases env ctx p p1 hF h with h1 | ⟨ch, hch, h1⟩
  · rw [h1]
    exact loaded_tag_names p hl ctx.ForumID
  · rw [h1]
    intro k hk
    unfold forumTagMap at hk
    simp only [mapGet_mapSet, if_true, Option.getD_some] at hk
    obtain ⟨t, ht, hname⟩ := collectTagIDs_keys ch.AvailableTags k hk
    rw [← hname]
    exact hplat ch hch t ht

theorem forumTagMap_entry (p : Project) (F n : String)
    (h : trimSpace ((mapGet (forumTagMap p F) n).getD "") ≠ "") :
    ∃ m v, mapGet p.ForumTagIDs F = some (some m) ∧ forumTagMap p F = m ∧
      mapGet m n = some v ∧ trimSpace v ≠ "" := by
  unfold forumTagMap at h ⊢
  cases hget : mapGet p.ForumTagIDs F with
  | none =>
    rw [hget] at h
    exact absurd trimSpace_empty h
  | some o =>
    cases o with
    | none =>
      rw [hget] at h
      exact absurd trimSpace_empty h
    | some m =>
      rw [hget] at h
      simp only [Option.getD_some] at h ⊢
      cases hv : mapGet m n with
      | none =>
        rw [hv] at h
        exact absurd trimSpace_empty h
      | some v =>
        rw [hv] at h
        exact ⟨m, v, rfl, rfl, hv, h⟩

/-- The tag a command writes and the mapping it persists: the written tag
is the trimmed ID the resolved mapping holds for the status; the persisted
mapping of the forum holds a non-blank ID for the status, and it is the
written one when the platform reports trimmed tag names for the forum. -/
theorem persisted_tag (env : Env) (ctx : taskContext) (p p1 : Project) (st : String)
    (log1 : List Effect) (X : GoMap ProjectTask) (hl : Loaded p)
    (hens : TagsResolved env ctx p p1) (hT : GoodKey ctx.ThreadID) (hF : GoodKey ctx.ForumID)
    (happ : applyStatusTagToThread env p1 ctx.ForumID ctx.ThreadID st = Except.ok log1) :
    ∃ v, mapGet (forumTagMap p1 ctx.ForumID) (statusToTagName st) = some v ∧
      trimSpace v ≠ "" ∧ log1 = [Effect.channelEditTags ctx.ThreadID [trimSpace v]] ∧
      (∃ id,
        mapGet (forumTagMap (normalizeProject { p1 with Tasks := X }) ctx.ForumID)
          (statusToTagName st) = some id ∧ id ≠ "") ∧
      ((∀ ch, getChannelSafe env ctx.ForumID = Except.ok (some ch) →
          ∀ tag ∈ ch.AvailableTags, trimSpace tag.Name = tag.Name) →
        mapGet (forumTagMap (normalizeProject { p1 with Tasks := X }) ctx.ForumID)
          (statusToTagName st) = some (trimSpace v)) := by
  obtain ⟨_, hname, hid, hlog⟩ := applyStatusTag_log env p1 _ _ _ log1 happ
  rw [hF.1] at hid hlog
  rw [hT.1] at hlog
  obtain ⟨m, v, hm, hfm, hv, hvne⟩ := forumTagMap_entry p1 ctx.ForumID _ hid
  have hkeys := tagsResolved_keys env ctx p p1 hl hF hens
  have hn := tagName_good st hname
  rw [hfm, hv] at hlog
  simp only [Option.getD_some] at hlog
  refine ⟨v, by rw [hfm]; exact hv, hvne, hlog, ?_, ?_⟩
  · obtain ⟨m2, hm2, v2, hv2, hne2⟩ := cleanForumTags_entry p1.ForumTagIDs ctx.ForumID _ hkeys hn
      ⟨m, hm, v, hv, hvne⟩
    refine ⟨v2, ?_, ?_⟩
    · unfold forumTagMap
      simp only [normalizeProject, hm2, Option.getD_some]
      exact hv2
    · intro h0
      rw [h0] at hne2
      exact hne2 trimSpace_empty
  · intro hplat
    have hK := tagsResolved_names env ctx p p1 hl hF hens hplat
    rw [hfm] at hK
    obtain ⟨m2, hm2, hv2⟩ := cleanForumTags_value p1.ForumTagIDs ctx.ForumID _ v m hkeys hn hm hK
      hv hvne
    unfold forumTagMap
    simp only [normalizeProject, hm2, Option.getD_some]
    exact hv2

theorem lastTagWrite_skip (L : List Effect) (T : String) (acc : Option (List String))
    (h : ∀ x ∈ L, isTagWrite x = false) : L.foldl (tagWriteStep T) acc = acc := by
  induction L generalizing acc with
  | nil => rfl
  | cons x rest ih =>
    rw [List.foldl_cons]
    have hx := h x (List.mem_cons_self _ _)
    have hrest := fun a => ih a (fun y hy => h y (List.mem_cons_of_mem _ hy))
    cases x with
    | channelEditTags t tags => cases hx
    | _ => exact hrest acc

/-- In a log with one tag write, to thread `T`, that write is the last. -/
theorem lastTagWrite_one (A B : List Effect) (T : String) (tags : List String)
    (hA : ∀ x ∈ A, isTagWrite x = false) (hB : ∀ x ∈ B, isTagWrite x = false) :
    lastTagWrite (A ++ Effect.channelEditTags T tags :: B) T = some tags := by
  unfold lastTagWrite
  rw [List.foldl_append, lastTagWrite_skip A T none hA, List.foldl_cons]
  simp only [tagWriteStep, if_true]
  exact lastTagWrite_skip B T (some tags) hB

theorem normalizeTask_status (T : String) (t : ProjectTask) (h : t.Status ∈ allStatuses) :
    (normalizeTask T t).Status = t.Status := by
  unfold normalizeTask
  simp only [if_neg (allStatuses_not_blank _ h)]

/-- After a successful invocation: the task and the record the store holds,
the tag written last to the thread, and the entry of the persisted tag
mapping for the status of the persisted task. -/
theorem success_tag (c : TaskCommand) (env : Env) (files : Files) (i : InteractionCreate)
    (ctx : taskContext) (p : Project) (hres : Resolved env files i ctx p)
    (hok : Succeeded c (handleTaskCommand c env files i)) :
    ∃ t q v,
      persistedTask (handleTaskCommand c env files i).files p.Slug ctx.ThreadID = some t ∧
      mapGet (handleTaskCommand c env files i).files (projectPathBySlug p.Slug) = some q ∧
      t.Status ∈ allStatuses ∧ trimSpace v ≠ "" ∧
      lastTagWrite (handleTaskCommand c env files i).log ctx.ThreadID = some [trimSpace v] ∧
      (∃ id, mapGet (forumTagMap q ctx.ForumID) (statusToTagName t.Status) = some id ∧
        id ≠ "") ∧
      ((∀ ch, getChannelSafe env ctx.ForumID = Except.ok (some ch) →
          ∀ tag ∈ ch.AvailableTags, trimSpace tag.Name = tag.Name) →
        mapGet (forumTagMap q ctx.ForumID) (statusToTagName t.Status) =
          some (trimSpace v)) := by
  obtain ⟨ctx2, p2, p1, newtask, log0, log1, log2, log3, hres2, hens, hct, happ, _, hupd, hlog,
    h0, h2, h3⟩ := succeeded_inv c env files i hok
  obtain ⟨e1, e2⟩ := resolved_unique env files i ctx ctx2 p p2 hres hres2
  subst e1
  subst e2
  have hl := resolved_loaded env files i ctx2 p2 hres
  have hframe := ensureForumTagMapping_frame env p2 p1 _ hens
  have hgood := mustTaskContext_good env i ctx2 hres.2.1
  obtain ⟨hst, _⟩ := commandTask_facts c env i ctx2 p2 p1 newtask hl hframe hct
  have hpers := persisted_tasks env files _ p2 p1 ctx2.ThreadID newtask hl hframe hgood.1 hupd
    ctx2.ThreadID
  rw [if_pos rfl] at hpers
  have hget := updateFile_get env files _ _ hupd
  rw [commit_slug p2 p1 ctx2.ThreadID newtask hl hframe] at hget
  obtain ⟨v, _, hvne, hl1, ha, hb⟩ := persisted_tag env ctx2 p2 p1 newtask.Status log1
    (mapSet p1.Tasks ctx2.ThreadID newtask) hl hens hgood.1 hgood.2 happ
  refine ⟨_, _, v, hpers, hget, ?_, hvne, ?_, ?_, ?_⟩
  · rw [normalizeTask_status _ _ hst]; exact hst
  · rw [hlog, hl1]
    simp only [List.append_assoc, List.singleton_append]
    refine lastTagWrite_one log0 (log2 ++ (log3 ++ [_, _])) _ _ h0 ?_
    intro x hx
    rcases List.mem_append.mp hx with hx | hx
    · exact h2 x hx
    · rcases List.mem_append.mp hx with hx | hx
      · exact h3 x hx
      · rcases List.mem_cons.mp hx with hx | hx
        · rw [hx]; rfl
        · rw [List.mem_singleton.mp hx]; rfl
  · rw [normalizeTask_status _ _ hst]; exact ha
  · rw [normalizeTask_status _ _ hst]; exact hb

/-! ## The temporary file of a failed store write -/

theorem hasSuffix_tmp (x : String) : hasSuffix (toLower (x ++ ".tmp")) ".json" = false := by
  unfold hasSuffix toLower
  simp only [String.data_append, List.map_append]
  have h1 : (".tmp" : String).data.map toLowerRune = ['.', 't', 'm', 'p'] := by decide
  rw [h1]
  rw [Bool.eq_false_iff]
  intro h
  rw [List.isSuffixOf_iff_suffix] at h
  obtain ⟨t, ht⟩ := h
  have hrev := congrArg List.reverse ht
  simp only [List.reverse_append, List.reverse_cons, List.reverse_nil, List.nil_append,
    List.cons_append, List.append_assoc] at hrev
  injection hrev with h3 _
  exact absurd h3 (by decide)

theorem loadStep_tmp (out : GoMap Project) (x : String) (r : Project) :
    loadStep out (x ++ ".tmp", r) = out := by
  unfold loadStep
  simp only [hasSuffix_tmp, Bool.false_eq_true, not_false_eq_true, if_true]

theorem load_fold_mapDelete (files : Files) (k : String) (out : GoMap Project)
    (hk : ∀ r o, loadStep o (k, r) = o) :
    (mapDelete files k).foldl loadStep out = files.foldl loadStep out := by
  induction files generalizing out with
  | nil => rfl
  | cons e rest ih =>
    obtain ⟨k1, v1⟩ := e
    rw [mapDelete_cons]
    by_cases h : k1 = k
    · simp only [h, if_true, List.foldl_cons, hk]
      exact ih out
    · simp only [h, if_false, List.foldl_cons]
      exact ih _

theorem load_fold_mapSet (files : Files) (k : String) (v : Project) (out : GoMap Project)
    (hk : ∀ r o, loadStep o (k, r) = o) :
    (mapSet files k v).foldl loadStep out = files.foldl loadStep out := by
  induction files generalizing out with
  | nil => simp only [mapSet, List.foldl_cons, List.foldl_nil, hk]
  | cons e rest ih =>
    obtain ⟨k1, v1⟩ := e
    by_cases h : k1 = k
    · simp only [mapSet, h, if_true, List.foldl_cons, hk]
      exact load_fold_mapDelete rest k out hk
    · simp only [mapSet, h, if_false, List.foldl_cons]
      exact ih _

/-- A temporary file in the store does not change what `load_all_files`
loads. -/
theorem load_tmp (env : Env) (files : Files) (x : String) (r : Project) :
    load_all_files env (mapSet files (x ++ ".tmp") r) = load_all_files env files := by
  unfold load_all_files
  cases env.loadErr with
  | some err => rfl
  | none =>
    simp only
    rw [load_fold_mapSet files _ r [] (fun r o => loadStep_tmp o x r)]

theorem resolved_tmp (env : Env) (files : Files) (x : String) (r : Project)
    (i : InteractionCreate) (ctx : taskContext) (p : Project)
    (h : Resolved env (mapSet files (x ++ ".tmp") r) i ctx p) : Resolved env files i ctx p := by
  obtain ⟨hg, hctx, projects, hint, hload, hfind⟩ := h
  rw [load_tmp] at hload
  exact ⟨hg, hctx, projects, hint, hload, hfind⟩

/-- Two resolutions over the same files that see the same thread context
hand out the same project. -/
theorem resolved_env (env env2 : Env) (files : Files) (i : InteractionCreate)
    (ctx ctx2 : taskContext) (p p2 : Project) (h : Resolved env files i ctx p)
    (h2 : Resolved env2 files i ctx2 p2)
    (hctx : mustTaskContext env2 i = mustTaskContext env i) : ctx2 = ctx ∧ p2 = p := by
  obtain ⟨_, hc, projects, hint, hload, hfind⟩ := h
  obtain ⟨_, hc2, projects2, hint2, hload2, hfind2⟩ := h2
  rw [hctx, hc] at hc2
  cases hc2
  have hp : projects2 = projects := by
    unfold load_all_files at hload hload2
    split at hload
    · cases hload
    · split at hload2
      · cases hload2
      · cases hload
        cases hload2
        rfl
  rw [hp, hfind] at hfind2
  cases hfind2
  exact ⟨rfl, rfl⟩

theorem tmp_ne_path (x y : String) : y ++ ".json" ≠ x ++ ".tmp" := by
  intro h
  have h1 := congrArg (fun s => s.data.reverse) h
  simp only [String.data_append, List.reverse_append] at h1
  have h2 : (".json" : String).data.reverse = ['n', 'o', 's', 'j', '.'] := rfl
  have h3 : (".tmp" : String).data.reverse = ['p', 'm', 't', '.'] := rfl
  rw [h2, h3] at h1
  simp only [List.cons_append] at h1
  injection h1 with h4 _
  exact absurd h4 (by decide)

theorem mapDelete_mapSet {V : Type} (m : GoMap V) (k : String) (v : V) :
    mapDelete (mapSet m k v) k = mapDelete m k := by
  induction m with
  | nil => simp [mapSet, mapDelete]
  | cons e rest ih =>
    obtain ⟨k1, v1⟩ := e
    by_cases h : k1 = k
    · subst h
      simp only [mapSet, if_true, mapDelete_cons]
      simp [mapDelete]
    · simp only [mapSet, h, if_false, mapDelete_cons, ih]

theorem mapSet_mapSet {V : Type} (m : GoMap V) (k : String) (v w : V) :
    mapSet (mapSet m k v) k w = mapSet m k w := by
  induction m with
  | nil => simp [mapSet, mapDelete]
  | cons e rest ih =>
    obtain ⟨k1, v1⟩ := e
    by_cases h : k1 = k
    · subst h
      simp only [mapSet, if_true]
      congr 1
      simp [mapDelete]
    · simp only [mapSet, h, if_false, ih]

/-- `updateFile` on a store that holds the temporary file of the record in
addition: the same error, if any, and on success the same files. -/
theorem updateFile_tmp (env : Env) (files : Files) (q r : Project) :
    (updateFile env
        (mapSet files (projectPathBySlug (normalizeProject q).Slug ++ ".tmp") r) q).1 =
      (updateFile env files q).1 ∧
    ((updateFile env files q).1 = none →
      (updateFile env
          (mapSet files (projectPathBySlug (normalizeProject q).Slug ++ ".tmp") r) q).2 =
        (updateFile env files q).2) := by
  have hget : mapGet
      (mapSet files (projectPathBySlug (normalizeProject q).Slug ++ ".tmp") r)
      (projectPathBySlug (normalizeProject q).Slug) =
      mapGet files (projectPathBySlug (normalizeProject q).Slug) := by
    rw [mapGet_mapSet, if_neg (by unfold projectPathBySlug; exact tmp_ne_path _ _)]
  unfold updateFile
  cases env.mkdirErr with
  | some err => exact ⟨rfl, fun h => by cases h⟩
  | none =>
    by_cases hs : (normalizeProject q).Slug = ""
    · simp only [if_pos hs]
      simp
    · simp only [if_neg hs]
      cases env.statErr with
      | some err => exact ⟨rfl, fun h => by cases h⟩
      | none =>
        simp only [hget]
        cases mapGet files (projectPathBySlug (normalizeProject q).Slug) with
        | none => exact ⟨rfl, fun h => by cases h⟩
        | some r0 =>
          simp only [writeProjectAtomic]
          cases env.writeErr with
          | some err => exact ⟨rfl, fun h => by cases h⟩
          | none =>
            simp only [mapSet_mapSet]
            cases env.renameErr with
            | some err => simp
            | none => simp

theorem updateFile_tmp_ok (env : Env) (files files1 : Files) (q r : Project)
    (h : updateFile env
      (mapSet files (projectPathBySlug (normalizeProject q).Slug ++ ".tmp") r) q =
        (none, files1)) :
    updateFile env files q = (none, files1) := by
  obtain ⟨h1, h2⟩ := updateFile_tmp env files q r
  rw [h] at h1 h2
  have h3 : (updateFile env files q).1 = none := h1.symm
  have h4 := h2 h3
  exact Prod.ext h3 h4.symm

/-- The closing steps of a transition command that succeed on a store with
the temporary file of the record are the closing steps on the store without
it. -/
theorem commitTask_retry (env : Env) (files : Files) (r : Project) (p1 : Project)
    (ctx : taskContext) (task : ProjectTask) (log3 : List Effect) (okmsg : String)
    (hmsg : isErrorText okmsg = false)
    (hok : (commitTask env
      (mapSet files
        (projectPathBySlug
          (normalizeProject { p1 with Tasks := mapSet p1.Tasks ctx.ThreadID task }).Slug ++
            ".tmp") r)
      p1 ctx task log3 okmsg).response = okmsg) :
    commitTask env
      (mapSet files
        (projectPathBySlug
          (normalizeProject { p1 with Tasks := mapSet p1.Tasks ctx.ThreadID task }).Slug ++
            ".tmp") r)
      p1 ctx task log3 okmsg =
    commitTask env files p1 ctx task log3 okmsg := by
  have habs : ∀ (f : Files) (l : List Effect) (a x : String), isErrorText a = true →
      (respondEphemeral f l (a ++ x)).response = okmsg → False := by
    intro f l a x ha h
    have := isErrorText_append a x ha
    rw [show (respondEphemeral f l (a ++ x)).response = a ++ x from rfl] at h
    rw [h, hmsg] at this
    cases this
  rcases commitTask_cases env _ p1 ctx task log3 okmsg with
    ⟨err, _, hc⟩ | ⟨log1, log2, err, _, _, hc⟩ |
    ⟨log1, log2, err, files1, _, _, _, hc⟩ | ⟨log1, log2, files1, happ, hups, hupd, hc⟩
  · rw [hc] at hok
    exact absurd hok (fun h => habs _ _ _ _ (by decide) h)
  · rw [hc] at hok
    exact absurd hok (fun h => habs _ _ _ _ (by decide) h)
  · rw [hc] at hok
    exact absurd hok (fun h => habs _ _ _ _ (by decide) h)
  · rw [hc]
    have hupd2 := updateFile_tmp_ok env files files1 _ r hupd
    unfold commitTask
    simp only [happ, hups, hupd2]

/-- The steps of task-init that succeed on a store with the temporary file
of the record are the steps on the store without it. -/
theorem initCore_retry (env : Env) (files : Files) (r : Project) (p1 : Project)
    (ctx : taskContext) (slug : String)
    (hslug : ∀ task, (normalizeProject
      { p1 with Tasks := mapSet p1.Tasks ctx.ThreadID task }).Slug = slug)
    (hok : Succeeded TaskCommand.taskInit
      (initCore env (mapSet files (projectPathBySlug slug ++ ".tmp") r) p1 ctx)) :
    initCore env (mapSet files (projectPathBySlug slug ++ ".tmp") r) p1 ctx =
      initCore env files p1 ctx := by
  rcases initCore_cases env (mapSet files (projectPathBySlug slug ++ ".tmp") r) p1 ctx with
    ⟨err, log0, hpan, hc⟩ | ⟨msgID, log0, hpan, ⟨err, happ, hc⟩ |
      ⟨log1, log2, happ, ⟨err, hups, hc⟩ | ⟨hups, ⟨err, files1, _, hc⟩ |
        ⟨files1, okmsg, hupd, _, hc⟩⟩⟩⟩
  · rw [hc] at hok
    exact absurd hok (respond_error_absurd _ _ _ _ (isErrorText_append _ _ (by decide)))
  · rw [hc] at hok
    exact absurd hok (respond_error_absurd _ _ _ _ (isErrorText_append _ _ (by decide)))
  · rw [hc] at hok
    exact absurd hok (respond_error_absurd _ _ _ _ (isErrorText_append _ _ (by decide)))
  · rw [hc] at hok
    exact absurd hok (respond_error_absurd _ _ _ _ (isErrorText_append _ _ (by decide)))
  · have hupd2 : updateFile env files
        { p1 with
          Tasks := mapSet p1.Tasks ctx.ThreadID
            (initTask ctx ((mapGet p1.Tasks ctx.ThreadID).getD ProjectTask.zero) msgID) } =
        (none, files1) := by
      rw [← hslug (initTask ctx ((mapGet p1.Tasks ctx.ThreadID).getD ProjectTask.zero) msgID)]
        at hupd
      exact updateFile_tmp_ok env files files1 _ r hupd
    have hupd3 := hupd
    unfold initCore
    simp only [hpan, happ, hups, hupd3, hupd2]

/-! ## A failed store write and the next invocation -/

theorem no_write_in_respond (files : Files) (msg : String) (P : Effect → Bool)
    (hP : ∀ c, P (Effect.respond c) = false)
    (h : ∃ e ∈ (respondEphemeral files [] msg).log, P e = true) : False := by
  obtain ⟨e, he, hpe⟩ := h
  simp only [respondEphemeral, List.nil_append, List.mem_singleton] at he
  rw [he, hP] at hpe
  cases hpe

theorem commitTask_storeFailed (c : TaskCommand) (env : Env) (files : Files) (p p1 : Project)
    (ctx : taskContext) (task : ProjectTask) (log3 : List Effect) (okmsg : String)
    (hl : Loaded p) (hframe : p1 = { p with ForumTagIDs := p1.ForumTagIDs })
    (hsucc : ∀ out : Outcome, out.response = okmsg → Succeeded c out)
    (h : StoreFailed c (commitTask env files p1 ctx task log3 okmsg)) :
    (commitTask env files p1 ctx task log3 okmsg).files = files ∨
    ∃ r, (commitTask env files p1 ctx task log3 okmsg).files =
      mapSet files (projectPathBySlug p.Slug ++ ".tmp") r := by
  obtain ⟨htag, hedit, hnot⟩ := h
  rcases commitTask_cases env files p1 ctx task log3 okmsg with
    ⟨err, _, hc⟩ | ⟨log1, log2, err, happ, hups, hc⟩ |
    ⟨log1, log2, err, files1, _, _, hupd, hc⟩ | ⟨log1, log2, files1, _, _, _, hc⟩
  · rw [hc]
    exact Or.inl rfl
  · rw [hc]
    exact Or.inl rfl
  · rw [hc]
    rcases updateFile_fail env files files1 _ err hupd with h1 | h1
    · exact Or.inl h1
    · rw [commit_slug p p1 ctx.ThreadID task hl hframe] at h1
      exact Or.inr ⟨_, h1⟩
  · exfalso
    apply hnot
    apply hsucc
    rw [hc]
    rfl

theorem initCore_storeFailed (env : Env) (files : Files) (p p1 : Project) (ctx : taskContext)
    (hl : Loaded p) (hframe : p1 = { p with ForumTagIDs := p1.ForumTagIDs })
    (h : StoreFailed TaskCommand.taskInit (initCore env files p1 ctx)) :
    (initCore env files p1 ctx).files = files ∨
    ∃ r, (initCore env files p1 ctx).files =
      mapSet files (projectPathBySlug p.Slug ++ ".tmp") r := by
  obtain ⟨htag, hedit, hnot⟩ := h
  rcases initCore_cases env files p1 ctx with
    ⟨err, log0, hpan, hc⟩ | ⟨msgID, log0, hpan, ⟨err, happ, hc⟩ |
      ⟨log1, log2, happ, ⟨err, hups, hc⟩ | ⟨hups, ⟨err, files1, hupd, hc⟩ |
        ⟨files1, okmsg, _, hmsg, hc⟩⟩⟩⟩
  · rw [hc]
    exact Or.inl rfl
  · rw [hc]
    exact Or.inl rfl
  · rw [hc]
    exact Or.inl rfl
  · rw [hc]
    rcases updateFile_fail env files files1 _ err hupd with h1 | h1
    · exact Or.inl h1
    · rw [commit_slug p p1 ctx.ThreadID _ hl hframe] at h1
      exact Or.inr ⟨_, h1⟩
  · exfalso
    apply hnot
    rw [hc]
    rcases hmsg with h1 | h1
    · exact Or.inr h1
    · exact Or.inl h1

/-- An invocation whose store write failed after the tag and panel writes
resolved a project, and left the files as they were or with the temporary
file of the record of that project in addition. -/
theorem storeFailed_files (c : TaskCommand) (env : Env) (files : Files)
    (i : InteractionCreate) (h : StoreFailed c (handleTaskCommand c env files i)) :
    ∃ ctx p, Resolved env files i ctx p ∧
      ((handleTaskCommand c env files i).files = files ∨
        ∃ r, (handleTaskCommand c env files i).files =
          mapSet files (projectPathBySlug p.Slug ++ ".tmp") r) := by
  by_cases hc : c = TaskCommand.taskInit
  · subst hc
    simp only [handleTaskCommand] at h ⊢
    rcases init_shape env files i with ⟨msg, h1, _⟩ | ⟨ctx, p, p1, hres, hens, h1⟩
    · rw [h1] at h
      exact absurd h.1 (no_write_in_respond files msg isTagWrite (fun _ => rfl))
    · rw [h1] at h ⊢
      exact ⟨ctx, p, hres, initCore_storeFailed env files p p1 ctx
        (resolved_loaded env files i ctx p hres) (ensureForumTagMapping_frame env p p1 _ hens) h⟩
  · rcases transition_shape c hc env files i with
      ⟨msg, h1, _⟩ | ⟨ctx, p, p1, task, hres, hens, _, _, _, h1⟩
    · rw [h1] at h
      exact absurd h.1 (no_write_in_respond files msg isTagWrite (fun _ => rfl))
    · rw [h1] at h ⊢
      exact ⟨ctx, p, hres, commitTask_storeFailed c env files p p1 ctx _ _ _
        (resolved_loaded env files i ctx p hres) (ensureForumTagMapping_frame env p p1 _ hens)
        (fun out ho => (succeeded_okText c hc out).mpr ho) h⟩

/-- A command that succeeds on the files a failed store write of the same
command left is, as a whole, the command run on the files from before the
failure. -/
theorem retry_eq (c : TaskCommand) (env env2 : Env) (files : Files) (i : InteractionCreate)
    (ctx : taskContext) (p r : Project) (hres : Resolved env files i ctx p)
    (hctx : mustTaskContext env2 i = mustTaskContext env i)
    (hok : Succeeded c
      (handleTaskCommand c env2 (mapSet files (projectPathBySlug p.Slug ++ ".tmp") r) i)) :
    handleTaskCommand c env2 (mapSet files (projectPathBySlug p.Slug ++ ".tmp") r) i =
      handleTaskCommand c env2 files i := by
  obtain ⟨ctx2, p2, p1, newtask, log0, log1, log2, log3, hres2, hens, hct, _⟩ :=
    succeeded_inv c env2 _ i hok
  have hres3 := resolved_tmp env2 files _ r i ctx2 p2 hres2
  obtain ⟨e1, e2⟩ := resolved_env env env2 files i ctx ctx2 p p2 hres hres3 hctx
  subst e1
  subst e2
  have hl := resolved_loaded env2 files i ctx2 p2 hres3
  have hframe := ensureForumTagMapping_frame env2 p2 p1 _ hens
  by_cases hc : c = TaskCommand.taskInit
  · subst hc
    simp only [handleTaskCommand] at hok ⊢
    rw [init_eq env2 _ i ctx2 p2 p1 hres2 hens] at hok ⊢
    rw [init_eq env2 files i ctx2 p2 p1 hres3 hens]
    exact initCore_retry env2 files r p1 ctx2 p2.Slug
      (fun task => commit_slug p2 p1 ctx2.ThreadID task hl hframe) hok
  · have h2 : ∃ task, mapGet p2.Tasks ctx2.ThreadID = some task ∧ getAuthorID i ≠ "" ∧
        TransitionAllowed c i p2 task ∧ newtask = transitionTask c (getAuthorID i) task := by
      cases c with
      | taskInit => exact absurd rfl hc
      | _ => exact hct
    obtain ⟨task, htask, hcaller, hall, _⟩ := h2
    rw [transition_run c env2 _ i ctx2 p2 p1 task hres2 hens hcaller htask hall] at hok ⊢
    rw [transition_run c env2 files i ctx2 p2 p1 task hres3 hens hcaller htask hall]
    have hs := commit_slug p2 p1 ctx2.ThreadID (transitionTask c (getAuthorID i) task) hl hframe
    rw [← hs] at hok ⊢
    exact commitTask_retry env2 files r p1 ctx2 _ _ (okText c) (okText_not_error c)
      ((succeeded_okText c hc _).mp hok)

/-! ## Sessions -/

/-- An invocation that does not succeed leaves the files as they were, or
with a temporary file in addition. -/
theorem failed_files (c : TaskCommand) (env : Env) (files : Files) (i : InteractionCreate)
    (h : ¬ Succeeded c (handleTaskCommand c env files i)) :
    (handleTaskCommand c env files i).files = files ∨
    ∃ x r, (handleTaskCommand c env files i).files = mapSet files (x ++ ".tmp") r := by
  by_cases hc : c = TaskCommand.taskInit
  · subst hc
    simp only [handleTaskCommand] at h ⊢
    rcases init_shape env files i with ⟨msg, h1, _⟩ | ⟨ctx, p, p1, _, _, h1⟩
    · rw [h1]
      exact Or.inl rfl
    · rw [h1] at h ⊢
      rcases initCore_cases env files p1 ctx with
        ⟨err, log0, _, hc⟩ | ⟨msgID, log0, _, ⟨err, _, hc⟩ |
          ⟨log1, log2, _, ⟨err, _, hc⟩ | ⟨_, ⟨err, files1, hupd, hc⟩ |
            ⟨files1, okmsg, _, hmsg, hc⟩⟩⟩⟩
      · rw [hc]; exact Or.inl rfl
      · rw [hc]; exact Or.inl rfl
      · rw [hc]; exact Or.inl rfl
      · rw [hc]
        rcases updateFile_fail env files files1 _ err hupd with h2 | h2
        · exact Or.inl h2
        · exact Or.inr ⟨_, _, h2⟩
      · exfalso
        apply h
        rw [hc]
        rcases hmsg with h2 | h2
        · exact Or.inr h2
        · exact Or.inl h2
  · rcases transition_shape c hc env files i with
      ⟨msg, h1, _⟩ | ⟨ctx, p, p1, task, _, _, _, _, _, h1⟩
    · rw [h1]
      exact Or.inl rfl
    · rw [h1] at h ⊢
      rcases commitTask_cases env files p1 ctx (transitionTask c (getAuthorID i) task)
          (transitionPost c env ctx (getAuthorID i)) (okText c) with
        ⟨err, _, hc2⟩ | ⟨log1, log2, err, _, _, hc2⟩ |
        ⟨log1, log2, err, files1, _, _, hupd, hc2⟩ | ⟨log1, log2, files1, _, _, _, hc2⟩
      · rw [hc2]; exact Or.inl rfl
      · rw [hc2]; exact Or.inl rfl
      · rw [hc2]
        rcases updateFile_fail env files files1 _ err hupd with h2 | h2
        · exact Or.inl h2
        · exact Or.inr ⟨_, _, h2⟩
      · exfalso
        apply h
        rw [hc2]
        exact (succeeded_okText c hc _).mpr rfl

theorem slugOwns_tmp (files : Files) (slug x : String) (r : Project)
    (h : SlugOwnsFile files slug) : SlugOwnsFile (mapSet files (x ++ ".tmp") r) slug := by
  intro e he hjson hs
  rcases mem_mapSet _ _ _ e he with h1 | h1
  · rw [h1, hasSuffix_tmp] at hjson
    cases hjson
  · exact h e h1 hjson hs

theorem persistedTask_tmp (files : Files) (slug x T : String) (r : Project) :
    persistedTask (mapSet files (x ++ ".tmp") r) slug T = persistedTask files slug T := by
  unfold persistedTask
  rw [mapGet_mapSet, if_neg (by unfold projectPathBySlug; exact tmp_ne_path _ _)]

/-! ## Uninitialised threads, leadership, resolution -/

/-- C11 (uninitialised thread), amended. With the project and the tag mapping
of the forum resolved and a caller ID that is not empty: a task the project
holds for the thread never has an empty thread ID (loading fills it in from
the key), and when the project holds no task for the thread, task-take,
task-surrender, task-done with a description that is not blank, and
task-approve and task-revoke called by a leader answer with the
NotInitialized text, write nothing and leave the files as they are. -/
theorem uninitialized_thread_rejected (c : TaskCommand) (env : Env) (files : Files)
    (i : InteractionCreate) (ctx : taskContext) (p p1 : Project)
    (hres : Resolved env files i ctx p) (hens : TagsResolved env ctx p p1)
    (hcaller : getAuthorID i ≠ "") :
    (∀ task, mapGet p.Tasks ctx.ThreadID = some task → task.ThreadID ≠ "") ∧
    (mapGet p.Tasks ctx.ThreadID = none → c ≠ TaskCommand.taskInit →
      (∀ d, c = TaskCommand.taskDone d → trimSpace d ≠ "") →
      (c = TaskCommand.taskApprove ∨ c = TaskCommand.taskRevoke →
        isLeaderForProject i (getAuthorID i) p = true) →
      handleTaskCommand c env files i =
        { response := "error: task not initialized. Run /kanban task-init in this thread.",
          files := files,
          log := [Effect.respond
            "error: task not initialized. Run /kanban task-init in this thread."] }) := by
  constructor
  · intro task htask
    exact (resolved_task env files i ctx p p1 task hres hens htask).2.1.2.1
  · intro htask hc hdesc hlead
    exact transition_uninit c env files i ctx p p1 hres hens hcaller htask hc hdesc hlead

/-- Witness of C11 as amended: in thread `T`, for which the project holds no
task, task-done by member `M` with the description `x` answers with the
NotInitialized text. -/
theorem uninitialized_thread_rejected_witness :
    Resolved exEnv (exFiles []) (exCall "M" ["RM"]) exCtx (exProject []) ∧
    TagsResolved exEnv exCtx (exProject []) (exProject []) ∧
    mapGet (exProject []).Tasks exCtx.ThreadID = none ∧
    handleTaskCommand (TaskCommand.taskDone "x") exEnv (exFiles []) (exCall "M" ["RM"]) =
      { response := "error: task not initialized. Run /kanban task-init in this thread.",
        files := exFiles [],
        log := [Effect.respond
          "error: task not initialized. Run /kanban task-init in this thread."] } :=
  have hres : Resolved exEnv (exFiles []) (exCall "M" ["RM"]) exCtx (exProject []) :=
    ⟨rfl, rfl, [("alpha", exProject [])], "alpha", rfl, rfl⟩
  ⟨hres, rfl, rfl,
    (uninitialized_thread_rejected (TaskCommand.taskDone "x") exEnv (exFiles [])
      (exCall "M" ["RM"]) exCtx (exProject []) (exProject []) hres rfl (by decide)).2 rfl
      (by decide) (fun d hd => by cases hd; decide) (fun h => by rcases h with h | h <;> cases h)⟩

/-- Counterexample to C11 as stated: the project holds no task for thread
`T`, and task-approve called by member `M`, who is not a leader, answers with
the NotAllowed text of the leader guard and not with NotInitialized; and a
record that stores for thread `T` a ToDo task with an empty thread ID is
loaded with the thread ID filled in, so that task-take succeeds. -/
theorem uninitialized_approve_not_allowed :
    mapGet (exProject []).Tasks "T" = none ∧
    (handleTaskCommand TaskCommand.taskApprove exEnv (exFiles []) (exCall "M" ["RM"])).response =
      "not allowed: only project leader can approve" ∧
    (handleTaskCommand TaskCommand.taskApprove exEnv (exFiles []) (exCall "M" ["RM"])).response ≠
      "error: task not initialized. Run /kanban task-init in this thread." ∧
    (handleTaskCommand TaskCommand.taskTake exEnv
      (exFiles [("T", { exTask TaskToDo "" "" "" with ThreadID := "" })])
      (exCall "M" ["RM"])).response = "taken ✅ (status set to InProgress)" := by
  decide

/-- Counterexample to C12 as stated: a project without a leader role (the ID
is empty) and a caller whose role list contains the empty string, and a
caller with an empty ID whom the members map lists as Leader under the empty
key; `isLeaderForProject` answers false for both. -/
theorem leader_guards_empty_ids :
    ("" ∈ ["RM", ""] ∧
      isLeaderForProject (exCall "U" ["RM", ""]) "U"
        { exProject [] with LeaderRoleID := "" } = false) ∧
    (mapGet ({ exProject [] with Members := [("", Leader)] }).Members "" = some Leader ∧
      isLeaderForProject { GuildID := "G", ChannelID := "T", Member := none, User := none } ""
        { exProject [] with Members := [("", Leader)] } = false) := by
  decide

/-- Witness of C13: the map holds the project of the scenarios, which owns
forum `F` in guild `G`; the resolution of ` G ` and `F ` returns it. -/
theorem findProject_contract_witness :
    trimSpace " G " ≠ "" ∧ trimSpace "F " ≠ "" ∧
    ownerCount [("alpha", exProject [])] " G " "F " = 1 ∧
    (findProjectByThreadContext [("alpha", exProject [])] " G " "F ").2.1 = true :=
  ⟨by decide, by decide, by decide,
    (findProject_contract [("alpha", exProject [])] " G " "F " (by decide) (by decide)).1.mpr
      (by decide)⟩

/-! ## Order of the writes, and failed external writes -/

/-- C16 (order of the writes), amended. In the log of every invocation of a
task command: for the five transition commands every write to the status
panel (post, pin or edit) comes after the tag write of the thread; for all
six commands every edit of the panel comes after the tag write, and the
store write comes after the tag write and after a panel edit. (The first
task-init of a thread posts and pins the panel before the tag write.) -/
theorem write_order (c : TaskCommand) (env : Env) (files : Files) (i : InteractionCreate) :
    (c ≠ TaskCommand.taskInit →
      ComesAfter isTagWrite isPanelWrite (handleTaskCommand c env files i).log) ∧
    ComesAfter isTagWrite isPanelEdit (handleTaskCommand c env files i).log ∧
    ComesAfter isTagWrite isStoreWrite (handleTaskCommand c env files i).log ∧
    ComesAfter isPanelEdit isStoreWrite (handleTaskCommand c env files i).log := by
  by_cases hc : c = TaskCommand.taskInit
  · subst hc
    refine ⟨fun h => absurd rfl h, ?_⟩
    rcases init_shape env files i with ⟨msg, h, _⟩ | ⟨ctx, p, p1, _, _, h⟩
    · simp only [handleTaskCommand]
      rw [h]
      exact ⟨comesAfter_respond _ _ _ _ (fun _ => rfl),
        comesAfter_respond _ _ _ _ (fun _ => rfl), comesAfter_respond _ _ _ _ (fun _ => rfl)⟩
    · simp only [handleTaskCommand]
      rw [h]
      exact initCore_order env files p1 ctx
  · rcases transition_shape c hc env files i with
      ⟨msg, h, _⟩ | ⟨ctx, p, p1, task, _, _, _, _, _, h⟩
    · rw [h]
      exact ⟨fun _ => comesAfter_respond _ _ _ _ (fun _ => rfl),
        comesAfter_respond _ _ _ _ (fun _ => rfl),
        comesAfter_respond _ _ _ _ (fun _ => rfl), comesAfter_respond _ _ _ _ (fun _ => rfl)⟩
    · rw [h]
      obtain ⟨h1, h2, h3⟩ := commitTask_order env files p1 ctx
        (transitionTask c (getAuthorID i) task) (transitionPost c env ctx (getAuthorID i))
        (okText c) (transitionPost_kinds c env ctx (getAuthorID i))
      exact ⟨fun _ => h1, comesAfter_mono _ _ _ _ h1 panelEdit_write, h2, h3⟩

/-- Witness of C16 as amended: member `M` takes the ToDo task of thread `T`;
the log holds the tag write, then the panel edit, then the store write, and
the panel edit comes after the tag write. -/
theorem write_order_witness :
    ((handleTaskCommand TaskCommand.taskTake exEnv (exFiles [("T", exTask TaskToDo "" "" "")])
      (exCall "M" ["RM"])).log.map
        (fun e => (isTagWrite e, isPanelWrite e, isStoreWrite e))) =
      [(true, false, false), (false, true, false), (false, false, true),
        (false, false, false)] ∧
    ComesAfter isTagWrite isPanelWrite
      (handleTaskCommand TaskCommand.taskTake exEnv (exFiles [("T", exTask TaskToDo "" "" "")])
        (exCall "M" ["RM"])).log :=
  ⟨by decide,
    (write_order TaskCommand.taskTake exEnv (exFiles [("T", exTask TaskToDo "" "" "")])
      (exCall "M" ["RM"])).1 (by decide)⟩

/-- Counterexample to C16 as stated: the first task-init in thread `T`
succeeds, and the first write of its log is the post of the panel message,
with no tag write before it. -/
theorem first_init_posts_panel_before_tag :
    (handleTaskCommand TaskCommand.taskInit exEnv (exFiles []) (exCall "M" ["RM"])).response =
      "task initialized ✅ (status panel pinned, tag set to ToDo)" ∧
    ((handleTaskCommand TaskCommand.taskInit exEnv (exFiles []) (exCall "M" ["RM"])).log.map
        (fun e => (isTagWrite e, isPanelWrite e, isStoreWrite e))) =
      [(false, true, false), (false, true, false), (true, false, false), (false, true, false),
        (false, false, true), (false, false, false)] ∧
    ¬ ComesAfter isTagWrite isPanelWrite
      (handleTaskCommand TaskCommand.taskInit exEnv (exFiles []) (exCall "M" ["RM"])).log := by
  refine ⟨by decide, by decide, ?_⟩
  intro h
  obtain ⟨x, hx, _⟩ := h []
    ((handleTaskCommand TaskCommand.taskInit exEnv (exFiles []) (exCall "M" ["RM"])).log.headD
      (Effect.respond ""))
    (handleTaskCommand TaskCommand.taskInit exEnv (exFiles []) (exCall "M" ["RM"])).log.tail
    (by decide) (by decide)
  cases hx

/-- C17 (failed tag or panel write). For every task command: when the
platform refuses the tag edit or the panel edit, or when for any reason no
tag write or no panel edit took effect during the invocation, the response
is an error text and the files are the ones from before the command. -/
theorem external_failure_keeps_store (c : TaskCommand) (env : Env) (files : Files)
    (i : InteractionCreate)
    (h : env.editTagsErr ≠ none ∨ env.editEmbedErr ≠ none ∨
      (∀ e ∈ (handleTaskCommand c env files i).log, isTagWrite e = false) ∨
      (∀ e ∈ (handleTaskCommand c env files i).log, isPanelEdit e = false)) :
    (handleTaskCommand c env files i).files = files ∧
      isErrorText (handleTaskCommand c env files i).response = true := by
  by_cases hc : c = TaskCommand.taskInit
  · subst hc
    simp only [handleTaskCommand] at h ⊢
    rcases init_shape env files i with ⟨msg, h1, h2⟩ | ⟨ctx, p, p1, _, _, h1⟩
    · rw [h1]
      exact ⟨rfl, h2⟩
    · rw [h1] at h ⊢
      exact initCore_guarded env files p1 ctx h
  · rcases transition_shape c hc env files i with
      ⟨msg, h1, h2⟩ | ⟨ctx, p, p1, task, _, _, _, _, _, h1⟩
    · rw [h1]
      exact ⟨rfl, h2⟩
    · rw [h1] at h ⊢
      exact commitTask_guarded env files p1 ctx _ _ _ h

/-- Witness of C17: the platform refuses the panel edit while leader `L`
approves the waiting task of thread `T`; the tag write took effect, the
response is the panel error and the files are unchanged. -/
theorem external_failure_keeps_store_witness :
    (handleTaskCommand TaskCommand.taskApprove { exEnv with editEmbedErr := some "boom" }
      (exFiles [("T", exTask TaskWaitingForApprove "M" "fixed X" "")])
      (exCall "L" ["RM", "RL"])).log =
        [Effect.channelEditTags "T" ["4"],
          Effect.respond "error: failed to update status panel: boom"] ∧
    (handleTaskCommand TaskCommand.taskApprove { exEnv with editEmbedErr := some "boom" }
      (exFiles [("T", exTask TaskWaitingForApprove "M" "fixed X" "")])
      (exCall "L" ["RM", "RL"])).files =
        exFiles [("T", exTask TaskWaitingForApprove "M" "fixed X" "")] ∧
    isErrorText
      (handleTaskCommand TaskCommand.taskApprove { exEnv with editEmbedErr := some "boom" }
        (exFiles [("T", exTask TaskWaitingForApprove "M" "fixed X" "")])
        (exCall "L" ["RM", "RL"])).response = true :=
  ⟨by decide,
    external_failure_keeps_store TaskCommand.taskApprove { exEnv with editEmbedErr := some "boom" }
      (exFiles [("T", exTask TaskWaitingForApprove "M" "fixed X" "")])
      (exCall "L" ["RM", "RL"]) (Or.inr (Or.inl (by decide)))⟩

/-! ## Invariants of the persisted record -/

/-- C14 (status-field coherence). When every task of the project a task
command loads is coherent and the command succeeds, the record file of the
project holds a task for the thread and every task it holds is coherent. -/
theorem coherence_preserved (c : TaskCommand) (env : Env) (files : Files)
    (i : InteractionCreate) (ctx : taskContext) (p : Project)
    (hres : Resolved env files i ctx p)
    (hcoh : ∀ tid t, mapGet p.Tasks tid = some t → Coherent t)
    (hok : Succeeded c (handleTaskCommand c env files i)) :
    (∃ t, persistedTask (handleTaskCommand c env files i).files p.Slug ctx.ThreadID = some t) ∧
    ∀ tid t, persistedTask (handleTaskCommand c env files i).files p.Slug tid = some t →
      Coherent t := by
  obtain ⟨ctx2, p2, p1, newtask, log0, log1, log2, log3, hres2, hens, hct, _, _, hupd, _⟩ :=
    succeeded_inv c env files i hok
  obtain ⟨h1, h2⟩ := resolved_unique env files i ctx ctx2 p p2 hres hres2
  subst h1
  subst h2
  have hl := resolved_loaded env files i ctx2 p2 hres
  have hframe := ensureForumTagMapping_frame env p2 p1 _ hens
  have hgood := mustTaskContext_good env i ctx2 hres.2.1
  obtain ⟨hst, ⟨t1, t2, t3⟩, hc2, _, _⟩ := commandTask_facts c env i ctx2 p2 p1 newtask hl hframe hct
  have hpers := persisted_tasks env files _ p2 p1 ctx2.ThreadID newtask hl hframe hgood.1 hupd
  refine ⟨⟨_, by rw [hpers, if_pos rfl]⟩, ?_⟩
  intro tid t ht
  rw [hpers] at ht
  by_cases h : tid = ctx2.ThreadID
  · rw [if_pos h] at ht
    cases ht
    exact coherent_normalize _ _ (allStatuses_not_blank _ hst) t1 t2 t3 (hc2 hcoh)
  · rw [if_neg h] at ht
    exact hcoh tid t ht

/-- Witness of C14: the record holds the coherent InProgress task of thread
`T` and a coherent Done task of thread `T2`; assignee `M` submits the first,
and both persisted tasks are coherent. -/
theorem coherence_preserved_witness :
    Resolved exEnv
      (exFiles [("T", exTask TaskInProgress "M" "" ""),
        ("T2", { exTask TaskDone "M" "fixed Y" "L" with ThreadID := "T2" })])
      (exCall "M" ["RM"]) exCtx
      (exProject [("T", exTask TaskInProgress "M" "" ""),
        ("T2", { exTask TaskDone "M" "fixed Y" "L" with ThreadID := "T2" })]) ∧
    persistedTask
      (handleTaskCommand (TaskCommand.taskDone "fixed X") exEnv
        (exFiles [("T", exTask TaskInProgress "M" "" ""),
          ("T2", { exTask TaskDone "M" "fixed Y" "L" with ThreadID := "T2" })])
        (exCall "M" ["RM"])).files "alpha" "T" =
      some (exTask TaskWaitingForApprove "M" "fixed X" "") ∧
    Coherent (exTask TaskWaitingForApprove "M" "fixed X" "") :=
  have hres : Resolved exEnv
      (exFiles [("T", exTask TaskInProgress "M" "" ""),
        ("T2", { exTask TaskDone "M" "fixed Y" "L" with ThreadID := "T2" })])
      (exCall "M" ["RM"]) exCtx
      (exProject [("T", exTask TaskInProgress "M" "" ""),
        ("T2", { exTask TaskDone "M" "fixed Y" "L" with ThreadID := "T2" })]) :=
    ⟨rfl, rfl,
      [("alpha", exProject [("T", exTask TaskInProgress "M" "" ""),
        ("T2", { exTask TaskDone "M" "fixed Y" "L" with ThreadID := "T2" })])], "alpha", rfl,
      rfl⟩
  have hpers : persistedTask
      (handleTaskCommand (TaskCommand.taskDone "fixed X") exEnv
        (exFiles [("T", exTask TaskInProgress "M" "" ""),
          ("T2", { exTask TaskDone "M" "fixed Y" "L" with ThreadID := "T2" })])
        (exCall "M" ["RM"])).files "alpha" "T" =
      some (exTask TaskWaitingForApprove "M" "fixed X" "") := by decide
  ⟨hres, hpers,
    (coherence_preserved (TaskCommand.taskDone "fixed X") exEnv
      (exFiles [("T", exTask TaskInProgress "M" "" ""),
        ("T2", { exTask TaskDone "M" "fixed Y" "L" with ThreadID := "T2" })])
      (exCall "M" ["RM"]) exCtx
      (exProject [("T", exTask TaskInProgress "M" "" ""),
        ("T2", { exTask TaskDone "M" "fixed Y" "L" with ThreadID := "T2" })])
      hres (coherent_of_entries _ (by decide)) (by decide)).2 "T" _ hpers⟩

/-! ## The tag of the thread and the persisted tag mapping -/

/-- C19 (persisted tag mapping), amended. After every successful task
command, with the project resolved: the record holds a task for the thread
with one of the four statuses, and the tag mapping the record holds for the
forum of the thread has an ID that is not empty under the canonical tag name
of that status. (The mapping need not hold the other three names.) -/
theorem persisted_mapping_has_status_tag (c : TaskCommand) (env : Env) (files : Files)
    (i : InteractionCreate) (ctx : taskContext) (p : Project)
    (hres : Resolved env files i ctx p)
    (hok : Succeeded c (handleTaskCommand c env files i)) :
    ∃ t q id,
      persistedTask (handleTaskCommand c env files i).files p.Slug ctx.ThreadID = some t ∧
      mapGet (handleTaskCommand c env files i).files (projectPathBySlug p.Slug) = some q ∧
      t.Status ∈ allStatuses ∧
      mapGet (forumTagMap q ctx.ForumID) (statusToTagName t.Status) = some id ∧ id ≠ "" := by
  obtain ⟨t, q, v, h1, h2, h3, _, _, ⟨id, h6, h7⟩, _⟩ := success_tag c env files i ctx p hres hok
  exact ⟨t, q, id, h1, h2, h3, h6, h7⟩

/-- Witness of C19 as amended: the forum has the tag `ToDo` alone and the
record holds no mapping; task-init succeeds and the persisted mapping of the
forum holds an ID under `ToDo`, the name of the persisted status. -/
theorem persisted_mapping_has_status_tag_witness :
    ∃ t q id,
      persistedTask
        (handleTaskCommand TaskCommand.taskInit exEnvTodoOnly exFilesNoTags
          (exCall "M" ["RM"])).files
        ({ exProject [] with ForumTagIDs := [] } : Project).Slug exCtx.ThreadID = some t ∧
      mapGet
        (handleTaskCommand TaskCommand.taskInit exEnvTodoOnly exFilesNoTags
          (exCall "M" ["RM"])).files
        (projectPathBySlug ({ exProject [] with ForumTagIDs := [] } : Project).Slug) =
          some q ∧
      t.Status ∈ allStatuses ∧
      mapGet (forumTagMap q exCtx.ForumID) (statusToTagName t.Status) = some id ∧ id ≠ "" :=
  persisted_mapping_has_status_tag TaskCommand.taskInit exEnvTodoOnly exFilesNoTags
    (exCall "M" ["RM"]) exCtx { exProject [] with ForumTagIDs := [] }
    ⟨rfl, rfl, [("alpha", { exProject [] with ForumTagIDs := [] })], "alpha", rfl, rfl⟩
    (by decide)

/-- Counterexample to C19 as stated: the forum has the tag `ToDo` alone and
the record holds no mapping; task-init succeeds and persists for the forum
the mapping with the one entry `ToDo`, which is not empty and holds no entry
for `InProgress`, `WaitingForApprove` or `Done`. -/
theorem mapping_with_todo_only :
    (handleTaskCommand TaskCommand.taskInit exEnvTodoOnly exFilesNoTags
      (exCall "M" ["RM"])).response =
      "task initialized ✅ (status panel pinned, tag set to ToDo)" ∧
    (mapGet
      (handleTaskCommand TaskCommand.taskInit exEnvTodoOnly exFilesNoTags
        (exCall "M" ["RM"])).files "alpha.json").map (fun q => forumTagMap q "F") =
      some [("ToDo", "1")] ∧
    mapGet [("ToDo", "1")] "InProgress" = none ∧
    mapGet [("ToDo", "1")] "WaitingForApprove" = none ∧
    mapGet [("ToDo", "1")] "Done" = none := by
  decide

/-! ## A failed store write -/

/-- C20 (failed store write), amended. When an invocation of a task command
wrote the tag and edited the panel and then failed at the store write: the
projects the store loads are the ones from before the command (the files are
unchanged, or hold the temporary file of the record in addition); and when
the same command is invoked again on those files, for a platform that reports
the same thread context, and succeeds, its whole outcome (response, files,
and the external writes it makes, among them the tag write, the panel edit
and the thread post) is the outcome of that invocation on the files from
before the failure. (The writes of the failed invocation stay: its thread
post and a panel message it posted are then there twice.) -/
theorem retry_after_store_failure (c : TaskCommand) (envF env2 : Env) (files : Files)
    (i : InteractionCreate) (hfail : StoreFailed c (handleTaskCommand c envF files i))
    (hctx : mustTaskContext env2 i = mustTaskContext envF i) :
    (∀ env, load_all_files env (handleTaskCommand c envF files i).files =
      load_all_files env files) ∧
    (Succeeded c (handleTaskCommand c env2 (handleTaskCommand c envF files i).files i) →
      handleTaskCommand c env2 (handleTaskCommand c envF files i).files i =
        handleTaskCommand c env2 files i) := by
  obtain ⟨ctx, p, hres, hf | ⟨r, hf⟩⟩ := storeFailed_files c envF files i hfail
  · rw [hf]
    exact ⟨fun _ => rfl, fun _ => rfl⟩
  · rw [hf]
    exact ⟨fun env => load_tmp env files _ r,
      fun hok => retry_eq c envF env2 files i ctx p r hres hctx hok⟩

/-- Witness of C20 as amended: assignee `M` submits the InProgress task of
thread `T` while the rename of the temporary file fails; the store then holds
the temporary file in addition, and the same command on a store that works
succeeds with the outcome it has on the files from before the failure. -/
theorem retry_after_store_failure_witness :
    StoreFailed (TaskCommand.taskDone "fixed X")
      (handleTaskCommand (TaskCommand.taskDone "fixed X") exEnvRenameFails
        (exFiles [("T", exTask TaskInProgress "M" "" "")]) (exCall "M" ["RM"])) ∧
    mapKeys
      (handleTaskCommand (TaskCommand.taskDone "fixed X") exEnvRenameFails
        (exFiles [("T", exTask TaskInProgress "M" "" "")]) (exCall "M" ["RM"])).files =
      ["alpha.json", "alpha.json.tmp"] ∧
    handleTaskCommand (TaskCommand.taskDone "fixed X") exEnv
      (handleTaskCommand (TaskCommand.taskDone "fixed X") exEnvRenameFails
        (exFiles [("T", exTask TaskInProgress "M" "" "")]) (exCall "M" ["RM"])).files
      (exCall "M" ["RM"]) =
    handleTaskCommand (TaskCommand.taskDone "fixed X") exEnv
      (exFiles [("T", exTask TaskInProgress "M" "" "")]) (exCall "M" ["RM"]) :=
  ⟨by decide, by decide,
    (retry_after_store_failure (TaskCommand.taskDone "fixed X") exEnvRenameFails exEnv
      (exFiles [("T", exTask TaskInProgress "M" "" "")]) (exCall "M" ["RM"]) (by decide)
      rfl).2 (by decide)⟩

/-- Counterexample to C20 as stated: assignee `M` submits the InProgress
task of thread `T` while the store write fails, and submits again with the
store working; the two invocations together post the submission message
twice in the thread, a failure-free invocation posts it once. And a first
task-init whose store write fails, followed by a task-init that succeeds,
posts two panel messages, a failure-free task-init one. -/
theorem retry_posts_twice :
    (StoreFailed (TaskCommand.taskDone "fixed X")
        (handleTaskCommand (TaskCommand.taskDone "fixed X") exEnvDiskFull
          (exFiles [("T", exTask TaskInProgress "M" "" "")]) (exCall "M" ["RM"])) ∧
      Succeeded (TaskCommand.taskDone "fixed X")
        (handleTaskCommand (TaskCommand.taskDone "fixed X") exEnv
          (handleTaskCommand (TaskCommand.taskDone "fixed X") exEnvDiskFull
            (exFiles [("T", exTask TaskInProgress "M" "" "")]) (exCall "M" ["RM"])).files
          (exCall "M" ["RM"])) ∧
      (threadPosts
        ((handleTaskCommand (TaskCommand.taskDone "fixed X") exEnvDiskFull
            (exFiles [("T", exTask TaskInProgress "M" "" "")]) (exCall "M" ["RM"])).log ++
          (handleTaskCommand (TaskCommand.taskDone "fixed X") exEnv
            (handleTaskCommand (TaskCommand.taskDone "fixed X") exEnvDiskFull
              (exFiles [("T", exTask TaskInProgress "M" "" "")]) (exCall "M" ["RM"])).files
            (exCall "M" ["RM"])).log) "T").length = 2 ∧
      (threadPosts
        (handleTaskCommand (TaskCommand.taskDone "fixed X") exEnv
          (exFiles [("T", exTask TaskInProgress "M" "" "")]) (exCall "M" ["RM"])).log
        "T").length = 1) ∧
    (StoreFailed TaskCommand.taskInit
        (handleTaskCommand TaskCommand.taskInit exEnvDiskFull (exFiles [])
          (exCall "M" ["RM"])) ∧
      Succeeded TaskCommand.taskInit
        (handleTaskCommand TaskCommand.taskInit exEnv
          (handleTaskCommand TaskCommand.taskInit exEnvDiskFull (exFiles [])
            (exCall "M" ["RM"])).files
          (exCall "M" ["RM"])) ∧
      (((handleTaskCommand TaskCommand.taskInit exEnvDiskFull (exFiles [])
            (exCall "M" ["RM"])).log ++
          (handleTaskCommand TaskCommand.taskInit exEnv
            (handleTaskCommand TaskCommand.taskInit exEnvDiskFull (exFiles [])
              (exCall "M" ["RM"])).files
            (exCall "M" ["RM"])).log).filter isPanelPost).length = 2 ∧
      ((handleTaskCommand TaskCommand.taskInit exEnv (exFiles [])
        (exCall "M" ["RM"])).log.filter isPanelPost).length = 1) := by
  decide

/-! ## The normal form of a slug -/

theorem dropWhile_all (q : Char → Bool) (l : List Char) (h : ∀ c ∈ l, q c = true) :
    l.dropWhile q = [] := by
  induction l with
  | nil => rfl
  | cons a r ih =>
    have ha := h a (List.mem_cons_self _ _)
    simp only [List.dropWhile, ha]
    exact ih (fun c hc => h c (List.mem_cons_of_mem _ hc))

theorem slugCore_kept (s : String) :
    slugCore s = ((slugKept s).dropWhile isDash).rdropWhile isDash := rfl

theorem slugify_chars (s : String) : ∀ c ∈ (slugify s).data, slugChar c = true := by
  rw [slugify_eq]
  split
  · decide
  · intro c hc
    have := trimBoth_mem isDash _ c hc
    exact (List.mem_filter.mp this).2

theorem slugify_head (s : String) : (slugify s).data.head? ≠ some '-' := by
  rw [slugify_eq]
  split
  · decide
  · intro h
    have := trimBoth_head isDash _ _ h
    exact absurd this (by decide)

theorem slugify_last (s : String) : (slugify s).data.getLast? ≠ some '-' := by
  rw [slugify_eq]
  split
  · decide
  · intro h
    have := trimBoth_last isDash _ _ h
    exact absurd this (by decide)

/-- C22. Slug normalization: for every input, `slugify` returns a text that
is not empty, is made only of the characters a-z, 0-9 and the dash, and
neither starts nor ends with a dash; it returns `project` for the empty
input and for every input of which only dashes are kept; and the three
names `Alpha`, `Alpha ` and `  alpha` all give `alpha`. -/
theorem slugify_normal_form (s : String) :
    slugify s ≠ "" ∧
    (∀ c ∈ (slugify s).data,
      (0x61 ≤ c.toNat ∧ c.toNat ≤ 0x7A) ∨ (0x30 ≤ c.toNat ∧ c.toNat ≤ 0x39) ∨ c = '-') ∧
    (slugify s).data.head? ≠ some '-' ∧ (slugify s).data.getLast? ≠ some '-' ∧
    ((∀ c ∈ slugKept s, c = '-') → slugify s = "project") ∧
    slugify "" = "project" ∧
    slugify "Alpha" = "alpha" ∧ slugify "Alpha " = "alpha" ∧ slugify "  alpha" = "alpha" := by
  refine ⟨slugify_ne_empty s, ?_, slugify_head s, slugify_last s, ?_, by decide, by decide,
    by decide, by decide⟩
  · intro c hc
    have h := slugify_chars s c hc
    simp only [slugChar, Bool.or_eq_true, Bool.and_eq_true, decide_eq_true_eq] at h
    rcases h with (h | h) | h
    · exact Or.inl h
    · exact Or.inr (Or.inl h)
    · right; right
      apply Char.ext
      apply UInt32.ext
      exact h
  · intro h
    have h0 : (slugKept s).dropWhile isDash = [] :=
      dropWhile_all isDash _ (fun c hc => by rw [h c hc]; decide)
    rw [slugify_eq, slugCore_kept, h0]
    decide

/-! ## Keys are not duplicated by `normalizeProject` -/

section KeyCount

variable {V : Type}

theorem keyCount_nil (k : String) : keyCount ([] : GoMap V) k = 0 := rfl

theorem keyCount_cons (e : String × V) (rest : GoMap V) (k : String) :
    keyCount (e :: rest) k = keyCount rest k + if e.1 = k then 1 else 0 := by
  unfold keyCount mapKeys
  rw [List.map_cons, List.count_cons]
  by_cases h : e.1 = k
  · simp [h]
  · simp [h]

theorem keyCount_eq_zero (m : GoMap V) (k : String) : keyCount m k = 0 ↔ mapGet m k = none := by
  rw [mapGet_eq_none_iff]
  unfold keyCount
  exact List.count_eq_zero

theorem keyCount_mapDelete (m : GoMap V) (k k2 : String) :
    keyCount (mapDelete m k) k2 = if k2 = k then 0 else keyCount m k2 := by
  induction m with
  | nil =>
    have : mapDelete ([] : GoMap V) k = [] := rfl
    rw [this, keyCount_nil]
    split <;> rfl
  | cons e rest ih =>
    rw [mapDelete_cons]
    by_cases h1 : e.1 = k
    · rw [if_pos h1, ih, keyCount_cons]
      by_cases h2 : k2 = k
      · rw [if_pos h2, if_pos h2]
      · have h3 : ¬ e.1 = k2 := fun h => h2 (h.symm.trans h1)
        rw [if_neg h2, if_neg h2, if_neg h3]
        rfl
    · rw [if_neg h1, keyCount_cons, ih, keyCount_cons]
      by_cases h2 : k2 = k
      · have h3 : ¬ e.1 = k2 := fun h => h1 (h.trans h2)
        rw [if_pos h2, if_pos h2, if_neg h3]
      · rw [if_neg h2, if_neg h2]

theorem keyCount_mapSet (m : GoMap V) (k k2 : String) (v : V) :
    keyCount (mapSet m k v) k2 = if k2 = k then 1 else keyCount m k2 := by
  induction m with
  | nil =>
    have : mapSet ([] : GoMap V) k v = [(k, v)] := rfl
    rw [this, keyCount_cons, keyCount_nil]
    by_cases h : k2 = k
    · rw [if_pos h, if_pos h.symm]
    · have h3 : ¬ k = k2 := fun h4 => h h4.symm
      rw [if_neg h, if_neg h3]
  | cons e rest ih =>
    obtain ⟨k1, v1⟩ := e
    by_cases h1 : k1 = k
    · have : mapSet ((k1, v1) :: rest) k v = (k, v) :: mapDelete rest k := by
        simp [mapSet, h1]
      rw [this, keyCount_cons, keyCount_mapDelete, keyCount_cons]
      by_cases h2 : k2 = k
      · rw [if_pos h2, if_pos h2, if_pos h2.symm]
      · have h3 : ¬ k = k2 := fun h4 => h2 h4.symm
        have h5 : ¬ k1 = k2 := fun h4 => h3 (h1 ▸ h4)
        rw [if_neg h2, if_neg h2, if_neg h3, if_neg h5]
    · have : mapSet ((k1, v1) :: rest) k v = (k1, v1) :: mapSet rest k v := by
        simp [mapSet, h1]
      rw [this, keyCount_cons, ih, keyCount_cons]
      by_cases h2 : k2 = k
      · have h5 : ¬ k1 = k2 := fun h4 => h1 (h4.trans h2)
        rw [if_pos h2, if_pos h2, if_neg h5]
      · rw [if_neg h2, if_neg h2]

/-- A loop over the keys of a map keeps an invariant that each visit keeps. -/
theorem fold_inv (step : GoMap V → String → GoMap V) (Inv : GoMap V → List String → Prop)
    (hstep : ∀ m k ks, Inv m (k :: ks) → Inv (step m k) ks) :
    ∀ ks m, Inv m ks → Inv (ks.foldl step m) [] := by
  intro ks
  induction ks with
  | nil => intro m h; exact h
  | cons k ks ih => intro m h; exact ih _ (hstep m k ks h)

/-- A loop whose visits leave the visited key at most once, and add no entry
of another key but a single one, ends with no key twice. -/
theorem fold_keyCount (step : GoMap V → String → GoMap V)
    (hstep : ∀ m k k2, keyCount (step m k) k2 ≤ 1 ∨
      (k2 ≠ k ∧ keyCount (step m k) k2 = keyCount m k2))
    (m : GoMap V) : ∀ k, keyCount ((mapKeys m).foldl step m) k ≤ 1 := by
  have h := fold_inv step (fun m ks => ∀ k2, keyCount m k2 ≤ 1 ∨ k2 ∈ ks) (by
    intro m k ks hm k2
    rcases hstep m k k2 with h1 | ⟨h1, h2⟩
    · exact Or.inl h1
    · rcases hm k2 with h3 | h3
      · left; rw [h2]; exact h3
      · rcases List.mem_cons.mp h3 with h4 | h4
        · exact absurd h4 h1
        · exact Or.inr h4) (mapKeys m) m (by
    intro k2
    by_cases hk : k2 ∈ mapKeys m
    · exact Or.inr hk
    · left
      have := (keyCount_eq_zero m k2).mpr ((mapGet_eq_none_iff m k2).mpr hk)
      omega)
  intro k
  rcases h k with h1 | h1
  · exact h1
  · cases h1

theorem nodup_of_keyCount (m : GoMap V) (h : ∀ k, keyCount m k ≤ 1) : (mapKeys m).Nodup :=
  List.nodup_iff_count_le_one.mpr h

theorem keyCount_of_nodup (m : GoMap V) (h : (mapKeys m).Nodup) (k : String) :
    keyCount m k ≤ 1 :=
  List.nodup_iff_count_le_one.mp h k

theorem mapDelete_absent (m : GoMap V) (k : String) (h : mapGet m k = none) :
    mapDelete m k = m := by
  unfold mapDelete
  rw [List.filter_eq_self]
  intro e he
  have hk := (mapGet_eq_none_iff m k).mp h
  simp only [ne_eq, decide_eq_true_eq]
  intro h2
  apply hk
  rw [← h2]
  exact List.mem_map_of_mem Prod.fst he

/-- Writing the value a key already holds changes nothing in a map without
duplicate keys. -/
theorem mapSet_self (m : GoMap V) (k : String) (v : V) (hnd : (mapKeys m).Nodup)
    (h : mapGet m k = some v) : mapSet m k v = m := by
  induction m with
  | nil => cases h
  | cons e rest ih =>
    obtain ⟨k1, v1⟩ := e
    have hnd2 : k1 ∉ mapKeys rest ∧ (mapKeys rest).Nodup := by
      simpa [mapKeys] using hnd
    by_cases h1 : k1 = k
    · subst h1
      simp only [mapGet, if_true, Option.some.injEq] at h
      subst h
      simp only [mapSet, if_true]
      rw [mapDelete_absent rest k1 ((mapGet_eq_none_iff rest k1).mpr hnd2.1)]
    · simp only [mapGet, h1, if_false] at h
      simp only [mapSet, h1, if_false]
      rw [ih hnd2.2 h]

theorem mapGet_of_mem (m : GoMap V) (k : String) (v : V) (hnd : (mapKeys m).Nodup)
    (h : (k, v) ∈ m) : mapGet m k = some v := by
  induction m with
  | nil => cases h
  | cons e rest ih =>
    obtain ⟨k1, v1⟩ := e
    have hnd2 : k1 ∉ mapKeys rest ∧ (mapKeys rest).Nodup := by
      simpa [mapKeys] using hnd
    rcases List.mem_cons.mp h with h1 | h1
    · cases h1
      simp [mapGet]
    · have hk : k ∈ mapKeys rest := List.mem_map_of_mem Prod.fst h1
      have hne : ¬ k1 = k := fun h2 => hnd2.1 (h2 ▸ hk)
      simp only [mapGet, hne, if_false]
      exact ih hnd2.2 h1

end KeyCount

theorem step_count_cases {V : Type} (m m2 : GoMap V) (k k2 : String)
    (h : keyCount m2 k2 = (if k2 = k then 0 else keyCount m k2) ∨
      (∃ tid, keyCount m2 k2 = if k2 = tid then 1 else if k2 = k then 0 else keyCount m k2) ∨
      (keyCount m2 k2 = if k2 = k then 1 else keyCount m k2)) :
    keyCount m2 k2 ≤ 1 ∨ (k2 ≠ k ∧ keyCount m2 k2 = keyCount m k2) := by
  by_cases hk : k2 = k
  · left
    rcases h with h | ⟨tid, h⟩ | h
    · rw [h, if_pos hk]; omega
    · rw [h, if_pos hk]; split <;> omega
    · rw [h, if_pos hk]
  · rcases h with h | ⟨tid, h⟩ | h
    · right; rw [h, if_neg hk]; exact ⟨hk, rfl⟩
    · by_cases ht : k2 = tid
      · left; rw [h, if_pos ht]
      · right; rw [h, if_neg ht, if_neg hk]; exact ⟨hk, rfl⟩
    · right; rw [h, if_neg hk]; exact ⟨hk, rfl⟩

theorem step_count_none {V : Type} (m : GoMap V) (k k2 : String) (h : mapGet m k = none) :
    keyCount m k2 ≤ 1 ∨ (k2 ≠ k ∧ keyCount m k2 = keyCount m k2) := by
  by_cases hk : k2 = k
  · left; rw [hk, (keyCount_eq_zero m k).mpr h]; omega
  · exact Or.inr ⟨hk, rfl⟩

theorem cleanTasksStep_count (m : GoMap ProjectTask) (k k2 : String) :
    keyCount (cleanTasksStep m k) k2 ≤ 1 ∨
      (k2 ≠ k ∧ keyCount (cleanTasksStep m k) k2 = keyCount m k2) := by
  unfold cleanTasksStep
  cases hget : mapGet m k with
  | none => exact step_count_none m k k2 hget
  | some t =>
    simp only
    apply step_count_cases
    by_cases hb : trimSpace k = ""
    · left; rw [if_pos hb, keyCount_mapDelete]
    · rw [if_neg hb]
      by_cases ht : trimSpace k = k
      · right; right
        rw [if_neg (by simpa using ht), keyCount_mapSet, ht]
      · right; left
        refine ⟨trimSpace k, ?_⟩
        rw [if_pos (by simpa using ht), keyCount_mapSet, keyCount_mapDelete]

theorem cleanTasks_nodup (m : GoMap ProjectTask) : (mapKeys (cleanTasks m)).Nodup :=
  nodup_of_keyCount _ (fold_keyCount cleanTasksStep cleanTasksStep_count m)

theorem cleanTagStep_count (m : GoMap String) (k k2 : String) :
    keyCount (cleanTagStep m k) k2 ≤ 1 ∨
      (k2 ≠ k ∧ keyCount (cleanTagStep m k) k2 = keyCount m k2) := by
  unfold cleanTagStep
  cases hget : mapGet m k with
  | none => exact step_count_none m k k2 hget
  | some t =>
    simp only
    apply step_count_cases
    by_cases hb : trimSpace k = "" ∨ trimSpace t = ""
    · left; rw [if_pos hb, keyCount_mapDelete]
    · rw [if_neg hb]
      by_cases ht : trimSpace k = k
      · right; right
        rw [if_neg (by simpa using ht), keyCount_mapSet, ht]
      · right; left
        refine ⟨trimSpace k, ?_⟩
        rw [if_pos (by simpa using ht), keyCount_mapSet, keyCount_mapDelete]

theorem cleanTagMap_nodup (m : GoMap String) : (mapKeys (cleanTagMap m)).Nodup :=
  nodup_of_keyCount _ (fold_keyCount cleanTagStep cleanTagStep_count m)

theorem cleanForumTagsStep_count (M : GoMap (Option (GoMap String))) (k k2 : String) :
    keyCount (cleanForumTagsStep M k) k2 ≤ 1 ∨
      (k2 ≠ k ∧ keyCount (cleanForumTagsStep M k) k2 = keyCount M k2) := by
  unfold cleanForumTagsStep
  cases hget : mapGet M k with
  | none => exact step_count_none M k k2 hget
  | some o =>
    cases o with
    | none =>
      simp only
      apply step_count_cases
      left; rw [keyCount_mapDelete]
    | some m =>
      simp only
      apply step_count_cases
      by_cases hb : trimSpace k = ""
      · left; rw [if_pos hb, keyCount_mapDelete]
      · rw [if_neg hb]
        by_cases ht : trimSpace k = k
        · right; right
          rw [if_neg (by simpa using ht), keyCount_mapSet, ht]
        · right; left
          refine ⟨trimSpace k, ?_⟩
          rw [if_pos (by simpa using ht), keyCount_mapSet, keyCount_mapDelete, keyCount_mapSet]
          by_cases h1 : k2 = trimSpace k
          · rw [if_pos h1, if_pos h1]
          · rw [if_neg h1, if_neg h1, if_neg h1]

theorem cleanForumTags_nodup (M : GoMap (Option (GoMap String))) :
    (mapKeys (cleanForumTags M)).Nodup :=
  nodup_of_keyCount _ (fold_keyCount cleanForumTagsStep cleanForumTagsStep_count M)

/-! ## `normalizeProject` on a normalized project -/

theorem fold_values {V : Type} (step : GoMap V → String → GoMap V) (P : String → V → Prop)
    (hstep : ∀ m k k2 v, mapGet (step m k) k2 = some v →
      P k2 v ∨ (mapGet m k2 = some v ∧ k2 ≠ k))
    (m : GoMap V) : ∀ k v, mapGet ((mapKeys m).foldl step m) k = some v → P k v := by
  have h := fold_inv step (fun m ks => ∀ k v, mapGet m k = some v → P k v ∨ k ∈ ks) (by
    intro m k ks hm k2 v hv
    rcases hstep m k k2 v hv with h1 | ⟨h1, h2⟩
    · exact Or.inl h1
    · rcases hm k2 v h1 with h3 | h3
      · exact Or.inl h3
      · rcases List.mem_cons.mp h3 with h4 | h4
        · exact absurd h4 h2
        · exact Or.inr h4) (mapKeys m) m
    (fun k v hv => Or.inr (mem_mapKeys_of_mapGet m k v hv))
  intro k v hv
  rcases h k v hv with h1 | h1
  · exact h1
  · cases h1

theorem fold_fix {V : Type} (step : GoMap V → String → GoMap V) (m : GoMap V)
    (ks : List String) (h : ∀ k ∈ ks, step m k = m) : ks.foldl step m = m := by
  induction ks with
  | nil => rfl
  | cons k ks ih =>
    rw [List.foldl_cons, h k (List.mem_cons_self _ _)]
    exact ih (fun k2 hk2 => h k2 (List.mem_cons_of_mem _ hk2))

theorem cleanTagStep_vals (m : GoMap String) (k k2 v : String)
    (h : mapGet (cleanTagStep m k) k2 = some v) :
    (trimSpace v = v ∧ v ≠ "") ∨ (mapGet m k2 = some v ∧ k2 ≠ k) := by
  unfold cleanTagStep at h
  cases hget : mapGet m k with
  | none =>
    rw [hget] at h
    simp only at h
    right
    refine ⟨h, ?_⟩
    intro hk
    rw [hk, hget] at h
    cases h
  | some t =>
    rw [hget] at h
    simp only at h
    by_cases hb : trimSpace k = "" ∨ trimSpace t = ""
    · rw [if_pos hb, mapGet_mapDelete] at h
      by_cases hk : k2 = k
      · rw [if_pos hk] at h; cases h
      · rw [if_neg hk] at h; exact Or.inr ⟨h, hk⟩
    · rw [if_neg hb] at h
      have hb2 : trimSpace t ≠ "" := fun h0 => hb (Or.inr h0)
      by_cases ht : trimSpace k = k
      · rw [if_neg (by simpa using ht), mapGet_mapSet] at h
        by_cases h2 : k2 = trimSpace k
        · rw [if_pos h2] at h
          cases h
          exact Or.inl ⟨trimSpace_idem t, hb2⟩
        · rw [if_neg h2] at h
          exact Or.inr ⟨h, by rw [← ht]; exact h2⟩
      · rw [if_pos (by simpa using ht), mapGet_mapSet] at h
        by_cases h2 : k2 = trimSpace k
        · rw [if_pos h2] at h
          cases h
          exact Or.inl ⟨trimSpace_idem t, hb2⟩
        · rw [if_neg h2, mapGet_mapDelete] at h
          by_cases hk : k2 = k
          · rw [if_pos hk] at h; cases h
          · rw [if_neg hk] at h; exact Or.inr ⟨h, hk⟩

/-- After `normalizeProject` every tag ID is trimmed and not empty. -/
theorem cleanTagMap_vals (m : GoMap String) :
    ∀ n id, mapGet (cleanTagMap m) n = some id → trimSpace id = id ∧ id ≠ "" :=
  fold_values cleanTagStep (fun _ v => trimSpace v = v ∧ v ≠ "") cleanTagStep_vals m

theorem cleanTagMap_fix (m : GoMap String) (hnd : (mapKeys m).Nodup)
    (hk : ∀ k ∈ mapKeys m, GoodKey k)
    (hv : ∀ n id, mapGet m n = some id → trimSpace id = id ∧ id ≠ "") : cleanTagMap m = m := by
  unfold cleanTagMap
  apply fold_fix
  intro k hkm
  unfold cleanTagStep
  cases hget : mapGet m k with
  | none => rfl
  | some t =>
    have h1 := hk k hkm
    have h2 := hv k t hget
    have hb : ¬ (trimSpace k = "" ∨ trimSpace t = "") := by
      rw [h1.1, h2.1]
      exact fun h => h.elim h1.2 h2.2
    simp only
    rw [if_neg hb, if_neg (by simpa using h1.1), h1.1, h2.1]
    exact mapSet_self m k t hnd hget

theorem cleanTagMap_idem (m : GoMap String) : cleanTagMap (cleanTagMap m) = cleanTagMap m :=
  cleanTagMap_fix _ (cleanTagMap_nodup m) (cleanTagMap_keys m) (cleanTagMap_vals m)

theorem cleanTasks_fix (m : GoMap ProjectTask) (hnd : (mapKeys m).Nodup)
    (hk : ∀ k ∈ mapKeys m, GoodKey k)
    (hv : ∀ k t, mapGet m k = some t → TaskNormal t) : cleanTasks m = m := by
  unfold cleanTasks
  apply fold_fix
  intro k hkm
  unfold cleanTasksStep
  cases hget : mapGet m k with
  | none => rfl
  | some t =>
    have h1 := hk k hkm
    simp only
    rw [if_neg (by rw [h1.1]; exact h1.2), if_neg (by simpa using h1.1), h1.1,
      normalizeTask_fix k t (hv k t hget)]
    exact mapSet_self m k t hnd hget

theorem cleanTasks_idem (m : GoMap ProjectTask) : cleanTasks (cleanTasks m) = cleanTasks m :=
  cleanTasks_fix _ (cleanTasks_nodup m) (cleanTasks_keys m) (cleanTasks_values m)

theorem cleanForumTags_fix (M : GoMap (Option (GoMap String))) (hnd : (mapKeys M).Nodup)
    (hk : ∀ k ∈ mapKeys M, GoodKey k)
    (hv : ∀ F o, mapGet M F = some o → ∃ m, o = some m ∧ cleanTagMap m = m) :
    cleanForumTags M = M := by
  unfold cleanForumTags
  apply fold_fix
  intro k hkm
  unfold cleanForumTagsStep
  cases hget : mapGet M k with
  | none => rfl
  | some o =>
    obtain ⟨m, ho, hm⟩ := hv k o hget
    subst ho
    have h1 := hk k hkm
    simp only
    rw [if_neg (by rw [h1.1]; exact h1.2), if_neg (by simpa using h1.1), h1.1, hm]
    exact mapSet_self M k (some m) hnd hget

theorem cleanForumTags_idem (M : GoMap (Option (GoMap String))) :
    cleanForumTags (cleanForumTags M) = cleanForumTags M := by
  apply cleanForumTags_fix _ (cleanForumTags_nodup M) (cleanForumTags_keys M)
  intro F o ho
  obtain ⟨m0, hm0⟩ := cleanForumTags_values M F o ho
  exact ⟨cleanTagMap m0, hm0, cleanTagMap_idem m0⟩

theorem normalizeProject_fix (p : Project) :
    normalizeProject (normalizeProject p) = normalizeProject p := by
  unfold normalizeProject
  simp only [trimSpace_idem, cleanForumTags_idem, cleanTasks_idem]
  by_cases h : p.Slug = ""
  · simp only [if_pos h]
    rw [if_neg (slugify_ne_empty _), slugify_idem]
  · simp only [if_neg h]
    rw [if_neg (slugify_ne_empty _), slugify_idem]

/-! ## The status panel of a task without a panel message ID -/

/-- With a panel message ID in the task, two calls of `upsertStatusPanel` in
succession edit the same message with the same content and post nothing. -/
theorem upsertStatusPanel_again (env env2 : Env) (p : Project) (task : ProjectTask)
    (h : trimSpace task.StatusMessageID ≠ "") (h1 : env.editEmbedErr = none)
    (h2 : env2.editEmbedErr = none) :
    upsertStatusPanel env p task =
      (none, [Effect.messageEditEmbed task.ThreadID (trimSpace task.StatusMessageID)
        (buildStatusEmbed p task)]) ∧
    upsertStatusPanel env2 p task = upsertStatusPanel env p task := by
  rw [upsertStatusPanel_kept env p task h, upsertStatusPanel_kept env2 p task h, h1, h2]
  exact ⟨rfl, rfl⟩

/-- C21 (panel upsert on a task without a panel message ID). The task of
thread `T` holds no panel message ID. The first call of `upsertStatusPanel`
posts a panel message (`M2`), pins it and edits it; the ID is assigned to the
copy of the task inside the call and is lost. The second call with the same
task posts a second panel message (`M3`) and edits that one: two panel
messages are created and the final panel message is not the first one. -/
theorem upsert_twice_posts_twice :
    upsertStatusPanel exEnv (exProject []) exTaskNoPanel =
      (none,
        [Effect.messageSendEmbed "T" (buildStatusEmbed (exProject []) exTaskNoPanel),
          Effect.messagePin "T" "M2",
          Effect.messageEditEmbed "T" "M2" (buildStatusEmbed (exProject []) exTaskNoPanel)]) ∧
    upsertStatusPanel exEnvNext (exProject []) exTaskNoPanel =
      (none,
        [Effect.messageSendEmbed "T" (buildStatusEmbed (exProject []) exTaskNoPanel),
          Effect.messagePin "T" "M3",
          Effect.messageEditEmbed "T" "M3" (buildStatusEmbed (exProject []) exTaskNoPanel)]) ∧
    (((upsertStatusPanel exEnv (exProject []) exTaskNoPanel).2 ++
      (upsertStatusPanel exEnvNext (exProject []) exTaskNoPanel).2).filter isPanelPost).length =
        2 ∧
    ((upsertStatusPanel exEnv (exProject []) exTaskNoPanel).2.filter isPanelPost).length = 1 := by
  decide

/-- The same defect seen from a command: task-take on a stored task without a
panel message ID posts a new panel message and persists the task still
without the ID, so the next command posts another one. -/
theorem take_without_panel_id :
    (handleTaskCommand TaskCommand.taskTake exEnv (exFiles [("T", exTaskNoPanel)])
      (exCall "M" ["RM"])).response = "taken ✅ (status set to InProgress)" ∧
    (((handleTaskCommand TaskCommand.taskTake exEnv (exFiles [("T", exTaskNoPanel)])
      (exCall "M" ["RM"])).log.filter isPanelPost).length = 1) ∧
    (persistedTask (handleTaskCommand TaskCommand.taskTake exEnv (exFiles [("T", exTaskNoPanel)])
      (exCall "M" ["RM"])).files "alpha" "T").map (fun t => t.StatusMessageID) = some "" := by
  decide

/-! ## The slug of a loaded record -/

/-- The filename stem is never used by `load_all_files`: after
`normalizeProject` the slug is not empty. -/
theorem loadStep_eq (out : GoMap Project) (e : String × Project) :
    loadStep out e =
      if ¬ hasSuffix (toLower e.1) ".json" then out
      else if hasSuffix (toLower e.1) ".tmp" then out
      else mapSet out (normalizeProject e.2).Slug (normalizeProject e.2) := by
  have h : (normalizeProject e.2).Slug ≠ "" := by
    unfold normalizeProject
    simp only
    split <;> exact slugify_ne_empty _
  unfold loadStep
  simp only [if_neg h]

/-- A record without a slug is loaded under the slug of its name. -/
theorem normalizeProject_no_slug (r : Project) (h : r.Slug = "") :
    (normalizeProject r).Slug = slugify (trimSpace r.Name) := by
  unfold normalizeProject
  simp only [if_pos h]

/-- C25 (slug of a record without one). The store holds the one record file
`beta.json`, whose record has the name `Alpha` and no slug. `load_all_files`
returns the project keyed by `alpha` with the slug `alpha`, the slug of its
name; the filename stem is `beta`, and no project is keyed by it. -/
theorem load_no_slug_ignores_stem :
    (∃ p, load_all_files exEnv exFilesNoSlug = Except.ok [("alpha", p)] ∧ p.Slug = "alpha" ∧
      p.Name = "Alpha") ∧
    trimSuffix "beta.json" (fileExt "beta.json") = "beta" ∧
    (∀ projects, load_all_files exEnv exFilesNoSlug = Except.ok projects →
      mapGet projects "beta" = none) := by
  refine ⟨⟨normalizeProject { exProject [] with Slug := "" }, by rfl, by decide, by decide⟩,
    by decide, ?_⟩
  intro projects h
  have h2 : load_all_files exEnv exFilesNoSlug =
      Except.ok [("alpha", normalizeProject { exProject [] with Slug := "" })] := by rfl
  rw [h2] at h
  cases h
  decide

/-! ## Where a normalized task comes from -/

theorem slugify_trimmed (s : String) : trimSpace (slugify s) = slugify s := by
  have h : trimChars (slugify s).data = (slugify s).data := by
    unfold trimChars
    apply trimBoth_fix
    · intro c hc
      exact slugChar_not_space c (slugify_chars s c (List.mem_of_mem_head? hc))
    · intro c hc
      exact slugChar_not_space c (slugify_chars s c (List.mem_of_mem_getLast? hc))
  unfold trimSpace
  rw [h]

theorem cleanTasks_origin (m0 : GoMap ProjectTask) :
    ∀ k t, mapGet (cleanTasks m0) k = some t →
      GoodKey k ∧ ∃ k0 t0, mapGet m0 k0 = some t0 ∧ trimSpace k0 = k ∧
        t = normalizeTask k t0 := by
  have h := fold_inv cleanTasksStep
    (fun m ks => ∀ k t, mapGet m k = some t →
      (GoodKey k ∧ ∃ k0 t0, mapGet m0 k0 = some t0 ∧ trimSpace k0 = k ∧
        t = normalizeTask k t0) ∨ (mapGet m0 k = some t ∧ k ∈ ks)) (by
    intro m k ks hm k2 t2 h2
    have hrest : ∀ k2 t2, mapGet m k2 = some t2 → k2 ≠ k →
        (GoodKey k2 ∧ ∃ k0 t0, mapGet m0 k0 = some t0 ∧ trimSpace k0 = k2 ∧
          t2 = normalizeTask k2 t0) ∨ (mapGet m0 k2 = some t2 ∧ k2 ∈ ks) := by
      intro k3 t3 h3 hne
      rcases hm k3 t3 h3 with h4 | ⟨h4, h5⟩
      · exact Or.inl h4
      · rcases List.mem_cons.mp h5 with h6 | h6
        · exact absurd h6 hne
        · exact Or.inr ⟨h4, h6⟩
    unfold cleanTasksStep at h2
    cases hget : mapGet m k with
    | none =>
      rw [hget] at h2
      simp only at h2
      apply hrest k2 t2 h2
      intro hk
      rw [hk, hget] at h2
      cases h2
    | some t =>
      rw [hget] at h2
      simp only at h2
      by_cases hb : trimSpace k = ""
      · rw [if_pos hb, mapGet_mapDelete] at h2
        by_cases hk : k2 = k
        · rw [if_pos hk] at h2; cases h2
        · rw [if_neg hk] at h2; exact hrest k2 t2 h2 hk
      · rw [if_neg hb, mapGet_mapSet] at h2
        by_cases hk2 : k2 = trimSpace k
        · rw [if_pos hk2] at h2
          cases h2
          left
          rw [hk2]
          refine ⟨goodKey_trim k hb, ?_⟩
          rcases hm k t hget with ⟨hg, k0, t0, h4, h5, h6⟩ | ⟨h4, _⟩
          · refine ⟨k0, t0, h4, by rw [h5, hg.1], ?_⟩
            rw [h6, hg.1, normalizeTask_idem k hg]
          · exact ⟨k, t, h4, rfl, rfl⟩
        · rw [if_neg hk2] at h2
          by_cases ht : trimSpace k = k
          · rw [if_neg (by simpa using ht)] at h2
            exact hrest k2 t2 h2 (by rw [← ht]; exact hk2)
          · rw [if_pos (by simpa using ht), mapGet_mapDelete] at h2
            by_cases hk : k2 = k
            · rw [if_pos hk] at h2; cases h2
            · rw [if_neg hk] at h2; exact hrest k2 t2 h2 hk)
    (mapKeys m0) m0 (fun k t hk => Or.inr ⟨hk, mem_mapKeys_of_mapGet m0 k t hk⟩)
  intro k t hk
  rcases h k t hk with h1 | ⟨_, h1⟩
  · exact h1
  · cases h1

/-! ## What `normalizeProject` trims -/

/-- C26. Normalization is idempotent: for every project `p`,
`normalizeProject (normalizeProject p)` is `normalizeProject p`; so when a
loaded project (a normalized record) is written back as it is, the record
file holds exactly that project. -/
theorem normalization_idempotent (p : Project) :
    normalizeProject (normalizeProject p) = normalizeProject p ∧
    ∀ env files files1, updateFile env files (normalizeProject p) = (none, files1) →
      mapGet files1 (projectPathBySlug (normalizeProject p).Slug) =
        some (normalizeProject p) := by
  refine ⟨normalizeProject_fix p, ?_⟩
  intro env files files1 h
  have := updateFile_get env files files1 (normalizeProject p) h
  rw [normalizeProject_fix] at this
  exact this

/-- Counterexample to C27 as stated: a record with white space around a forum
ID, a member ID and a status keeps all three through `normalizeProject`. -/
theorem normalize_keeps_untrimmed :
    (normalizeProject exUntrimmed).ForumChannelIDs = [" F "] ∧ trimSpace " F " ≠ " F " ∧
    mapKeys (normalizeProject exUntrimmed).Members = [" U "] ∧ trimSpace " U " ≠ " U " ∧
    (mapGet (normalizeProject exUntrimmed).Tasks "T").map (fun t => t.Status) =
      some " done " ∧
    trimSpace " done " ≠ " done " := by
  decide

/-- C27, amended. For every project, after `normalizeProject` these strings
of the record have no leading or trailing white space: the name, the guild,
category and role IDs and the slug; every key of `forumTagIDs` and of
`tasks`; every tag name and tag ID; and every task's thread ID, forum ID,
assignee, panel message ID, done-description and approver. The status of
every task is not blank. -/
theorem normalizeProject_trimmed (p : Project) :
    trimSpace (normalizeProject p).Name = (normalizeProject p).Name ∧
    trimSpace (normalizeProject p).GuildID = (normalizeProject p).GuildID ∧
    trimSpace (normalizeProject p).CategoryID = (normalizeProject p).CategoryID ∧
    trimSpace (normalizeProject p).MemberRoleID = (normalizeProject p).MemberRoleID ∧
    trimSpace (normalizeProject p).LeaderRoleID = (normalizeProject p).LeaderRoleID ∧
    trimSpace (normalizeProject p).Slug = (normalizeProject p).Slug ∧
    (∀ k ∈ mapKeys (normalizeProject p).ForumTagIDs, trimSpace k = k) ∧
    (∀ k ∈ mapKeys (normalizeProject p).Tasks, trimSpace k = k) ∧
    (∀ F o, mapGet (normalizeProject p).ForumTagIDs F = some o →
      ∃ m, o = some m ∧ (∀ n ∈ mapKeys m, trimSpace n = n) ∧
        ∀ n id, mapGet m n = some id → trimSpace id = id) ∧
    (∀ k t, mapGet (normalizeProject p).Tasks k = some t →
      trimSpace t.ThreadID = t.ThreadID ∧ trimSpace t.ForumID = t.ForumID ∧
      trimSpace t.AssigneeUserID = t.AssigneeUserID ∧
      trimSpace t.StatusMessageID = t.StatusMessageID ∧
      trimSpace t.DoneDescription = t.DoneDescription ∧
      trimSpace t.ApprovedByUserID = t.ApprovedByUserID ∧ trimSpace t.Status ≠ "") := by
  refine ⟨trimSpace_idem _, trimSpace_idem _, trimSpace_idem _, trimSpace_idem _,
    trimSpace_idem _, ?_, ?_, ?_, ?_, ?_⟩
  · unfold normalizeProject
    simp only
    split <;> exact slugify_trimmed _
  · intro k hk
    exact (cleanForumTags_keys p.ForumTagIDs k hk).1
  · intro k hk
    exact (cleanTasks_keys p.Tasks k hk).1
  · intro F o ho
    obtain ⟨m0, hm0⟩ := cleanForumTags_values p.ForumTagIDs F o ho
    refine ⟨cleanTagMap m0, hm0, ?_, ?_⟩
    · intro n hn
      exact (cleanTagMap_keys m0 n hn).1
    · intro n id hid
      exact (cleanTagMap_vals m0 n id hid).1
  · intro k t ht
    obtain ⟨h1, _, h3, h4, h5, h6, h7, h8⟩ := cleanTasks_values p.Tasks k t ht
    exact ⟨h1, h3, h5, h6, h7, h8, h4⟩

/-- Counterexample to C28 as stated: the record holds under the key `T` a
task whose thread ID is `X`; after `normalizeProject` the task under `T`
still has the thread ID `X`. -/
theorem normalize_keeps_thread_id :
    (mapGet (normalizeProject exUntrimmed).Tasks "T").map (fun t => t.ThreadID) = some "X" ∧
    "X" ≠ "T" := by
  decide

/-- C28, amended. For every project, after `normalizeProject` a task stored
under the key `k` comes from a task of the record stored under a key that
trims to `k`, and its thread ID is `k` when that task had a blank thread ID
and is its trimmed thread ID otherwise; the thread ID is trimmed and not
empty in both cases. -/
theorem normalized_thread_id (p : Project) (k : String) (t : ProjectTask)
    (h : mapGet (normalizeProject p).Tasks k = some t) :
    (∃ k0 t0, mapGet p.Tasks k0 = some t0 ∧ trimSpace k0 = k ∧
      t.ThreadID = if trimSpace t0.ThreadID = "" then k else trimSpace t0.ThreadID) ∧
    trimSpace t.ThreadID = t.ThreadID ∧ t.ThreadID ≠ "" := by
  obtain ⟨_, k0, t0, h1, h2, h3⟩ := cleanTasks_origin p.Tasks k t h
  have hn := cleanTasks_values p.Tasks k t h
  refine ⟨⟨k0, t0, h1, h2, ?_⟩, hn.1, hn.2.1⟩
  rw [h3]
  rfl

theorem normalized_thread_id_witness :
    mapGet
      (normalizeProject
        (exProject [(" T ", { exTask TaskToDo "" "" "" with ThreadID := " " })])).Tasks
      "T" = some (exTask TaskToDo "" "" "") ∧
    ((∃ k0 t0,
      mapGet (exProject [(" T ", { exTask TaskToDo "" "" "" with ThreadID := " " })]).Tasks k0 =
        some t0 ∧ trimSpace k0 = "T" ∧
      (exTask TaskToDo "" "" "").ThreadID =
        if trimSpace t0.ThreadID = "" then "T" else trimSpace t0.ThreadID) ∧
    trimSpace (exTask TaskToDo "" "" "").ThreadID = (exTask TaskToDo "" "" "").ThreadID ∧
    (exTask TaskToDo "" "" "").ThreadID ≠ "") :=
  ⟨by decide,
    normalized_thread_id
      (exProject [(" T ", { exTask TaskToDo "" "" "" with ThreadID := " " })]) "T"
      (exTask TaskToDo "" "" "") (by decide)⟩

/-! ## The first slug without a record -/

theorem fileNotExists_has (env : Env) (files : Files) (slug : String)
    (hstat : env.statErr = none) (h : HasRecord files slug) :
    fileNotExists env files (projectPathBySlug slug) = Except.ok false := by
  unfold fileNotExists
  unfold HasRecord at h
  rw [hstat]
  cases hg : mapGet files (projectPathBySlug slug) with
  | none => rw [hg] at h; cases h
  | some r => rfl

theorem fileNotExists_free (env : Env) (files : Files) (slug : String)
    (hstat : env.statErr = none) (h : ¬ HasRecord files slug) :
    fileNotExists env files (projectPathBySlug slug) = Except.ok true := by
  unfold fileNotExists
  unfold HasRecord at h
  rw [hstat]
  cases hg : mapGet files (projectPathBySlug slug) with
  | none => rfl
  | some r => rw [hg] at h; exact absurd rfl h

theorem slugLoop_ok (env : Env) (files : Files) (base : String) (hstat : env.statErr = none) :
    ∀ left n slug, slugLoop env files base left n = Except.ok slug ↔
      ∃ j, n ≤ j ∧ j < n + left ∧ slug = base ++ "-" ++ toString j ∧
        ¬ HasRecord files (base ++ "-" ++ toString j) ∧
        ∀ m, n ≤ m → m < j → HasRecord files (base ++ "-" ++ toString m) := by
  intro left
  induction left with
  | zero =>
    intro n slug
    constructor
    · intro h
      simp only [slugLoop] at h
      cases h
    · rintro ⟨j, h1, h2, _⟩
      omega
  | succ left ih =>
    intro n slug
    by_cases hn : HasRecord files (base ++ "-" ++ toString n)
    · have e : slugLoop env files base (left + 1) n = slugLoop env files base left (n + 1) := by
        simp only [slugLoop, fileNotExists_has env files _ hstat hn]
      rw [e, ih (n + 1) slug]
      constructor
      · rintro ⟨j, h1, h2, h3, h4, h5⟩
        refine ⟨j, by omega, by omega, h3, h4, ?_⟩
        intro m hm1 hm2
        by_cases hmn : m = n
        · rw [hmn]; exact hn
        · exact h5 m (by omega) hm2
      · rintro ⟨j, h1, h2, h3, h4, h5⟩
        have hj : j ≠ n := by
          intro h
          rw [h] at h4
          exact h4 hn
        exact ⟨j, by omega, by omega, h3, h4, fun m hm1 hm2 => h5 m (by omega) hm2⟩
    · have e : slugLoop env files base (left + 1) n =
          Except.ok (base ++ "-" ++ toString n) := by
        simp only [slugLoop, fileNotExists_free env files _ hstat hn]
      rw [e]
      constructor
      · intro h
        cases h
        exact ⟨n, le_refl n, by omega, rfl, hn, fun m hm1 hm2 => by omega⟩
      · rintro ⟨j, h1, h2, h3, h4, h5⟩
        have hj : j = n := by
          by_contra h
          exact hn (h5 n (le_refl n) (by omega))
        rw [h3, hj]

theorem slugLoop_err (env : Env) (files : Files) (base : String) (hstat : env.statErr = none) :
    ∀ left n err, slugLoop env files base left n = Except.error err ↔
      err = "too many projects with slug base: " ++ base ∧
        ∀ j, n ≤ j → j < n + left → HasRecord files (base ++ "-" ++ toString j) := by
  intro left
  induction left with
  | zero =>
    intro n err
    constructor
    · intro h
      simp only [slugLoop] at h
      cases h
      exact ⟨rfl, fun j h1 h2 => by omega⟩
    · rintro ⟨h1, _⟩
      simp only [slugLoop]
      rw [h1]
  | succ left ih =>
    intro n err
    by_cases hn : HasRecord files (base ++ "-" ++ toString n)
    · have e : slugLoop env files base (left + 1) n = slugLoop env files base left (n + 1) := by
        simp only [slugLoop, fileNotExists_has env files _ hstat hn]
      rw [e, ih (n + 1) err]
      constructor
      · rintro ⟨h1, h2⟩
        refine ⟨h1, ?_⟩
        intro j hj1 hj2
        by_cases hjn : j = n
        · rw [hjn]; exact hn
        · exact h2 j (by omega) (by omega)
      · rintro ⟨h1, h2⟩
        exact ⟨h1, fun j hj1 hj2 => h2 j (by omega) (by omega)⟩
    · have e : slugLoop env files base (left + 1) n =
          Except.ok (base ++ "-" ++ toString n) := by
        simp only [slugLoop, fileNotExists_free env files _ hstat hn]
      rw [e]
      constructor
      · intro h
        cases h
      · rintro ⟨_, h2⟩
        exact absurd (h2 n (le_refl n) (by omega)) hn

theorem slugCandidate_one (base : String) : slugCandidate base 1 = base := by
  unfold slugCandidate
  rw [if_pos (le_refl 1)]

theorem slugCandidate_next (base : String) (n : Nat) (h : 2 ≤ n) :
    slugCandidate base n = base ++ "-" ++ toString n := by
  unfold slugCandidate
  rw [if_neg (by omega)]

theorem findAvailableSlug_ok (env : Env) (files : Files) (base : String)
    (hstat : env.statErr = none) (slug : String) :
    findAvailableSlug env files base = Except.ok slug ↔
      ∃ n, 1 ≤ n ∧ n ≤ 9999 ∧ slug = slugCandidate base n ∧
        ¬ HasRecord files (slugCandidate base n) ∧
        ∀ m, 1 ≤ m → m < n → HasRecord files (slugCandidate base m) := by
  unfold findAvailableSlug
  by_cases hb : HasRecord files base
  · rw [fileNotExists_has env files base hstat hb]
    simp only
    rw [slugLoop_ok env files base hstat]
    constructor
    · rintro ⟨j, h1, h2, h3, h4, h5⟩
      refine ⟨j, by omega, by omega, ?_, ?_, ?_⟩
      · rw [slugCandidate_next base j h1]; exact h3
      · rw [slugCandidate_next base j h1]; exact h4
      · intro m hm1 hm2
        by_cases hm : m = 1
        · rw [hm, slugCandidate_one]; exact hb
        · rw [slugCandidate_next base m (by omega)]
          exact h5 m (by omega) hm2
    · rintro ⟨n, h1, h2, h3, h4, h5⟩
      have hn : n ≠ 1 := by
        intro h
        rw [h, slugCandidate_one] at h4
        exact h4 hb
      have hn2 : 2 ≤ n := by omega
      rw [slugCandidate_next base n hn2] at h3 h4
      refine ⟨n, hn2, by omega, h3, h4, ?_⟩
      intro m hm1 hm2
      have := h5 m (by omega) hm2
      rw [slugCandidate_next base m hm1] at this
      exact this
  · rw [fileNotExists_free env files base hstat hb]
    simp only
    constructor
    · intro h
      cases h
      refine ⟨1, le_refl 1, by omega, (slugCandidate_one base).symm, ?_, ?_⟩
      · rw [slugCandidate_one]; exact hb
      · intro m hm1 hm2
        omega
    · rintro ⟨n, h1, h2, h3, h4, h5⟩
      have hn : n = 1 := by
        by_contra h
        have := h5 1 (le_refl 1) (by omega)
        rw [slugCandidate_one] at this
        exact hb this
      rw [h3, hn, slugCandidate_one]

theorem findAvailableSlug_err (env : Env) (files : Files) (base : String)
    (hstat : env.statErr = none) (err : String) :
    findAvailableSlug env files base = Except.error err ↔
      err = "too many projects with slug base: " ++ base ∧
        ∀ n, 1 ≤ n → n ≤ 9999 → HasRecord files (slugCandidate base n) := by
  unfold findAvailableSlug
  by_cases hb : HasRecord files base
  · rw [fileNotExists_has env files base hstat hb]
    simp only
    rw [slugLoop_err env files base hstat]
    constructor
    · rintro ⟨h1, h2⟩
      refine ⟨h1, ?_⟩
      intro n hn1 hn2
      by_cases hn : n = 1
      · rw [hn, slugCandidate_one]; exact hb
      · rw [slugCandidate_next base n (by omega)]
        exact h2 n (by omega) (by omega)
    · rintro ⟨h1, h2⟩
      refine ⟨h1, ?_⟩
      intro j hj1 hj2
      have := h2 j (by omega) (by omega)
      rw [slugCandidate_next base j hj1] at this
      exact this
  · rw [fileNotExists_free env files base hstat hb]
    simp only
    constructor
    · intro h
      cases h
    · rintro ⟨_, h2⟩
      have := h2 1 (le_refl 1) (by omega)
      rw [slugCandidate_one] at this
      exact absurd this hb

/-! ## One invocation of `/kanban create` -/

theorem writeProjectAtomic_get (env : Env) (files : Files) (path : String) (p : Project)
    (hw : env.writeErr = none) (hr : env.renameErr = none) :
    ∃ files1, writeProjectAtomic env files path p = (none, files1) ∧
      ∀ x, mapGet files1 x =
        if x = path then some p else if x = path ++ ".tmp" then none else mapGet files x := by
  refine ⟨mapSet (mapDelete (mapSet files (path ++ ".tmp") p) (path ++ ".tmp")) path p, ?_, ?_⟩
  · unfold writeProjectAtomic
    simp only [hw, hr]
  · intro x
    rw [mapGet_mapSet, mapGet_mapDelete, mapGet_mapSet]
    by_cases h1 : x = path
    · rw [if_pos h1, if_pos h1]
    · rw [if_neg h1, if_neg h1]
      by_cases h2 : x = path ++ ".tmp"
      · rw [if_pos h2, if_pos h2]
      · rw [if_neg h2, if_neg h2, if_neg h2]

theorem createFile_eq (env : Env) (files : Files) (q : Project) (slug : String)
    (hm : env.mkdirErr = none) (hw : env.writeErr = none) (hr : env.renameErr = none)
    (hs2 : slug ≠ "") (hs3 : slugify slug = slug)
    (hs4 : findAvailableSlug env files slug = Except.ok slug) (hq : q.Slug = slug) :
    createFile env files q =
      (none,
        mapSet
          (mapDelete
            (mapSet files (projectPathBySlug slug ++ ".tmp")
              { normalizeProject q with Slug := slug })
            (projectPathBySlug slug ++ ".tmp"))
          (projectPathBySlug slug) { normalizeProject q with Slug := slug }) := by
  have h : (normalizeProject q).Slug = slug := by
    unfold normalizeProject
    simp only [hq, if_neg hs2, hs3]
  unfold createFile writeProjectAtomic
  simp only [hm, h, hs4, hw, hr]

theorem created_get (files : Files) (path x : String) (p : Project) :
    mapGet (mapSet (mapDelete (mapSet files (path ++ ".tmp") p) (path ++ ".tmp")) path p) x =
      if x = path then some p else if x = path ++ ".tmp" then none else mapGet files x := by
  rw [mapGet_mapSet, mapGet_mapDelete, mapGet_mapSet]
  by_cases h1 : x = path
  · rw [if_pos h1, if_pos h1]
  · rw [if_neg h1, if_neg h1]
    by_cases h2 : x = path ++ ".tmp"
    · rw [if_pos h2, if_pos h2]
    · rw [if_neg h2, if_neg h2, if_neg h2]

/-- One successful invocation of `/kanban create`: the response names the
slug, and the files afterwards hold the new record under the slug and
otherwise what they held before (but for a temporary file of that name). -/
theorem create_step (cenv : CreateEnv) (files : Files) (i : InteractionCreate)
    (project slug mr lr c : String) (hname : trimSpace project ≠ "")
    (hs1 : findAvailableSlug cenv.os files (slugify (trimSpace project)) = Except.ok slug)
    (hs2 : slug ≠ "") (hs3 : slugify slug = slug)
    (hs4 : findAvailableSlug cenv.os files slug = Except.ok slug)
    (hok : CreateSucceeds cenv i slug (trimSpace project) mr lr c) :
    (handleKanbanCreate cenv files i project).1 =
      "created roles **" ++ slug ++ "-member**/**" ++ slug ++
        "-leader**, private category **" ++ trimSpace project ++ "**" ∧
    ∃ p, CreatedBy p i slug (trimSpace project) mr lr c ∧
      ∀ x, mapGet (handleKanbanCreate cenv files i project).2 x =
        if x = projectPathBySlug slug then some p
        else if x = projectPathBySlug slug ++ ".tmp" then none else mapGet files x := by
  obtain ⟨hm, _, hw, hr, hroles, hcat⟩ := hok
  unfold handleKanbanCreate
  simp only [if_neg hname, hs1, hroles, hcat]
  rw [createFile_eq cenv.os files _ slug hm hw hr hs2 hs3 hs4 rfl]
  refine ⟨rfl, _, ?_, fun x => created_get files _ x _⟩
  unfold CreatedBy normalizeProject
  simp only [trimSpace_idem, true_and]
  exact ⟨rfl, rfl⟩

/-! ## Unique slugs -/

/-- C23. Unique-slug assignment: while the file-existence checks do not
fail, `findAvailableSlug` returns a slug exactly when that slug is the first
name without a record in the sequence base, base-2, base-3, ..., base-9999;
it fails exactly when all 9999 names have records, and then with the error
that names the base; and it returns a slug whenever one of the names has no
record. -/
theorem findAvailableSlug_first_free (env : Env) (files : Files) (base : String)
    (hstat : env.statErr = none) :
    (∀ slug, findAvailableSlug env files base = Except.ok slug ↔
      ∃ n, 1 ≤ n ∧ n ≤ 9999 ∧ slug = slugCandidate base n ∧
        ¬ HasRecord files (slugCandidate base n) ∧
        ∀ m, 1 ≤ m → m < n → HasRecord files (slugCandidate base m)) ∧
    ((∃ err, findAvailableSlug env files base = Except.error err) ↔
      ∀ n, 1 ≤ n → n ≤ 9999 → HasRecord files (slugCandidate base n)) ∧
    (∀ err, findAvailableSlug env files base = Except.error err →
      err = "too many projects with slug base: " ++ base) ∧
    ((∃ n, 1 ≤ n ∧ n ≤ 9999 ∧ ¬ HasRecord files (slugCandidate base n)) →
      ∃ slug, findAvailableSlug env files base = Except.ok slug) ∧
    slugCandidate base 1 = base ∧ slugCandidate base 2 = base ++ "-2" ∧
    slugCandidate base 9999 = base ++ "-9999" := by
  refine ⟨findAvailableSlug_ok env files base hstat, ?_, ?_, ?_, slugCandidate_one base, ?_, ?_⟩
  · constructor
    · rintro ⟨err, h⟩
      exact ((findAvailableSlug_err env files base hstat err).mp h).2
    · intro h
      exact ⟨_, (findAvailableSlug_err env files base hstat _).mpr ⟨rfl, h⟩⟩
  · intro err h
    exact ((findAvailableSlug_err env files base hstat err).mp h).1
  · rintro ⟨n, h1, h2, h3⟩
    cases hf : findAvailableSlug env files base with
    | ok slug => exact ⟨slug, rfl⟩
    | error err =>
      exact absurd (((findAvailableSlug_err env files base hstat err).mp hf).2 n h1 h2) h3
  · rw [slugCandidate_next base 2 (le_refl 2)]
    have : toString (2 : Nat) = "2" := by decide
    rw [this, String.append_assoc]
    rfl
  · rw [slugCandidate_next base 9999 (by omega)]
    have : toString (9999 : Nat) = "9999" := by decide
    rw [this, String.append_assoc]
    rfl

theorem findAvailableSlug_first_free_witness :
    exEnv.statErr = none ∧
    ((∀ slug, findAvailableSlug exEnv (exFiles []) "alpha" = Except.ok slug ↔
      ∃ n, 1 ≤ n ∧ n ≤ 9999 ∧ slug = slugCandidate "alpha" n ∧
        ¬ HasRecord (exFiles []) (slugCandidate "alpha" n) ∧
        ∀ m, 1 ≤ m → m < n → HasRecord (exFiles []) (slugCandidate "alpha" m)) ∧
    ((∃ err, findAvailableSlug exEnv (exFiles []) "alpha" = Except.error err) ↔
      ∀ n, 1 ≤ n → n ≤ 9999 → HasRecord (exFiles []) (slugCandidate "alpha" n)) ∧
    (∀ err, findAvailableSlug exEnv (exFiles []) "alpha" = Except.error err →
      err = "too many projects with slug base: " ++ "alpha") ∧
    ((∃ n, 1 ≤ n ∧ n ≤ 9999 ∧ ¬ HasRecord (exFiles []) (slugCandidate "alpha" n)) →
      ∃ slug, findAvailableSlug exEnv (exFiles []) "alpha" = Except.ok slug) ∧
    slugCandidate "alpha" 1 = "alpha" ∧ slugCandidate "alpha" 2 = "alpha" ++ "-2" ∧
    slugCandidate "alpha" 9999 = "alpha" ++ "-9999") :=
  ⟨rfl, findAvailableSlug_first_free exEnv (exFiles []) "alpha" rfl⟩

theorem findAvailableSlug_at (env : Env) (files : Files) (base slug : String) (n : Nat)
    (hstat : env.statErr = none) (h1 : 1 ≤ n) (h2 : n ≤ 9999)
    (hslug : slugCandidate base n = slug) (hfree : ¬ HasRecord files slug)
    (hbefore : ∀ m, 1 ≤ m → m < n → HasRecord files (slugCandidate base m)) :
    findAvailableSlug env files base = Except.ok slug :=
  (findAvailableSlug_ok env files base hstat slug).mpr
    ⟨n, h1, h2, hslug.symm, by rw [hslug]; exact hfree, hbefore⟩

/-- C24. Slug collision sequence: on a store with no record named `alpha`,
`alpha-2` or `alpha-3`, three invocations of `/kanban create` with the names
`Alpha`, `Alpha ` and `  alpha`, in that order and with every external call
succeeding, answer with the slugs `alpha`, `alpha-2` and `alpha-3` in that
order; each writes the record of its own project (its slug, name, guild,
roles and category) under its slug, and the records written earlier are still
there after the later invocations; every other record file is as before. -/
theorem slug_collision_sequence (cenv1 cenv2 cenv3 : CreateEnv)
    (i1 i2 i3 : InteractionCreate) (files : Files)
    (mr1 lr1 c1 mr2 lr2 c2 mr3 lr3 c3 : String)
    (h0 : ¬ HasRecord files "alpha" ∧ ¬ HasRecord files "alpha-2" ∧
      ¬ HasRecord files "alpha-3")
    (h1 : CreateSucceeds cenv1 i1 "alpha" "Alpha" mr1 lr1 c1)
    (h2 : CreateSucceeds cenv2 i2 "alpha-2" "Alpha" mr2 lr2 c2)
    (h3 : CreateSucceeds cenv3 i3 "alpha-3" "alpha" mr3 lr3 c3) :
    (handleKanbanCreate cenv1 files i1 "Alpha").1 =
      "created roles **alpha-member**/**alpha-leader**, private category **Alpha**" ∧
    (handleKanbanCreate cenv2 (createAll files [(cenv1, i1, "Alpha")]) i2 "Alpha ").1 =
      "created roles **alpha-2-member**/**alpha-2-leader**, private category **Alpha**" ∧
    (handleKanbanCreate cenv3
      (createAll files [(cenv1, i1, "Alpha"), (cenv2, i2, "Alpha ")]) i3 "  alpha").1 =
      "created roles **alpha-3-member**/**alpha-3-leader**, private category **alpha**" ∧
    ∃ p1 p2 p3,
      CreatedBy p1 i1 "alpha" "Alpha" mr1 lr1 c1 ∧
      CreatedBy p2 i2 "alpha-2" "Alpha" mr2 lr2 c2 ∧
      CreatedBy p3 i3 "alpha-3" "alpha" mr3 lr3 c3 ∧
      mapGet (createAll files [(cenv1, i1, "Alpha")]) "alpha.json" = some p1 ∧
      mapGet (createAll files [(cenv1, i1, "Alpha"), (cenv2, i2, "Alpha ")]) "alpha.json" =
        some p1 ∧
      mapGet (createAll files [(cenv1, i1, "Alpha"), (cenv2, i2, "Alpha ")]) "alpha-2.json" =
        some p2 ∧
      mapGet
        (createAll files [(cenv1, i1, "Alpha"), (cenv2, i2, "Alpha "), (cenv3, i3, "  alpha")])
        "alpha.json" = some p1 ∧
      mapGet
        (createAll files [(cenv1, i1, "Alpha"), (cenv2, i2, "Alpha "), (cenv3, i3, "  alpha")])
        "alpha-2.json" = some p2 ∧
      mapGet
        (createAll files [(cenv1, i1, "Alpha"), (cenv2, i2, "Alpha "), (cenv3, i3, "  alpha")])
        "alpha-3.json" = some p3 ∧
      ∀ x, x ∉ ["alpha.json", "alpha-2.json", "alpha-3.json", "alpha.json.tmp",
          "alpha-2.json.tmp", "alpha-3.json.tmp"] →
        mapGet
          (createAll files
            [(cenv1, i1, "Alpha"), (cenv2, i2, "Alpha "), (cenv3, i3, "  alpha")]) x =
          mapGet files x := by
  obtain ⟨h01, h02, h03⟩ := h0
  have e1 : trimSpace "Alpha" = "Alpha" := by decide
  have e2 : trimSpace "Alpha " = "Alpha" := by decide
  have e3 : trimSpace "  alpha" = "alpha" := by decide
  have s1 : slugify "Alpha" = "alpha" := by decide
  have s3 : slugify "alpha" = "alpha" := by decide
  have c1a : slugCandidate "alpha" 1 = "alpha" := by decide
  have c2a : slugCandidate "alpha" 2 = "alpha-2" := by decide
  have c3a : slugCandidate "alpha" 3 = "alpha-3" := by decide
  have pa : projectPathBySlug "alpha" = "alpha.json" := by decide
  have pb : projectPathBySlug "alpha-2" = "alpha-2.json" := by decide
  have pc : projectPathBySlug "alpha-3" = "alpha-3.json" := by decide
  have n01 : mapGet files "alpha.json" = none := by
    unfold HasRecord at h01
    rw [pa] at h01
    cases hg : mapGet files "alpha.json" with
    | none => rfl
    | some r => rw [hg] at h01; exact absurd rfl h01
  have n02 : mapGet files "alpha-2.json" = none := by
    unfold HasRecord at h02
    rw [pb] at h02
    cases hg : mapGet files "alpha-2.json" with
    | none => rfl
    | some r => rw [hg] at h02; exact absurd rfl h02
  have n03 : mapGet files "alpha-3.json" = none := by
    unfold HasRecord at h03
    rw [pc] at h03
    cases hg : mapGet files "alpha-3.json" with
    | none => rfl
    | some r => rw [hg] at h03; exact absurd rfl h03
  -- the first invocation
  obtain ⟨m1, p1, hp1, g1⟩ := create_step cenv1 files i1 "Alpha" "alpha" mr1 lr1 c1
    (by decide)
    (by
      rw [e1, s1]
      exact findAvailableSlug_at _ _ _ _ 1 h1.2.1 (le_refl 1) (by omega) c1a h01
        (fun m hm1 hm2 => by omega))
    (by decide) (by decide)
    (findAvailableSlug_at _ _ _ _ 1 h1.2.1 (le_refl 1) (by omega) c1a h01
      (fun m hm1 hm2 => by omega))
    (by rw [e1]; exact h1)
  rw [e1] at m1 hp1
  rw [pa] at g1
  have f1 : createAll files [(cenv1, i1, "Alpha")] =
      (handleKanbanCreate cenv1 files i1 "Alpha").2 := rfl
  generalize (handleKanbanCreate cenv1 files i1 "Alpha").2 = F1 at g1 f1
  have a1 : HasRecord F1 "alpha" := by
    unfold HasRecord
    rw [pa, g1, if_pos rfl]
    rfl
  have b1 : ¬ HasRecord F1 "alpha-2" := by
    unfold HasRecord
    rw [pb, g1, if_neg (by decide), if_neg (by decide), n02]
    decide
  have d1 : mapGet F1 "alpha-3.json" = none := by
    rw [g1, if_neg (by decide), if_neg (by decide), n03]
  -- the second invocation
  obtain ⟨m2, p2, hp2, g2⟩ := create_step cenv2 F1 i2 "Alpha " "alpha-2" mr2 lr2 c2
    (by decide)
    (by
      rw [e2, s1]
      refine findAvailableSlug_at _ _ _ _ 2 h2.2.1 (by omega) (by omega) c2a b1 ?_
      intro m hm1 hm2
      have : m = 1 := by omega
      rw [this, c1a]
      exact a1)
    (by decide) (by decide)
    (findAvailableSlug_at _ _ _ _ 1 h2.2.1 (le_refl 1) (by omega) (by decide) b1
      (fun m hm1 hm2 => by omega))
    (by rw [e2]; exact h2)
  rw [e2] at m2 hp2
  rw [pb] at g2
  have f2 : createAll files [(cenv1, i1, "Alpha"), (cenv2, i2, "Alpha ")] =
      (handleKanbanCreate cenv2 F1 i2 "Alpha ").2 := by
    rw [← f1]
    rfl
  generalize (handleKanbanCreate cenv2 F1 i2 "Alpha ").2 = F2 at g2 f2
  have a2 : HasRecord F2 "alpha" := by
    unfold HasRecord
    rw [pa, g2, if_neg (by decide), if_neg (by decide), g1, if_pos rfl]
    rfl
  have b2 : HasRecord F2 "alpha-2" := by
    unfold HasRecord
    rw [pb, g2, if_pos rfl]
    rfl
  have d2 : ¬ HasRecord F2 "alpha-3" := by
    unfold HasRecord
    rw [pc, g2, if_neg (by decide), if_neg (by decide), d1]
    decide
  -- the third invocation
  obtain ⟨m3, p3, hp3, g3⟩ := create_step cenv3 F2 i3 "  alpha" "alpha-3" mr3 lr3 c3
    (by decide)
    (by
      rw [e3, s3]
      refine findAvailableSlug_at _ _ _ _ 3 h3.2.1 (by omega) (by omega) c3a d2 ?_
      intro m hm1 hm2
      have : m = 1 ∨ m = 2 := by omega
      rcases this with h | h
      · rw [h, c1a]; exact a2
      · rw [h, c2a]; exact b2)
    (by decide) (by decide)
    (findAvailableSlug_at _ _ _ _ 1 h3.2.1 (le_refl 1) (by omega) (by decide) d2
      (fun m hm1 hm2 => by omega))
    (by rw [e3]; exact h3)
  rw [e3] at m3 hp3
  rw [pc] at g3
  have f3 : createAll files
      [(cenv1, i1, "Alpha"), (cenv2, i2, "Alpha "), (cenv3, i3, "  alpha")] =
      (handleKanbanCreate cenv3 F2 i3 "  alpha").2 := by
    rw [← f2]
    rfl
  generalize (handleKanbanCreate cenv3 F2 i3 "  alpha").2 = F3 at g3 f3
  rw [f1, f2, f3]
  refine ⟨m1, m2, m3, p1, p2, p3, hp1, hp2, hp3, ?_, ?_, ?_, ?_, ?_, ?_, ?_⟩
  · rw [g1, if_pos rfl]
  · rw [g2, if_neg (by decide), if_neg (by decide), g1, if_pos rfl]
  · rw [g2, if_pos rfl]
  · rw [g3, if_neg (by decide), if_neg (by decide), g2, if_neg (by decide),
      if_neg (by decide), g1, if_pos rfl]
  · rw [g3, if_neg (by decide), if_neg (by decide), g2, if_pos rfl]
  · rw [g3, if_pos rfl]
  · intro x hx
    simp only [List.mem_cons, List.mem_singleton, List.not_mem_nil, or_false, not_or] at hx
    obtain ⟨x1, x2, x3, x4, x5, x6⟩ := hx
    have t1 : ("alpha.json" : String) ++ ".tmp" = "alpha.json.tmp" := by decide
    have t2 : ("alpha-2.json" : String) ++ ".tmp" = "alpha-2.json.tmp" := by decide
    have t3 : ("alpha-3.json" : String) ++ ".tmp" = "alpha-3.json.tmp" := by decide
    rw [g3, if_neg x3, t3, if_neg x6, g2, if_neg x2, t2, if_neg x5, g1, if_neg x1, t1,
      if_neg x4]

theorem slug_collision_sequence_witness :
    (¬ HasRecord exFilesNoSlug "alpha" ∧ ¬ HasRecord exFilesNoSlug "alpha-2" ∧
      ¬ HasRecord exFilesNoSlug "alpha-3") ∧
    CreateSucceeds exCreateEnv (exCall "L" []) "alpha" "Alpha" "RM-alpha" "RL-alpha" "C-Alpha" ∧
    CreateSucceeds exCreateEnv (exCall "M" []) "alpha-2" "Alpha" "RM-alpha-2" "RL-alpha-2"
      "C-Alpha" ∧
    CreateSucceeds exCreateEnv (exCall "N" []) "alpha-3" "alpha" "RM-alpha-3" "RL-alpha-3"
      "C-alpha" ∧
    (handleKanbanCreate exCreateEnv
      (createAll exFilesNoSlug
        [(exCreateEnv, exCall "L" [], "Alpha"), (exCreateEnv, exCall "M" [], "Alpha ")])
      (exCall "N" []) "  alpha").1 =
      "created roles **alpha-3-member**/**alpha-3-leader**, private category **alpha**" :=
  ⟨by decide, ⟨rfl, rfl, rfl, rfl, rfl, rfl⟩, ⟨rfl, rfl, rfl, rfl, rfl, rfl⟩,
    ⟨rfl, rfl, rfl, rfl, rfl, rfl⟩,
    (slug_collision_sequence exCreateEnv exCreateEnv exCreateEnv (exCall "L" [])
      (exCall "M" []) (exCall "N" []) exFilesNoSlug "RM-alpha" "RL-alpha" "C-Alpha"
      "RM-alpha-2" "RL-alpha-2" "C-Alpha" "RM-alpha-3" "RL-alpha-3" "C-alpha" (by decide)
      ⟨rfl, rfl, rfl, rfl, rfl, rfl⟩ ⟨rfl, rfl, rfl, rfl, rfl, rfl⟩
      ⟨rfl, rfl, rfl, rfl, rfl, rfl⟩).2.2.1⟩

/-! ## The frame of a store write -/

theorem loaded_fix (p : Project) (h : Loaded p) : normalizeProject p = p := by
  obtain ⟨r, hr⟩ := h
  rw [hr, normalizeProject_fix]

theorem cleanForumEntry_idem (o : Option (Option (GoMap String))) :
    cleanForumEntry (cleanForumEntry o) = cleanForumEntry o := by
  cases o with
  | none => rfl
  | some o2 =>
    cases o2 with
    | none => rfl
    | some m => simp only [cleanForumEntry, cleanTagMap_idem]

theorem cleanForumTagsStep_good (M : GoMap (Option (GoMap String))) (k k2 : String)
    (hk : GoodKey k) :
    mapGet (cleanForumTagsStep M k) k2 =
      if k2 = k then cleanForumEntry (mapGet M k) else mapGet M k2 := by
  unfold cleanForumTagsStep
  cases hget : mapGet M k with
  | none =>
    simp only [cleanForumEntry]
    by_cases h : k2 = k
    · rw [if_pos h, h, hget]
    · rw [if_neg h]
  | some o =>
    cases o with
    | none =>
      simp only [cleanForumEntry]
      rw [mapGet_mapDelete]
    | some m =>
      simp only [cleanForumEntry]
      rw [if_neg (by rw [hk.1]; exact hk.2), if_neg (by simpa using hk.1), mapGet_mapSet, hk.1]

theorem cleanForumTags_fold_good (ks : List String) (M : GoMap (Option (GoMap String)))
    (hks : ∀ k ∈ ks, GoodKey k) (k : String) :
    mapGet (ks.foldl cleanForumTagsStep M) k =
      if k ∈ ks then cleanForumEntry (mapGet M k) else mapGet M k := by
  induction ks generalizing M with
  | nil => simp
  | cons k0 ks ih =>
    have hk0 : GoodKey k0 := hks k0 (List.mem_cons_self _ _)
    rw [List.foldl_cons, ih _ (fun k hk => hks k (List.mem_cons_of_mem _ hk)),
      cleanForumTagsStep_good M k0 k hk0]
    by_cases h1 : k = k0
    · subst h1
      simp only [if_true, List.mem_cons, true_or]
      split
      · exact cleanForumEntry_idem _
      · rfl
    · simp [h1]

/-- On a tag mapping whose forum keys are all trimmed and not empty the loop
`Clean ForumTagIDs` cleans every entry in place. -/
theorem cleanForumTags_good (M : GoMap (Option (GoMap String)))
    (hM : ∀ k ∈ mapKeys M, GoodKey k) (k : String) :
    mapGet (cleanForumTags M) k = cleanForumEntry (mapGet M k) := by
  unfold cleanForumTags
  rw [cleanForumTags_fold_good (mapKeys M) M hM k]
  split
  · rfl
  · rename_i h
    rw [(mapGet_eq_none_iff M k).mpr h]
    rfl

theorem loaded_forum_entry (p : Project) (hl : Loaded p) (F : String) :
    cleanForumEntry (mapGet p.ForumTagIDs F) = mapGet p.ForumTagIDs F := by
  obtain ⟨r, hr⟩ := hl
  have h1 : p.ForumTagIDs = cleanForumTags r.ForumTagIDs := by rw [hr]; rfl
  rw [h1]
  cases hg : mapGet (cleanForumTags r.ForumTagIDs) F with
  | none => rfl
  | some o =>
    obtain ⟨m0, hm0⟩ := cleanForumTags_values r.ForumTagIDs F o hg
    rw [hm0]
    simp only [cleanForumEntry, cleanTagMap_idem]

theorem loaded_forum_keys (p : Project) (hl : Loaded p) :
    ∀ k ∈ mapKeys p.ForumTagIDs, GoodKey k := by
  obtain ⟨r, hr⟩ := hl
  rw [hr]
  exact cleanForumTags_keys r.ForumTagIDs

theorem tagsResolved_kept (env : Env) (ctx : taskContext) (p p1 : Project)
    (hF : GoodKey ctx.ForumID) (hne : forumTagMap p ctx.ForumID ≠ [])
    (h : TagsResolved env ctx p p1) : p1 = p := by
  unfold TagsResolved ensureForumTagMapping at h
  simp only [hF.1, if_neg hF.2] at h
  have hlen : (forumTagMap p ctx.ForumID).length > 0 := List.length_pos.mpr hne
  rw [if_pos hlen] at h
  exact (congrArg Prod.fst h).symm

theorem updateFile_other (env : Env) (files files1 : Files) (q : Project)
    (h : updateFile env files q = (none, files1)) (name : String)
    (h1 : name ≠ projectPathBySlug (normalizeProject q).Slug)
    (h2 : name ≠ projectPathBySlug (normalizeProject q).Slug ++ ".tmp") :
    mapGet files1 name = mapGet files name := by
  unfold updateFile at h
  cases hm : env.mkdirErr with
  | some e => rw [hm] at h; cases h
  | none =>
    rw [hm] at h
    simp only at h
    split at h
    · cases h
    · cases hs : env.statErr with
      | some e => rw [hs] at h; cases h
      | none =>
        rw [hs] at h
        simp only at h
        cases hg : mapGet files (projectPathBySlug (normalizeProject q).Slug) with
        | none => rw [hg] at h; cases h
        | some r =>
          rw [hg] at h
          simp only at h
          unfold writeProjectAtomic at h
          cases hw : env.writeErr with
          | some e => rw [hw] at h; cases h
          | none =>
            rw [hw] at h
            simp only at h
            cases hr : env.renameErr with
            | some e => rw [hr] at h; cases h
            | none =>
              rw [hr] at h
              simp only at h
              have := congrArg Prod.snd h
              simp only at this
              rw [← this, created_get, if_neg h1, if_neg h2]

/-! ## The frame of a task command -/

/-- C29. Frame of a task command: after a successful task command in the
thread `ctx.ThreadID` of the forum `ctx.ForumID`, the record file named after
the slug of the resolved project `p` holds a record `q` that has the name,
slug, guild, category and role IDs, members and forum list of `p` as loaded,
the task of `p` under every other thread, and the tag mapping of `p` under
every other forum; the whole tag mapping is that of `p` when `p` held a
mapping for the forum; and every other record file holds what it held
before. -/
theorem task_command_frame (c : TaskCommand) (env : Env) (files : Files)
    (i : InteractionCreate) (hok : Succeeded c (handleTaskCommand c env files i)) :
    ∃ ctx p q, Resolved env files i ctx p ∧
      mapGet (handleTaskCommand c env files i).files (projectPathBySlug p.Slug) = some q ∧
      q.Name = p.Name ∧ q.Slug = p.Slug ∧ q.GuildID = p.GuildID ∧
      q.CategoryID = p.CategoryID ∧ q.MemberRoleID = p.MemberRoleID ∧
      q.LeaderRoleID = p.LeaderRoleID ∧ q.Members = p.Members ∧
      q.ForumChannelIDs = p.ForumChannelIDs ∧
      (∀ tid, tid ≠ ctx.ThreadID → mapGet q.Tasks tid = mapGet p.Tasks tid) ∧
      (∀ F, F ≠ ctx.ForumID → mapGet q.ForumTagIDs F = mapGet p.ForumTagIDs F) ∧
      (forumTagMap p ctx.ForumID ≠ [] → q.ForumTagIDs = p.ForumTagIDs) ∧
      ∀ name, name ≠ projectPathBySlug p.Slug → name ≠ projectPathBySlug p.Slug ++ ".tmp" →
        mapGet (handleTaskCommand c env files i).files name = mapGet files name := by
  obtain ⟨ctx, p, p1, newtask, log0, log1, log2, log3, hres, hens, _, _, _, hupd, _⟩ :=
    succeeded_inv c env files i hok
  have hl : Loaded p := resolved_loaded env files i ctx p hres
  have hframe := ensureForumTagMapping_frame env p p1 ctx.ForumID hens
  obtain ⟨hT, hF⟩ := mustTaskContext_good env i ctx hres.2.1
  have hslug := commit_slug p p1 ctx.ThreadID newtask hl hframe
  have hget := updateFile_get env files _ _ hupd
  rw [hslug] at hget
  have hfix := loaded_fix p hl
  have hscal : ∀ X : Project, X.Name = p.Name → X.GuildID = p.GuildID →
      X.CategoryID = p.CategoryID → X.MemberRoleID = p.MemberRoleID →
      X.LeaderRoleID = p.LeaderRoleID →
      (normalizeProject X).Name = p.Name ∧ (normalizeProject X).GuildID = p.GuildID ∧
      (normalizeProject X).CategoryID = p.CategoryID ∧
      (normalizeProject X).MemberRoleID = p.MemberRoleID ∧
      (normalizeProject X).LeaderRoleID = p.LeaderRoleID := by
    intro X h1 h2 h3 h4 h5
    have e1 : (normalizeProject p).Name = p.Name := by rw [hfix]
    have e2 : (normalizeProject p).GuildID = p.GuildID := by rw [hfix]
    have e3 : (normalizeProject p).CategoryID = p.CategoryID := by rw [hfix]
    have e4 : (normalizeProject p).MemberRoleID = p.MemberRoleID := by rw [hfix]
    have e5 : (normalizeProject p).LeaderRoleID = p.LeaderRoleID := by rw [hfix]
    simp only [normalizeProject] at e1 e2 e3 e4 e5 ⊢
    rw [h1, h2, h3, h4, h5]
    exact ⟨e1, e2, e3, e4, e5⟩
  have hp1 : p1.Name = p.Name ∧ p1.GuildID = p.GuildID ∧ p1.CategoryID = p.CategoryID ∧
      p1.MemberRoleID = p.MemberRoleID ∧ p1.LeaderRoleID = p.LeaderRoleID ∧
      p1.Members = p.Members ∧ p1.ForumChannelIDs = p.ForumChannelIDs := by
    rw [hframe]
    exact ⟨rfl, rfl, rfl, rfl, rfl, rfl, rfl⟩
  obtain ⟨a1, a2, a3, a4, a5, a6, a7⟩ := hp1
  obtain ⟨b1, b2, b3, b4, b5⟩ :=
    hscal { p1 with Tasks := mapSet p1.Tasks ctx.ThreadID newtask } a1 a2 a3 a4 a5
  have htasks := persisted_tasks env files _ p p1 ctx.ThreadID newtask hl hframe hT hupd
  have hqft :
      (normalizeProject
        { p1 with Tasks := mapSet p1.Tasks ctx.ThreadID newtask }).ForumTagIDs =
      cleanForumTags p1.ForumTagIDs := rfl
  have hpft : cleanForumTags p.ForumTagIDs = p.ForumTagIDs := by
    have := congrArg Project.ForumTagIDs hfix
    exact this
  refine ⟨ctx, p, _, hres, hget, b1, hslug, b2, b3, b4, b5, a6, a7, ?_, ?_, ?_, ?_⟩
  · intro tid htid
    have := htasks tid
    unfold persistedTask at this
    rw [hget, if_neg htid] at this
    exact this
  · intro F hFne
    rw [hqft]
    rcases tagsResolved_cases env ctx p p1 hF hens with h | ⟨ch, _, h⟩
    · rw [h, hpft]
    · have hft : p1.ForumTagIDs =
          mapSet p.ForumTagIDs ctx.ForumID (some (collectTagIDs ch.AvailableTags)) := by
        rw [h]
      rw [hft, cleanForumTags_good, mapGet_mapSet, if_neg hFne, loaded_forum_entry p hl F]
      intro k hk
      rcases (mem_mapKeys_mapSet _ _ _ _).mp hk with h2 | h2
      · rw [h2]; exact hF
      · exact loaded_forum_keys p hl k h2
  · intro hne
    rw [hqft, tagsResolved_kept env ctx p p1 hF hne hens, hpft]
  · intro name h1 h2
    apply updateFile_other env files _ _ hupd name
    · rw [hslug]; exact h1
    · rw [hslug]; exact h2

theorem task_command_frame_witness :
    Succeeded TaskCommand.taskTake
      (handleTaskCommand TaskCommand.taskTake exEnv
        (exFiles [("T", exTask TaskToDo "" "" ""), ("T2", exTask TaskDone "M" "d" "L")])
        (exCall "M" ["RM"])) ∧
    ∃ ctx p q,
      Resolved exEnv
        (exFiles [("T", exTask TaskToDo "" "" ""), ("T2", exTask TaskDone "M" "d" "L")])
        (exCall "M" ["RM"]) ctx p ∧
      mapGet (handleTaskCommand TaskCommand.taskTake exEnv
        (exFiles [("T", exTask TaskToDo "" "" ""), ("T2", exTask TaskDone "M" "d" "L")])
        (exCall "M" ["RM"])).files (projectPathBySlug p.Slug) = some q ∧
      q.Members = p.Members ∧
      ∀ tid, tid ≠ ctx.ThreadID → mapGet q.Tasks tid = mapGet p.Tasks tid := by
  refine ⟨by decide, ?_⟩
  obtain ⟨ctx, p, q, h1, h2, _, _, _, _, _, _, h3, _, h4, _⟩ :=
    task_command_frame TaskCommand.taskTake exEnv
      (exFiles [("T", exTask TaskToDo "" "" ""), ("T2", exTask TaskDone "M" "d" "L")])
      (exCall "M" ["RM"]) (by decide)
  exact ⟨ctx, p, q, h1, h2, h3, h4⟩

/-! ## Task commands and the members map -/

theorem eraseMembersAll_idem (files : GoMap Project) :
    eraseMembersAll (eraseMembersAll files) = eraseMembersAll files := by
  unfold eraseMembersAll
  rw [List.map_map]
  rfl

theorem mapGet_erase (m : GoMap Project) (k : String) :
    mapGet (eraseMembersAll m) k = (mapGet m k).map eraseMembers := by
  induction m with
  | nil => rfl
  | cons e rest ih =>
    obtain ⟨k1, v⟩ := e
    have : eraseMembersAll ((k1, v) :: rest) = (k1, eraseMembers v) :: eraseMembersAll rest := rfl
    rw [this]
    by_cases h : k1 = k
    · simp [mapGet, h]
    · simp only [mapGet, h, if_false]
      exact ih

theorem mapDelete_erase (m : GoMap Project) (k : String) :
    mapDelete (eraseMembersAll m) k = eraseMembersAll (mapDelete m k) := by
  unfold mapDelete eraseMembersAll
  rw [List.filter_map]
  rfl

theorem mapSet_erase (m : GoMap Project) (k : String) (v : Project) :
    mapSet (eraseMembersAll m) k (eraseMembers v) = eraseMembersAll (mapSet m k v) := by
  induction m with
  | nil => rfl
  | cons e rest ih =>
    obtain ⟨k1, v1⟩ := e
    have e1 : eraseMembersAll ((k1, v1) :: rest) =
        (k1, eraseMembers v1) :: eraseMembersAll rest := rfl
    rw [e1]
    by_cases h : k1 = k
    · simp only [mapSet, h, if_true]
      rw [mapDelete_erase]
      rfl
    · simp only [mapSet, h, if_false]
      rw [ih]
      rfl

theorem normalizeProject_erase (p : Project) :
    normalizeProject (eraseMembers p) = eraseMembers (normalizeProject p) := rfl

theorem loadStep_erase (out : GoMap Project) (name : String) (r : Project) :
    loadStep (eraseMembersAll out) (name, eraseMembers r) =
      eraseMembersAll (loadStep out (name, r)) := by
  rw [loadStep_eq, loadStep_eq]
  simp only
  split
  · rfl
  · split
    · rfl
    · rw [normalizeProject_erase]
      exact mapSet_erase out _ _

theorem load_fold_erase (files : Files) (out : GoMap Project) :
    (eraseMembersAll files).foldl loadStep (eraseMembersAll out) =
      eraseMembersAll (files.foldl loadStep out) := by
  induction files generalizing out with
  | nil => rfl
  | cons e rest ih =>
    obtain ⟨name, r⟩ := e
    have e1 : eraseMembersAll ((name, r) :: rest) =
        (name, eraseMembers r) :: eraseMembersAll rest := rfl
    rw [e1, List.foldl_cons, List.foldl_cons, loadStep_erase, ih]

theorem load_erase_ok (env : Env) (files : Files) (projects : GoMap Project)
    (h : load_all_files env files = Except.ok projects) :
    load_all_files env (eraseMembersAll files) = Except.ok (eraseMembersAll projects) := by
  unfold load_all_files at h ⊢
  cases he : env.loadErr with
  | some e => rw [he] at h; cases h
  | none =>
    rw [he] at h
    simp only at h ⊢
    cases h
    exact congrArg Except.ok (load_fold_erase files [])

theorem load_erase_err (env : Env) (files : Files) (err : String)
    (h : load_all_files env files = Except.error err) :
    load_all_files env (eraseMembersAll files) = Except.error err := by
  unfold load_all_files at h ⊢
  cases he : env.loadErr with
  | some e => rw [he] at h; simp only at h ⊢; exact h
  | none => rw [he] at h; cases h

theorem filter_erase (projects : GoMap Project) (g f : String) :
    ((eraseMembersAll projects).map Prod.snd).filter (projectMatches g f) =
      ((projects.map Prod.snd).filter (projectMatches g f)).map eraseMembers := by
  induction projects with
  | nil => rfl
  | cons e rest ih =>
    have e1 : eraseMembersAll (e :: rest) = (e.1, eraseMembers e.2) :: eraseMembersAll rest := rfl
    have e2 : projectMatches g f (eraseMembers e.2) = projectMatches g f e.2 := rfl
    rw [e1, List.map_cons, List.map_cons, List.filter_cons, List.filter_cons, e2]
    split
    · rw [List.map_cons, ih]
    · exact ih

theorem find_erase (projects : GoMap Project) (g f hint : String) (p : Project) (b : Bool)
    (h : findProjectByThreadContext projects g f = (p, b, hint)) :
    findProjectByThreadContext (eraseMembersAll projects) g f = (eraseMembers p, b, hint) := by
  have hl := filter_erase projects (trimSpace g) (trimSpace f)
  unfold findProjectByThreadContext at h ⊢
  simp only at h ⊢
  by_cases h1 : trimSpace g = ""
  · rw [if_pos h1] at h ⊢
    cases h
    rfl
  · rw [if_neg h1] at h ⊢
    by_cases h2 : trimSpace f = ""
    · rw [if_pos h2] at h ⊢
      cases h
      rfl
    · rw [if_neg h2] at h ⊢
      rw [hl]
      cases hfl : (projects.map Prod.snd).filter
          (projectMatches (trimSpace g) (trimSpace f)) with
      | nil =>
        rw [hfl] at h
        simp only at h
        cases h
        rfl
      | cons a rest =>
        cases rest with
        | nil =>
          rw [hfl] at h
          simp only at h
          cases h
          rfl
        | cons b2 rest2 =>
          rw [hfl] at h
          simp only at h
          cases h
          rfl

theorem ensure_erase (env : Env) (p p1 : Project) (F : String) (err : Option String)
    (h : ensureForumTagMapping env p F = (p1, err)) :
    ensureForumTagMapping env (eraseMembers p) F = (eraseMembers p1, err) := by
  have e : ensureForumTagMapping env (eraseMembers p) F =
      (eraseMembers (ensureForumTagMapping env p F).1, (ensureForumTagMapping env p F).2) := by
    unfold ensureForumTagMapping
    simp only
    have hm : ∀ x, forumTagMap (eraseMembers p) x = forumTagMap p x := fun _ => rfl
    rw [hm]
    split
    · rfl
    · split
      · rfl
      · cases getChannelSafe env (trimSpace F) with
        | error e => rfl
        | ok o =>
          cases o with
          | none => rfl
          | some ch =>
            simp only
            split <;> rfl
  rw [e, h]

theorem getAuthorID_erase (i : InteractionCreate) : getAuthorID (eraseRoles i) = getAuthorID i := by
  obtain ⟨g, ch, m, u⟩ := i
  cases m with
  | none => rfl
  | some m =>
    obtain ⟨mu, roles⟩ := m
    cases mu <;> rfl

theorem updateFile_erase (env : Env) (files : Files) (q : Project) :
    updateFile env (eraseMembersAll files) (eraseMembers q) =
      ((updateFile env files q).1, eraseMembersAll (updateFile env files q).2) := by
  unfold updateFile
  cases env.mkdirErr with
  | some e => rfl
  | none =>
    simp only [normalizeProject_erase]
    have hs : (eraseMembers (normalizeProject q)).Slug = (normalizeProject q).Slug := rfl
    rw [hs]
    split
    · rfl
    · cases env.statErr with
      | some e => rfl
      | none =>
        simp only
        rw [mapGet_erase]
        cases mapGet files (projectPathBySlug (normalizeProject q).Slug) with
        | none => rfl
        | some r =>
          simp only [Option.map_some']
          unfold writeProjectAtomic
          cases env.writeErr with
          | some e => rfl
          | none =>
            simp only
            cases env.renameErr with
            | some e =>
              simp only
              rw [mapSet_erase]
            | none =>
              simp only
              rw [mapSet_erase, mapDelete_erase, mapSet_erase]

theorem externalWrites_append (a b : List Effect) :
    externalWrites (a ++ b) = externalWrites a ++ externalWrites b := by
  unfold externalWrites
  rw [List.filter_append]

theorem observe_respond (files : Files) (log : List Effect) (msg : String) :
    observe (respondEphemeral files log msg) =
      (msg, externalWrites log ++ [Effect.respond msg], eraseMembersAll files) := by
  unfold observe respondEphemeral
  simp only [externalWrites_append]
  rfl

theorem externalWrites_store (log : List Effect) (path : String) (q : Project) :
    externalWrites (log ++ [Effect.storeWrite path q]) = externalWrites log := by
  rw [externalWrites_append]
  have : externalWrites [Effect.storeWrite path q] = [] := rfl
  rw [this, List.append_nil]

theorem commitTask_observe (env : Env) (files : Files) (p1 : Project) (ctx : taskContext)
    (task : ProjectTask) (log3 : List Effect) (okmsg : String) :
    observe (commitTask env (eraseMembersAll files) (eraseMembers p1) ctx task log3 okmsg) =
      observe (commitTask env files p1 ctx task log3 okmsg) := by
  have ha : applyStatusTagToThread env (eraseMembers p1) ctx.ForumID ctx.ThreadID task.Status =
      applyStatusTagToThread env p1 ctx.ForumID ctx.ThreadID task.Status := rfl
  have hu : upsertStatusPanel env (eraseMembers p1) task = upsertStatusPanel env p1 task := rfl
  have hupd : updateFile env (eraseMembersAll files)
      { eraseMembers p1 with Tasks := mapSet (eraseMembers p1).Tasks ctx.ThreadID task } =
      ((updateFile env files { p1 with Tasks := mapSet p1.Tasks ctx.ThreadID task }).1,
        eraseMembersAll
          (updateFile env files { p1 with Tasks := mapSet p1.Tasks ctx.ThreadID task }).2) :=
    updateFile_erase env files { p1 with Tasks := mapSet p1.Tasks ctx.ThreadID task }
  unfold commitTask
  rw [ha, hu, hupd]
  cases applyStatusTagToThread env p1 ctx.ForumID ctx.ThreadID task.Status with
  | error err => simp only [observe_respond, eraseMembersAll_idem]
  | ok log1 =>
    simp only
    rcases upsertStatusPanel env p1 task with ⟨r, log2⟩
    cases r with
    | some e => simp only [observe_respond, eraseMembersAll_idem]
    | none =>
      simp only
      rcases updateFile env files { p1 with Tasks := mapSet p1.Tasks ctx.ThreadID task } with
        ⟨r2, files1⟩
      cases r2 with
      | some e => simp only [observe_respond, eraseMembersAll_idem]
      | none => simp only [observe_respond, eraseMembersAll_idem, externalWrites_store]

theorem initCore_observe (env : Env) (files : Files) (p1 : Project) (ctx : taskContext) :
    observe (initCore env (eraseMembersAll files) (eraseMembers p1) ctx) =
      observe (initCore env files p1 ctx) := by
  have ht : (eraseMembers p1).Tasks = p1.Tasks := rfl
  have he : ∀ t, ensureStatusPanel env (eraseMembers p1) t = ensureStatusPanel env p1 t :=
    fun _ => rfl
  have ha : ∀ st, applyStatusTagToThread env (eraseMembers p1) ctx.ForumID ctx.ThreadID st =
      applyStatusTagToThread env p1 ctx.ForumID ctx.ThreadID st := fun _ => rfl
  have hu : ∀ t, upsertStatusPanel env (eraseMembers p1) t = upsertStatusPanel env p1 t :=
    fun _ => rfl
  have hupd : ∀ X, updateFile env (eraseMembersAll files) { eraseMembers p1 with Tasks := X } =
      ((updateFile env files { p1 with Tasks := X }).1,
        eraseMembersAll (updateFile env files { p1 with Tasks := X }).2) :=
    fun X => updateFile_erase env files { p1 with Tasks := X }
  unfold initCore
  simp only [ht, he, ha, hu, hupd]
  rcases ensureStatusPanel env p1
    (initTaskFirst ctx ((mapGet p1.Tasks ctx.ThreadID).getD ProjectTask.zero)) with ⟨r0, log0⟩
  cases r0 with
  | error err => simp only [observe_respond, eraseMembersAll_idem]
  | ok msgID =>
    simp only
    cases applyStatusTagToThread env p1 ctx.ForumID ctx.ThreadID
      (initTask ctx ((mapGet p1.Tasks ctx.ThreadID).getD ProjectTask.zero) msgID).Status with
    | error err => simp only [observe_respond, eraseMembersAll_idem]
    | ok log1 =>
      simp only
      rcases upsertStatusPanel env p1
        (initTask ctx ((mapGet p1.Tasks ctx.ThreadID).getD ProjectTask.zero) msgID) with
        ⟨r, log2⟩
      cases r with
      | some e => simp only [observe_respond, eraseMembersAll_idem]
      | none =>
        simp only
        rcases updateFile env files
          { p1 with
            Tasks := mapSet p1.Tasks ctx.ThreadID
              (initTask ctx ((mapGet p1.Tasks ctx.ThreadID).getD ProjectTask.zero) msgID) } with
          ⟨r2, files1⟩
        cases r2 with
        | some e => simp only [observe_respond, eraseMembersAll_idem]
        | none =>
          simp only
          split <;> simp only [observe_respond, eraseMembersAll_idem, externalWrites_store]

theorem take_observe (env : Env) (files : Files) (i : InteractionCreate) :
    observe (handleKanbanTaskTake env (eraseMembersAll files) (eraseRoles i)) =
      observe (handleKanbanTaskTake env files i) := by
  have hg2 : mustGuild (eraseRoles i) = mustGuild i := rfl
  have ha2 := getAuthorID_erase i
  have hc2 : mustTaskContext env (eraseRoles i) = mustTaskContext env i := rfl
  cases hg : mustGuild i with
  | some err =>
    have hg' := hg2.trans hg
    unfold handleKanbanTaskTake
    simp only [hg, hg', observe_respond, eraseMembersAll_idem]
  | none =>
  have hg' := hg2.trans hg
  by_cases hc : getAuthorID i = ""
  · rw [take_no_author env files i hg hc, take_no_author env _ _ hg' (ha2.trans hc)]
    simp only [observe_respond, eraseMembersAll_idem]
  have hc' : getAuthorID (eraseRoles i) ≠ "" := by rw [ha2]; exact hc
  cases hctx : mustTaskContext env i with
  | error msg =>
    have hctx' := hc2.trans hctx
    unfold handleKanbanTaskTake
    simp only [hg, hg', hc, hc', hctx, hctx', ↓reduceIte, observe_respond,
      eraseMembersAll_idem]
  | ok ctx =>
  have hctx' := hc2.trans hctx
  cases hload : load_all_files env files with
  | error err =>
    have hload' := load_erase_err env files err hload
    unfold handleKanbanTaskTake
    simp only [hg, hg', hc, hc', hctx, hctx', hload, hload', ↓reduceIte, observe_respond,
      eraseMembersAll_idem]
  | ok projects =>
  have hload' := load_erase_ok env files projects hload
  rcases hfind : findProjectByThreadContext projects i.GuildID ctx.ForumID with ⟨p, b, hint⟩
  have hfind' : findProjectByThreadContext (eraseMembersAll projects) (eraseRoles i).GuildID
      ctx.ForumID = (eraseMembers p, b, hint) :=
    find_erase projects i.GuildID ctx.ForumID hint p b hfind
  cases b with
  | false =>
    unfold handleKanbanTaskTake
    simp only [hg, hg', hc, hc', hctx, hctx', hload, hload', hfind, hfind', ↓reduceIte,
      observe_respond, eraseMembersAll_idem]
  | true =>
  have hres : Resolved env files i ctx p := ⟨hg, hctx, projects, hint, hload, hfind⟩
  have hres' : Resolved env (eraseMembersAll files) (eraseRoles i) ctx (eraseMembers p) :=
    ⟨hg', hctx', eraseMembersAll projects, hint, hload', hfind'⟩
  rcases hens : ensureForumTagMapping env p ctx.ForumID with ⟨p1, err⟩
  have hens' := ensure_erase env p p1 ctx.ForumID err hens
  cases err with
  | some e =>
    rw [take_tags_failed env files i ctx p p1 e hres hc hens,
      take_tags_failed env _ _ ctx _ _ e hres' hc' hens']
    simp only [observe_respond, eraseMembersAll_idem]
  | none =>
  have hframe := ensureForumTagMapping_frame env p p1 _ hens
  cases htask : mapGet p.Tasks ctx.ThreadID with
  | none =>
    have htask1 : mapGet p1.Tasks ctx.ThreadID = none := by rw [hframe]; exact htask
    have htask1' : mapGet (eraseMembers p1).Tasks ctx.ThreadID = none := htask1
    unfold handleKanbanTaskTake
    simp only [hg, hg', hc, hc', hctx, hctx', hload, hload', hfind, hfind', hens, hens',
      htask1, htask1', ↓reduceIte, observe_respond, eraseMembersAll_idem]
  | some task =>
    have htask' : mapGet (eraseMembers p).Tasks ctx.ThreadID = some task := htask
    rw [take_eq env files i ctx p p1 task hres hens hc htask,
      take_eq env _ _ ctx _ _ task hres' hens' hc' htask', ha2]
    split
    · simp only [observe_respond, eraseMembersAll_idem]
    · split
      · simp only [observe_respond, eraseMembersAll_idem]
      · exact commitTask_observe env files p1 ctx _ _ _

theorem init_observe (env : Env) (files : Files) (i : InteractionCreate) :
    observe (handleKanbanTaskInit env (eraseMembersAll files) (eraseRoles i)) =
      observe (handleKanbanTaskInit env files i) := by
  have hg2 : mustGuild (eraseRoles i) = mustGuild i := rfl
  have hc2 : mustTaskContext env (eraseRoles i) = mustTaskContext env i := rfl
  cases hg : mustGuild i with
  | some err =>
    have hg' := hg2.trans hg
    unfold handleKanbanTaskInit
    simp only [hg, hg', observe_respond, eraseMembersAll_idem]
  | none =>
  have hg' := hg2.trans hg
  cases hctx : mustTaskContext env i with
  | error msg =>
    have hctx' := hc2.trans hctx
    unfold handleKanbanTaskInit
    simp only [hg, hg', hctx, hctx', observe_respond, eraseMembersAll_idem]
  | ok ctx =>
  have hctx' := hc2.trans hctx
  cases hload : load_all_files env files with
  | error err =>
    have hload' := load_erase_err env files err hload
    unfold handleKanbanTaskInit
    simp only [hg, hg', hctx, hctx', hload, hload', observe_respond, eraseMembersAll_idem]
  | ok projects =>
  have hload' := load_erase_ok env files projects hload
  rcases hfind : findProjectByThreadContext projects i.GuildID ctx.ForumID with ⟨p, b, hint⟩
  have hfind' : findProjectByThreadContext (eraseMembersAll projects) (eraseRoles i).GuildID
      ctx.ForumID = (eraseMembers p, b, hint) :=
    find_erase projects i.GuildID ctx.ForumID hint p b hfind
  cases b with
  | false =>
    unfold handleKanbanTaskInit
    simp only [hg, hg', hctx, hctx', hload, hload', hfind, hfind', observe_respond,
      eraseMembersAll_idem]
  | true =>
  have hres : Resolved env files i ctx p := ⟨hg, hctx, projects, hint, hload, hfind⟩
  have hres' : Resolved env (eraseMembersAll files) (eraseRoles i) ctx (eraseMembers p) :=
    ⟨hg', hctx', eraseMembersAll projects, hint, hload', hfind'⟩
  rcases hens : ensureForumTagMapping env p ctx.ForumID with ⟨p1, err⟩
  have hens' := ensure_erase env p p1 ctx.ForumID err hens
  cases err with
  | some e =>
    rw [init_tags_failed env files i ctx p p1 e hres hens,
      init_tags_failed env _ _ ctx _ _ e hres' hens']
    simp only [observe_respond, eraseMembersAll_idem]
  | none =>
    rw [init_eq env files i ctx p p1 hres hens, init_eq env _ _ ctx _ _ hres' hens']
    exact initCore_observe env files p1 ctx

theorem persistedTask_erase (files : Files) (slug T : String) :
    persistedTask (eraseMembersAll files) slug T = persistedTask files slug T := by
  unfold persistedTask
  rw [mapGet_erase]
  cases mapGet files (projectPathBySlug slug) with
  | none => rfl
  | some r => rfl

theorem not_leader_erased (i : InteractionCreate) (a : String) (p : Project) :
    isLeaderForProject (eraseRoles i) a (eraseMembers p) = false := by
  obtain ⟨g, ch, m, u⟩ := i
  unfold isLeaderForProject
  have h1 : ¬ ((eraseRoles ⟨g, ch, m, u⟩).Member.isSome ∧
      trimSpace (eraseMembers p).LeaderRoleID ≠ "" ∧
      memberHasRole (eraseRoles ⟨g, ch, m, u⟩).Member (eraseMembers p).LeaderRoleID = true) := by
    rintro ⟨_, _, h⟩
    cases m with
    | none => simp [eraseRoles, memberHasRole] at h
    | some m => simp [eraseRoles, memberHasRole] at h
  rw [if_neg h1]
  split
  · simp [eraseMembers, mapGet, Leader]
  · rfl

/-! ## task-init and task-take do not look at roles or membership -/

/-- C30. task-init and task-take do not depend on who the caller is beyond
the caller's ID: two invocations that differ only in the live role list of
the caller and in the content of the members maps of the records give the
same response, the same writes to the platform and the same persisted tasks
(the files afterwards differ only in the members maps). In particular the
outcome is that of the caller without any role on records without any
member, who is neither a leader nor a member of any project. -/
theorem init_take_ignore_membership (c : TaskCommand)
    (hc : c = TaskCommand.taskInit ∨ c = TaskCommand.taskTake) (env : Env)
    (files files2 : Files) (i i2 : InteractionCreate)
    (hi : eraseRoles i2 = eraseRoles i)
    (hf : eraseMembersAll files2 = eraseMembersAll files) :
    (handleTaskCommand c env files2 i2).response = (handleTaskCommand c env files i).response ∧
    externalWrites (handleTaskCommand c env files2 i2).log =
      externalWrites (handleTaskCommand c env files i).log ∧
    (∀ slug T, persistedTask (handleTaskCommand c env files2 i2).files slug T =
      persistedTask (handleTaskCommand c env files i).files slug T) ∧
    eraseMembersAll (handleTaskCommand c env files2 i2).files =
      eraseMembersAll (handleTaskCommand c env files i).files ∧
    (handleTaskCommand c env (eraseMembersAll files) (eraseRoles i)).response =
      (handleTaskCommand c env files i).response ∧
    ∀ p, isLeaderForProject (eraseRoles i) (getAuthorID i) (eraseMembers p) = false ∧
      mapGet (eraseMembers p).Members (getAuthorID i) = none := by
  have hobs : ∀ f j, observe (handleTaskCommand c env (eraseMembersAll f) (eraseRoles j)) =
      observe (handleTaskCommand c env f j) := by
    intro f j
    rcases hc with h | h
    · rw [h]; exact init_observe env f j
    · rw [h]; exact take_observe env f j
  have h2 : observe (handleTaskCommand c env files2 i2) =
      observe (handleTaskCommand c env files i) := by
    rw [← hobs files2 i2, ← hobs files i, hi, hf]
  have h3 := hobs files i
  unfold observe at h2 h3
  simp only [Prod.mk.injEq] at h2 h3
  obtain ⟨r1, r2, r3⟩ := h2
  refine ⟨r1, r2, ?_, r3, h3.1, fun p => ⟨not_leader_erased i _ p, rfl⟩⟩
  intro slug T
  rw [← persistedTask_erase (handleTaskCommand c env files2 i2).files,
    ← persistedTask_erase (handleTaskCommand c env files i).files, r3]

theorem init_take_ignore_membership_witness :
    (TaskCommand.taskTake = TaskCommand.taskInit ∨
      TaskCommand.taskTake = TaskCommand.taskTake) ∧
    eraseRoles (exCall "X" []) = eraseRoles (exCall "X" ["RL"]) ∧
    eraseMembersAll [("alpha.json", eraseMembers (exProject [("T", exTask TaskToDo "" "" "")]))] =
      eraseMembersAll (exFiles [("T", exTask TaskToDo "" "" "")]) ∧
    (handleTaskCommand TaskCommand.taskTake exEnv
      [("alpha.json", eraseMembers (exProject [("T", exTask TaskToDo "" "" "")]))]
      (exCall "X" [])).response = "taken ✅ (status set to InProgress)" ∧
    (handleTaskCommand TaskCommand.taskTake exEnv
      [("alpha.json", eraseMembers (exProject [("T", exTask TaskToDo "" "" "")]))]
      (exCall "X" [])).response =
      (handleTaskCommand TaskCommand.taskTake exEnv (exFiles [("T", exTask TaskToDo "" "" "")])
        (exCall "X" ["RL"])).response :=
  ⟨by decide, by decide, by decide, by decide,
    (init_take_ignore_membership TaskCommand.taskTake (by decide) exEnv
      (exFiles [("T", exTask TaskToDo "" "" "")])
      [("alpha.json", eraseMembers (exProject [("T", exTask TaskToDo "" "" "")]))]
      (exCall "X" ["RL"]) (exCall "X" []) (by decide) (by decide)).1⟩

/-! ## The tag written and the tag mapping the command used -/

/-- The names of the tag mapping a command resolved are trimmed when the
record held the mapping, and when the platform reports trimmed names. -/
theorem tagsResolved_trimmed (env : Env) (ctx : taskContext) (p p1 : Project) (hl : Loaded p)
    (hF : GoodKey ctx.ForumID) (h : TagsResolved env ctx p p1)
    (hcond : forumTagMap p ctx.ForumID ≠ [] ∨
      ∀ ch, getChannelSafe env ctx.ForumID = Except.ok (some ch) →
        ∀ tag ∈ ch.AvailableTags, trimSpace tag.Name = tag.Name) :
    ∀ k ∈ mapKeys (forumTagMap p1 ctx.ForumID), trimSpace k = k := by
  rcases hcond with hne | hplat
  · rw [tagsResolved_kept env ctx p p1 hF hne h]
    exact loaded_tag_names p hl ctx.ForumID
  · exact tagsResolved_names env ctx p p1 hl hF h hplat

/-- The tag mapping a command resolved is the one of the record when the
record holds one for the forum, and otherwise the tags the platform reports
for the forum. -/
theorem tagsResolved_source (env : Env) (ctx : taskContext) (p p1 : Project)
    (hF : GoodKey ctx.ForumID) (h : TagsResolved env ctx p p1) :
    (forumTagMap p ctx.ForumID ≠ [] ∧ forumTagMap p1 ctx.ForumID = forumTagMap p ctx.ForumID) ∨
    (forumTagMap p ctx.ForumID = [] ∧
      ∃ ch, getChannelSafe env ctx.ForumID = Except.ok (some ch) ∧
        forumTagMap p1 ctx.ForumID = collectTagIDs ch.AvailableTags) := by
  by_cases hne : forumTagMap p ctx.ForumID = []
  · right
    refine ⟨hne, ?_⟩
    rcases tagsResolved_cases env ctx p p1 hF h with h1 | ⟨ch, hch, h1⟩
    · exfalso
      unfold TagsResolved ensureForumTagMapping at h
      simp only [hF.1, if_neg hF.2, hne, List.length_nil, gt_iff_lt, lt_self_iff_false,
        if_false] at h
      rw [h1] at h
      split at h
      · cases h
      · cases h
      · split at h
        · cases h
        · have := congrArg (fun x => forumTagMap x.1 ctx.ForumID) h
          simp only [forumTagMap, mapGet_mapSet, if_true, Option.getD_some] at this
          rename_i hlen
          apply hlen
          have h4 : forumTagMap p ctx.ForumID = [] := hne
          unfold forumTagMap at h4
          rw [h4] at this
          rw [this]
          rfl
    · refine ⟨ch, hch, ?_⟩
      rw [h1]
      unfold forumTagMap
      simp only [mapGet_mapSet, if_true, Option.getD_some]
  · left
    refine ⟨hne, ?_⟩
    rw [tagsResolved_kept env ctx p p1 hF hne h]

/-- After a successful invocation: the persisted task and record, the tag
mapping the command resolved, the tag written last to the thread, and the
entry of the persisted mapping for the status of the persisted task. -/
theorem success_tag_used (c : TaskCommand) (env : Env) (files : Files)
    (i : InteractionCreate) (ctx : taskContext) (p : Project)
    (hres : Resolved env files i ctx p)
    (hok : Succeeded c (handleTaskCommand c env files i)) :
    ∃ t q p1 v id,
      persistedTask (handleTaskCommand c env files i).files p.Slug ctx.ThreadID = some t ∧
      mapGet (handleTaskCommand c env files i).files (projectPathBySlug p.Slug) = some q ∧
      t.Status ∈ allStatuses ∧ TagsResolved env ctx p p1 ∧
      mapGet (forumTagMap p1 ctx.ForumID) (statusToTagName t.Status) = some v ∧
      trimSpace v ≠ "" ∧
      lastTagWrite (handleTaskCommand c env files i).log ctx.ThreadID = some [trimSpace v] ∧
      mapGet (forumTagMap q ctx.ForumID) (statusToTagName t.Status) = some id ∧ id ≠ "" ∧
      ((forumTagMap p ctx.ForumID ≠ [] ∨
          ∀ ch, getChannelSafe env ctx.ForumID = Except.ok (some ch) →
            ∀ tag ∈ ch.AvailableTags, trimSpace tag.Name = tag.Name) →
        id = trimSpace v) := by
  obtain ⟨ctx2, p2, p1, newtask, log0, log1, log2, log3, hres2, hens, hct, happ, _, hupd, hlog,
    h0, h2, h3⟩ := succeeded_inv c env files i hok
  obtain ⟨e1, e2⟩ := resolved_unique env files i ctx ctx2 p p2 hres hres2
  subst e1
  subst e2
  have hl := resolved_loaded env files i ctx2 p2 hres
  have hframe := ensureForumTagMapping_frame env p2 p1 _ hens
  have hgood := mustTaskContext_good env i ctx2 hres.2.1
  obtain ⟨hst, _⟩ := commandTask_facts c env i ctx2 p2 p1 newtask hl hframe hct
  have hpers := persisted_tasks env files _ p2 p1 ctx2.ThreadID newtask hl hframe hgood.1 hupd
    ctx2.ThreadID
  rw [if_pos rfl] at hpers
  have hget := updateFile_get env files _ _ hupd
  rw [commit_slug p2 p1 ctx2.ThreadID newtask hl hframe] at hget
  obtain ⟨v, hv, hvne, hl1, ⟨id, ha1, ha2⟩, _⟩ := persisted_tag env ctx2 p2 p1 newtask.Status
    log1 (mapSet p1.Tasks ctx2.ThreadID newtask) hl hens hgood.1 hgood.2 happ
  have hstn : (normalizeTask ctx2.ThreadID newtask).Status = newtask.Status :=
    normalizeTask_status _ _ hst
  refine ⟨_, _, p1, v, id, hpers, hget, ?_, hens, ?_, hvne, ?_, ?_, ha2, ?_⟩
  · rw [hstn]; exact hst
  · rw [hstn]; exact hv
  · rw [hlog, hl1]
    simp only [List.append_assoc, List.singleton_append]
    refine lastTagWrite_one log0 (log2 ++ (log3 ++ [_, _])) _ _ h0 ?_
    intro x hx
    rcases List.mem_append.mp hx with hx | hx
    · exact h2 x hx
    · rcases List.mem_append.mp hx with hx | hx
      · exact h3 x hx
      · rcases List.mem_cons.mp hx with hx | hx
        · rw [hx]; rfl
        · rw [List.mem_singleton.mp hx]; rfl
  · rw [hstn]; exact ha1
  · intro hcond
    have hK := tagsResolved_trimmed env ctx2 p2 p1 hl hgood.2 hens hcond
    have hname : statusToTagName newtask.Status ≠ "" :=
      (applyStatusTag_log env p1 _ _ _ log1 happ).2.1
    have hn := tagName_good newtask.Status hname
    have hkeys := tagsResolved_keys env ctx2 p2 p1 hl hgood.2 hens
    have hid : trimSpace ((mapGet (forumTagMap p1 ctx2.ForumID)
        (statusToTagName newtask.Status)).getD "") ≠ "" := by
      rw [hv]
      exact hvne
    obtain ⟨m, v2, hm, hfm, hv2, _⟩ := forumTagMap_entry p1 ctx2.ForumID _ hid
    rw [hfm] at hv hK
    rw [hv] at hv2
    obtain ⟨m2, hm2, hv3⟩ := cleanForumTags_value p1.ForumTagIDs ctx2.ForumID _ v m hkeys hn hm
      hK hv hvne
    have hq : mapGet (forumTagMap
        (normalizeProject { p1 with Tasks := mapSet p1.Tasks ctx2.ThreadID newtask })
        ctx2.ForumID) (statusToTagName newtask.Status) = some (trimSpace v) := by
      unfold forumTagMap
      simp only [normalizeProject, hm2, Option.getD_some]
      exact hv3
    rw [ha1] at hq
    injection hq

/-! ## The tag of the thread and the tag mapping of the command -/

/-- Counterexample to C18 as stated: the forum has the tags `ToDo` (ID `1`)
and ` ToDo` (ID `9`) and the record holds no mapping. task-init succeeds and
writes the tag array `1` alone to the thread, the ID of the tag named `ToDo`;
the mapping persisted with the task holds the ID `9` under `ToDo`, because
`normalizeProject` trims the tag names when the record is written and the
two names fall together. -/
theorem tag_names_fall_together :
    (handleTaskCommand TaskCommand.taskInit exEnvTwoToDo exFilesNoTags
      (exCall "M" ["RM"])).response =
      "task initialized ✅ (status panel pinned, tag set to ToDo)" ∧
    lastTagWrite
      (handleTaskCommand TaskCommand.taskInit exEnvTwoToDo exFilesNoTags
        (exCall "M" ["RM"])).log "T" = some ["1"] ∧
    (persistedTask
      (handleTaskCommand TaskCommand.taskInit exEnvTwoToDo exFilesNoTags
        (exCall "M" ["RM"])).files "alpha" "T").map (fun t => statusToTagName t.Status) =
      some "ToDo" ∧
    (mapGet
      (handleTaskCommand TaskCommand.taskInit exEnvTwoToDo exFilesNoTags
        (exCall "M" ["RM"])).files "alpha.json").map (fun q => forumTagMap q "F") =
      some [("ToDo", "9")] := by
  decide

/-- C18 (thread tag), amended. After every successful task command, with the
project resolved: the record holds a task for the thread with one of the four
statuses; the tag array written last to the thread during the invocation is
the one-element list holding the trimmed tag ID that the tag mapping the
command resolved for the forum of the thread (the mapping of the loaded
record, or the tags fetched from the platform when the record holds none)
assigns to the canonical tag name of that status; the mapping persisted with
the task holds an ID that is not empty under that name, and it is the ID
written whenever the record held a mapping for the forum or the platform
reports the tag names of the forum without surrounding white space. -/
theorem last_tag_matches_status (c : TaskCommand) (env : Env) (files : Files)
    (i : InteractionCreate) (ctx : taskContext) (p : Project)
    (hres : Resolved env files i ctx p)
    (hok : Succeeded c (handleTaskCommand c env files i)) :
    ∃ t q p1 v id,
      persistedTask (handleTaskCommand c env files i).files p.Slug ctx.ThreadID = some t ∧
      mapGet (handleTaskCommand c env files i).files (projectPathBySlug p.Slug) = some q ∧
      t.Status ∈ allStatuses ∧ TagsResolved env ctx p p1 ∧
      ((forumTagMap p ctx.ForumID ≠ [] ∧
          forumTagMap p1 ctx.ForumID = forumTagMap p ctx.ForumID) ∨
        (forumTagMap p ctx.ForumID = [] ∧
          ∃ ch, getChannelSafe env ctx.ForumID = Except.ok (some ch) ∧
            forumTagMap p1 ctx.ForumID = collectTagIDs ch.AvailableTags)) ∧
      mapGet (forumTagMap p1 ctx.ForumID) (statusToTagName t.Status) = some v ∧
      lastTagWrite (handleTaskCommand c env files i).log ctx.ThreadID = some [trimSpace v] ∧
      mapGet (forumTagMap q ctx.ForumID) (statusToTagName t.Status) = some id ∧ id ≠ "" ∧
      ((forumTagMap p ctx.ForumID ≠ [] ∨
          ∀ ch, getChannelSafe env ctx.ForumID = Except.ok (some ch) →
            ∀ tag ∈ ch.AvailableTags, trimSpace tag.Name = tag.Name) →
        id = trimSpace v) := by
  obtain ⟨t, q, p1, v, id, h1, h2, h3, h4, h5, _, h7, h8, h9, h10⟩ :=
    success_tag_used c env files i ctx p hres hok
  have hF := (mustTaskContext_good env i ctx hres.2.1).2
  exact ⟨t, q, p1, v, id, h1, h2, h3, h4, tagsResolved_source env ctx p p1 hF h4, h5, h7, h8,
    h9, h10⟩

/-- Witness of C18 as amended: leader `L` approves the waiting task of thread
`T`; the record holds the task as Done, the mapping of forum `F` holds the ID
`4` for the tag `Done` in the loaded record and in the persisted one, and
the tag array written last is `4` alone. -/
theorem last_tag_matches_status_witness :
    Resolved exEnv (exFiles [("T", exTask TaskWaitingForApprove "M" "fixed X" "")])
      (exCall "L" ["RM", "RL"]) exCtx
      (exProject [("T", exTask TaskWaitingForApprove "M" "fixed X" "")]) ∧
    Succeeded TaskCommand.taskApprove
      (handleTaskCommand TaskCommand.taskApprove exEnv
        (exFiles [("T", exTask TaskWaitingForApprove "M" "fixed X" "")])
        (exCall "L" ["RM", "RL"])) ∧
    lastTagWrite
      (handleTaskCommand TaskCommand.taskApprove exEnv
        (exFiles [("T", exTask TaskWaitingForApprove "M" "fixed X" "")])
        (exCall "L" ["RM", "RL"])).log "T" = some ["4"] ∧
    ∃ t q id,
      persistedTask
        (handleTaskCommand TaskCommand.taskApprove exEnv
          (exFiles [("T", exTask TaskWaitingForApprove "M" "fixed X" "")])
          (exCall "L" ["RM", "RL"])).files
        (exProject [("T", exTask TaskWaitingForApprove "M" "fixed X" "")]).Slug
        exCtx.ThreadID = some t ∧
      mapGet
        (handleTaskCommand TaskCommand.taskApprove exEnv
          (exFiles [("T", exTask TaskWaitingForApprove "M" "fixed X" "")])
          (exCall "L" ["RM", "RL"])).files
        (projectPathBySlug
          (exProject [("T", exTask TaskWaitingForApprove "M" "fixed X" "")]).Slug) = some q ∧
      t.Status ∈ allStatuses ∧
      mapGet (forumTagMap q exCtx.ForumID) (statusToTagName t.Status) = some id ∧
      lastTagWrite
        (handleTaskCommand TaskCommand.taskApprove exEnv
          (exFiles [("T", exTask TaskWaitingForApprove "M" "fixed X" "")])
          (exCall "L" ["RM", "RL"])).log exCtx.ThreadID = some [id] := by
  have hres : Resolved exEnv (exFiles [("T", exTask TaskWaitingForApprove "M" "fixed X" "")])
      (exCall "L" ["RM", "RL"]) exCtx
      (exProject [("T", exTask TaskWaitingForApprove "M" "fixed X" "")]) :=
    ⟨rfl, rfl, [("alpha", exProject [("T", exTask TaskWaitingForApprove "M" "fixed X" "")])],
      "alpha", rfl, rfl⟩
  refine ⟨hres, by decide, by decide, ?_⟩
  obtain ⟨t, q, p1, v, id, h1, h2, h3, _, _, _, h7, h8, _, h10⟩ :=
    last_tag_matches_status TaskCommand.taskApprove exEnv
      (exFiles [("T", exTask TaskWaitingForApprove "M" "fixed X" "")])
      (exCall "L" ["RM", "RL"]) exCtx
      (exProject [("T", exTask TaskWaitingForApprove "M" "fixed X" "")]) hres (by decide)
  have hid : id = trimSpace v := h10 (Or.inl (by decide))
  rw [← hid] at h7
  exact ⟨t, q, id, h1, h2, h3, h8, h7⟩

/-! ## The panel message ID across invocations -/

theorem path_inj (a b : String) (h : projectPathBySlug a = projectPathBySlug b) : a = b := by
  unfold projectPathBySlug at h
  have h1 := congrArg String.data h
  simp only [String.data_append] at h1
  exact String.ext (List.append_cancel_right h1)

/-- What a successful invocation writes, in terms of the project it
resolved: the record file of the slug holds the normalized record, whose
tasks are the new task under the thread of the invocation and the loaded
tasks under every other thread; the other entries of the files are entries
from before under other names. -/
theorem success_write (c : TaskCommand) (env : Env) (files : Files) (i : InteractionCreate)
    (hok : Succeeded c (handleTaskCommand c env files i)) :
    ∃ ctx p p1 newtask q,
      Resolved env files i ctx p ∧ TagsResolved env ctx p p1 ∧
      CommandTask c env i ctx p p1 newtask ∧
      normalizeProject q = q ∧ q.Slug = p.Slug ∧
      mapGet (handleTaskCommand c env files i).files (projectPathBySlug p.Slug) = some q ∧
      (∀ tid, mapGet q.Tasks tid =
        if tid = ctx.ThreadID then some (normalizeTask ctx.ThreadID newtask)
        else mapGet p.Tasks tid) ∧
      (∀ e ∈ (handleTaskCommand c env files i).files,
        e = (projectPathBySlug p.Slug, q) ∨ (e ∈ files ∧ e.1 ≠ projectPathBySlug p.Slug)) ∧
      ∀ name, name ≠ projectPathBySlug p.Slug → name ≠ projectPathBySlug p.Slug ++ ".tmp" →
        mapGet (handleTaskCommand c env files i).files name = mapGet files name := by
  obtain ⟨ctx, p, p1, newtask, log0, log1, log2, log3, hres, hens, hct, _, _, hupd, _⟩ :=
    succeeded_inv c env files i hok
  have hl := resolved_loaded env files i ctx p hres
  have hframe := ensureForumTagMapping_frame env p p1 _ hens
  have hgood := mustTaskContext_good env i ctx hres.2.1
  have hcs := commit_slug p p1 ctx.ThreadID newtask hl hframe
  have hget := updateFile_get env files _ _ hupd
  rw [hcs] at hget
  have hpers := persisted_tasks env files _ p p1 ctx.ThreadID newtask hl hframe hgood.1 hupd
  refine ⟨ctx, p, p1, newtask, _, hres, hens, hct, normalizeProject_fix _, hcs, hget, ?_, ?_, ?_⟩
  · intro tid
    have := hpers tid
    unfold persistedTask at this
    rw [hget] at this
    exact this
  · intro e he
    have := updateFile_mem env files _ _ hupd e he
    rw [hcs] at this
    exact this
  · intro name h1 h2
    apply updateFile_other env files _ _ hupd name
    · rw [hcs]; exact h1
    · rw [hcs]; exact h2

/-- One invocation, successful or not, in any thread of any project, keeps
the panel message ID that the record file of the slug holds for the thread,
in a store where that file is the only one that carries the slug. -/
theorem panel_step (slug T m : String) (hm : m ≠ "") (hmt : trimSpace m = m)
    (c : TaskCommand) (env : Env) (files : Files) (i : InteractionCreate)
    (hown : SlugOwnsFile files slug)
    (hget : ∃ r, mapGet files (projectPathBySlug slug) = some r)
    (hent : ∀ e ∈ files, e.1 = projectPathBySlug slug →
      normalizeProject e.2 = e.2 ∧ ∃ t, mapGet e.2.Tasks T = some t ∧ t.StatusMessageID = m) :
    SlugOwnsFile (handleTaskCommand c env files i).files slug ∧
    (∃ r, mapGet (handleTaskCommand c env files i).files (projectPathBySlug slug) = some r) ∧
    ∀ e ∈ (handleTaskCommand c env files i).files, e.1 = projectPathBySlug slug →
      normalizeProject e.2 = e.2 ∧ ∃ t, mapGet e.2.Tasks T = some t ∧ t.StatusMessageID = m := by
  by_cases hok : Succeeded c (handleTaskCommand c env files i)
  · obtain ⟨ctx, p, p1, newtask, q, hres, hens, hct, hqn, hqs, hq, htasks, hmem, hother⟩ :=
      success_write c env files i hok
    have hl := resolved_loaded env files i ctx p hres
    have hframe := ensureForumTagMapping_frame env p p1 _ hens
    by_cases hs : p.Slug = slug
    · -- the invocation writes the record file of the slug
      obtain ⟨e0, he0, hjson, hp⟩ := resolved_file env files i ctx p hres
      have hname : e0.1 = projectPathBySlug slug :=
        hown e0 he0 hjson (by rw [← hp]; exact hs)
      obtain ⟨hfix0, t, ht, htm⟩ := hent e0 he0 hname
      have hpe : p = e0.2 := by rw [hp, hfix0]
      have hprior : mapGet p.Tasks T = some t := by rw [hpe]; exact ht
      refine ⟨?_, ⟨q, by rw [← hs]; exact hq⟩, ?_⟩
      · intro e he hj hsl
        rcases hmem e he with h1 | ⟨h1, _⟩
        · rw [h1, hs]
        · exact hown e h1 hj hsl
      · intro e he hn
        rcases hmem e he with h1 | ⟨_, h1⟩
        · rw [h1]
          refine ⟨hqn, ?_⟩
          show ∃ t, mapGet q.Tasks T = some t ∧ t.StatusMessageID = m
          rw [htasks T]
          by_cases hT : T = ctx.ThreadID
          · rw [if_pos hT]
            refine ⟨_, rfl, ?_⟩
            obtain ⟨_, _, _, hkeep, _⟩ := commandTask_facts c env i ctx p p1 newtask hl hframe hct
            rw [normalizeTask_panel, hkeep t (by rw [← hT]; exact hprior) (by rw [htm]; exact hm),
              htm, hmt]
          · rw [if_neg hT]
            exact ⟨t, hprior, htm⟩
        · rw [hs] at h1
          exact absurd hn h1
    · -- the invocation writes another record file
      have hne : projectPathBySlug slug ≠ projectPathBySlug p.Slug :=
        fun h => hs (path_inj _ _ h).symm
      have hne2 : projectPathBySlug slug ≠ projectPathBySlug p.Slug ++ ".tmp" := by
        unfold projectPathBySlug
        exact tmp_ne_path _ _
      refine ⟨?_, ?_, ?_⟩
      · intro e he hj hsl
        rcases hmem e he with h1 | ⟨h1, _⟩
        · exfalso
          rw [h1] at hsl
          simp only at hsl
          rw [hqn, hqs] at hsl
          exact hs hsl
        · exact hown e h1 hj hsl
      · rw [hother _ hne hne2]
        exact hget
      · intro e he hn
        rcases hmem e he with h1 | ⟨h1, _⟩
        · exfalso
          rw [h1] at hn
          exact hne hn.symm
        · exact hent e h1 hn
  · rcases failed_files c env files i hok with hf | ⟨x, r, hf⟩
    · rw [hf]
      exact ⟨hown, hget, hent⟩
    · rw [hf]
      have hne : ¬ projectPathBySlug slug = x ++ ".tmp" := by
        unfold projectPathBySlug
        exact tmp_ne_path _ _
      refine ⟨slugOwns_tmp files slug x r hown, ?_, ?_⟩
      · rw [mapGet_mapSet, if_neg hne]
        exact hget
      · intro e he hn
        rcases mem_mapSet _ _ _ e he with h1 | h1
        · exfalso
          rw [h1] at hn
          exact hne hn.symm
        · exact hent e h1 hn

/-- Any sequence of invocations keeps the panel message ID that the record
file of the slug holds for the thread. -/
theorem panel_kept (slug T m : String) (hm : m ≠ "") (hmt : trimSpace m = m)
    (calls : List Call) :
    ∀ files : Files, SlugOwnsFile files slug →
      (∃ r, mapGet files (projectPathBySlug slug) = some r) →
      (∀ e ∈ files, e.1 = projectPathBySlug slug →
        normalizeProject e.2 = e.2 ∧
          ∃ t, mapGet e.2.Tasks T = some t ∧ t.StatusMessageID = m) →
      ∃ t, persistedTask (runCalls files calls) slug T = some t ∧ t.StatusMessageID = m := by
  induction calls with
  | nil =>
    intro files _ hget hent
    obtain ⟨r, hr⟩ := hget
    obtain ⟨_, t, ht, htm⟩ := hent (projectPathBySlug slug, r) (mem_of_mapGet _ _ _ hr) rfl
    refine ⟨t, ?_, htm⟩
    show persistedTask files slug T = some t
    unfold persistedTask
    rw [hr]
    exact ht
  | cons call rest ih =>
    intro files hown hget hent
    obtain ⟨h1, h2, h3⟩ := panel_step slug T m hm hmt call.1 call.2.1 files call.2.2 hown hget
      hent
    exact ih _ h1 h2 h3

/-- Counterexample to C15 as stated: two record files carry the slug `alpha`
(`alpha.json` and a copy `beta.json`). task-init in thread `T` succeeds and
persists the panel message ID `M2` in `alpha.json`. The next task-init loads
the project from `beta.json`, which comes later in the directory and holds
no task, posts a new panel message `M9`, succeeds, and persists the panel
message ID `M9` for the thread. -/
theorem repeated_init_on_twin_files :
    (handleTaskCommand TaskCommand.taskInit exEnv exFilesTwins (exCall "M" ["RM"])).response =
      "task initialized ✅ (status panel pinned, tag set to ToDo)" ∧
    (persistedTask
      (handleTaskCommand TaskCommand.taskInit exEnv exFilesTwins (exCall "M" ["RM"])).files
      "alpha" "T").map (fun t => t.StatusMessageID) = some "M2" ∧
    (handleTaskCommand TaskCommand.taskInit exEnvLater
      (handleTaskCommand TaskCommand.taskInit exEnv exFilesTwins (exCall "M" ["RM"])).files
      (exCall "M" ["RM"])).response =
      "task initialized ✅ (status panel pinned, tag set to ToDo)" ∧
    (persistedTask
      (handleTaskCommand TaskCommand.taskInit exEnvLater
        (handleTaskCommand TaskCommand.taskInit exEnv exFilesTwins (exCall "M" ["RM"])).files
        (exCall "M" ["RM"])).files
      "alpha" "T").map (fun t => t.StatusMessageID) = some "M9" := by
  decide

/-- C15 (panel message ID), amended. In a store where the record file named
after the slug of the project is the only record file whose record carries
that slug: after a successful task-init in a thread the record holds for the
thread a task whose panel message ID is not empty, and after every sequence
of invocations that follows (task commands of any kind, task-init among
them, in any thread of any project, successful or not, each run on the files
the one before it left) the record holds for the thread a task with that
same panel message ID. -/
theorem panel_id_stable (env0 : Env) (files : Files) (i0 : InteractionCreate)
    (ctx : taskContext) (p : Project) (calls : List Call)
    (hres : Resolved env0 files i0 ctx p) (hown : SlugOwnsFile files p.Slug)
    (hinit : Succeeded TaskCommand.taskInit
      (handleTaskCommand TaskCommand.taskInit env0 files i0)) :
    ∃ t0 t1,
      persistedTask (handleTaskCommand TaskCommand.taskInit env0 files i0).files p.Slug
        ctx.ThreadID = some t0 ∧
      t0.StatusMessageID ≠ "" ∧
      persistedTask
        (runCalls (handleTaskCommand TaskCommand.taskInit env0 files i0).files calls) p.Slug
        ctx.ThreadID = some t1 ∧
      t1.StatusMessageID = t0.StatusMessageID := by
  obtain ⟨ctx2, p2, p1, newtask, q, hres2, hens, hct, hqn, hqs, hq, htasks, hmem, _⟩ :=
    success_write TaskCommand.taskInit env0 files i0 hinit
  obtain ⟨e1, e2⟩ := resolved_unique env0 files i0 ctx ctx2 p p2 hres hres2
  subst e1
  subst e2
  have hl := resolved_loaded env0 files i0 ctx2 p2 hres
  have hframe := ensureForumTagMapping_frame env0 p2 p1 _ hens
  obtain ⟨_, _, _, _, hne⟩ :=
    commandTask_facts TaskCommand.taskInit env0 i0 ctx2 p2 p1 newtask hl hframe hct
  have ht0 : mapGet q.Tasks ctx2.ThreadID = some (normalizeTask ctx2.ThreadID newtask) := by
    rw [htasks ctx2.ThreadID, if_pos rfl]
  have hp0 : persistedTask (handleTaskCommand TaskCommand.taskInit env0 files i0).files
      p2.Slug ctx2.ThreadID = some (normalizeTask ctx2.ThreadID newtask) := by
    unfold persistedTask
    rw [hq]
    exact ht0
  obtain ⟨t1, h1, h2⟩ := panel_kept p2.Slug ctx2.ThreadID (trimSpace newtask.StatusMessageID)
    (hne rfl) (trimSpace_idem _) calls _
    (by
      intro e he hj hsl
      rcases hmem e he with h3 | ⟨h3, _⟩
      · rw [h3]
      · exact hown e h3 hj hsl)
    ⟨q, hq⟩
    (by
      intro e he hn
      rcases hmem e he with h3 | ⟨_, h3⟩
      · rw [h3]
        exact ⟨hqn, _, ht0, rfl⟩
      · exact absurd hn h3)
  exact ⟨_, t1, hp0, hne rfl, h1, h2⟩

/-- Witness of C15 as amended: in the store of the scenarios member `M`
initialises thread `T` (the platform gives the panel message the ID `M2`)
and takes the task; the submission of `M` fails at the rename of the
temporary file and is repeated with success; leader `L` runs task-init
again, for which the platform would give a new panel message the ID `M9`.
The record holds the panel message ID `M2` after the first task-init and at
the end. -/
theorem panel_id_stable_witness :
    Resolved exEnv (exFiles []) (exCall "M" ["RM"]) exCtx (exProject []) ∧
    SlugOwnsFile (exFiles []) (exProject []).Slug ∧
    Succeeded TaskCommand.taskInit
      (handleTaskCommand TaskCommand.taskInit exEnv (exFiles []) (exCall "M" ["RM"])) ∧
    persistedTask
      (handleTaskCommand TaskCommand.taskInit exEnv (exFiles []) (exCall "M" ["RM"])).files
      "alpha" "T" =
      some { exTask TaskToDo "" "" "" with StatusMessageID := "M2" } ∧
    persistedTask
      (runCalls
        (handleTaskCommand TaskCommand.taskInit exEnv (exFiles []) (exCall "M" ["RM"])).files
        [(TaskCommand.taskTake, exEnv, exCall "M" ["RM"]),
          (TaskCommand.taskDone "fixed X", exEnvRenameFails, exCall "M" ["RM"]),
          (TaskCommand.taskDone "fixed X", exEnv, exCall "M" ["RM"]),
          (TaskCommand.taskInit, exEnvLater, exCall "L" ["RL"])])
      "alpha" "T" =
      some { exTask TaskToDo "" "" "" with StatusMessageID := "M2" } ∧
    ∃ t0 t1,
      persistedTask
        (handleTaskCommand TaskCommand.taskInit exEnv (exFiles []) (exCall "M" ["RM"])).files
        (exProject []).Slug exCtx.ThreadID = some t0 ∧
      t0.StatusMessageID ≠ "" ∧
      persistedTask
        (runCalls
          (handleTaskCommand TaskCommand.taskInit exEnv (exFiles []) (exCall "M" ["RM"])).files
          [(TaskCommand.taskTake, exEnv, exCall "M" ["RM"]),
            (TaskCommand.taskDone "fixed X", exEnvRenameFails, exCall "M" ["RM"]),
            (TaskCommand.taskDone "fixed X", exEnv, exCall "M" ["RM"]),
            (TaskCommand.taskInit, exEnvLater, exCall "L" ["RL"])])
        (exProject []).Slug exCtx.ThreadID = some t1 ∧
      t1.StatusMessageID = t0.StatusMessageID :=
  ⟨⟨rfl, rfl, [("alpha", exProject [])], "alpha", rfl, rfl⟩,
    (fun e he _ _ => by
      rw [List.mem_singleton.mp he]
      rfl),
    by decide, by decide, by decide,
    panel_id_stable exEnv (exFiles []) (exCall "M" ["RM"]) exCtx (exProject [])
      [(TaskCommand.taskTake, exEnv, exCall "M" ["RM"]),
        (TaskCommand.taskDone "fixed X", exEnvRenameFails, exCall "M" ["RM"]),
        (TaskCommand.taskDone "fixed X", exEnv, exCall "M" ["RM"]),
        (TaskCommand.taskInit, exEnvLater, exCall "L" ["RL"])]
      ⟨rfl, rfl, [("alpha", exProject [])], "alpha", rfl, rfl⟩
      (fun e he _ _ => by
        rw [List.mem_singleton.mp he]
        rfl)
      (by decide)⟩

end Kanban
